import Mathlib

/-!
# Route planner and column partition of the shipping simulation

A shallow embedding of `route_map.c` (the greedy route planner, the
next-cell lookup, the halo swap and the planning of all routes) and of
`main.c` (the column partition, the start of `main` and the simulation:
`initialiseDomain`, `updateProperties`, `updateMovement` and the reports),
followed by theorems about them.

C `int` values are modelled by `Int`; the embedding assumes that no
intermediate value leaves the range of a machine `int`.  A route map is the
block returned by `malloc`, modelled as a function from the cell index to
the stored value, whose initial contents are arbitrary.
-/

namespace PDP

/-! ## Module-level state of `route_map.c` -/

/-- Score given to a forbidden movement (`#define LOW_SCORE -10`). -/
def LOW_SCORE : Int := -10

/-- The module-level variables of `route_map.c` that the planner reads:
`size_x`, `size_y`, `local_nx`, `basex` and the blocked cells
(`blocked_cells_x[i]`, `blocked_cells_y[i]`). -/
structure RouteCtx where
  size_x : Int
  size_y : Int
  local_nx : Int
  basex : Int
  blocked_cells : List (Int × Int)

/-- The value `mem_size_y = size_y + 2` set at the start of `generate_route`. -/
def mem_size_y (g : RouteCtx) : Int := g.size_y + 2

/-- The value `mem_size_x = local_nx + 2` set at the start of `generate_route`. -/
def mem_size_x (g : RouteCtx) : Int := g.local_nx + 2

/-- The C library `abs` on `int`. -/
def abs_int (z : Int) : Int := if z < 0 then -z else z

/-- Scan of the blocked cells: true at the first entry equal to `(x, y)`. -/
def is_cell_blocked (g : RouteCtx) (x y : Int) : Bool :=
  g.blocked_cells.any (fun b => decide (b.1 = x ∧ b.2 = y))

/-- Score of moving by `(offset_x, offset_y)` from the current cell. -/
def generate_score (g : RouteCtx) (cell_source_x cell_source_y cell_target_x cell_target_y
    offset_x offset_y : Int) : Int :=
  if cell_source_x + offset_x < 0 then LOW_SCORE
  else if cell_source_y + offset_y < 0 then LOW_SCORE
  else if cell_source_x + offset_x ≥ g.size_x then LOW_SCORE
  else if cell_source_y + offset_y ≥ g.size_y then LOW_SCORE
  else if is_cell_blocked g (cell_source_x + offset_x) (cell_source_y + offset_y) then LOW_SCORE
  else
    (abs_int (cell_target_x - cell_source_x) - abs_int (cell_target_x - (cell_source_x + offset_x)))
      + (abs_int (cell_target_y - cell_source_y)
          - abs_int (cell_target_y - (cell_source_y + offset_y)))

/-- The nine offsets `(i - 1, j - 1)` in the order of the loops
`for i in 0..2`, `for j in 0..2`. -/
def scanOrder : List (Int × Int) :=
  [(-1, -1), (-1, 0), (-1, 1), (0, -1), (0, 0), (0, 1), (1, -1), (1, 0), (1, 1)]

/-- The entry `grid_scores[o.1 + 1][o.2 + 1]`: the centre is `LOW_SCORE`, the
other eight entries come from `generate_score`. -/
def grid_scores (g : RouteCtx) (current_x current_y cell_target_x cell_target_y : Int)
    (o : Int × Int) : Int :=
  if o = (0, 0) then LOW_SCORE
  else generate_score g current_x current_y cell_target_x cell_target_y o.1 o.2

/-- The variables `current_best`, `best_x`, `best_y` of the selection loop. -/
structure Best where
  current_best : Int
  best_x : Int
  best_y : Int
deriving DecidableEq, Repr

/-- One pass of the inner selection loop body. -/
def bestUpdate (score : Int × Int → Int) (b : Best) (o : Int × Int) : Best :=
  if score o > b.current_best then ⟨score o, o.1, o.2⟩ else b

/-- The selection loops over the nine entries, starting from
`current_best = LOW_SCORE, best_x = 0, best_y = 0`. -/
def selectBest (score : Int × Int → Int) : Best :=
  scanOrder.foldl (bestUpdate score) ⟨LOW_SCORE, 0, 0⟩

/-- Store `v` at index `idx` of a route map. -/
def writeCell (route : Int → Int) (idx v : Int) : Int → Int :=
  fun k => if k = idx then v else route k

/-- The state carried by the walker loop of `generate_route`. -/
structure WalkState where
  current_x : Int
  current_y : Int
  found_route : Bool
  routeCounter : Int
  number_steps : Nat
  route : Int → Int

/-- The body of the walker loop after the break test: advance to the chosen
cell, test for arrival, store `routeCounter` in the cell when its column is
owned, and increment the two counters. -/
def advance (g : RouteCtx) (cell_target_x cell_target_y : Int) (s : WalkState) (b : Best) :
    WalkState :=
  let current_x := s.current_x + b.best_x
  let current_y := s.current_y + b.best_y
  { current_x := current_x
    current_y := current_y
    found_route := if current_x = cell_target_x ∧ current_y = cell_target_y then true
                   else s.found_route
    routeCounter := s.routeCounter + 1
    number_steps := s.number_steps + 1
    route := if current_x - g.basex < g.local_nx ∧ current_x - g.basex ≥ 0 then
               writeCell s.route ((current_x - g.basex + 1) * mem_size_y g + current_y + 1)
                 s.routeCounter
             else s.route }

/-- The walker loop `for (number_steps = 0; number_steps < size_x * size_y &&
!found_route; number_steps++)`; the first argument is the number of
iterations the loop bound still allows. -/
def walkLoop (g : RouteCtx) (cell_target_x cell_target_y : Int) : Nat → WalkState → WalkState
  | 0, s => s
  | n + 1, s =>
    if s.found_route then s
    else
      let b := selectBest (grid_scores g s.current_x s.current_y cell_target_x cell_target_y)
      if b.current_best = LOW_SCORE then s
      else walkLoop g cell_target_x cell_target_y n (advance g cell_target_x cell_target_y s b)

/-- The outcome of the selection loops at the walker's current cell. -/
def chosen (g : RouteCtx) (tx ty : Int) (s : WalkState) : Best :=
  selectBest (grid_scores g s.current_x s.current_y tx ty)

/-- Number of times the walker loop enters its body (the iteration that
breaks included). -/
def walkIterations (g : RouteCtx) (cell_target_x cell_target_y : Int) : Nat → WalkState → Nat
  | 0, _ => 0
  | n + 1, s =>
    if s.found_route then 0
    else
      let b := selectBest (grid_scores g s.current_x s.current_y cell_target_x cell_target_y)
      if b.current_best = LOW_SCORE then 1
      else 1 + walkIterations g cell_target_x cell_target_y n
                 (advance g cell_target_x cell_target_y s b)

/-- The integers `1, 2, ..., n` in increasing order (empty when `n ≤ 0`). -/
def upTo (n : Int) : List Int := (List.range n.toNat).map (fun (k : Nat) => (k : Int) + 1)

/-- The owned slab indices `(i, j)`, `1 ≤ i ≤ local_nx`, `1 ≤ j ≤ size_y`, in the
order of the two initialisation loops. -/
def ownedCells (g : RouteCtx) : List (Int × Int) :=
  (upTo g.local_nx).flatMap (fun i => (upTo g.size_y).map (fun j => (i, j)))

/-- The initialisation loops of `generate_route`: blocked owned cells get `-1`,
the other owned cells get `0`. -/
def initRoute (g : RouteCtx) (mem : Int → Int) : Int → Int :=
  (ownedCells g).foldl
    (fun route c =>
      writeCell route (c.1 * mem_size_y g + c.2)
        (if is_cell_blocked g (g.basex + c.1 - 1) (c.2 - 1) then -1 else 0))
    mem

/-- The write of `0` at the starting port when its column is owned. -/
def markSource (g : RouteCtx) (cell_source_x cell_source_y : Int) (route : Int → Int) :
    Int → Int :=
  if cell_source_x - g.basex < g.local_nx ∧ cell_source_x - g.basex ≥ 0 then
    writeCell route ((cell_source_x - g.basex + 1) * mem_size_y g + cell_source_y + 1) 0
  else route

/-- The walker state on entry to the loop. -/
def walkStart (g : RouteCtx) (mem : Int → Int) (cell_source_x cell_source_y : Int) : WalkState :=
  { current_x := cell_source_x
    current_y := cell_source_y
    found_route := false
    routeCounter := 1
    number_steps := 0
    route := markSource g cell_source_x cell_source_y (initRoute g mem) }

/-- The walker state after at most `k` iterations of the loop. -/
def walkAt (g : RouteCtx) (mem : Int → Int)
    (cell_source_x cell_source_y cell_target_x cell_target_y : Int) (k : Nat) : WalkState :=
  walkLoop g cell_target_x cell_target_y k (walkStart g mem cell_source_x cell_source_y)

/-- The cell the walker stands on after at most `k` iterations: `p_0` is the
source, `p_k` the cell reached by the `k`-th step. -/
def walkerPos (g : RouteCtx) (mem : Int → Int)
    (cell_source_x cell_source_y cell_target_x cell_target_y : Int) (k : Nat) : Int × Int :=
  ((walkAt g mem cell_source_x cell_source_y cell_target_x cell_target_y k).current_x,
   (walkAt g mem cell_source_x cell_source_y cell_target_x cell_target_y k).current_y)

/-- The test `x - basex < local_nx && x - basex >= 0`: global column `x` is owned. -/
def ownsColumn (g : RouteCtx) (x : Int) : Prop := x - g.basex < g.local_nx ∧ x - g.basex ≥ 0

/-- The index `(x - basex + 1) * mem_size_y + y + 1` of global cell `(x, y)` in the
local slab. -/
def cellIndex (g : RouteCtx) (x y : Int) : Int := (x - g.basex + 1) * mem_size_y g + y + 1

/-- The cell the loop body moves to from `p`. -/
def nextPos (g : RouteCtx) (tx ty : Int) (p : Int × Int) : Int × Int :=
  (p.1 + (selectBest (grid_scores g p.1 p.2 tx ty)).best_x,
   p.2 + (selectBest (grid_scores g p.1 p.2 tx ty)).best_y)

/-- Global cell `(x, y)` lies inside the grid. -/
def inGrid (g : RouteCtx) (x y : Int) : Prop := 0 ≤ x ∧ x < g.size_x ∧ 0 ≤ y ∧ y < g.size_y

/-- The worker owns the whole grid (`W = 1`): `basex = 0` and `local_nx = size_x`. -/
def SingleWorker (g : RouteCtx) : Prop := g.basex = 0 ∧ g.local_nx = g.size_x

instance (g : RouteCtx) (x : Int) : Decidable (ownsColumn g x) :=
  inferInstanceAs (Decidable (_ ∧ _))

instance (g : RouteCtx) (x y : Int) : Decidable (inGrid g x y) :=
  inferInstanceAs (Decidable (_ ∧ _))

instance (g : RouteCtx) : Decidable (SingleWorker g) :=
  inferInstanceAs (Decidable (_ ∧ _))

/-- The walker state when the loop of `generate_route` exits. -/
def walkFinal (g : RouteCtx) (mem : Int → Int)
    (cell_source_x cell_source_y cell_target_x cell_target_y : Int) : WalkState :=
  walkAt g mem cell_source_x cell_source_y cell_target_x cell_target_y (g.size_x * g.size_y).toNat

/-- The number of steps the walker has taken when the loop exits. -/
def routeLength (g : RouteCtx) (mem : Int → Int)
    (cell_source_x cell_source_y cell_target_x cell_target_y : Int) : Nat :=
  (walkFinal g mem cell_source_x cell_source_y cell_target_x cell_target_y).number_steps

/-- What `generate_route` leaves behind: the returned value, the route map
stored in `routes[current_route_index]` and the new `current_route_index`. -/
structure RouteOutcome where
  ret : Int
  route : Int → Int
  current_route_index : Int

/-- The function `generate_route`: `mem` is the content of the freshly allocated
block and `current_route_index` the value of that variable on entry. -/
def generate_route (g : RouteCtx) (mem : Int → Int) (current_route_index : Int)
    (cell_source_x cell_source_y cell_target_x cell_target_y : Int) : RouteOutcome :=
  let s := walkFinal g mem cell_source_x cell_source_y cell_target_x cell_target_y
  if s.found_route then
    { ret := current_route_index, route := s.route,
      current_route_index := current_route_index + 1 }
  else
    { ret := -1, route := s.route, current_route_index := current_route_index }

/-- The function `getNextCell` on the route map `route`: the offset written to
`*nextX`, `*nextY`, or `none` when the scan ends without writing. -/
def getNextCell (g : RouteCtx) (route : Int → Int) (currentX currentY : Int) :
    Option (Int × Int) :=
  let currentRouteCounter := route ((currentX - g.basex + 1) * mem_size_y g + currentY + 1)
  scanOrder.find? (fun o =>
    decide (currentX + o.1 ≥ 0 ∧ currentX + o.1 < g.size_x ∧ currentY + o.2 ≥ 0 ∧
      currentY + o.2 < g.size_y ∧
      route ((currentX - g.basex + 1 + o.1) * mem_size_y g + currentY + 1 + o.2)
        = currentRouteCounter + 1))

/-- Repeated use of `getNextCell`: the cell reached from `p` after `n` lookups, each
followed by a move by the offset found; `none` when a lookup writes nothing. -/
def followRoute (g : RouteCtx) (route : Int → Int) : Nat → Int × Int → Option (Int × Int)
  | 0, p => some p
  | n + 1, p =>
    match getNextCell g route p.1 p.2 with
    | none => none
    | some o => followRoute g route n (p.1 + o.1, p.2 + o.2)

/-- One step over the sea: a move to one of the 8 neighbours that lies inside the grid
and is not blocked. -/
def seaStep (g : RouteCtx) (p q : Int × Int) : Prop :=
  (q.1 - p.1, q.2 - p.2) ∈ scanOrder ∧ q ≠ p ∧ inGrid g q.1 q.2 ∧
    is_cell_blocked g q.1 q.2 = false

/-- The target can be reached from the source by a sequence of steps over the sea. -/
def Reachable (g : RouteCtx) (p q : Int × Int) : Prop := Relation.ReflTransGen (seaStep g) p q

/-- The walker variables other than the route map agree in two states. -/
def sameWalker (s t : WalkState) : Prop :=
  s.current_x = t.current_x ∧ s.current_y = t.current_y ∧ s.found_route = t.found_route ∧
    s.routeCounter = t.routeCounter ∧ s.number_steps = t.number_steps

/-- Two planner contexts describe the same global grid and islands. -/
def sameGrid (g h : RouteCtx) : Prop :=
  g.size_x = h.size_x ∧ g.size_y = h.size_y ∧ g.blocked_cells = h.blocked_cells

/-- The sign of an integer: `1`, `-1` or `0`. -/
def sgn (d : Int) : Int := if d > 0 then 1 else if d < 0 then -1 else 0

/-- The Chebyshev distance `max(|tx - sx|, |ty - sy|)` between two cells. -/
def chebyshev (sx sy tx ty : Int) : Int := max (abs_int (tx - sx)) (abs_int (ty - sy))

/-! ## The column partition of `main.c` -/

/-- The pair `(local_nx, basex)` computed in `main` from `nx`, `size` and
`myrank`; `/` on C `int` truncates toward zero. -/
def partition (nx size myrank : Int) : Int × Int :=
  let local_nx := Int.tdiv nx size
  if local_nx * size < nx then
    let specialranks := nx - local_nx * size
    if myrank < specialranks then
      (local_nx + 1, myrank * (local_nx + 1))
    else
      (local_nx, specialranks * (local_nx + 1) + (myrank - specialranks) * local_nx)
  else
    (local_nx, myrank * local_nx)

/-- The number of columns owned by rank `r`. -/
def local_nx (nx size r : Int) : Int := (partition nx size r).1

/-- The first global column owned by rank `r`. -/
def basex (nx size r : Int) : Int := (partition nx size r).2

/-! ## Test configurations -/

/-- The 16 by 16 grid of the test driver, islands at (2,12) and (5,15), seen by a
worker that owns `local_nx` columns from `basex`. -/
def grid16On (local_nx basex : Int) : RouteCtx :=
  { size_x := 16, size_y := 16, local_nx := local_nx, basex := basex,
    blocked_cells := [(2, 12), (5, 15)] }

/-- The 16 by 16 grid of the test driver on a single worker. -/
def grid16 : RouteCtx := grid16On 16 0

/-- The 8 by 8 grid with the diagonal barrier (i, 7 - i), i = 0..7, seen by a worker
that owns `local_nx` columns from `basex`. -/
def grid8On (local_nx basex : Int) : RouteCtx :=
  { size_x := 8, size_y := 8, local_nx := local_nx, basex := basex,
    blocked_cells := [(0, 7), (1, 6), (2, 5), (3, 4), (4, 3), (5, 2), (6, 1), (7, 0)] }

/-- The 8 by 8 grid with the diagonal barrier on a single worker. -/
def grid8 : RouteCtx := grid8On 8 0

/-- The 4 by 4 grid without islands. -/
def grid4 : RouteCtx :=
  { size_x := 4, size_y := 4, local_nx := 4, basex := 0, blocked_cells := [] }

/-- The 16 by 16 grid without islands. -/
def open16 : RouteCtx :=
  { size_x := 16, size_y := 16, local_nx := 16, basex := 0, blocked_cells := [] }

/-- A 2 by 1 grid whose cell (0,0) is an island. -/
def grid2x1 : RouteCtx :=
  { size_x := 2, size_y := 1, local_nx := 2, basex := 0, blocked_cells := [(0, 0)] }

/-- The 2 by 2 grid without islands. -/
def grid2 : RouteCtx :=
  { size_x := 2, size_y := 2, local_nx := 2, basex := 0, blocked_cells := [] }

/-- The 4 by 4 grid without islands seen by rank 0 of two workers, which owns the
columns 0 and 1. -/
def leftHalf : RouteCtx :=
  { size_x := 4, size_y := 4, local_nx := 2, basex := 0, blocked_cells := [] }

/-- A route map of `leftHalf` that holds `1` in the halo cell of global cell (2,0) and
`0` elsewhere. -/
def haloRoute : Int → Int := fun k => if k = 3 * 6 + 1 then 1 else 0

/-- A route map block filled with zeros. -/
def zeroMem : Int → Int := fun _ => 0

/-- A route map block filled with an arbitrary non-zero value. -/
def junkMem : Int → Int := fun _ => 99


/-- The planner context of rank `r` of `W` workers on a grid `SX` columns wide: the
columns come from the partition computed in `main`. -/
def workerCtx (SX W r : Nat) (SY : Int) (blocked : List (Int × Int)) : RouteCtx :=
  { size_x := SX, size_y := SY, local_nx := local_nx SX W r, basex := basex SX W r,
    blocked_cells := blocked }

/-- The planner context of a single worker that owns the whole grid. -/
def singleCtx (SX : Nat) (SY : Int) (blocked : List (Int × Int)) : RouteCtx :=
  { size_x := SX, size_y := SY, local_nx := SX, basex := 0, blocked_cells := blocked }

/-! ## The halo swap of `route_map.c`

The point-to-point messages of `perform_halo_swap` are modelled in lockstep: every
worker posts its sends from the content its map has on entry, and every receive
stores the message its neighbour sent. -/

/-- The `count` ints starting at `data[start]`: the content of a send buffer. -/
def readBuf (data : Int → Int) (start count : Int) : List Int :=
  (List.range count.toNat).map (fun (t : Nat) => data (start + (t : Int)))

/-- The receive of a message of at most `count` ints into `data[start]` and the
following entries. -/
def writeBuf (data : Int → Int) (start count : Int) (msg : List Int) : Int → Int :=
  fun k =>
    if start ≤ k ∧ k < start + count ∧ (k - start).toNat < msg.length then
      msg.getD (k - start).toNat 0
    else data k

/-- The message `MPI_Isend(&data[1 + mem_size_y], ny, ...)` to rank `myrank - 1`, sent
when `myrank > 0`. -/
def haloToLeft (myrank ny mem_size_y : Int) (data : Int → Int) : Option (List Int) :=
  if myrank > 0 then some (readBuf data (1 + mem_size_y) ny) else none

/-- The message `MPI_Isend(&data[(local_nx * mem_size_y) + 1], ny, ...)` to rank
`myrank + 1`, sent when `myrank < size - 1`. -/
def haloToRight (myrank size local_nx ny mem_size_y : Int) (data : Int → Int) :
    Option (List Int) :=
  if myrank < size - 1 then some (readBuf data (local_nx * mem_size_y + 1) ny) else none

/-- The effect of `perform_halo_swap` on the map of one worker: `fromLeft` is the
message received from rank `myrank - 1` into `data[1]`, `fromRight` the message
received from rank `myrank + 1` into `data[(local_nx + 1) * mem_size_y + 1]`. -/
def perform_halo_swap (myrank size local_nx ny mem_size_y : Int) (data : Int → Int)
    (fromLeft fromRight : List Int) : Int → Int :=
  let afterLeft := if myrank > 0 then writeBuf data 1 ny fromLeft else data
  if myrank < size - 1 then
    writeBuf afterLeft ((local_nx + 1) * mem_size_y + 1) ny fromRight
  else afterLeft

/-- The maps of all workers after they have all executed `perform_halo_swap`: worker
`r` receives what rank `r - 1` sent to its right and what rank `r + 1` sent to its
left. -/
def haloExchange (size ny mem_size_y : Int) (local_nx : Int → Int) (data : Int → Int → Int) :
    Int → Int → Int :=
  fun r =>
    perform_halo_swap r size (local_nx r) ny mem_size_y (data r)
      ((haloToRight (r - 1) size (local_nx (r - 1)) ny mem_size_y (data (r - 1))).getD [])
      ((haloToLeft (r + 1) ny mem_size_y (data (r + 1))).getD [])

/-- Two maps for the witnesses: the entry at index `k` is `k` on rank 0 and `100 + k`
on the other ranks. -/
def rankMaps : Int → Int → Int := fun r k => if r = 0 then k else 100 + k

/-! ## The simulation of `main.c`

Arrays are modelled as functions from the index to the entry; the block returned by
`malloc` for `sub_domain` has arbitrary initial content.  The successive results of
`rand()` are a stream `rand`, and the number of calls made so far is threaded
through the functions that draw from it.  The resampling loop of `getTargetPort` is
bounded by `fuel`; a run that exhausts it yields `none`. -/

/-- The number of roster slots of a cell (`#define MAX_SHIPS_PER_CELL 200`). -/
def MAX_SHIPS_PER_CELL : Nat := 200

/-- Data associated with each ship. -/
structure ship_struct where
  route : Int
  hoursAtSea : Int
  id : Int
  cargoAmount : Int
  willMoveThisTimestep : Bool
deriving DecidableEq, Repr

/-- Data associated with each port. -/
structure port_struct where
  shipsInPastHundredHours : Nat → Int
  port_index : Int
  cargoShipped : Int
  cargoArrived : Int

/-- Each cell in the domain; `ships_data z` is `none` for a `NULL` slot. -/
structure cell_struct where
  x : Int
  y : Int
  isWater : Bool
  isPort : Bool
  isIsland : Bool
  port_data : port_struct
  ships_data : Nat → Option ship_struct
  number_ships : Int

/-- Configuration of a port. -/
structure port_configuration_struct where
  x : Int
  y : Int
  cargo : Int
  target_route_indexes : Int → Int

/-- Overall configuration of the simulation; `islands i` is the pair `(x, y)` of
island `i`. -/
structure simulation_configuration_struct where
  size_x : Int
  size_y : Int
  number_ports : Int
  number_islands : Int
  number_timesteps : Int
  dt : Int
  initialShips : Int
  reportStatsEvery : Int
  ports : Int → port_configuration_struct
  islands : Int → Int × Int

/-- The indices `0, 1, ..., n - 1` of a loop `for (i = 0; i < n; i++)`. -/
def indexRange (n : Int) : List Int := (List.range n.toNat).map (fun (i : Nat) => (i : Int))

/-- Whether a port occupies the cell `(x, y)`. -/
def isCellAPort (config : simulation_configuration_struct) (x y : Int) : Bool :=
  (indexRange config.number_ports).any
    (fun i => decide ((config.ports i).x = x ∧ (config.ports i).y = y))

/-- The index of the first port that lies at `(x, y)`, or `-1`. -/
def getCellPortIndex (config : simulation_configuration_struct) (x y : Int) : Int :=
  match (indexRange config.number_ports).find?
      (fun i => decide ((config.ports i).x = x ∧ (config.ports i).y = y)) with
  | some i => i
  | none => -1

/-- Whether an island occupies the cell `(x, y)`. -/
def isCellAnIsland (config : simulation_configuration_struct) (x y : Int) : Bool :=
  (indexRange config.number_islands).any
    (fun i => decide ((config.islands i).1 = x ∧ (config.islands i).2 = y))

/-- The function `shouldCreateNewShip`; `calls` counts the calls of `rand()` made so
far, and the second component is the count afterwards. -/
def shouldCreateNewShip (rand : Nat → Nat) (shipsInPastHundredHours : Int) (calls : Nat) :
    Bool × Nat :=
  if shipsInPastHundredHours < 10 then (false, calls)
  else (decide (Int.tmod (rand calls) 30 < shipsInPastHundredHours), calls + 1)

/-- The function `shouldRemoveShip`. -/
def shouldRemoveShip (rand : Nat → Nat) (hoursAtSea : Int) (calls : Nat) : Bool × Nat :=
  if hoursAtSea < 100 then (false, calls)
  else (decide (Int.tmod (rand calls) 6 = 0), calls + 1)

/-- The function `willShipMove`; the second `rand()` is only drawn when the first
comparison holds. -/
def willShipMove (rand : Nat → Nat) (numberShipsInCell : Int) (calls : Nat) : Bool × Nat :=
  if numberShipsInCell < 4 then (true, calls)
  else if numberShipsInCell > Int.tmod (rand calls) 20 then
    if Int.tmod (rand (calls + 1)) 2 = 0 then (false, calls + 2) else (true, calls + 2)
  else (true, calls + 1)

/-- The function `getTargetPort`: draw `rand() % numberPorts` until the result differs
from `currentPort`; the first argument bounds the number of draws. -/
def getTargetPort (rand : Nat → Nat) (numberPorts currentPort : Int) : Nat → Nat → Option (Int × Nat)
  | 0, _ => none
  | fuel + 1, calls =>
    let r := Int.tmod (rand calls) numberPorts
    if r = currentPort then getTargetPort rand numberPorts currentPort fuel (calls + 1)
    else some (r, calls + 1)

/-- The variables of `main.c` and the inputs that the simulation reads but never
writes: the configuration, the extent of the local slab, the stream of `rand()`
results, the bound on resampling, and the indeterminate values read from
uninitialised storage (`route` and `willMoveThisTimestep` of a ship just allocated in
`processPort`, `newX` and `newY` when the next-cell lookup writes nothing). -/
structure SimEnv where
  config : simulation_configuration_struct
  local_nx : Int
  ny : Int
  basex : Int
  myrank : Int
  size : Int
  rand : Nat → Nat
  fuel : Nat
  junkRoute : Int
  junkFlag : Bool
  junkOffset : Int → Int → Nat → Int × Int

/-- The variables of `main.c` that the simulation writes. -/
structure SimState where
  sub_domain : Int → cell_struct
  currentShipId : Int
  randCalls : Nat

/-- Store `c` at index `idx` of the domain. -/
def setCell (d : Int → cell_struct) (idx : Int) (c : cell_struct) : Int → cell_struct :=
  fun k => if k = idx then c else d k

/-- Store `v` in slot `z` of a roster. -/
def setSlot (ships : Nat → Option ship_struct) (z : Nat) (v : Option ship_struct) :
    Nat → Option ship_struct :=
  fun k => if k = z then v else ships k

/-- A loop whose body may fail: the bodies are run in order from state `s`, and the
loop yields `none` as soon as one of them does. -/
def foldOpt {σ α : Type} (f : σ → α → Option σ) : List α → σ → Option σ
  | [], s => some s
  | a :: l, s =>
    match f s a with
    | none => none
    | some s1 => foldOpt f l s1

/-- The slab indices `(j, k)`, `1 ≤ j ≤ local_nx`, `1 ≤ k ≤ ny`, in the order of the
loops over the owned cells. -/
def slabCells (local_nx ny : Int) : List (Int × Int) :=
  (upTo local_nx).flatMap (fun j => (upTo ny).map (fun k => (j, k)))

/-- The function `findFreeShipIndex`: the first `NULL` slot, or `-1`. -/
def findFreeShipIndex (specific_cell : cell_struct) : Int :=
  match (List.range MAX_SHIPS_PER_CELL).find? (fun z => (specific_cell.ships_data z).isNone) with
  | some z => (z : Int)
  | none => -1

/-- A port cell being worked on together with the two counters that the work
advances. -/
structure PortWork where
  cell : cell_struct
  currentShipId : Int
  randCalls : Nat

/-- One pass of the loop of `initialisePort`: allocate ship `i`. -/
def initialisePortShip (env : SimEnv) (w : PortWork) (i : Nat) : Option PortWork :=
  let currentPortIndex := w.cell.port_data.port_index
  match getTargetPort env.rand env.config.number_ports currentPortIndex env.fuel w.randCalls with
  | none => none
  | some (targetPort, calls) =>
    some
      { cell := { w.cell with
          ships_data := setSlot w.cell.ships_data i (some
            { hoursAtSea := 0, cargoAmount := 0, id := w.currentShipId,
              willMoveThisTimestep := true,
              route := (env.config.ports currentPortIndex).target_route_indexes targetPort }) }
        currentShipId := w.currentShipId + 1
        randCalls := calls }

/-- The function `initialisePort`. -/
def initialisePort (env : SimEnv) (w : PortWork) (x_coord y_coord : Int) : Option PortWork :=
  let w0 : PortWork :=
    { w with cell := { w.cell with port_data := { w.cell.port_data with
        port_index := getCellPortIndex env.config x_coord y_coord } } }
  match foldOpt (initialisePortShip env) (List.range env.config.initialShips.toNat) w0 with
  | none => none
  | some w1 =>
    some { w1 with cell := { w1.cell with
      number_ships := env.config.initialShips
      port_data := { w1.cell.port_data with cargoArrived := 0, cargoShipped := 0 } } }

/-- The body of the loops of `initialiseDomain` for the cell `(j, k)`. -/
def initialiseCell (env : SimEnv) (st : SimState) (jk : Int × Int) : Option SimState :=
  let idx := jk.1 * (env.ny + 2) + jk.2
  let c0 := st.sub_domain idx
  let c1 : cell_struct :=
    { c0 with x := jk.1, y := jk.2,
              ships_data := fun z => if z < MAX_SHIPS_PER_CELL then none else c0.ships_data z }
  if isCellAPort env.config (env.basex + jk.1 - 1) (jk.2 - 1) then
    match initialisePort env
        { cell := { c1 with isPort := true, isIsland := false, isWater := false },
          currentShipId := st.currentShipId, randCalls := st.randCalls }
        (env.basex + jk.1 - 1) (jk.2 - 1) with
    | none => none
    | some w =>
      some { sub_domain := setCell st.sub_domain idx w.cell, currentShipId := w.currentShipId,
             randCalls := w.randCalls }
  else if isCellAnIsland env.config (env.basex + jk.1 - 1) (jk.2 - 1) then
    let island : cell_struct :=
      { c1 with isPort := false, isIsland := true, isWater := false, number_ships := 0 }
    some { st with sub_domain := setCell st.sub_domain idx island }
  else
    let water : cell_struct :=
      { c1 with isPort := false, isIsland := false, isWater := true, number_ships := 0 }
    some { st with sub_domain := setCell st.sub_domain idx water }

/-- The function `initialiseDomain`. -/
def initialiseDomain (env : SimEnv) (st : SimState) : Option SimState :=
  foldOpt (initialiseCell env) (slabCells env.local_nx env.ny) st

/-- One pass of the first loop of `processPort`: shift entry `i + 1` of the history
into entry `i` and add it to the total. -/
def historyStep (s : (Nat → Int) × Int) (i : Nat) : (Nat → Int) × Int :=
  let h : Nat → Int := fun k => if k = i then s.1 (i + 1) else s.1 k
  (h, s.2 + h i)

/-- The body of the loop of `processPort` over the roster, for slot `z`. -/
def processPortSlot (env : SimEnv) (w : PortWork) (z : Nat) : Option PortWork :=
  match w.cell.ships_data z with
  | none => some w
  | some ship =>
    let arrived := w.cell.port_data.cargoArrived + ship.cargoAmount
    let removal : Bool × Nat :=
      if w.cell.number_ships > 1 then shouldRemoveShip env.rand ship.hoursAtSea w.randCalls
      else (false, w.randCalls)
    if removal.1 then
      some { w with
        cell := { w.cell with
          port_data := { w.cell.port_data with cargoArrived := arrived }
          ships_data := setSlot w.cell.ships_data z none
          number_ships := w.cell.number_ships - 1 }
        randCalls := removal.2 }
    else
      let currentPortIndex := w.cell.port_data.port_index
      match getTargetPort env.rand env.config.number_ports currentPortIndex env.fuel removal.2 with
      | none => none
      | some (targetPort, calls) =>
        let cargo := (env.config.ports currentPortIndex).cargo
        some { w with
          cell := { w.cell with
            port_data := { w.cell.port_data with
              cargoArrived := arrived
              cargoShipped := w.cell.port_data.cargoShipped + cargo }
            ships_data := setSlot w.cell.ships_data z (some
              { ship with
                willMoveThisTimestep := true
                route := (env.config.ports currentPortIndex).target_route_indexes targetPort
                cargoAmount := cargo }) }
          randCalls := calls }

/-- The part of `processPort` before the loop over the roster: shift the history,
store the current count, and create a ship when `shouldCreateNewShip` says so. -/
def processPortCreate (env : SimEnv) (w : PortWork) : PortWork :=
  let shifted := (List.range 9).foldl historyStep (w.cell.port_data.shipsInPastHundredHours, 0)
  let history : Nat → Int := fun k => if k = 9 then w.cell.number_ships else shifted.1 k
  let totalShips := shifted.2 + w.cell.number_ships
  let cell1 : cell_struct :=
    { w.cell with port_data := { w.cell.port_data with shipsInPastHundredHours := history } }
  let create := shouldCreateNewShip env.rand totalShips w.randCalls
  if create.1 then
    let newShip : ship_struct :=
      { hoursAtSea := 0, cargoAmount := 0, id := w.currentShipId, route := env.junkRoute,
        willMoveThisTimestep := env.junkFlag }
    let nextIndex := findFreeShipIndex cell1
    if nextIndex > -1 then
      { cell := { cell1 with
          ships_data := setSlot cell1.ships_data nextIndex.toNat (some newShip)
          number_ships := cell1.number_ships + 1 }
        currentShipId := w.currentShipId + 1
        randCalls := create.2 }
    else { cell := cell1, currentShipId := w.currentShipId + 1, randCalls := create.2 }
  else { cell := cell1, currentShipId := w.currentShipId, randCalls := create.2 }

/-- The function `processPort`. -/
def processPort (env : SimEnv) (w : PortWork) : Option PortWork :=
  foldOpt (processPortSlot env) (List.range MAX_SHIPS_PER_CELL) (processPortCreate env w)

/-- The body of the loop of `processWater` for slot `z`. -/
def processWaterSlot (env : SimEnv) (dt : Int) (s : cell_struct × Nat) (z : Nat) :
    cell_struct × Nat :=
  match s.1.ships_data z with
  | none => s
  | some ship =>
    let move := willShipMove env.rand s.1.number_ships s.2
    ({ s.1 with ships_data := setSlot s.1.ships_data z (some
        { ship with
          willMoveThisTimestep := if move.1 then true else ship.willMoveThisTimestep
          hoursAtSea := ship.hoursAtSea + dt }) },
     move.2)

/-- The function `processWater`; the second component counts the calls of `rand()`. -/
def processWater (env : SimEnv) (specific_cell : cell_struct) (dt : Int) (calls : Nat) :
    cell_struct × Nat :=
  (List.range MAX_SHIPS_PER_CELL).foldl (processWaterSlot env dt) (specific_cell, calls)

/-- The body of the loops of `updateProperties` for the cell `(j, k)`. -/
def updateCell (env : SimEnv) (st : SimState) (jk : Int × Int) : Option SimState :=
  let idx := jk.1 * (env.ny + 2) + jk.2
  let specific_cell := st.sub_domain idx
  if specific_cell.isPort then
    match processPort env
        { cell := specific_cell, currentShipId := st.currentShipId,
          randCalls := st.randCalls } with
    | none => none
    | some w =>
      some { sub_domain := setCell st.sub_domain idx w.cell, currentShipId := w.currentShipId,
             randCalls := w.randCalls }
  else if specific_cell.isWater then
    let r := processWater env specific_cell env.config.dt st.randCalls
    some { st with sub_domain := setCell st.sub_domain idx r.1, randCalls := r.2 }
  else some st

/-- The function `updateProperties`. -/
def updateProperties (env : SimEnv) (st : SimState) : Option SimState :=
  foldOpt (updateCell env) (slabCells env.local_nx env.ny) st

/-- The domain and the two send buffers during the scan of `updateMovement`:
`sendShips1`, `ys1` for the next rank and `sendShips2`, `ys2` for the previous one. -/
structure MoveState where
  sub_domain : Int → cell_struct
  sendShips1 : List ship_struct
  ys1 : List Int
  sendShips2 : List ship_struct
  ys2 : List Int

/-- The slots `((j, k), z)` in the order of the three loops of `updateMovement`. -/
def scanSlots (local_nx ny : Int) : List ((Int × Int) × Nat) :=
  (slabCells local_nx ny).flatMap (fun jk => (List.range MAX_SHIPS_PER_CELL).map (fun z => (jk, z)))

/-- The offset `(newX, newY)` used for the ship in slot `z` of cell `(j, k)`: what the
next-cell strategy writes, or the indeterminate content of the two variables when it
writes nothing. -/
def moveOffset (env : SimEnv) (get_next_cell_strategy : Int → Int → Int → Option (Int × Int))
    (specific_cell : cell_struct) (ship : ship_struct) (j k : Int) (z : Nat) : Int × Int :=
  match get_next_cell_strategy ship.route (env.basex + specific_cell.x - 1)
      (specific_cell.y - 1) with
  | some o => o
  | none => env.junkOffset j k z

/-- The assignment `sub_domain[idx].ships_data[z] = v`. -/
def setShip (d : Int → cell_struct) (idx : Int) (z : Nat) (v : Option ship_struct) :
    Int → cell_struct :=
  setCell d idx { d idx with ships_data := setSlot (d idx).ships_data z v }

/-- The assignment `sub_domain[idx].number_ships += n`. -/
def addShips (d : Int → cell_struct) (idx : Int) (n : Int) : Int → cell_struct :=
  setCell d idx { d idx with number_ships := (d idx).number_ships + n }

/-- The index `(j + newX) * (ny + 2) + k + newY` of the destination cell. -/
def moveTarget (ny : Int) (jk off : Int × Int) : Int :=
  (jk.1 + off.1) * (ny + 2) + jk.2 + off.2

/-- The body of the innermost loop of `updateMovement` for slot `z` of cell `(j, k)`.
The ship of the slot is one object, so clearing its flag is the store `d1`, and the
other assignments follow in the order of the source. -/
def moveShip (env : SimEnv) (get_next_cell_strategy : Int → Int → Int → Option (Int × Int))
    (find_fresh_index_strategy : cell_struct → Int) (m : MoveState) (s : (Int × Int) × Nat) :
    MoveState :=
  let j := s.1.1
  let k := s.1.2
  let z := s.2
  let idx := j * (env.ny + 2) + k
  let specific_cell := m.sub_domain idx
  match specific_cell.ships_data z with
  | none => m
  | some ship =>
    if ship.willMoveThisTimestep then
      let off := moveOffset env get_next_cell_strategy specific_cell ship j k z
      let newX := off.1
      let newY := off.2
      let moved : ship_struct := { ship with willMoveThisTimestep := false }
      let d1 := setShip m.sub_domain idx z (some moved)
      if j + newX = env.local_nx + 1 then
        { m with sub_domain := addShips (setShip d1 idx z none) idx (-1),
                 sendShips1 := m.sendShips1 ++ [moved], ys1 := m.ys1 ++ [k + newY] }
      else if j + newX = 0 then
        { m with sub_domain := addShips (setShip d1 idx z none) idx (-1),
                 sendShips2 := m.sendShips2 ++ [moved], ys2 := m.ys2 ++ [k + newY] }
      else
        let target := moveTarget env.ny (j, k) (newX, newY)
        let newIndex := find_fresh_index_strategy (d1 target)
        if newIndex > -1 then
          let d2 := setShip d1 target newIndex.toNat (some moved)
          let d3 := setShip d2 idx z none
          let d4 := addShips d3 idx (-1)
          let d5 := addShips d4 target 1
          { m with sub_domain := d5 }
        else { m with sub_domain := d1 }
    else m

/-- The three loops of `updateMovement` over the owned cells and their slots. -/
def scanMovement (env : SimEnv) (get_next_cell_strategy : Int → Int → Int → Option (Int × Int))
    (find_fresh_index_strategy : cell_struct → Int) (d : Int → cell_struct) : MoveState :=
  (scanSlots env.local_nx env.ny).foldl
    (moveShip env get_next_cell_strategy find_fresh_index_strategy)
    { sub_domain := d, sendShips1 := [], ys1 := [], sendShips2 := [], ys2 := [] }

/-- The body of the receive loops of `updateMovement`: store a received ship in the
first free slot of the cell of column `col` and row `y`. -/
def receiveShip (env : SimEnv) (find_fresh_index_strategy : cell_struct → Int) (col : Int)
    (d : Int → cell_struct) (r : ship_struct × Int) : Int → cell_struct :=
  let target := col * (env.ny + 2) + r.2
  let newIndex := find_fresh_index_strategy (d target)
  if newIndex > -1 then
    let arrived : cell_struct :=
      { d target with
        ships_data := setSlot (d target).ships_data newIndex.toNat (some r.1)
        number_ships := (d target).number_ships + 1 }
    setCell d target arrived
  else d

/-- What `updateMovement` leaves behind: the domain, and the messages for the next and
the previous rank (`none` when that rank does not exist). -/
structure MoveResult where
  sub_domain : Int → cell_struct
  toNext : Option (List (ship_struct × Int))
  toPrevious : Option (List (ship_struct × Int))

/-- The function `updateMovement` of one worker: `fromNext` and `fromPrevious` are the
ships, with their rows, received from the ranks `myrank + 1` and `myrank - 1`. -/
def updateMovement (env : SimEnv) (get_next_cell_strategy : Int → Int → Int → Option (Int × Int))
    (find_fresh_index_strategy : cell_struct → Int) (d : Int → cell_struct)
    (fromNext fromPrevious : List (ship_struct × Int)) : MoveResult :=
  let m := scanMovement env get_next_cell_strategy find_fresh_index_strategy d
  let d1 :=
    if env.myrank < env.size - 1 then
      fromNext.foldl (receiveShip env find_fresh_index_strategy env.local_nx) m.sub_domain
    else m.sub_domain
  let d2 :=
    if env.myrank > 0 then fromPrevious.foldl (receiveShip env find_fresh_index_strategy 1) d1
    else d1
  { sub_domain := d2
    toNext := if env.myrank < env.size - 1 then some (m.sendShips1.zip m.ys1) else none
    toPrevious := if env.myrank > 0 then some (m.sendShips2.zip m.ys2) else none }

/-- The worker is alone: `myrank = 0` and `size = 1`. -/
def Alone (env : SimEnv) : Prop := env.myrank = 0 ∧ env.size = 1

/-- The three sums of `reportGeneralStatistics` over the owned cells: ships at sea,
ships in port and cargo in transit. -/
structure Statistics where
  shipsAtSea : Int
  shipsInPort : Int
  cargoInTransit : Int
deriving DecidableEq, Repr

/-- The cargo carried by the ships of one cell, summed over its slots. -/
def cellCargo (c : cell_struct) : Int :=
  (List.range MAX_SHIPS_PER_CELL).foldl
    (fun acc z => match c.ships_data z with
      | some ship => acc + ship.cargoAmount
      | none => acc) 0

/-- The body of the loops of `reportGeneralStatistics` for one cell. -/
def reportCell (env : SimEnv) (d : Int → cell_struct) (s : Statistics) (jk : Int × Int) :
    Statistics :=
  let specific_cell := d (jk.1 * (env.ny + 2) + jk.2)
  let s1 : Statistics :=
    if specific_cell.isPort then { s with shipsInPort := s.shipsInPort + specific_cell.number_ships }
    else s
  if specific_cell.isWater then
    { s1 with shipsAtSea := s1.shipsAtSea + specific_cell.number_ships,
              cargoInTransit := s1.cargoInTransit + cellCargo specific_cell }
  else s1

/-- The local sums of `reportGeneralStatistics`. -/
def reportGeneralStatistics (env : SimEnv) (d : Int → cell_struct) : Statistics :=
  (slabCells env.local_nx env.ny).foldl (reportCell env d)
    { shipsAtSea := 0, shipsInPort := 0, cargoInTransit := 0 }

/-- One timestep of `run_simulation` on a worker that is alone: `updateProperties`
followed by `updateMovement`, which then neither sends nor receives. -/
def timestep (env : SimEnv) (get_next_cell_strategy : Int → Int → Int → Option (Int × Int))
    (st : SimState) : Option SimState :=
  match updateProperties env st with
  | none => none
  | some st1 =>
    some { st1 with sub_domain :=
      (updateMovement env get_next_cell_strategy findFreeShipIndex st1.sub_domain [] []).sub_domain }

/-- The state after `n` timesteps. -/
def runSteps (env : SimEnv) (get_next_cell_strategy : Int → Int → Int → Option (Int × Int)) :
    Nat → SimState → Option SimState
  | 0, st => some st
  | n + 1, st =>
    match runSteps env get_next_cell_strategy n st with
    | none => none
    | some st1 => timestep env get_next_cell_strategy st1

/-- The simulation of `run_simulation` up to the end of timestep `n`:
`initialiseDomain`, then `n` timesteps. -/
def simulate (env : SimEnv) (get_next_cell_strategy : Int → Int → Int → Option (Int × Int))
    (st : SimState) (n : Nat) : Option SimState :=
  match initialiseDomain env st with
  | none => none
  | some st0 => runSteps env get_next_cell_strategy n st0

/-- The index `j * (ny + 2) + k` of the slab cell `(j, k)` in `sub_domain`. -/
def slabIndex (ny : Int) (jk : Int × Int) : Int := jk.1 * (ny + 2) + jk.2

/-- The number of slots of a roster that are not `NULL`. -/
def rosterCount (ships : Nat → Option ship_struct) : Nat :=
  (List.range MAX_SHIPS_PER_CELL).countP (fun z => (ships z).isSome)

/-- The count `number_ships` of the cell is the number of its slots that are not
`NULL`. -/
def Consistent (c : cell_struct) : Prop := c.number_ships = (rosterCount c.ships_data : Int)

/-- The body of the loops of `reportFinalInformation` for one cell: a port cell adds
its triple `(port_index, cargoShipped, cargoArrived)` to `statistics`. -/
def finalReportCell (env : SimEnv) (d : Int → cell_struct) (statistics : List (Int × Int × Int))
    (jk : Int × Int) : List (Int × Int × Int) :=
  let specific_cell := d (jk.1 * (env.ny + 2) + jk.2)
  if specific_cell.isPort then
    statistics ++ [(specific_cell.port_data.port_index, specific_cell.port_data.cargoShipped,
      specific_cell.port_data.cargoArrived)]
  else statistics

/-- The triples that `reportFinalInformation` collects (and prints) for the ports of
the local slab. -/
def reportFinalInformation (env : SimEnv) (d : Int → cell_struct) : List (Int × Int × Int) :=
  (slabCells env.local_nx env.ny).foldl (finalReportCell env d) []

/-- The resampling of `getTargetPort` always ends within the bound: from every point
of the stream on, one of the next `fuel` draws differs from any given port index. -/
def Resamples (env : SimEnv) : Prop :=
  ∀ calls : Nat, ∀ currentPort : Int, ∃ i : Nat, i < env.fuel ∧
    Int.tmod (env.rand (calls + i)) env.config.number_ports ≠ currentPort

/-- What `initialiseDomain` establishes for the owned cell `(j, k)`, whose global
coordinates are `(basex + j - 1, k - 1)`: the coordinates stored in the cell, its kind,
and, for a port cell, the port index, the two cargo counters, the count of ships and
the roster. -/
def InitialCell (env : SimEnv) (jk : Int × Int) (c : cell_struct) : Prop :=
  c.x = jk.1 ∧ c.y = jk.2 ∧
  c.isPort = isCellAPort env.config (env.basex + jk.1 - 1) (jk.2 - 1) ∧
  c.isIsland = (!isCellAPort env.config (env.basex + jk.1 - 1) (jk.2 - 1) &&
    isCellAnIsland env.config (env.basex + jk.1 - 1) (jk.2 - 1)) ∧
  c.isWater = (!isCellAPort env.config (env.basex + jk.1 - 1) (jk.2 - 1) &&
    !isCellAnIsland env.config (env.basex + jk.1 - 1) (jk.2 - 1)) ∧
  (isCellAPort env.config (env.basex + jk.1 - 1) (jk.2 - 1) = true →
    c.port_data.port_index = getCellPortIndex env.config (env.basex + jk.1 - 1) (jk.2 - 1) ∧
    c.port_data.cargoShipped = 0 ∧ c.port_data.cargoArrived = 0 ∧
    c.number_ships = env.config.initialShips ∧
    (∀ z : Nat, (z : Int) < env.config.initialShips →
      ∃ ship, c.ships_data z = some ship ∧ ship.hoursAtSea = 0 ∧ ship.cargoAmount = 0 ∧
        ship.willMoveThisTimestep = true) ∧
    (∀ z : Nat, env.config.initialShips ≤ (z : Int) → z < MAX_SHIPS_PER_CELL →
      c.ships_data z = none)) ∧
  (isCellAPort env.config (env.basex + jk.1 - 1) (jk.2 - 1) = false →
    c.number_ships = 0 ∧ ∀ z : Nat, z < MAX_SHIPS_PER_CELL → c.ships_data z = none)

/-! ## Example inputs of the simulation -/

/-- The ports of the example: port 0 at `(0, 0)` with cargo 5, port 1 at `(1, 0)` with
cargo 7; route 0 leads from port 0 to port 1 and route 1 back. -/
def pairPorts (i : Int) : port_configuration_struct :=
  if i = 0 then { x := 0, y := 0, cargo := 5, target_route_indexes := fun t => if t = 1 then 0 else -1 }
  else { x := 1, y := 0, cargo := 7, target_route_indexes := fun t => if t = 0 then 1 else -1 }

/-- A grid of two cells in a row, each a port, with one initial ship per port. -/
def pairConfig : simulation_configuration_struct :=
  { size_x := 2, size_y := 1, number_ports := 2, number_islands := 0, number_timesteps := 1,
    dt := 10, initialShips := 1, reportStatsEvery := 1, ports := pairPorts,
    islands := fun _ => (0, 0) }

/-- The single worker of the example; `rand()` yields `0, 1, 2, ...`. -/
def pairEnv : SimEnv :=
  { config := pairConfig, local_nx := 2, ny := 1, basex := 0, myrank := 0, size := 1,
    rand := fun n => n, fuel := 2, junkRoute := 0, junkFlag := false,
    junkOffset := fun _ _ _ => (0, 0) }

/-- A cell of a freshly allocated block all of whose integers hold `7`. -/
def staleCell : cell_struct :=
  { x := 7, y := 7, isWater := true, isPort := true, isIsland := true,
    port_data := { shipsInPastHundredHours := fun _ => 7, port_index := 7, cargoShipped := 7,
                   cargoArrived := 7 },
    ships_data := fun _ => none, number_ships := 7 }

/-- The state before `initialiseDomain` when the allocated block holds `staleCell`
everywhere. -/
def staleState : SimState :=
  { sub_domain := fun _ => staleCell, currentShipId := 0, randCalls := 0 }

/-- The cargo aboard the ship of a slot; nothing for a `NULL` slot. -/
def shipCargo (o : Option ship_struct) : Int :=
  match o with
  | some ship => ship.cargoAmount
  | none => 0

/-- The port cell of port 0 of the example with one ship in slot 0, carrying 3, and
the counters as they are on entry to `processPort`. -/
def harbour : PortWork :=
  { cell :=
      { x := 1, y := 1, isWater := false, isPort := true, isIsland := false,
        port_data := { shipsInPastHundredHours := fun _ => 0, port_index := 0,
                       cargoShipped := 0, cargoArrived := 0 },
        ships_data := fun z => if z = 0 then
          some { route := 1, hoursAtSea := 20, id := 4, cargoAmount := 3,
                 willMoveThisTimestep := false } else none,
        number_ships := 1 },
    currentShipId := 5, randCalls := 0 }

/-- Two cells differ at most in their roster and their count of ships. -/
def sameKind (a b : cell_struct) : Prop :=
  a.x = b.x ∧ a.y = b.y ∧ a.isWater = b.isWater ∧ a.isPort = b.isPort ∧
  a.isIsland = b.isIsland ∧ a.port_data = b.port_data
/-- The example of two adjacent ports with `initialShips = -1`. -/
def negEnv : SimEnv :=
  { pairEnv with config := { pairConfig with initialShips := -1 } }

/-- The fields `(id, route, hoursAtSea, cargoAmount)` of a ship. -/
def shipKey (s : ship_struct) : Int × Int × Int × Int :=
  (s.id, s.route, s.hoursAtSea, s.cargoAmount)

/-- The ships of the owned cells, each by its `shipKey`, in the order of the scan. -/
def fleet (env : SimEnv) (d : Int → cell_struct) : List (Int × Int × Int × Int) :=
  (scanSlots env.local_nx env.ny).filterMap
    (fun s => ((d (slabIndex env.ny s.1)).ships_data s.2).map shipKey)

/-- The sum of `number_ships` over the owned cells. -/
def totalShips (env : SimEnv) (d : Int → cell_struct) : Int :=
  ((slabCells env.local_nx env.ny).map (fun jk => (d (slabIndex env.ny jk)).number_ships)).sum

/-- The sum over the slots of the owned cells of a weight of the slot's content. -/
def slotSum (env : SimEnv) (wt : Option ship_struct → Int) (d : Int → cell_struct) : Int :=
  ((scanSlots env.local_nx env.ny).map
    (fun s => wt ((d (slabIndex env.ny s.1)).ships_data s.2))).sum

/-- The next-cell strategy writes, for every flagged ship of an owned cell, an offset
that leads to an owned cell. -/
def MovesInBounds (env : SimEnv) (next : Int → Int → Int → Option (Int × Int))
    (d : Int → cell_struct) : Prop :=
  ∀ jk ∈ slabCells env.local_nx env.ny, ∀ z, z < MAX_SHIPS_PER_CELL → ∀ ship,
    (d (slabIndex env.ny jk)).ships_data z = some ship → ship.willMoveThisTimestep = true →
    ∃ o, next ship.route (env.basex + (d (slabIndex env.ny jk)).x - 1)
        ((d (slabIndex env.ny jk)).y - 1) = some o ∧
      (jk.1 + o.1, jk.2 + o.2) ∈ slabCells env.local_nx env.ny

/-- A weight of a slot's content that is 0 for a `NULL` slot and does not depend on
`willMoveThisTimestep`. -/
def FlagBlind (wt : Option ship_struct → Int) : Prop :=
  wt none = 0 ∧ ∀ ship, wt (some { ship with willMoveThisTimestep := false }) = wt (some ship)
/-- A domain of the example with one flagged ship, in slot 0 of the cell `(1, 1)`. -/
def oneShipDomain : Int → cell_struct := fun c =>
  { x := if c = 4 then 1 else 2, y := 1, isWater := true, isPort := false, isIsland := false,
    port_data := { shipsInPastHundredHours := fun _ => 0, port_index := 0, cargoShipped := 0,
                   cargoArrived := 0 },
    ships_data := fun z => if c = 4 ∧ z = 0 then
      some { route := 0, hoursAtSea := 3, id := 9, cargoAmount := 5, willMoveThisTimestep := true }
      else none,
    number_ships := if c = 4 then 1 else 0 }

/-- A next-cell strategy that sends every ship one column to the east. -/
def eastward : Int → Int → Int → Option (Int × Int) := fun _ _ _ => some (1, 0)

/-- The planner's variables for a strip of three cells without islands, owned by one
worker. -/
def strip3 : RouteCtx :=
  { size_x := 3, size_y := 1, local_nx := 3, basex := 0, blocked_cells := [] }

/-- The sum of `cargoShipped` over the ports of the final report. -/
def cargoShippedTotal (env : SimEnv) (d : Int → cell_struct) : Int :=
  ((reportFinalInformation env d).map (fun t => t.2.1)).sum

/-- The sum of `cargoArrived` over the ports of the final report. -/
def cargoArrivedTotal (env : SimEnv) (d : Int → cell_struct) : Int :=
  ((reportFinalInformation env d).map (fun t => t.2.2)).sum

/-- The cargo aboard the ships that stand in owned cells that are not water cells. -/
def cargoDocked (env : SimEnv) (d : Int → cell_struct) : Int :=
  ((slabCells env.local_nx env.ny).map
    (fun jk => if (d (slabIndex env.ny jk)).isWater then 0
      else cellCargo (d (slabIndex env.ny jk)))).sum

/-- The planner's variables for the example of two adjacent ports. -/
def pairGrid : RouteCtx :=
  { size_x := 2, size_y := 1, local_nx := 2, basex := 0, blocked_cells := [] }

/-- The next-cell lookup of the example of two adjacent ports: route 0 is planned from
port 0 to port 1 and route 1 from port 1 to port 0. -/
def pairLookup : Int → Int → Int → Option (Int × Int) :=
  fun routeIndex x y =>
    getNextCell pairGrid
      (if routeIndex = 0 then (generate_route pairGrid zeroMem 0 0 0 1 0).route
       else (generate_route pairGrid zeroMem 1 1 0 0 0).route) x y

/-- The state of the first `n` timesteps is such that, in each of them, the next-cell
strategy gives every flagged ship an offset that leads to an owned cell. -/
def RunInBounds (env : SimEnv) (next : Int → Int → Int → Option (Int × Int)) (st0 : SimState)
    (n : Nat) : Prop :=
  ∀ k, k < n → ∀ stk st1, runSteps env next k st0 = some stk →
    updateProperties env stk = some st1 → MovesInBounds env next st1.sub_domain

/-- What a cell has shipped and not yet seen arrive, less the cargo aboard its ships. -/
def cellBalance (c : cell_struct) : Int :=
  (if c.isPort then c.port_data.cargoShipped - c.port_data.cargoArrived else 0) - cellCargo c
/-- A cell of a zeroed block. -/
def zeroCell : cell_struct :=
  { x := 0, y := 0, isWater := false, isPort := false, isIsland := false,
    port_data := { shipsInPastHundredHours := fun _ => 0, port_index := 0, cargoShipped := 0,
                   cargoArrived := 0 },
    ships_data := fun _ => none, number_ships := 0 }

/-- The state before `initialiseDomain` when the allocated block is zeroed. -/
def zeroState : SimState :=
  { sub_domain := fun _ => zeroCell, currentShipId := 0, randCalls := 0 }

/-- A check of `MovesInBounds` slot by slot. -/
def movesInBoundsB (env : SimEnv) (next : Int → Int → Int → Option (Int × Int))
    (d : Int → cell_struct) : Bool :=
  (scanSlots env.local_nx env.ny).all (fun s =>
    match (d (slabIndex env.ny s.1)).ships_data s.2 with
    | none => true
    | some ship =>
      !ship.willMoveThisTimestep ||
        (match next ship.route (env.basex + (d (slabIndex env.ny s.1)).x - 1)
            ((d (slabIndex env.ny s.1)).y - 1) with
         | none => false
         | some o => decide ((s.1.1 + o.1, s.1.2 + o.2) ∈ slabCells env.local_nx env.ny)))

/-! ## The planning of all routes (`calculate_routes`) -/

/-- Data structure to hold each route, the start and target ports along with the route
itself. -/
structure specific_route where
  start_x : Int
  start_y : Int
  target_x : Int
  target_y : Int
  route : Int → Int

/-- The number of entries of the table `routes`. -/
def ROUTES_MAX : Int := 100

/-- The variables that `calculate_routes` writes: the table `routes`,
`current_route_index`, and the ports of the configuration with their
`target_route_indexes`.  The table is the array `routes[ROUTES_MAX]`: its entries are
those of the indices `0 .. ROUTES_MAX - 1`, and `planPair` yields no result when
`generate_route` is entered with `current_route_index` outside this range. -/
structure PlannerState where
  routes : Int → specific_route
  current_route_index : Int
  ports : Int → port_configuration_struct

/-- The pairs `(i, j)` in the order of the two loops of `calculate_routes`. -/
def portPairs (number_ports : Int) : List (Int × Int) :=
  (indexRange number_ports).flatMap (fun i => (indexRange number_ports).map (fun j => (i, j)))

/-- The body of the loops of `calculate_routes` for the pair `(i, j)`, on a worker that
receives no message in `perform_halo_swap`; `mem (i, j)` is the content of the block
that `generate_route` allocates for this pair.  `generate_route` starts by writing the
entry `routes[current_route_index]`, without a test of the index: when the index is not
one of `0 .. ROUTES_MAX - 1` the write is outside the array and the body yields `none`. -/
def planPair (g : RouteCtx) (myrank size : Int) (mem : Int × Int → Int → Int)
    (p : PlannerState) (ij : Int × Int) : Option PlannerState :=
  if ij.1 ≠ ij.2 then
    if 0 ≤ p.current_route_index ∧ p.current_route_index < ROUTES_MAX then
      let out := generate_route g (mem ij) p.current_route_index (p.ports ij.1).x (p.ports ij.1).y
        (p.ports ij.2).x (p.ports ij.2).y
      let entry : specific_route :=
        { start_x := (p.ports ij.1).x, start_y := (p.ports ij.1).y, target_x := (p.ports ij.2).x,
          target_y := (p.ports ij.2).y, route := out.route }
      let routes1 : Int → specific_route :=
        fun r => if r = p.current_route_index then entry else p.routes r
      if out.ret = -1 then
        some { p with routes := routes1, current_route_index := out.current_route_index }
      else
        let swapped : specific_route :=
          { routes1 out.ret with
            route := perform_halo_swap myrank size g.local_nx g.size_y (mem_size_y g)
              (routes1 out.ret).route [] [] }
        let port_i : port_configuration_struct :=
          { p.ports ij.1 with
            target_route_indexes :=
              fun t => if t = ij.2 then out.ret else (p.ports ij.1).target_route_indexes t }
        some { routes := fun r => if r = out.ret then swapped else routes1 r,
               current_route_index := out.current_route_index,
               ports := fun k => if k = ij.1 then port_i else p.ports k }
    else none
  else some p

/-- The function `calculate_routes`, started with `current_route_index = 0` as
`initialise_routemap` leaves it; `none` when a pair overruns the table `routes`. -/
def calculate_routes (g : RouteCtx) (myrank size : Int) (mem : Int × Int → Int → Int)
    (config : simulation_configuration_struct) (routes0 : Int → specific_route) :
    Option PlannerState :=
  foldOpt (planPair g myrank size mem) (portPairs config.number_ports)
    { routes := routes0, current_route_index := 0, ports := config.ports }

/-- Every ordered pair of different ports is planned with success: `generate_route`
returns a route index for it. -/
def AllPlanned (g : RouteCtx) (mem : Int × Int → Int → Int)
    (config : simulation_configuration_struct) : Prop :=
  ∀ ij ∈ portPairs config.number_ports, ij.1 ≠ ij.2 → ∀ c : Int, 0 ≤ c →
    (generate_route g (mem ij) c (config.ports ij.1).x (config.ports ij.1).y
      (config.ports ij.2).x (config.ports ij.2).y).ret ≠ -1

/-- What holds of the planner's variables once the pairs in `done` have been planned
with success: the ports keep their position and cargo, and each pair of `done` has a
route index of its own, below `current_route_index`, whose entry of `routes` starts at
the first port of the pair. -/
def PlanInv (ports0 : Int → port_configuration_struct) (done : Int × Int → Prop)
    (p : PlannerState) : Prop :=
  (∀ k, (p.ports k).x = (ports0 k).x ∧ (p.ports k).y = (ports0 k).y ∧
    (p.ports k).cargo = (ports0 k).cargo) ∧
  0 ≤ p.current_route_index ∧
  (∀ ij, done ij →
    0 ≤ (p.ports ij.1).target_route_indexes ij.2 ∧
    (p.ports ij.1).target_route_indexes ij.2 < p.current_route_index ∧
    (p.routes ((p.ports ij.1).target_route_indexes ij.2)).start_x = (ports0 ij.1).x ∧
    (p.routes ((p.ports ij.1).target_route_indexes ij.2)).start_y = (ports0 ij.1).y) ∧
  (∀ ij ij2, done ij → done ij2 →
    (p.ports ij.1).target_route_indexes ij.2 = (p.ports ij2.1).target_route_indexes ij2.2 →
    ij = ij2)

/-- The ship follows a route planned from a port `q` to another port and carries the
cargo of port `q`. -/
def LoadedFrom (config : simulation_configuration_struct) (ship : ship_struct) : Prop :=
  ∃ q t, 0 ≤ q ∧ q < config.number_ports ∧ 0 ≤ t ∧ t < config.number_ports ∧ t ≠ q ∧
    ship.route = (config.ports q).target_route_indexes t ∧
    ship.cargoAmount = (config.ports q).cargo

/-- What the run keeps between timesteps: a port cell has the index of a configured
port, a water cell is not a port cell, and every ship of an owned cell that is not a
port cell follows a route from a port whose cargo it carries. -/
def SeaInv (env : SimEnv) (d : Int → cell_struct) : Prop :=
  ∀ jk ∈ slabCells env.local_nx env.ny,
    ((d (slabIndex env.ny jk)).isPort = true →
      0 ≤ (d (slabIndex env.ny jk)).port_data.port_index ∧
      (d (slabIndex env.ny jk)).port_data.port_index < env.config.number_ports) ∧
    ((d (slabIndex env.ny jk)).isWater = true → (d (slabIndex env.ny jk)).isPort = false) ∧
    ((d (slabIndex env.ny jk)).isPort = false →
      ∀ z ship, z < MAX_SHIPS_PER_CELL → (d (slabIndex env.ny jk)).ships_data z = some ship →
        LoadedFrom env.config ship)
/-- The ports of the strip as the configuration file gives them: port 0 at `(0, 0)`
with cargo 5 and port 1 at `(2, 0)` with cargo 7; `target_route_indexes` is not yet
set. -/
def voyagePorts (i : Int) : port_configuration_struct :=
  if i = 0 then { x := 0, y := 0, cargo := 5, target_route_indexes := fun _ => -1 }
  else { x := 2, y := 0, cargo := 7, target_route_indexes := fun _ => -1 }

/-- The strip of three cells with a port at each end and water between them, one
initial ship per port. -/
def voyageConfig : simulation_configuration_struct :=
  { size_x := 3, size_y := 1, number_ports := 2, number_islands := 0, number_timesteps := 1,
    dt := 10, initialShips := 1, reportStatsEvery := 1, ports := voyagePorts,
    islands := fun _ => (0, 0) }

/-- The table `routes` before planning. -/
def noRoutes : Int → specific_route :=
  fun _ => { start_x := 0, start_y := 0, target_x := 0, target_y := 0, route := zeroMem }

/-- The planner's variables after `calculate_routes` on the strip (the two routes fit the
table, so that the planning returns them). -/
def voyagePlan : PlannerState :=
  (calculate_routes strip3 0 1 (fun _ => zeroMem) voyageConfig noRoutes).getD
    { routes := noRoutes, current_route_index := 0, ports := voyageConfig.ports }

/-- The single worker of the strip after planning; `rand()` yields `0, 1, 2, ...`. -/
def voyageEnv : SimEnv :=
  { config := { voyageConfig with ports := voyagePlan.ports }, local_nx := 3, ny := 1, basex := 0,
    myrank := 0, size := 1, rand := fun n => n, fuel := 2, junkRoute := 0, junkFlag := false,
    junkOffset := fun _ _ _ => (0, 0) }

/-- The next-cell lookup of the strip after planning. -/
def voyageLookup : Int → Int → Int → Option (Int × Int) :=
  fun routeIndex x y => getNextCell strip3 (voyagePlan.routes routeIndex).route x y

/-- A port cell on entry to `processPort` whose 200 slots are all occupied and whose
history is such that a new ship is created. -/
def fullHarbour : PortWork :=
  { cell :=
      { x := 1, y := 1, isWater := false, isPort := true, isIsland := false,
        port_data := { shipsInPastHundredHours := fun _ => 200, port_index := 0,
                       cargoShipped := 0, cargoArrived := 0 },
        ships_data := fun z =>
          some { route := 1, hoursAtSea := 20, id := z, cargoAmount := 3,
                 willMoveThisTimestep := false },
        number_ships := 200 },
    currentShipId := 200, randCalls := 0 }

/-- The number of calls of `rand()` made so far when the loop of `processWater` reaches
slot `z`. -/
def processWaterCalls (env : SimEnv) (specific_cell : cell_struct) (dt : Int) (calls : Nat)
    (z : Nat) : Nat :=
  ((List.range z).foldl (processWaterSlot env dt) (specific_cell, calls)).2

/-- The number of ordered pairs of different ports that come before `(i, j)` in the order
of the loops of `calculate_routes` over `n` ports. -/
def pairIndex (n i j : Int) : Int := i * (n - 1) + (if j < i then j else j - 1)

/-- The planner's variables when the loops of `calculate_routes` over `n` ports reach the
pair `(i, j)` and every pair before it has been planned with success: the ports keep
their position, `current_route_index` counts the pairs of different ports so far, and
each of these pairs has its `pairIndex` in `target_route_indexes`. -/
def PlannedUpTo (ports0 : Int → port_configuration_struct) (n : Int) (i j : Nat)
    (p : PlannerState) : Prop :=
  (∀ k, (p.ports k).x = (ports0 k).x ∧ (p.ports k).y = (ports0 k).y) ∧
  p.current_route_index = (i : Int) * (n - 1) + (if j ≤ i then (j : Int) else (j : Int) - 1) ∧
  ∀ a b : Nat, a < n.toNat → b < n.toNat → a ≠ b → (a < i ∨ (a = i ∧ b < j)) →
    (p.ports (a : Int)).target_route_indexes (b : Int) = pairIndex n a b

/-- The calls that `main` makes before it reads the sizes from the configuration, and
the report of a missing argument. -/
inductive StartupCall where
  | reportMissingArgument
  | MPI_Init
  | parseConfiguration (argvIndex : Nat)
deriving DecidableEq, Repr

/-- The start of `main`: the calls made in order, and the value `main` returns when it
returns before the simulation is set up (`none` when it goes on). -/
def main_startup (argc : Int) : List StartupCall × Option Int :=
  if argc < 1 then ([StartupCall.reportMissingArgument], some (-1))
  else ([StartupCall.MPI_Init, StartupCall.parseConfiguration 1], none)

/-- Two adjacent workers, of ranks `r` and `r + 1`, after both have executed
`updateMovement` on their domains `dL` and `dR`: the worker of rank `r` receives from its
next rank what the worker of rank `r + 1` sent to its previous rank, and the other way
round; `fromBelow` and `fromAbove` are the messages of the ranks `r - 1` and `r + 2`. -/
def movementExchange (envL envR : SimEnv)
    (nextL nextR : Int → Int → Int → Option (Int × Int))
    (find_fresh_index_strategy : cell_struct → Int) (dL dR : Int → cell_struct)
    (fromBelow fromAbove : List (ship_struct × Int)) : MoveResult × MoveResult :=
  (updateMovement envL nextL find_fresh_index_strategy dL
      ((updateMovement envR nextR find_fresh_index_strategy dR [] []).toPrevious.getD [])
      fromBelow,
   updateMovement envR nextR find_fresh_index_strategy dR fromAbove
      ((updateMovement envL nextL find_fresh_index_strategy dL [] []).toNext.getD []))

/-- The state of the loops of `updateMovement` on the domain `d` once the slots of
`done` have been scanned. -/
def scanState (env : SimEnv) (get_next_cell_strategy : Int → Int → Int → Option (Int × Int))
    (find_fresh_index_strategy : cell_struct → Int) (d : Int → cell_struct)
    (done : List ((Int × Int) × Nat)) : MoveState :=
  done.foldl (moveShip env get_next_cell_strategy find_fresh_index_strategy)
    { sub_domain := d, sendShips1 := [], ys1 := [], sendShips2 := [], ys2 := [] }

/-- The worker of rank 0 of two on the grid of two columns and one row: it owns the
column 0. -/
def westWorker : SimEnv :=
  { config := pairConfig, local_nx := 1, ny := 1, basex := 0, myrank := 0, size := 2,
    rand := fun n => n, fuel := 2, junkRoute := 0, junkFlag := false,
    junkOffset := fun _ _ _ => (0, 0) }

/-- The worker of rank 1 of two on the same grid: it owns the column 1. -/
def eastWorker : SimEnv :=
  { config := pairConfig, local_nx := 1, ny := 1, basex := 1, myrank := 1, size := 2,
    rand := fun n => n, fuel := 2, junkRoute := 0, junkFlag := false,
    junkOffset := fun _ _ _ => (0, 0) }

/-- A domain of water cells without ships. -/
def emptySea : Int → cell_struct := fun _ =>
  { x := 1, y := 1, isWater := true, isPort := false, isIsland := false,
    port_data := { shipsInPastHundredHours := fun _ => 0, port_index := 0, cargoShipped := 0,
                   cargoArrived := 0 },
    ships_data := fun _ => none, number_ships := 0 }

/-- The grid of a single cell, without islands, on a single worker. -/
def grid1 : RouteCtx :=
  { size_x := 1, size_y := 1, local_nx := 1, basex := 0, blocked_cells := [] }

/-- The module-level variables of `route_map.c` (the table `routes` apart):
`int size_x, size_y, current_route_index, num_blocked_cells;`,
`int local_nx, size, myrank, basex, mem_size_x, mem_size_y;` and the two arrays
`blocked_cells_x`, `blocked_cells_y`. -/
structure RouteGlobals where
  size_x : Int
  size_y : Int
  current_route_index : Int
  num_blocked_cells : Int
  local_nx : Int
  size : Int
  myrank : Int
  basex : Int
  mem_size_x : Int
  mem_size_y : Int
  blocked_cells_x : Int → Int
  blocked_cells_y : Int → Int

/-- The parameters `local_nx`, `myrank`, `size`, `basex` of `initialise_routemap`: in the
body of the function these names denote the parameters, not the module-level variables
of the same names. -/
structure RoutemapParams where
  local_nx : Int
  myrank : Int
  size : Int
  basex : Int

/-- The body of the loop of `initialise_routemap`: store the coordinates of island `i`
in `blocked_cells_x[i]` and `blocked_cells_y[i]`. -/
def storeIsland (simulation_configuration : simulation_configuration_struct) (H : RouteGlobals)
    (i : Int) : RouteGlobals :=
  { H with
    blocked_cells_x := fun k =>
      if k = i then (simulation_configuration.islands i).1 else H.blocked_cells_x k,
    blocked_cells_y := fun k =>
      if k = i then (simulation_configuration.islands i).2 else H.blocked_cells_y k }

/-- The function `initialise_routemap`, with the module-level variables `G` on entry;
`blockX` and `blockY` are the contents of the two blocks that `malloc` returns.  The
result holds the module-level variables and the parameters at the end of the body. -/
def initialise_routemap (G : RouteGlobals) (simulation_configuration : simulation_configuration_struct)
    (params : RoutemapParams) (blockX blockY : Int → Int) : RouteGlobals × RoutemapParams :=
  let G1 : RouteGlobals :=
    { G with size_x := simulation_configuration.size_x, size_y := simulation_configuration.size_y }
  let p1 : RoutemapParams := { params with local_nx := params.local_nx }
  let p2 : RoutemapParams := { p1 with myrank := p1.myrank }
  let p3 : RoutemapParams := { p2 with size := p2.size }
  let p4 : RoutemapParams := { p3 with basex := p3.basex }
  let G2 : RouteGlobals :=
    { G1 with current_route_index := 0,
              num_blocked_cells := simulation_configuration.number_islands }
  let G3 : RouteGlobals :=
    (indexRange simulation_configuration.number_islands).foldl
      (storeIsland simulation_configuration)
      { G2 with blocked_cells_x := blockX, blocked_cells_y := blockY }
  (G3, p4)

/-- The 5 by 5 grid with the islands `(2, 1)`, `(2, 2)`, `(2, 3)`, seen by a worker that
owns `local_nx` columns from `basex`. -/
def grid5On (local_nx basex : Int) : RouteCtx :=
  { size_x := 5, size_y := 5, local_nx := local_nx, basex := basex,
    blocked_cells := [(2, 1), (2, 2), (2, 3)] }

/-- The 5 by 5 grid with the wall of three islands on a single worker. -/
def grid5 : RouteCtx := grid5On 5 0

/-- Each pair of `done` has, at its route index, the route map that `generate_route`
left for it. -/
def PlanRoutes (g : RouteCtx) (mem : Int × Int → Int → Int)
    (ports0 : Int → port_configuration_struct) (done : Int × Int → Prop) (p : PlannerState) :
    Prop :=
  ∀ ij, done ij →
    (p.routes ((p.ports ij.1).target_route_indexes ij.2)).route
      = (walkFinal g (mem ij) (ports0 ij.1).x (ports0 ij.1).y (ports0 ij.2).x
          (ports0 ij.2).y).route

/-- The next-cell strategy of the simulation: `getNextCell` on the table `routes` that
the planning has left. -/
def plannedLookup (g : RouteCtx) (plan : PlannerState) : Int → Int → Int → Option (Int × Int) :=
  fun routeIndex x y => getNextCell g (plan.routes routeIndex).route x y

/-- The cell of step `k` of the walk that `generate_route` makes from port `q` to port
`t`. -/
def voyagePos (g : RouteCtx) (mem : Int × Int → Int → Int)
    (config : simulation_configuration_struct) (q t : Int) (k : Nat) : Int × Int :=
  walkerPos g (mem (q, t)) (config.ports q).x (config.ports q).y (config.ports t).x
    (config.ports t).y k

/-- The number of steps of the walk from port `q` to port `t`. -/
def voyageLength (g : RouteCtx) (mem : Int × Int → Int → Int)
    (config : simulation_configuration_struct) (q t : Int) : Nat :=
  routeLength g (mem (q, t)) (config.ports q).x (config.ports q).y (config.ports t).x
    (config.ports t).y

/-- No two ports of the configuration lie on the same cell. -/
def DistinctPorts (config : simulation_configuration_struct) : Prop :=
  ∀ i j, 0 ≤ i ∧ i < config.number_ports → 0 ≤ j ∧ j < config.number_ports → i ≠ j →
    ((config.ports i).x, (config.ports i).y) ≠ ((config.ports j).x, (config.ports j).y)


/-- A single worker that simulates the configuration `config0` after planning its routes:
the worker owns the whole grid of the planner `g`, `calculate_routes` has returned the
variables `plan` (no pair has overrun the table `routes`), the ports of the worker's
configuration are those of `plan`, every ordered pair of different ports is planned with
success, and no two ports lie on the same cell. -/
def PlannedWorld (g : RouteCtx) (mem : Int × Int → Int → Int)
    (config0 : simulation_configuration_struct) (routes0 : Int → specific_route)
    (plan : PlannerState) (env : SimEnv) : Prop :=
  Alone env ∧ SingleWorker g ∧ env.local_nx = g.size_x ∧ env.ny = g.size_y ∧ env.basex = 0 ∧
  calculate_routes g 0 1 mem config0 routes0 = some plan ∧
  env.config = { config0 with ports := plan.ports } ∧
  AllPlanned g mem config0 ∧ DistinctPorts config0

/-- The ship stands in the cell `c` on the walk of the route it follows: the route was
planned from a port `q` to another port `t`, and the cell is the cell of step `k < L` of
that walk; in a port cell it is the source of the route, the port of the cell, and in
another cell `1 ≤ k`. -/
def Underway (g : RouteCtx) (mem : Int × Int → Int → Int)
    (config0 : simulation_configuration_struct) (plan : PlannerState) (env : SimEnv)
    (c : cell_struct) (ship : ship_struct) : Prop :=
  ∃ q t, (0 ≤ q ∧ q < config0.number_ports) ∧ (0 ≤ t ∧ t < config0.number_ports) ∧ q ≠ t ∧
    ship.route = (plan.ports q).target_route_indexes t ∧
    ∃ k, k < voyageLength g mem config0 q t ∧
      voyagePos g mem config0 q t k = (env.basex + c.x - 1, c.y - 1) ∧
      (c.isPort = true → k = 0 ∧ q = c.port_data.port_index) ∧ (c.isPort = false → 1 ≤ k)

/-- The owned cell `(j, k)` has its own coordinates, is a port cell exactly when a port
lies on it, and then has the index of the first such port. -/
def CellOk (env : SimEnv) (jk : Int × Int) (c : cell_struct) : Prop :=
  c.x = jk.1 ∧ c.y = jk.2 ∧
  c.isPort = isCellAPort env.config (env.basex + jk.1 - 1) (jk.2 - 1) ∧
  (c.isPort = true →
    c.port_data.port_index = getCellPortIndex env.config (env.basex + jk.1 - 1) (jk.2 - 1))

/-- What holds of the domain between two timesteps: the owned cells are as
`initialiseDomain` made them, and every ship of an owned cell that is not a port cell
is under way on its route. -/
def SailInv (g : RouteCtx) (mem : Int × Int → Int → Int)
    (config0 : simulation_configuration_struct) (plan : PlannerState) (env : SimEnv)
    (d : Int → cell_struct) : Prop :=
  ∀ jk ∈ slabCells env.local_nx env.ny,
    CellOk env jk (d (slabIndex env.ny jk)) ∧
    ∀ z ship, z < MAX_SHIPS_PER_CELL → (d (slabIndex env.ny jk)).ships_data z = some ship →
      (d (slabIndex env.ny jk)).isPort = false → Underway g mem config0 plan env
        (d (slabIndex env.ny jk)) ship

/-- What holds of the domain during `updateMovement`: as `SailInv`, and moreover every
flagged ship of a port cell is under way, at the source of a route from that port. -/
def ScanInv (g : RouteCtx) (mem : Int × Int → Int → Int)
    (config0 : simulation_configuration_struct) (plan : PlannerState) (env : SimEnv)
    (d : Int → cell_struct) : Prop :=
  ∀ jk ∈ slabCells env.local_nx env.ny,
    CellOk env jk (d (slabIndex env.ny jk)) ∧
    ∀ z ship, z < MAX_SHIPS_PER_CELL → (d (slabIndex env.ny jk)).ships_data z = some ship →
      ((d (slabIndex env.ny jk)).isPort = false ∨ ship.willMoveThisTimestep = true) →
      Underway g mem config0 plan env (d (slabIndex env.ny jk)) ship

/-- The cargo aboard all the ships that stand in owned cells, port cells and water cells
alike. -/
def cargoAboard (env : SimEnv) (d : Int → cell_struct) : Int :=
  ((slabCells env.local_nx env.ny).map (fun jk => cellCargo (d (slabIndex env.ny jk)))).sum

/-- Two ports on the same cell `(0, 0)`, with cargo 5 and 7, before planning. -/
def twinPorts (i : Int) : port_configuration_struct :=
  if i = 0 then { x := 0, y := 0, cargo := 5, target_route_indexes := fun _ => -1 }
  else { x := 0, y := 0, cargo := 7, target_route_indexes := fun _ => -1 }

/-- The grid of two columns and one row with the two ports of `twinPorts` and one
initial ship per port. -/
def twinConfig : simulation_configuration_struct :=
  { size_x := 2, size_y := 1, number_ports := 2, number_islands := 0, number_timesteps := 1,
    dt := 10, initialShips := 1, reportStatsEvery := 1, ports := twinPorts,
    islands := fun _ => (0, 0) }

/-- The planner's variables after `calculate_routes` on `twinConfig` (the two routes fit
the table, so that the planning returns them). -/
def twinPlan : PlannerState :=
  (calculate_routes pairGrid 0 1 (fun _ => zeroMem) twinConfig noRoutes).getD
    { routes := noRoutes, current_route_index := 0, ports := twinConfig.ports }

/-- The single worker of `twinConfig` after planning; `rand()` yields `0, 1, 2, ...`, and
the uninitialised `newX`, `newY` hold `-1` and `0`. -/
def twinEnv : SimEnv :=
  { config := { twinConfig with ports := twinPlan.ports }, local_nx := 2, ny := 1, basex := 0,
    myrank := 0, size := 1, rand := fun n => n, fuel := 2, junkRoute := 0, junkFlag := false,
    junkOffset := fun _ _ _ => (-1, 0) }

/-- The planner's variables for a strip of eleven cells without islands, owned by one
worker. -/
def strip11 : RouteCtx :=
  { size_x := 11, size_y := 1, local_nx := 11, basex := 0, blocked_cells := [] }

/-- Eleven ports on the strip of eleven cells: port `i` lies on the cell `(i, 0)`;
`target_route_indexes` is not yet set. -/
def elevenPorts (i : Int) : port_configuration_struct :=
  { x := i, y := 0, cargo := 1, target_route_indexes := fun _ => -1 }

/-- The strip of eleven cells with a port on every cell and one initial ship per port. -/
def elevenConfig : simulation_configuration_struct :=
  { size_x := 11, size_y := 1, number_ports := 11, number_islands := 0, number_timesteps := 1,
    dt := 10, initialShips := 1, reportStatsEvery := 1, ports := elevenPorts,
    islands := fun _ => (0, 0) }

/-- The strip of three cells with the two ports of `twinPorts`, both on the cell
`(0, 0)`, and one initial ship per port. -/
def twinStripConfig : simulation_configuration_struct :=
  { size_x := 3, size_y := 1, number_ports := 2, number_islands := 0, number_timesteps := 1,
    dt := 10, initialShips := 1, reportStatsEvery := 1, ports := twinPorts,
    islands := fun _ => (0, 0) }

/-- The planner's variables after `calculate_routes` on `twinStripConfig` (the two routes
fit the table, so that the planning returns them). -/
def twinStripPlan : PlannerState :=
  (calculate_routes strip3 0 1 (fun _ => zeroMem) twinStripConfig noRoutes).getD
    { routes := noRoutes, current_route_index := 0, ports := twinStripConfig.ports }

/-- The single worker of `twinStripConfig` after planning; `rand()` yields `0, 1, 2, ...`,
and the uninitialised `newX`, `newY` hold `2` and `0`. -/
def twinStripEnv : SimEnv :=
  { config := { twinStripConfig with ports := twinStripPlan.ports }, local_nx := 3, ny := 1,
    basex := 0, myrank := 0, size := 1, rand := fun n => n, fuel := 2, junkRoute := 0,
    junkFlag := false, junkOffset := fun _ _ _ => (2, 0) }

/-- A check, slot by slot, that no slot of an owned cell other than `s0` holds a flagged
ship. -/
def onlyFlaggedB (env : SimEnv) (d : Int → cell_struct) (s0 : (Int × Int) × Nat) : Bool :=
  (scanSlots env.local_nx env.ny).all (fun s =>
    decide (s = s0) ||
      match (d (slabIndex env.ny s.1)).ships_data s.2 with
      | none => true
      | some ship => !ship.willMoveThisTimestep)

/-- The owned slots of the domain `d` whose ship has the key `a`, in the order of the
scan of `updateMovement`. -/
def keySlots (env : SimEnv) (d : Int → cell_struct) (a : Int × Int × Int × Int) :
    List ((Int × Int) × Nat) :=
  (scanSlots env.local_nx env.ny).filter
    (fun s => decide (((d (slabIndex env.ny s.1)).ships_data s.2).map shipKey = some a))

/-- Every owned slot of the domain `d` whose ship has the key `a` satisfies `S`. -/
def KeyWithin (env : SimEnv) (d : Int → cell_struct) (a : Int × Int × Int × Int)
    (S : (Int × Int) × Nat → Prop) : Prop :=
  ∀ t ∈ scanSlots env.local_nx env.ny, ∀ ship,
    (d (slabIndex env.ny t.1)).ships_data t.2 = some ship → shipKey ship = a → S t

/-! ## The selection loop -/

theorem foldl_bestUpdate_cases (score : Int × Int → Int) (l : List (Int × Int)) (b0 : Best) :
    l.foldl (bestUpdate score) b0 = b0 ∨
    ∃ o ∈ l, l.foldl (bestUpdate score) b0 = ⟨score o, o.1, o.2⟩ ∧ score o > b0.current_best := by
  induction l generalizing b0 with
  | nil => left; rfl
  | cons a l ih =>
    simp only [List.foldl_cons]
    rcases ih (bestUpdate score b0 a) with h | ⟨o, ho, h1, h2⟩
    · rw [h]
      unfold bestUpdate
      split
      · right; exact ⟨a, by simp, rfl, by assumption⟩
      · left; rfl
    · right
      refine ⟨o, by simp [ho], h1, ?_⟩
      unfold bestUpdate at h2
      split at h2
      · dsimp only at h2; omega
      · exact h2

theorem foldl_bestUpdate_ge (score : Int × Int → Int) (l : List (Int × Int)) (b0 : Best) :
    b0.current_best ≤ (l.foldl (bestUpdate score) b0).current_best ∧
    ∀ o ∈ l, score o ≤ (l.foldl (bestUpdate score) b0).current_best := by
  induction l generalizing b0 with
  | nil => simp
  | cons a l ih =>
    simp only [List.foldl_cons]
    obtain ⟨h1, h2⟩ := ih (bestUpdate score b0 a)
    have h3 : b0.current_best ≤ (bestUpdate score b0 a).current_best ∧
        score a ≤ (bestUpdate score b0 a).current_best := by
      unfold bestUpdate
      split
      · dsimp only; omega
      · omega
    refine ⟨by omega, ?_⟩
    intro o ho
    rcases List.mem_cons.mp ho with rfl | ho
    · omega
    · exact h2 o ho

/-- When one offset scores strictly more than every other one, it is chosen. -/
theorem selectBest_unique_max (score : Int × Int → Int) (o : Int × Int) (ho : o ∈ scanOrder)
    (hlow : score o > LOW_SCORE) (hmax : ∀ p ∈ scanOrder, p ≠ o → score p < score o) :
    selectBest score = ⟨score o, o.1, o.2⟩ := by
  unfold selectBest
  have hge := (foldl_bestUpdate_ge score scanOrder ⟨LOW_SCORE, 0, 0⟩).2 o ho
  rcases foldl_bestUpdate_cases score scanOrder ⟨LOW_SCORE, 0, 0⟩ with h | ⟨p, hp, h1, _⟩
  · rw [h] at hge; dsimp only at hge; omega
  · rw [h1] at hge ⊢
    dsimp only at hge
    by_cases hpo : p = o
    · rw [hpo]
    · have := hmax p hp hpo; omega

/-- A choice that is not `LOW_SCORE` is one of the nine offsets, and its score is
the best score. -/
theorem selectBest_chosen (score : Int × Int → Int)
    (h : (selectBest score).current_best ≠ LOW_SCORE) :
    ((selectBest score).best_x, (selectBest score).best_y) ∈ scanOrder ∧
    score ((selectBest score).best_x, (selectBest score).best_y) = (selectBest score).current_best ∧
    (selectBest score).current_best > LOW_SCORE := by
  unfold selectBest at h ⊢
  rcases foldl_bestUpdate_cases score scanOrder ⟨LOW_SCORE, 0, 0⟩ with h0 | ⟨p, hp, h1, h2⟩
  · rw [h0] at h; exact absurd rfl h
  · rw [h1]; exact ⟨hp, rfl, h2⟩

theorem generate_score_gt (g : RouteCtx) (sx sy tx ty ox oy : Int)
    (h : generate_score g sx sy tx ty ox oy > LOW_SCORE) :
    0 ≤ sx + ox ∧ sx + ox < g.size_x ∧ 0 ≤ sy + oy ∧ sy + oy < g.size_y ∧
    is_cell_blocked g (sx + ox) (sy + oy) = false := by
  unfold generate_score at h
  split at h
  · omega
  split at h
  · omega
  split at h
  · omega
  split at h
  · omega
  split at h
  · omega
  · refine ⟨by omega, by omega, by omega, by omega, ?_⟩
    simpa using ‹¬ is_cell_blocked g (sx + ox) (sy + oy) = true›

/-- A walker step leads to a cell of the grid that is not blocked, and the offset
is one of the eight non-centre offsets. -/
theorem chosen_ok (g : RouteCtx) (tx ty : Int) (s : WalkState)
    (h : (chosen g tx ty s).current_best ≠ LOW_SCORE) :
    ((chosen g tx ty s).best_x, (chosen g tx ty s).best_y) ∈ scanOrder ∧
    ((chosen g tx ty s).best_x, (chosen g tx ty s).best_y) ≠ (0, 0) ∧
    0 ≤ s.current_x + (chosen g tx ty s).best_x ∧
    s.current_x + (chosen g tx ty s).best_x < g.size_x ∧
    0 ≤ s.current_y + (chosen g tx ty s).best_y ∧
    s.current_y + (chosen g tx ty s).best_y < g.size_y ∧
    is_cell_blocked g (s.current_x + (chosen g tx ty s).best_x)
      (s.current_y + (chosen g tx ty s).best_y) = false := by
  obtain ⟨h1, h2, h3⟩ := selectBest_chosen _ h
  have hne : ((chosen g tx ty s).best_x, (chosen g tx ty s).best_y) ≠ (0, 0) := by
    intro h0
    unfold chosen at h0
    rw [h0] at h2
    unfold chosen at h
    simp only [grid_scores, if_true] at h2
    exact h h2.symm
  refine ⟨h1, hne, ?_⟩
  unfold chosen at hne ⊢
  rw [← h2] at h3
  simp only [grid_scores, if_neg hne] at h3
  exact generate_score_gt g _ _ tx ty _ _ h3

/-! ## The walker loop -/

theorem walkLoop_succ (g : RouteCtx) (tx ty : Int) (n : Nat) (s : WalkState) :
    walkLoop g tx ty (n + 1) s =
      if s.found_route then s
      else if (chosen g tx ty s).current_best = LOW_SCORE then s
      else walkLoop g tx ty n (advance g tx ty s (chosen g tx ty s)) := rfl

theorem walkLoop_one_cases (g : RouteCtx) (tx ty : Int) (s : WalkState) :
    walkLoop g tx ty 1 s = s ∨
    (s.found_route = false ∧ (chosen g tx ty s).current_best ≠ LOW_SCORE ∧
      walkLoop g tx ty 1 s = advance g tx ty s (chosen g tx ty s)) := by
  rw [walkLoop_succ]
  by_cases h1 : s.found_route = true
  · left; simp [h1]
  · by_cases h2 : (chosen g tx ty s).current_best = LOW_SCORE
    · left; simp [h2]
    · right
      refine ⟨by simpa using h1, h2, ?_⟩
      simp [h1, h2, walkLoop]

theorem walkLoop_succ_end (g : RouteCtx) (tx ty : Int) (n : Nat) (s : WalkState) :
    walkLoop g tx ty (n + 1) s = walkLoop g tx ty 1 (walkLoop g tx ty n s) := by
  induction n generalizing s with
  | zero => rfl
  | succ n ih =>
    rw [walkLoop_succ g tx ty (n + 1) s, walkLoop_succ g tx ty n s]
    by_cases h1 : s.found_route = true
    · simp only [h1, if_true]
      rw [walkLoop_succ]; simp [h1]
    · by_cases h2 : (chosen g tx ty s).current_best = LOW_SCORE
      · simp only [h1, h2, if_true]
        rw [walkLoop_succ]; simp [h1, h2]
      · simp only [h1, h2, if_false]
        exact ih _

theorem walkAt_zero (g : RouteCtx) (mem : Int → Int) (sx sy tx ty : Int) :
    walkAt g mem sx sy tx ty 0 = walkStart g mem sx sy := rfl

theorem walkAt_succ (g : RouteCtx) (mem : Int → Int) (sx sy tx ty : Int) (k : Nat) :
    walkAt g mem sx sy tx ty (k + 1) = walkLoop g tx ty 1 (walkAt g mem sx sy tx ty k) :=
  walkLoop_succ_end g tx ty k _

/-- One more allowed iteration either leaves the walker state unchanged or
performs the loop body on it. -/
theorem walkAt_succ_cases (g : RouteCtx) (mem : Int → Int) (sx sy tx ty : Int) (k : Nat) :
    walkAt g mem sx sy tx ty (k + 1) = walkAt g mem sx sy tx ty k ∨
    ((walkAt g mem sx sy tx ty k).found_route = false ∧
      (chosen g tx ty (walkAt g mem sx sy tx ty k)).current_best ≠ LOW_SCORE ∧
      walkAt g mem sx sy tx ty (k + 1) =
        advance g tx ty (walkAt g mem sx sy tx ty k)
          (chosen g tx ty (walkAt g mem sx sy tx ty k))) := by
  rw [walkAt_succ]
  exact walkLoop_one_cases g tx ty _

theorem walkAt_steps_succ (g : RouteCtx) (mem : Int → Int) (sx sy tx ty : Int) (k : Nat) :
    (walkAt g mem sx sy tx ty (k + 1)).number_steps = (walkAt g mem sx sy tx ty k).number_steps ∨
    (walkAt g mem sx sy tx ty (k + 1)).number_steps
      = (walkAt g mem sx sy tx ty k).number_steps + 1 := by
  rcases walkAt_succ_cases g mem sx sy tx ty k with h | ⟨_, _, h⟩
  · left; rw [h]
  · right; rw [h]; rfl

theorem walkAt_steps_le (g : RouteCtx) (mem : Int → Int) (sx sy tx ty : Int) (k : Nat) :
    (walkAt g mem sx sy tx ty k).number_steps ≤ k := by
  induction k with
  | zero => simp [walkAt_zero, walkStart]
  | succ k ih => rcases walkAt_steps_succ g mem sx sy tx ty k with h | h <;> omega

theorem walkAt_steps_mono (g : RouteCtx) (mem : Int → Int) (sx sy tx ty : Int) (k m : Nat)
    (h : k ≤ m) :
    (walkAt g mem sx sy tx ty k).number_steps ≤ (walkAt g mem sx sy tx ty m).number_steps := by
  induction m with
  | zero =>
    have : k = 0 := by omega
    rw [this]
  | succ m ih =>
    by_cases hk : k = m + 1
    · rw [hk]
    · have := ih (by omega)
      rcases walkAt_steps_succ g mem sx sy tx ty m with h | h <;> omega

theorem walkAt_counter (g : RouteCtx) (mem : Int → Int) (sx sy tx ty : Int) (k : Nat) :
    (walkAt g mem sx sy tx ty k).routeCounter
      = ((walkAt g mem sx sy tx ty k).number_steps : Int) + 1 := by
  induction k with
  | zero => simp [walkAt_zero, walkStart]
  | succ k ih =>
    rcases walkAt_succ_cases g mem sx sy tx ty k with h | ⟨_, _, h⟩
    · rw [h]; exact ih
    · rw [h]; simp only [advance]; rw [ih]; push_cast; ring

/-- A step that does not raise the step count leaves the state unchanged. -/
theorem walkAt_same_of_steps (g : RouteCtx) (mem : Int → Int) (sx sy tx ty : Int) (k : Nat)
    (h : (walkAt g mem sx sy tx ty (k + 1)).number_steps
      = (walkAt g mem sx sy tx ty k).number_steps) :
    walkAt g mem sx sy tx ty (k + 1) = walkAt g mem sx sy tx ty k := by
  rcases walkAt_succ_cases g mem sx sy tx ty k with h1 | ⟨_, _, h1⟩
  · exact h1
  · rw [h1] at h; simp [advance] at h

/-- Once the step count has been reached, further allowed iterations change
nothing. -/
theorem walkAt_eq_of_steps (g : RouteCtx) (mem : Int → Int) (sx sy tx ty : Int) (k m : Nat)
    (hkm : k ≤ m) (h : (walkAt g mem sx sy tx ty m).number_steps ≤ k)
    (hk : (walkAt g mem sx sy tx ty k).number_steps = k) :
    walkAt g mem sx sy tx ty m = walkAt g mem sx sy tx ty k := by
  induction m with
  | zero =>
    have : k = 0 := by omega
    rw [this]
  | succ m ih =>
    by_cases hkm1 : k = m + 1
    · rw [hkm1]
    · have h1 := walkAt_steps_mono g mem sx sy tx ty k m (by omega)
      have h2 := walkAt_steps_mono g mem sx sy tx ty m (m + 1) (by omega)
      have h3 := ih (by omega) (by omega)
      rw [← h3]
      apply walkAt_same_of_steps
      rw [h3]; omega

/-- Every step count below the final one was reached after exactly that many
iterations. -/
theorem walkAt_live (g : RouteCtx) (mem : Int → Int) (sx sy tx ty : Int) (k m : Nat)
    (h : k ≤ (walkAt g mem sx sy tx ty m).number_steps) :
    (walkAt g mem sx sy tx ty k).number_steps = k := by
  induction m generalizing k with
  | zero =>
    have h0 : (walkAt g mem sx sy tx ty 0).number_steps = 0 := rfl
    have : k = 0 := by omega
    rw [this]; exact h0
  | succ m ih =>
    rcases walkAt_steps_succ g mem sx sy tx ty m with h1 | h1
    · exact ih k (by omega)
    · by_cases hk : k ≤ (walkAt g mem sx sy tx ty m).number_steps
      · exact ih k hk
      · have h2 := walkAt_steps_le g mem sx sy tx ty m
        have hj := ih (walkAt g mem sx sy tx ty m).number_steps (Nat.le_refl _)
        have he := walkAt_eq_of_steps g mem sx sy tx ty _ m h2 (Nat.le_refl _) hj
        have hk1 : k = (walkAt g mem sx sy tx ty m).number_steps + 1 := by omega
        have hs : walkAt g mem sx sy tx ty (m + 1) = walkAt g mem sx sy tx ty k := by
          rw [walkAt_succ, he, hk1, walkAt_succ]
        rw [← hs]; omega

/-- A live step is one execution of the loop body. -/
theorem walkAt_live_step (g : RouteCtx) (mem : Int → Int) (sx sy tx ty : Int) (k : Nat)
    (h : (walkAt g mem sx sy tx ty (k + 1)).number_steps = k + 1) :
    (walkAt g mem sx sy tx ty k).number_steps = k ∧
    (walkAt g mem sx sy tx ty k).found_route = false ∧
    (chosen g tx ty (walkAt g mem sx sy tx ty k)).current_best ≠ LOW_SCORE ∧
    walkAt g mem sx sy tx ty (k + 1) =
      advance g tx ty (walkAt g mem sx sy tx ty k)
        (chosen g tx ty (walkAt g mem sx sy tx ty k)) := by
  have hle := walkAt_steps_le g mem sx sy tx ty k
  rcases walkAt_succ_cases g mem sx sy tx ty k with h1 | ⟨h1, h2, h3⟩
  · rw [h1] at h; omega
  · refine ⟨?_, h1, h2, h3⟩
    rw [h3] at h
    simp only [advance] at h
    omega

/-! ## The walker's path -/

theorem walkerPos_zero (g : RouteCtx) (mem : Int → Int) (sx sy tx ty : Int) :
    walkerPos g mem sx sy tx ty 0 = (sx, sy) := rfl

/-- A live step moves the walker by the offset chosen at its current cell. -/
theorem walkerPos_succ (g : RouteCtx) (mem : Int → Int) (sx sy tx ty : Int) (k : Nat)
    (h : (walkAt g mem sx sy tx ty (k + 1)).number_steps = k + 1) :
    walkerPos g mem sx sy tx ty (k + 1) = nextPos g tx ty (walkerPos g mem sx sy tx ty k) := by
  obtain ⟨_, _, _, h4⟩ := walkAt_live_step g mem sx sy tx ty k h
  unfold walkerPos
  rw [h4]
  rfl

/-- After a live step the arrival flag says whether the walker stands on the
target. -/
theorem found_iff_at_target (g : RouteCtx) (mem : Int → Int) (sx sy tx ty : Int) (k : Nat)
    (h : (walkAt g mem sx sy tx ty (k + 1)).number_steps = k + 1) :
    (walkAt g mem sx sy tx ty (k + 1)).found_route = true ↔
      walkerPos g mem sx sy tx ty (k + 1) = (tx, ty) := by
  obtain ⟨_, h2, _, h4⟩ := walkAt_live_step g mem sx sy tx ty k h
  unfold walkerPos
  rw [h4]
  simp only [advance, h2, Prod.mk.injEq]
  by_cases hc : (walkAt g mem sx sy tx ty k).current_x
      + (chosen g tx ty (walkAt g mem sx sy tx ty k)).best_x = tx ∧
      (walkAt g mem sx sy tx ty k).current_y
      + (chosen g tx ty (walkAt g mem sx sy tx ty k)).best_y = ty
  · simp [hc]
  · simp [hc]

/-- Every cell reached by a live step lies inside the grid and is not blocked, and
it is one of the eight neighbours of the previous cell. -/
theorem walkerPos_step_ok (g : RouteCtx) (mem : Int → Int) (sx sy tx ty : Int) (k : Nat)
    (h : (walkAt g mem sx sy tx ty (k + 1)).number_steps = k + 1) :
    inGrid g (walkerPos g mem sx sy tx ty (k + 1)).1 (walkerPos g mem sx sy tx ty (k + 1)).2 ∧
    is_cell_blocked g (walkerPos g mem sx sy tx ty (k + 1)).1
      (walkerPos g mem sx sy tx ty (k + 1)).2 = false ∧
    ((walkerPos g mem sx sy tx ty (k + 1)).1 - (walkerPos g mem sx sy tx ty k).1,
     (walkerPos g mem sx sy tx ty (k + 1)).2 - (walkerPos g mem sx sy tx ty k).2) ∈ scanOrder ∧
    walkerPos g mem sx sy tx ty (k + 1) ≠ walkerPos g mem sx sy tx ty k := by
  obtain ⟨_, _, h3, h4⟩ := walkAt_live_step g mem sx sy tx ty k h
  obtain ⟨c1, c2, c3, c4, c5, c6, c7⟩ := chosen_ok g tx ty _ h3
  unfold walkerPos inGrid
  rw [h4]
  simp only [advance]
  refine ⟨⟨c3, c4, c5, c6⟩, c7, ?_, ?_⟩
  · simpa using c1
  · intro he
    apply c2
    simp only [Prod.mk.injEq] at he ⊢
    omega

/-- The walk is driven by the position alone: two equal positions are followed
by equal positions. -/
theorem walkerPos_shift (g : RouteCtx) (mem : Int → Int) (sx sy tx ty : Int) (i j d : Nat)
    (hij : i ≤ j) (hlive : (walkAt g mem sx sy tx ty (j + d)).number_steps = j + d)
    (h : walkerPos g mem sx sy tx ty i = walkerPos g mem sx sy tx ty j) :
    walkerPos g mem sx sy tx ty (i + d) = walkerPos g mem sx sy tx ty (j + d) := by
  induction d with
  | zero => exact h
  | succ d ih =>
    have hj : (walkAt g mem sx sy tx ty (j + d)).number_steps = j + d :=
      walkAt_live g mem sx sy tx ty (j + d) (j + (d + 1)) (by omega)
    have hi : (walkAt g mem sx sy tx ty (i + d + 1)).number_steps = i + d + 1 :=
      walkAt_live g mem sx sy tx ty (i + d + 1) (j + (d + 1)) (by omega)
    have e1 := walkerPos_succ g mem sx sy tx ty (i + d) hi
    have e2 := walkerPos_succ g mem sx sy tx ty (j + d) hlive
    rw [show i + (d + 1) = i + d + 1 by omega, show j + (d + 1) = j + d + 1 by omega, e1, e2,
      ih hj]

/-- What a successful walk looks like: it takes `L ≥ 1` steps, none of them
skipped, it exits on the target, and it was not on the target after any
earlier step. -/
theorem walk_success (g : RouteCtx) (mem : Int → Int) (sx sy tx ty : Int)
    (h : (walkFinal g mem sx sy tx ty).found_route = true) :
    1 ≤ routeLength g mem sx sy tx ty ∧
    routeLength g mem sx sy tx ty ≤ (g.size_x * g.size_y).toNat ∧
    walkFinal g mem sx sy tx ty = walkAt g mem sx sy tx ty (routeLength g mem sx sy tx ty) ∧
    (∀ k, k ≤ routeLength g mem sx sy tx ty → (walkAt g mem sx sy tx ty k).number_steps = k) ∧
    walkerPos g mem sx sy tx ty (routeLength g mem sx sy tx ty) = (tx, ty) ∧
    (∀ k, 1 ≤ k → k < routeLength g mem sx sy tx ty →
      walkerPos g mem sx sy tx ty k ≠ (tx, ty)) := by
  have hle : routeLength g mem sx sy tx ty ≤ (g.size_x * g.size_y).toNat :=
    walkAt_steps_le g mem sx sy tx ty _
  have hlive : ∀ k, k ≤ routeLength g mem sx sy tx ty →
      (walkAt g mem sx sy tx ty k).number_steps = k :=
    fun k hk => walkAt_live g mem sx sy tx ty k _ hk
  have heq : walkFinal g mem sx sy tx ty
      = walkAt g mem sx sy tx ty (routeLength g mem sx sy tx ty) :=
    walkAt_eq_of_steps g mem sx sy tx ty _ _ hle (Nat.le_refl _) (hlive _ (Nat.le_refl _))
  have hpos : 1 ≤ routeLength g mem sx sy tx ty := by
    by_contra h0
    have h1 : routeLength g mem sx sy tx ty = 0 := by omega
    rw [heq, h1] at h
    simp [walkAt_zero, walkStart] at h
  refine ⟨hpos, hle, heq, hlive, ?_, ?_⟩
  · obtain ⟨L, hL⟩ : ∃ L, routeLength g mem sx sy tx ty = L + 1 :=
      ⟨routeLength g mem sx sy tx ty - 1, by omega⟩
    rw [heq] at h
    rw [hL] at h hlive ⊢
    exact (found_iff_at_target g mem sx sy tx ty L (hlive _ (Nat.le_refl _))).mp h
  · intro k hk1 hk2 hkt
    obtain ⟨k', rfl⟩ : ∃ k', k = k' + 1 := ⟨k - 1, by omega⟩
    have hf := (found_iff_at_target g mem sx sy tx ty k' (hlive _ (by omega))).mpr hkt
    have hnext := walkAt_live_step g mem sx sy tx ty (k' + 1) (hlive _ (by omega))
    rw [hnext.2.1] at hf
    exact Bool.false_ne_true hf

/-- On a successful walk the positions after the first step are pairwise
distinct, and the source differs from all of them when it is not the target. -/
theorem walkerPos_distinct (g : RouteCtx) (mem : Int → Int) (sx sy tx ty : Int)
    (h : (walkFinal g mem sx sy tx ty).found_route = true) (i j : Nat)
    (hij : i < j) (hj : j ≤ routeLength g mem sx sy tx ty)
    (hi : 1 ≤ i ∨ (sx, sy) ≠ (tx, ty)) :
    walkerPos g mem sx sy tx ty i ≠ walkerPos g mem sx sy tx ty j := by
  obtain ⟨_, _, _, hlive, htarget, hnot⟩ := walk_success g mem sx sy tx ty h
  intro he
  have hs := walkerPos_shift g mem sx sy tx ty i j (routeLength g mem sx sy tx ty - j)
    (by omega) (by rw [show j + (routeLength g mem sx sy tx ty - j)
      = routeLength g mem sx sy tx ty by omega]; exact hlive _ (Nat.le_refl _)) he
  rw [show j + (routeLength g mem sx sy tx ty - j) = routeLength g mem sx sy tx ty by omega,
    htarget] at hs
  by_cases h0 : i + (routeLength g mem sx sy tx ty - j) = 0
  · rw [h0, walkerPos_zero] at hs
    rcases hi with hi | hi
    · omega
    · exact hi hs
  · exact hnot _ (by omega) (by omega) hs

/-! ## The content of the route map -/

theorem writeCell_same (route : Int → Int) (idx v : Int) : writeCell route idx v idx = v := by
  simp [writeCell]

theorem writeCell_other (route : Int → Int) (idx v k : Int) (h : k ≠ idx) :
    writeCell route idx v k = route k := by
  simp [writeCell, h]

/-- A live step onto an owned column stores the step number in the cell. -/
theorem route_succ_owned (g : RouteCtx) (mem : Int → Int) (sx sy tx ty : Int) (k : Nat)
    (h : (walkAt g mem sx sy tx ty (k + 1)).number_steps = k + 1)
    (ho : ownsColumn g (walkerPos g mem sx sy tx ty (k + 1)).1) :
    (walkAt g mem sx sy tx ty (k + 1)).route =
      writeCell (walkAt g mem sx sy tx ty k).route
        (cellIndex g (walkerPos g mem sx sy tx ty (k + 1)).1
          (walkerPos g mem sx sy tx ty (k + 1)).2) ((k : Int) + 1) := by
  obtain ⟨h1, _, _, h4⟩ := walkAt_live_step g mem sx sy tx ty k h
  have hc := walkAt_counter g mem sx sy tx ty k
  rw [h1] at hc
  unfold walkerPos ownsColumn at ho
  unfold walkerPos cellIndex
  rw [h4] at ho ⊢
  simp only [advance] at ho ⊢
  rw [if_pos ho, hc]

/-- A live step onto a column that is not owned leaves the map unchanged. -/
theorem route_succ_not_owned (g : RouteCtx) (mem : Int → Int) (sx sy tx ty : Int) (k : Nat)
    (h : (walkAt g mem sx sy tx ty (k + 1)).number_steps = k + 1)
    (ho : ¬ ownsColumn g (walkerPos g mem sx sy tx ty (k + 1)).1) :
    (walkAt g mem sx sy tx ty (k + 1)).route = (walkAt g mem sx sy tx ty k).route := by
  obtain ⟨_, _, _, h4⟩ := walkAt_live_step g mem sx sy tx ty k h
  unfold walkerPos ownsColumn at ho
  rw [h4] at ho ⊢
  simp only [advance] at ho ⊢
  rw [if_neg ho]

/-- A slab index that no step writes keeps the value it had on entry to the
loop. -/
theorem route_untouched (g : RouteCtx) (mem : Int → Int) (sx sy tx ty : Int) (k : Nat) (idx : Int)
    (hlive : (walkAt g mem sx sy tx ty k).number_steps = k)
    (h : ∀ j, 1 ≤ j → j ≤ k → ownsColumn g (walkerPos g mem sx sy tx ty j).1 →
      cellIndex g (walkerPos g mem sx sy tx ty j).1 (walkerPos g mem sx sy tx ty j).2 ≠ idx) :
    (walkAt g mem sx sy tx ty k).route idx = (walkStart g mem sx sy).route idx := by
  induction k with
  | zero => rfl
  | succ k ih =>
    have hk := (walkAt_live_step g mem sx sy tx ty k hlive).1
    have ih1 := ih hk (fun j h1 h2 => h j h1 (by omega))
    by_cases ho : ownsColumn g (walkerPos g mem sx sy tx ty (k + 1)).1
    · rw [route_succ_owned g mem sx sy tx ty k hlive ho, writeCell_other _ _ _ _ ?_, ih1]
      exact fun he => h (k + 1) (by omega) (Nat.le_refl _) ho he.symm
    · rw [route_succ_not_owned g mem sx sy tx ty k hlive ho, ih1]

/-- The cell written by step `j` holds `j` as long as no later step writes the
same slab index. -/
theorem route_written (g : RouteCtx) (mem : Int → Int) (sx sy tx ty : Int) (k j : Nat)
    (hlive : (walkAt g mem sx sy tx ty k).number_steps = k) (hj1 : 1 ≤ j) (hjk : j ≤ k)
    (ho : ownsColumn g (walkerPos g mem sx sy tx ty j).1)
    (h : ∀ i, j < i → i ≤ k → ownsColumn g (walkerPos g mem sx sy tx ty i).1 →
      cellIndex g (walkerPos g mem sx sy tx ty i).1 (walkerPos g mem sx sy tx ty i).2 ≠
        cellIndex g (walkerPos g mem sx sy tx ty j).1 (walkerPos g mem sx sy tx ty j).2) :
    (walkAt g mem sx sy tx ty k).route
      (cellIndex g (walkerPos g mem sx sy tx ty j).1 (walkerPos g mem sx sy tx ty j).2)
      = (j : Int) := by
  induction k with
  | zero => omega
  | succ k ih =>
    have hk := (walkAt_live_step g mem sx sy tx ty k hlive).1
    by_cases hjk1 : j = k + 1
    · subst hjk1
      rw [route_succ_owned g mem sx sy tx ty k hlive ho, writeCell_same]
      push_cast; rfl
    · have ih1 := ih hk (by omega) (fun i h1 h2 => h i h1 (by omega))
      by_cases ho1 : ownsColumn g (walkerPos g mem sx sy tx ty (k + 1)).1
      · rw [route_succ_owned g mem sx sy tx ty k hlive ho1, writeCell_other _ _ _ _ ?_, ih1]
        exact fun he => h (k + 1) (by omega) (Nat.le_refl _) ho1 he.symm
      · rw [route_succ_not_owned g mem sx sy tx ty k hlive ho1, ih1]

/-- Two cells with rows inside the grid that share a slab index are equal. -/
theorem cellIndex_inj (g : RouteCtx) (x y x1 y1 : Int) (hy : 0 ≤ y ∧ y < g.size_y)
    (hy1 : 0 ≤ y1 ∧ y1 < g.size_y) (h : cellIndex g x y = cellIndex g x1 y1) :
    x = x1 ∧ y = y1 := by
  unfold cellIndex mem_size_y at h
  have hx : x = x1 := by
    rcases lt_trichotomy x x1 with hlt | heq | hgt
    · exfalso
      have : (x1 - x) * (g.size_y + 2) ≥ 1 * (g.size_y + 2) :=
        Int.mul_le_mul_of_nonneg_right (by omega) (by omega)
      nlinarith
    · exact heq
    · exfalso
      have : (x - x1) * (g.size_y + 2) ≥ 1 * (g.size_y + 2) :=
        Int.mul_le_mul_of_nonneg_right (by omega) (by omega)
      nlinarith
  subst hx
  exact ⟨rfl, by omega⟩

theorem mem_upTo (n a : Int) : a ∈ upTo n ↔ 1 ≤ a ∧ a ≤ n := by
  unfold upTo
  simp only [List.mem_map, List.mem_range]
  constructor
  · rintro ⟨k, hk, hka⟩
    omega
  · intro h
    refine ⟨(a - 1).toNat, ?_, ?_⟩ <;> omega

theorem mem_ownedCells (g : RouteCtx) (c : Int × Int) :
    c ∈ ownedCells g ↔ (1 ≤ c.1 ∧ c.1 ≤ g.local_nx) ∧ (1 ≤ c.2 ∧ c.2 ≤ g.size_y) := by
  unfold ownedCells
  simp only [List.mem_flatMap, List.mem_map, mem_upTo]
  constructor
  · rintro ⟨i, hi, j, hj, rfl⟩
    exact ⟨hi, hj⟩
  · intro h
    exact ⟨c.1, h.1, c.2, h.2, rfl⟩

theorem foldl_writeCell_not_mem {α : Type} (l : List α) (f v : α → Int) (mem : Int → Int)
    (idx : Int) (h : ∀ c ∈ l, f c ≠ idx) :
    (l.foldl (fun route c => writeCell route (f c) (v c)) mem) idx = mem idx := by
  induction l generalizing mem with
  | nil => rfl
  | cons a l ih =>
    simp only [List.foldl_cons]
    rw [ih _ (fun c hc => h c (List.mem_cons_of_mem _ hc)),
      writeCell_other _ _ _ _ (fun he => h a (List.mem_cons_self _ _) he.symm)]

theorem foldl_writeCell_mem {α : Type} (l : List α) (f v : α → Int) (mem : Int → Int)
    (idx val : Int) (hc : ∃ c ∈ l, f c = idx) (h : ∀ d ∈ l, f d = idx → v d = val) :
    (l.foldl (fun route c => writeCell route (f c) (v c)) mem) idx = val := by
  induction l generalizing mem with
  | nil => simp at hc
  | cons a l ih =>
    simp only [List.foldl_cons]
    by_cases hex : ∃ d ∈ l, f d = idx
    · exact ih _ hex (fun d hd => h d (List.mem_cons_of_mem _ hd))
    · obtain ⟨c, hcm, hfc⟩ := hc
      have hca : c = a := by
        rcases List.mem_cons.mp hcm with h1 | h1
        · exact h1
        · exact absurd ⟨c, h1, hfc⟩ hex
      subst hca
      rw [foldl_writeCell_not_mem l f v _ idx (fun d hd he => hex ⟨d, hd, he⟩), ← hfc,
        writeCell_same]
      exact h c (List.mem_cons_self _ _) hfc

/-- After the initialisation loops an owned cell holds `-1` when it is blocked and
`0` otherwise. -/
theorem initRoute_owned (g : RouteCtx) (mem : Int → Int) (x y : Int) (hx : ownsColumn g x)
    (hy : 0 ≤ y ∧ y < g.size_y) :
    initRoute g mem (cellIndex g x y) = if is_cell_blocked g x y then -1 else 0 := by
  unfold ownsColumn at hx
  have hmem : (x - g.basex + 1, y + 1) ∈ ownedCells g := by
    rw [mem_ownedCells]; dsimp only; omega
  unfold initRoute
  apply foldl_writeCell_mem
  · exact ⟨(x - g.basex + 1, y + 1), hmem, by unfold cellIndex; ring⟩
  · intro d hd he
    rw [mem_ownedCells] at hd
    have := cellIndex_inj g (d.1 + g.basex - 1) (d.2 - 1) x y (by omega) hy (by
      rw [← he]; unfold cellIndex; ring)
    rw [show g.basex + d.1 - 1 = x by omega, show d.2 - 1 = y by omega]

/-- On entry to the walker loop the source cell holds `0`, and every other owned
cell holds `-1` when it is blocked and `0` otherwise. -/
theorem walkStart_route (g : RouteCtx) (mem : Int → Int) (sx sy x y : Int)
    (hsy : 0 ≤ sy ∧ sy < g.size_y) (hx : ownsColumn g x) (hy : 0 ≤ y ∧ y < g.size_y) :
    (walkStart g mem sx sy).route (cellIndex g x y) =
      if (x, y) = (sx, sy) then 0 else if is_cell_blocked g x y then -1 else 0 := by
  unfold walkStart markSource
  dsimp only
  by_cases he : (x, y) = (sx, sy)
  · rw [if_pos he]
    simp only [Prod.mk.injEq] at he
    obtain ⟨rfl, rfl⟩ := he
    unfold ownsColumn at hx
    rw [if_pos hx]
    exact writeCell_same _ _ _
  · rw [if_neg he]
    split
    · rw [writeCell_other, initRoute_owned g mem x y hx hy]
      intro hc
      have := cellIndex_inj g x y sx sy hy hsy hc
      exact he (by rw [this.1, this.2])
    · exact initRoute_owned g mem x y hx hy

/-! ## The planned route on a single worker -/

theorem generate_route_route (g : RouteCtx) (mem : Int → Int) (cri sx sy tx ty : Int) :
    (generate_route g mem cri sx sy tx ty).route = (walkFinal g mem sx sy tx ty).route := by
  unfold generate_route
  dsimp only
  split <;> rfl

/-- A returned value other than `-1` means that the walker has arrived. -/
theorem generate_route_found (g : RouteCtx) (mem : Int → Int) (cri sx sy tx ty : Int)
    (h : (generate_route g mem cri sx sy tx ty).ret ≠ -1) :
    (walkFinal g mem sx sy tx ty).found_route = true := by
  unfold generate_route at h
  dsimp only at h
  split at h
  · assumption
  · exact absurd rfl h

theorem generate_route_fail (g : RouteCtx) (mem : Int → Int) (cri sx sy tx ty : Int)
    (h : (walkFinal g mem sx sy tx ty).found_route = false) :
    (generate_route g mem cri sx sy tx ty).ret = -1 := by
  unfold generate_route
  simp [h]

theorem ownsColumn_single (g : RouteCtx) (hs : SingleWorker g) (x : Int) :
    ownsColumn g x ↔ 0 ≤ x ∧ x < g.size_x := by
  unfold ownsColumn
  rw [hs.1, hs.2]
  omega

/-- On a successful walk every cell reached by a step lies inside the grid and is
not blocked. -/
theorem walkerPos_inGrid (g : RouteCtx) (mem : Int → Int) (sx sy tx ty : Int)
    (h : (walkFinal g mem sx sy tx ty).found_route = true) (k : Nat) (hk1 : 1 ≤ k)
    (hk : k ≤ routeLength g mem sx sy tx ty) :
    inGrid g (walkerPos g mem sx sy tx ty k).1 (walkerPos g mem sx sy tx ty k).2 ∧
    is_cell_blocked g (walkerPos g mem sx sy tx ty k).1 (walkerPos g mem sx sy tx ty k).2
      = false := by
  obtain ⟨_, _, _, hlive, _, _⟩ := walk_success g mem sx sy tx ty h
  obtain ⟨k', rfl⟩ : ∃ k', k = k' + 1 := ⟨k - 1, by omega⟩
  have := walkerPos_step_ok g mem sx sy tx ty k' (hlive _ hk)
  exact ⟨this.1, this.2.1⟩

/-- On a single worker, after a successful walk the cell reached by step `k` holds
`k`. -/
theorem route_at_step (g : RouteCtx) (mem : Int → Int) (sx sy tx ty : Int)
    (hs : SingleWorker g) (h : (walkFinal g mem sx sy tx ty).found_route = true) (k : Nat)
    (hk1 : 1 ≤ k) (hk : k ≤ routeLength g mem sx sy tx ty) :
    (walkFinal g mem sx sy tx ty).route
      (cellIndex g (walkerPos g mem sx sy tx ty k).1 (walkerPos g mem sx sy tx ty k).2)
      = (k : Int) := by
  obtain ⟨_, _, heq, hlive, _, _⟩ := walk_success g mem sx sy tx ty h
  have hin := (walkerPos_inGrid g mem sx sy tx ty h k hk1 hk).1
  rw [heq]
  apply route_written g mem sx sy tx ty _ k (hlive _ (Nat.le_refl _)) hk1 hk
  · rw [ownsColumn_single g hs]; exact ⟨hin.1, hin.2.1⟩
  · intro i hki hi _ he
    have hini := (walkerPos_inGrid g mem sx sy tx ty h i (by omega) hi).1
    have := cellIndex_inj g _ _ _ _ ⟨hini.2.2.1, hini.2.2.2⟩ ⟨hin.2.2.1, hin.2.2.2⟩ he
    exact walkerPos_distinct g mem sx sy tx ty h k i hki hi (Or.inl hk1)
      (Prod.ext this.1.symm this.2.symm)

/-- On a single worker, after a successful walk a cell of the grid that no step
reaches holds the value it had on entry to the loop. -/
theorem route_off_path (g : RouteCtx) (mem : Int → Int) (sx sy tx ty : Int)
    (h : (walkFinal g mem sx sy tx ty).found_route = true) (x y : Int) (hin : inGrid g x y)
    (hoff : ∀ k, 1 ≤ k → k ≤ routeLength g mem sx sy tx ty →
      walkerPos g mem sx sy tx ty k ≠ (x, y)) :
    (walkFinal g mem sx sy tx ty).route (cellIndex g x y)
      = (walkStart g mem sx sy).route (cellIndex g x y) := by
  obtain ⟨_, _, heq, hlive, _, _⟩ := walk_success g mem sx sy tx ty h
  rw [heq]
  apply route_untouched g mem sx sy tx ty _ _ (hlive _ (Nat.le_refl _))
  intro j hj1 hj _ he
  have hinj := (walkerPos_inGrid g mem sx sy tx ty h j hj1 hj).1
  have := cellIndex_inj g _ _ _ _ ⟨hinj.2.2.1, hinj.2.2.2⟩ ⟨hin.2.2.1, hin.2.2.2⟩ he
  exact hoff j hj1 hj (Prod.ext this.1 this.2)

/-- On entry to the walker loop no owned cell holds a positive value. -/
theorem walkStart_route_le (g : RouteCtx) (mem : Int → Int) (sx sy x y : Int)
    (hx : ownsColumn g x) (hy : 0 ≤ y ∧ y < g.size_y) :
    (walkStart g mem sx sy).route (cellIndex g x y) ≤ 0 := by
  have hi := initRoute_owned g mem x y hx hy
  have hi0 : initRoute g mem (cellIndex g x y) ≤ 0 := by
    rw [hi]; split <;> omega
  unfold walkStart markSource
  dsimp only
  split
  · unfold writeCell
    split
    · omega
    · exact hi0
  · exact hi0

/-- On a single worker, after a successful walk a cell of the grid holding a
positive value `v` is the cell reached by step `v`. -/
theorem route_positive (g : RouteCtx) (mem : Int → Int) (sx sy tx ty : Int)
    (hs : SingleWorker g) (h : (walkFinal g mem sx sy tx ty).found_route = true) (x y : Int)
    (hin : inGrid g x y) (hv : 1 ≤ (walkFinal g mem sx sy tx ty).route (cellIndex g x y)) :
    ∃ k, 1 ≤ k ∧ k ≤ routeLength g mem sx sy tx ty ∧ walkerPos g mem sx sy tx ty k = (x, y) ∧
      (walkFinal g mem sx sy tx ty).route (cellIndex g x y) = (k : Int) := by
  by_cases hex : ∃ k, 1 ≤ k ∧ k ≤ routeLength g mem sx sy tx ty ∧
      walkerPos g mem sx sy tx ty k = (x, y)
  · obtain ⟨k, hk1, hk, hp⟩ := hex
    refine ⟨k, hk1, hk, hp, ?_⟩
    have := route_at_step g mem sx sy tx ty hs h k hk1 hk
    rw [hp] at this
    exact this
  · exfalso
    have h0 := route_off_path g mem sx sy tx ty h x y hin
      (fun k hk1 hk hp => hex ⟨k, hk1, hk, hp⟩)
    have h1 := walkStart_route_le g mem sx sy x y
      ((ownsColumn_single g hs x).mpr ⟨hin.1, hin.2.1⟩) ⟨hin.2.2.1, hin.2.2.2⟩
    omega

/-- On a single worker, after a successful walk from a source inside the grid that
is not the target, the source cell holds `0`. -/
theorem route_at_source (g : RouteCtx) (mem : Int → Int) (sx sy tx ty : Int)
    (hs : SingleWorker g) (hsrc : inGrid g sx sy) (hne : (sx, sy) ≠ (tx, ty))
    (hf : (walkFinal g mem sx sy tx ty).found_route = true) :
    (walkFinal g mem sx sy tx ty).route (cellIndex g sx sy) = 0 := by
  rw [route_off_path g mem sx sy tx ty hf sx sy hsrc,
    walkStart_route g mem sx sy sx sy ⟨hsrc.2.2.1, hsrc.2.2.2⟩
      ((ownsColumn_single g hs sx).mpr ⟨hsrc.1, hsrc.2.1⟩) ⟨hsrc.2.2.1, hsrc.2.2.2⟩,
    if_pos rfl]
  intro k hk1 hk hp
  exact walkerPos_distinct g mem sx sy tx ty hf 0 k (by omega) hk (Or.inr hne) hp.symm

/-! ## Claims about the planned route -/

/-- C1 (as amended): on a single worker, for a source inside the grid that differs
from the target, when `generate_route` succeeds with a walk of `L` steps, the cell
reached by the `k`-th step holds `k` for `1 ≤ k ≤ L`, the walk ends on the target,
which holds `L`, every blocked cell other than the source holds `-1`, the source
holds `0`, and every other cell of the grid that no step reaches holds `0`. -/
theorem route_map_values (g : RouteCtx) (mem : Int → Int) (cri sx sy tx ty : Int)
    (hs : SingleWorker g) (hsrc : inGrid g sx sy) (hne : (sx, sy) ≠ (tx, ty))
    (hret : (generate_route g mem cri sx sy tx ty).ret ≠ -1) :
    (∀ k : Nat, 1 ≤ k → k ≤ routeLength g mem sx sy tx ty →
      (generate_route g mem cri sx sy tx ty).route
        (cellIndex g (walkerPos g mem sx sy tx ty k).1 (walkerPos g mem sx sy tx ty k).2)
        = (k : Int)) ∧
    walkerPos g mem sx sy tx ty (routeLength g mem sx sy tx ty) = (tx, ty) ∧
    (generate_route g mem cri sx sy tx ty).route (cellIndex g tx ty)
      = (routeLength g mem sx sy tx ty : Int) ∧
    (∀ x y, inGrid g x y → is_cell_blocked g x y = true → (x, y) ≠ (sx, sy) →
      (generate_route g mem cri sx sy tx ty).route (cellIndex g x y) = -1) ∧
    (generate_route g mem cri sx sy tx ty).route (cellIndex g sx sy) = 0 ∧
    (∀ x y, inGrid g x y → is_cell_blocked g x y = false →
      (∀ k : Nat, 1 ≤ k → k ≤ routeLength g mem sx sy tx ty →
        walkerPos g mem sx sy tx ty k ≠ (x, y)) →
      (generate_route g mem cri sx sy tx ty).route (cellIndex g x y) = 0) := by
  have hf := generate_route_found g mem cri sx sy tx ty hret
  obtain ⟨hL1, _, _, _, htarget, _⟩ := walk_success g mem sx sy tx ty hf
  rw [generate_route_route]
  have hstart : ∀ x y, inGrid g x y → (walkStart g mem sx sy).route (cellIndex g x y) =
      if (x, y) = (sx, sy) then 0 else if is_cell_blocked g x y then -1 else 0 :=
    fun x y hin => walkStart_route g mem sx sy x y ⟨hsrc.2.2.1, hsrc.2.2.2⟩
      ((ownsColumn_single g hs x).mpr ⟨hin.1, hin.2.1⟩) ⟨hin.2.2.1, hin.2.2.2⟩
  refine ⟨fun k hk1 hk => route_at_step g mem sx sy tx ty hs hf k hk1 hk, htarget, ?_, ?_, ?_, ?_⟩
  · have := route_at_step g mem sx sy tx ty hs hf _ hL1 (Nat.le_refl _)
    rw [htarget] at this
    exact this
  · intro x y hin hb hxy
    rw [route_off_path g mem sx sy tx ty hf x y hin, hstart x y hin, if_neg hxy, if_pos hb]
    intro k hk1 hk hp
    have := (walkerPos_inGrid g mem sx sy tx ty hf k hk1 hk).2
    rw [hp] at this
    rw [hb] at this
    exact Bool.noConfusion this
  · exact route_at_source g mem sx sy tx ty hs hsrc hne hf
  · intro x y hin hb hoff
    rw [route_off_path g mem sx sy tx ty hf x y hin hoff, hstart x y hin]
    split
    · rfl
    · simp [hb]

/-- Witness of C1 on the 4 by 4 grid without islands, from (0,0) to (3,3). -/
theorem route_map_values_witness :
    SingleWorker grid4 ∧ inGrid grid4 0 0 ∧ ((0 : Int), (0 : Int)) ≠ (3, 3) ∧
    (generate_route grid4 zeroMem 0 0 0 3 3).ret ≠ -1 ∧
    (generate_route grid4 zeroMem 0 0 0 3 3).route (cellIndex grid4 3 3)
      = (routeLength grid4 zeroMem 0 0 3 3 : Int) ∧
    (generate_route grid4 zeroMem 0 0 0 3 3).route (cellIndex grid4 0 0) = 0 :=
  ⟨by decide, by decide, by decide, by decide,
    (route_map_values grid4 zeroMem 0 0 0 3 3 (by decide) (by decide) (by decide)
      (by decide)).2.2.1,
    (route_map_values grid4 zeroMem 0 0 0 3 3 (by decide) (by decide) (by decide)
      (by decide)).2.2.2.2.1⟩

/-- C1 as stated fails when the source port stands on an island: on the 2 by 1 grid
with an island at (0,0), `generate_route(0,0,1,0)` succeeds on a single worker, the
source and the target are distinct cells of the grid, the cell (0,0) is blocked,
and it holds `0`, not `-1`. -/
theorem route_map_blocked_source :
    SingleWorker grid2x1 ∧ inGrid grid2x1 0 0 ∧ inGrid grid2x1 1 0 ∧
    ((0 : Int), (0 : Int)) ≠ (1, 0) ∧
    (generate_route grid2x1 junkMem 0 0 0 1 0).ret ≠ -1 ∧
    is_cell_blocked grid2x1 0 0 = true ∧
    (generate_route grid2x1 junkMem 0 0 0 1 0).route (cellIndex grid2x1 0 0) = 0 ∧
    (generate_route grid2x1 junkMem 0 0 0 1 0).route (cellIndex grid2x1 0 0) ≠ -1 := by
  decide

/-- The stored value of the successor cell on the path: on a single worker, after a
successful walk, a cell of the grid at offset `o` from the cell of step `k` holds
`k + 1` exactly when it is the cell of step `k + 1`. -/
theorem successor_cell (g : RouteCtx) (mem : Int → Int) (sx sy tx ty : Int)
    (hs : SingleWorker g) (h : (walkFinal g mem sx sy tx ty).found_route = true) (k : Nat)
    (o : Int × Int)
    (hin : inGrid g ((walkerPos g mem sx sy tx ty k).1 + o.1)
      ((walkerPos g mem sx sy tx ty k).2 + o.2))
    (hv : (walkFinal g mem sx sy tx ty).route
      (cellIndex g ((walkerPos g mem sx sy tx ty k).1 + o.1)
        ((walkerPos g mem sx sy tx ty k).2 + o.2)) = (k : Int) + 1) :
    o = ((walkerPos g mem sx sy tx ty (k + 1)).1 - (walkerPos g mem sx sy tx ty k).1,
         (walkerPos g mem sx sy tx ty (k + 1)).2 - (walkerPos g mem sx sy tx ty k).2) := by
  obtain ⟨j, hj1, hj, hp, hval⟩ := route_positive g mem sx sy tx ty hs h _ _ hin (by omega)
  have hjk : j = k + 1 := by omega
  subst hjk
  rw [hp]
  apply Prod.ext <;> dsimp only <;> omega

/-- C2: on a single worker, after a successful `generate_route`, for every cell of
the grid whose stored value is `k ≥ 1`: if the cell is not the target, exactly one of
its 8 neighbours inside the grid holds `k + 1`; and if no such neighbour holds
`k + 1`, the cell is the target. -/
theorem route_successor_unique (g : RouteCtx) (mem : Int → Int) (cri sx sy tx ty : Int)
    (hs : SingleWorker g) (hret : (generate_route g mem cri sx sy tx ty).ret ≠ -1)
    (x y : Int) (hin : inGrid g x y)
    (hv : 1 ≤ (generate_route g mem cri sx sy tx ty).route (cellIndex g x y)) :
    ((x, y) ≠ (tx, ty) →
      ∃! o : Int × Int, o ∈ scanOrder ∧ o ≠ (0, 0) ∧ inGrid g (x + o.1) (y + o.2) ∧
        (generate_route g mem cri sx sy tx ty).route (cellIndex g (x + o.1) (y + o.2))
          = (generate_route g mem cri sx sy tx ty).route (cellIndex g x y) + 1) ∧
    ((¬ ∃ o : Int × Int, o ∈ scanOrder ∧ o ≠ (0, 0) ∧ inGrid g (x + o.1) (y + o.2) ∧
        (generate_route g mem cri sx sy tx ty).route (cellIndex g (x + o.1) (y + o.2))
          = (generate_route g mem cri sx sy tx ty).route (cellIndex g x y) + 1) →
      (x, y) = (tx, ty)) := by
  have hf := generate_route_found g mem cri sx sy tx ty hret
  obtain ⟨_, _, _, hlive, htarget, _⟩ := walk_success g mem sx sy tx ty hf
  rw [generate_route_route] at hv ⊢
  obtain ⟨k, hk1, hk, hp, hval⟩ := route_positive g mem sx sy tx ty hs hf x y hin hv
  have main : (x, y) ≠ (tx, ty) →
      ∃! o : Int × Int, o ∈ scanOrder ∧ o ≠ (0, 0) ∧ inGrid g (x + o.1) (y + o.2) ∧
        (walkFinal g mem sx sy tx ty).route (cellIndex g (x + o.1) (y + o.2))
          = (walkFinal g mem sx sy tx ty).route (cellIndex g x y) + 1 := by
    intro hnt
    have hkL : k < routeLength g mem sx sy tx ty := by
      rcases Nat.lt_or_ge k (routeLength g mem sx sy tx ty) with h1 | h1
      · exact h1
      · exfalso
        have : k = routeLength g mem sx sy tx ty := by omega
        rw [this, htarget] at hp
        exact hnt hp.symm
    have hstep := walkerPos_step_ok g mem sx sy tx ty k (hlive _ hkL)
    have hnext := route_at_step g mem sx sy tx ty hs hf (k + 1) (by omega) hkL
    have hx : (walkerPos g mem sx sy tx ty k).1 = x := by rw [hp]
    have hy : (walkerPos g mem sx sy tx ty k).2 = y := by rw [hp]
    rw [hx, hy] at hstep
    have e1 : x + ((walkerPos g mem sx sy tx ty (k + 1)).1 - x)
        = (walkerPos g mem sx sy tx ty (k + 1)).1 := by ring
    have e2 : y + ((walkerPos g mem sx sy tx ty (k + 1)).2 - y)
        = (walkerPos g mem sx sy tx ty (k + 1)).2 := by ring
    refine ⟨((walkerPos g mem sx sy tx ty (k + 1)).1 - x,
      (walkerPos g mem sx sy tx ty (k + 1)).2 - y), ⟨hstep.2.2.1, ?_, ?_, ?_⟩, ?_⟩
    · intro h0
      apply hstep.2.2.2
      simp only [Prod.mk.injEq] at h0
      rw [hp]
      apply Prod.ext <;> dsimp only <;> omega
    · dsimp only; rw [e1, e2]; exact hstep.1
    · dsimp only; rw [e1, e2, hnext, hval]; push_cast; ring
    · rintro o ⟨_, _, ho3, ho4⟩
      have := successor_cell g mem sx sy tx ty hs hf k o (by rw [hx, hy]; exact ho3)
        (by rw [hx, hy, ho4, hval])
      rw [hx, hy] at this
      exact this
  refine ⟨main, ?_⟩
  intro hno
  by_contra hnt
  obtain ⟨o, ho, _⟩ := main hnt
  exact hno ⟨o, ho⟩

/-- Witness of C2 on the 4 by 4 grid without islands, route from (0,0) to (3,3),
at the cell (1,1), which holds `1`. -/
theorem route_successor_unique_witness :
    SingleWorker grid4 ∧ (generate_route grid4 zeroMem 0 0 0 3 3).ret ≠ -1 ∧
    inGrid grid4 1 1 ∧
    1 ≤ (generate_route grid4 zeroMem 0 0 0 3 3).route (cellIndex grid4 1 1) ∧
    (((1 : Int), (1 : Int)) ≠ (3, 3) →
      ∃! o : Int × Int, o ∈ scanOrder ∧ o ≠ (0, 0) ∧ inGrid grid4 (1 + o.1) (1 + o.2) ∧
        (generate_route grid4 zeroMem 0 0 0 3 3).route (cellIndex grid4 (1 + o.1) (1 + o.2))
          = (generate_route grid4 zeroMem 0 0 0 3 3).route (cellIndex grid4 1 1) + 1) :=
  ⟨by decide, by decide, by decide, by decide,
    (route_successor_unique grid4 zeroMem 0 0 0 3 3 (by decide) (by decide) 1 1 (by decide)
      (by decide)).1⟩

/-! ## The next-cell lookup -/

theorem find?_of_unique {α : Type} (l : List α) (p : α → Bool) (a : α) (ha : a ∈ l)
    (hp : p a = true) (hu : ∀ b ∈ l, p b = true → b = a) : l.find? p = some a := by
  induction l with
  | nil => simp at ha
  | cons b l ih =>
    by_cases hb : p b = true
    · rw [List.find?_cons_of_pos _ hb, hu b (List.mem_cons_self _ _) hb]
    · rw [List.find?_cons_of_neg _ hb]
      apply ih
      · rcases List.mem_cons.mp ha with h1 | h1
        · rw [h1] at hp; exact absurd hp hb
        · exact h1
      · exact fun c hc => hu c (List.mem_cons_of_mem _ hc)

/-- The test made by `getNextCell` on offset `o`, written with `cellIndex`. -/
theorem getNextCell_eq (g : RouteCtx) (route : Int → Int) (x y : Int) :
    getNextCell g route x y =
      scanOrder.find? (fun o => decide (inGrid g (x + o.1) (y + o.2) ∧
        route (cellIndex g (x + o.1) (y + o.2)) = route (cellIndex g x y) + 1)) := by
  unfold getNextCell
  dsimp only
  congr 1
  funext o
  have e1 : (x - g.basex + 1 + o.1) * mem_size_y g + y + 1 + o.2
      = cellIndex g (x + o.1) (y + o.2) := by unfold cellIndex; ring
  have e2 : (x - g.basex + 1) * mem_size_y g + y + 1 = cellIndex g x y := rfl
  rw [e1, e2]
  apply decide_eq_decide.mpr
  unfold inGrid
  constructor
  · rintro ⟨h1, h2, h3, h4, h5⟩
    exact ⟨⟨h1, h2, h3, h4⟩, h5⟩
  · rintro ⟨⟨h1, h2, h3, h4⟩, h5⟩
    exact ⟨h1, h2, h3, h4, h5⟩

/-- C4: when `getNextCell` writes an offset `o` for the cell `(x, y)` holding `k`, the
offset is one of the nine scanned offsets, the cell at that offset lies inside the
global grid, the slab cell at that offset (whatever its column, halo columns
included) holds `k + 1`, no offset scanned before `o` passes that test, and `o` is
not `(0, 0)`. -/
theorem getNextCell_first (g : RouteCtx) (route : Int → Int) (x y : Int) (o : Int × Int)
    (h : getNextCell g route x y = some o) :
    o ∈ scanOrder ∧ inGrid g (x + o.1) (y + o.2) ∧
    route (cellIndex g (x + o.1) (y + o.2)) = route (cellIndex g x y) + 1 ∧
    (∃ before after, scanOrder = before ++ o :: after ∧
      ∀ p ∈ before, ¬ (inGrid g (x + p.1) (y + p.2) ∧
        route (cellIndex g (x + p.1) (y + p.2)) = route (cellIndex g x y) + 1)) ∧
    o ≠ (0, 0) := by
  rw [getNextCell_eq] at h
  have hmem := List.mem_of_find?_eq_some h
  obtain ⟨hp, before, after, hsplit, hbefore⟩ := List.find?_eq_some.mp h
  simp only [decide_eq_true_eq] at hp
  refine ⟨hmem, hp.1, hp.2, ⟨before, after, hsplit, ?_⟩, ?_⟩
  · intro p hpm hc
    have := hbefore p hpm
    simp only [Bool.not_eq_true', decide_eq_false_iff_not] at this
    exact this hc
  · intro h0
    have h2 := hp.2
    rw [h0] at h2
    simp only [add_zero] at h2
    omega

/-- Witness of C4 on a worker that owns the columns 0 and 1 of a grid 4 columns wide:
at the owned cell (1,0), which holds `0`, the only cell holding `1` is (2,0), stored
in the halo column `local_nx + 1`, and the lookup writes the offset (1,0). -/
theorem getNextCell_first_witness :
    getNextCell leftHalf haloRoute 1 0 = some (1, 0) ∧
    ((1 : Int), (0 : Int)) ∈ scanOrder ∧ inGrid leftHalf (1 + 1) (0 + 0) ∧
    haloRoute (cellIndex leftHalf (1 + 1) (0 + 0)) = haloRoute (cellIndex leftHalf 1 0) + 1 ∧
    cellIndex leftHalf (1 + 1) (0 + 0) = (leftHalf.local_nx + 1) * mem_size_y leftHalf + 1 ∧
    ((1 : Int), (0 : Int)) ≠ (0, 0) :=
  ⟨by decide,
    (getNextCell_first leftHalf haloRoute 1 0 (1, 0) (by decide)).1,
    (getNextCell_first leftHalf haloRoute 1 0 (1, 0) (by decide)).2.1,
    (getNextCell_first leftHalf haloRoute 1 0 (1, 0) (by decide)).2.2.1,
    by decide,
    (getNextCell_first leftHalf haloRoute 1 0 (1, 0) (by decide)).2.2.2.2⟩

/-- The lookup on the path: on a single worker, after a successful walk, at the cell
of step `k < L` that holds `k`, `getNextCell` writes the offset to the cell of step
`k + 1`. -/
theorem getNextCell_on_path (g : RouteCtx) (mem : Int → Int) (sx sy tx ty : Int)
    (hs : SingleWorker g) (h : (walkFinal g mem sx sy tx ty).found_route = true) (k : Nat)
    (hk : k < routeLength g mem sx sy tx ty)
    (hval : (walkFinal g mem sx sy tx ty).route
      (cellIndex g (walkerPos g mem sx sy tx ty k).1 (walkerPos g mem sx sy tx ty k).2)
        = (k : Int)) :
    getNextCell g (walkFinal g mem sx sy tx ty).route (walkerPos g mem sx sy tx ty k).1
      (walkerPos g mem sx sy tx ty k).2 =
    some ((walkerPos g mem sx sy tx ty (k + 1)).1 - (walkerPos g mem sx sy tx ty k).1,
          (walkerPos g mem sx sy tx ty (k + 1)).2 - (walkerPos g mem sx sy tx ty k).2) := by
  obtain ⟨_, _, _, hlive, _, _⟩ := walk_success g mem sx sy tx ty h
  have hstep := walkerPos_step_ok g mem sx sy tx ty k (hlive _ hk)
  have hnext := route_at_step g mem sx sy tx ty hs h (k + 1) (by omega) hk
  rw [getNextCell_eq]
  apply find?_of_unique
  · exact hstep.2.2.1
  · simp only [decide_eq_true_eq]
    rw [show (walkerPos g mem sx sy tx ty k).1 + ((walkerPos g mem sx sy tx ty (k + 1)).1
        - (walkerPos g mem sx sy tx ty k).1) = (walkerPos g mem sx sy tx ty (k + 1)).1 by ring,
      show (walkerPos g mem sx sy tx ty k).2 + ((walkerPos g mem sx sy tx ty (k + 1)).2
        - (walkerPos g mem sx sy tx ty k).2) = (walkerPos g mem sx sy tx ty (k + 1)).2 by ring,
      hnext, hval]
    exact ⟨hstep.1, by push_cast; ring⟩
  · intro o _ ho
    simp only [decide_eq_true_eq] at ho
    exact successor_cell g mem sx sy tx ty hs h k o ho.1 (by rw [ho.2, hval])

/-- Following the map from the cell of step `j` for `n` lookups leads to the cell of
step `j + n`, provided the cell of step `j` holds `j`. -/
theorem followRoute_on_path (g : RouteCtx) (mem : Int → Int) (sx sy tx ty : Int)
    (hs : SingleWorker g) (h : (walkFinal g mem sx sy tx ty).found_route = true) (n j : Nat)
    (hjn : j + n ≤ routeLength g mem sx sy tx ty)
    (hval : (walkFinal g mem sx sy tx ty).route
      (cellIndex g (walkerPos g mem sx sy tx ty j).1 (walkerPos g mem sx sy tx ty j).2)
        = (j : Int)) :
    followRoute g (walkFinal g mem sx sy tx ty).route n (walkerPos g mem sx sy tx ty j)
      = some (walkerPos g mem sx sy tx ty (j + n)) := by
  induction n generalizing j with
  | zero => rfl
  | succ n ih =>
    unfold followRoute
    rw [getNextCell_on_path g mem sx sy tx ty hs h j (by omega) hval]
    dsimp only
    rw [show (walkerPos g mem sx sy tx ty j).1 + ((walkerPos g mem sx sy tx ty (j + 1)).1
        - (walkerPos g mem sx sy tx ty j).1) = (walkerPos g mem sx sy tx ty (j + 1)).1 by ring,
      show (walkerPos g mem sx sy tx ty j).2 + ((walkerPos g mem sx sy tx ty (j + 1)).2
        - (walkerPos g mem sx sy tx ty j).2) = (walkerPos g mem sx sy tx ty (j + 1)).2 by ring]
    have := ih (j + 1) (by omega)
      (by rw [route_at_step g mem sx sy tx ty hs h (j + 1) (by omega) (by omega)])
    rw [show j + (n + 1) = j + 1 + n by omega]
    exact this

/-- C3 (as amended): on a single worker, for a source inside the grid that differs
from the target, after a successful `generate_route` with walker positions
`p_0, ..., p_L`: for every `k < L`, `getNextCell` at `p_k` writes the offset
`p_(k+1) - p_k`; following the lookups from the source leads to `p_k` after `k`
moves, to the target after `L` moves, and not to the target before. -/
theorem getNextCell_follows_route (g : RouteCtx) (mem : Int → Int) (cri sx sy tx ty : Int)
    (hs : SingleWorker g) (hsrc : inGrid g sx sy) (hne : (sx, sy) ≠ (tx, ty))
    (hret : (generate_route g mem cri sx sy tx ty).ret ≠ -1) :
    (∀ k : Nat, k < routeLength g mem sx sy tx ty →
      getNextCell g (generate_route g mem cri sx sy tx ty).route
        (walkerPos g mem sx sy tx ty k).1 (walkerPos g mem sx sy tx ty k).2 =
      some ((walkerPos g mem sx sy tx ty (k + 1)).1 - (walkerPos g mem sx sy tx ty k).1,
            (walkerPos g mem sx sy tx ty (k + 1)).2 - (walkerPos g mem sx sy tx ty k).2)) ∧
    (∀ k : Nat, k ≤ routeLength g mem sx sy tx ty →
      followRoute g (generate_route g mem cri sx sy tx ty).route k (sx, sy)
        = some (walkerPos g mem sx sy tx ty k)) ∧
    followRoute g (generate_route g mem cri sx sy tx ty).route
      (routeLength g mem sx sy tx ty) (sx, sy) = some (tx, ty) ∧
    (∀ k : Nat, k < routeLength g mem sx sy tx ty →
      followRoute g (generate_route g mem cri sx sy tx ty).route k (sx, sy)
        ≠ some (tx, ty)) := by
  have hf := generate_route_found g mem cri sx sy tx ty hret
  obtain ⟨_, _, _, _, htarget, hnot⟩ := walk_success g mem sx sy tx ty hf
  have h0 := route_at_source g mem sx sy tx ty hs hsrc hne hf
  rw [generate_route_route]
  have hval : ∀ k : Nat, k ≤ routeLength g mem sx sy tx ty →
      (walkFinal g mem sx sy tx ty).route
        (cellIndex g (walkerPos g mem sx sy tx ty k).1 (walkerPos g mem sx sy tx ty k).2)
        = (k : Int) := by
    intro k hk
    by_cases hk0 : k = 0
    · subst hk0
      rw [walkerPos_zero]
      exact h0
    · exact route_at_step g mem sx sy tx ty hs hf k (by omega) hk
  have hfollow : ∀ k : Nat, k ≤ routeLength g mem sx sy tx ty →
      followRoute g (walkFinal g mem sx sy tx ty).route k (sx, sy)
        = some (walkerPos g mem sx sy tx ty k) := by
    intro k hk
    have := followRoute_on_path g mem sx sy tx ty hs hf k 0 (by omega) (hval 0 (by omega))
    rw [walkerPos_zero, Nat.zero_add] at this
    exact this
  refine ⟨fun k hk => getNextCell_on_path g mem sx sy tx ty hs hf k hk (hval k (by omega)),
    hfollow, ?_, ?_⟩
  · rw [hfollow _ (Nat.le_refl _), htarget]
  · intro k hk he
    rw [hfollow k (by omega)] at he
    have hpk : walkerPos g mem sx sy tx ty k = (tx, ty) := Option.some.inj he
    by_cases hk0 : k = 0
    · subst hk0
      rw [walkerPos_zero] at hpk
      exact hne hpk
    · exact hnot k (by omega) hk hpk

/-- Witness of C3 on the 4 by 4 grid without islands, from (0,0) to (3,3): three
lookups lead from the source to the target. -/
theorem getNextCell_follows_route_witness :
    SingleWorker grid4 ∧ inGrid grid4 0 0 ∧ ((0 : Int), (0 : Int)) ≠ (3, 3) ∧
    (generate_route grid4 zeroMem 0 0 0 3 3).ret ≠ -1 ∧
    followRoute grid4 (generate_route grid4 zeroMem 0 0 0 3 3).route
      (routeLength grid4 zeroMem 0 0 3 3) (0, 0) = some (3, 3) :=
  ⟨by decide, by decide, by decide, by decide,
    (getNextCell_follows_route grid4 zeroMem 0 0 0 3 3 (by decide) (by decide) (by decide)
      (by decide)).2.2.1⟩

/-- C3 as stated fails when the source is the target: on the 2 by 2 grid without
islands, `generate_route(0,0,0,0)` succeeds on a single worker with a walk of two
steps, `p_0 = (0,0)`, `p_1 = (0,1)`, yet `getNextCell` at `p_0` writes nothing, since
`p_0` holds `2` and no cell holds `3`. -/
theorem getNextCell_source_is_target :
    SingleWorker grid2 ∧ (generate_route grid2 junkMem 0 0 0 0 0).ret ≠ -1 ∧
    routeLength grid2 junkMem 0 0 0 0 = 2 ∧
    walkerPos grid2 junkMem 0 0 0 0 0 = (0, 0) ∧
    walkerPos grid2 junkMem 0 0 0 0 1 = (0, 1) ∧
    walkerPos grid2 junkMem 0 0 0 0 2 = (0, 0) ∧
    (generate_route grid2 junkMem 0 0 0 0 0).route (cellIndex grid2 0 0) = 2 ∧
    getNextCell grid2 (generate_route grid2 junkMem 0 0 0 0 0).route 0 0 = none ∧
    getNextCell grid2 (generate_route grid2 junkMem 0 0 0 0 0).route
        (walkerPos grid2 junkMem 0 0 0 0 0).1 (walkerPos grid2 junkMem 0 0 0 0 0).2 ≠
      some ((walkerPos grid2 junkMem 0 0 0 0 1).1 - (walkerPos grid2 junkMem 0 0 0 0 0).1,
            (walkerPos grid2 junkMem 0 0 0 0 1).2 - (walkerPos grid2 junkMem 0 0 0 0 0).2) := by
  decide

/-! ## Termination, failure and the test scenarios -/

theorem walkIterations_le (g : RouteCtx) (tx ty : Int) (n : Nat) (s : WalkState) :
    walkIterations g tx ty n s ≤ n := by
  induction n generalizing s with
  | zero => simp [walkIterations]
  | succ n ih =>
    unfold walkIterations
    dsimp only
    split
    · omega
    · split
      · omega
      · have := ih (advance g tx ty s
          (selectBest (grid_scores g s.current_x s.current_y tx ty)))
        omega

/-- The cells of the walk up to a live step are linked by steps over the sea. -/
theorem walk_reachable (g : RouteCtx) (mem : Int → Int) (sx sy tx ty : Int) (k : Nat)
    (hlive : (walkAt g mem sx sy tx ty k).number_steps = k) :
    Reachable g (sx, sy) (walkerPos g mem sx sy tx ty k) := by
  induction k with
  | zero => exact Relation.ReflTransGen.refl
  | succ k ih =>
    have hk := (walkAt_live_step g mem sx sy tx ty k hlive).1
    have hstep := walkerPos_step_ok g mem sx sy tx ty k hlive
    exact Relation.ReflTransGen.tail (ih hk) ⟨hstep.2.2.1, hstep.2.2.2, hstep.1, hstep.2.1⟩

/-- The walker variables other than the route map do not depend on the content of
the map nor on the columns the worker owns. -/
theorem walkLoop_sameWalker (g h : RouteCtx) (hg : sameGrid g h) (tx ty : Int) (n : Nat)
    (s t : WalkState) (hst : sameWalker s t) :
    sameWalker (walkLoop g tx ty n s) (walkLoop h tx ty n t) := by
  induction n generalizing s t with
  | zero => exact hst
  | succ n ih =>
    obtain ⟨h1, h2, h3, h4, h5⟩ := hst
    obtain ⟨g1, g2, g3⟩ := hg
    have hsc : grid_scores g s.current_x s.current_y tx ty
        = grid_scores h t.current_x t.current_y tx ty := by
      funext o
      unfold grid_scores generate_score is_cell_blocked
      rw [h1, h2, g1, g2, g3]
    have hch : chosen g tx ty s = chosen h tx ty t := by
      unfold chosen; rw [hsc]
    rw [walkLoop_succ, walkLoop_succ, ← h3, ← hch]
    by_cases hf : s.found_route = true
    · simp only [hf, if_true]
      exact ⟨h1, h2, h3, h4, h5⟩
    · by_cases hl : (chosen g tx ty s).current_best = LOW_SCORE
      · simp only [hf, hl, if_true]
        exact ⟨h1, h2, h3, h4, h5⟩
      · simp only [hf, hl, if_false]
        apply ih
        unfold sameWalker advance
        dsimp only
        rw [h1, h2, h3, h4, h5]
        exact ⟨rfl, rfl, rfl, rfl, rfl⟩

theorem walkAt_sameWalker (g h : RouteCtx) (hg : sameGrid g h) (mem mem1 : Int → Int)
    (sx sy tx ty : Int) (k : Nat) :
    sameWalker (walkAt g mem sx sy tx ty k) (walkAt h mem1 sx sy tx ty k) :=
  walkLoop_sameWalker g h hg tx ty k _ _ ⟨rfl, rfl, rfl, rfl, rfl⟩

/-- C5: for every grid, island set, source and target, the walker loop of
`generate_route` enters its body at most `size_x * size_y` times, the walk has at
most that many steps, and the (total) function returns `-1` whenever the target
cannot be reached from the source by steps to 8-neighbours that lie inside the grid
and are not blocked. -/
theorem generate_route_bounded (g : RouteCtx) (mem : Int → Int) (cri sx sy tx ty : Int) :
    walkIterations g tx ty (g.size_x * g.size_y).toNat (walkStart g mem sx sy)
      ≤ (g.size_x * g.size_y).toNat ∧
    routeLength g mem sx sy tx ty ≤ (g.size_x * g.size_y).toNat ∧
    (¬ Reachable g (sx, sy) (tx, ty) → (generate_route g mem cri sx sy tx ty).ret = -1) := by
  refine ⟨walkIterations_le g tx ty _ _, walkAt_steps_le g mem sx sy tx ty _, ?_⟩
  intro hnr
  by_contra hret
  have hf := generate_route_found g mem cri sx sy tx ty hret
  obtain ⟨_, _, _, hlive, htarget, _⟩ := walk_success g mem sx sy tx ty hf
  have := walk_reachable g mem sx sy tx ty _ (hlive _ (Nat.le_refl _))
  rw [htarget] at this
  exact hnr this

/-- Witness of C5: on the 2 by 1 grid with an island at (0,0), the island cannot be
reached from (1,0), and `generate_route(1,0,0,0)` returns `-1`. -/
theorem generate_route_bounded_witness :
    ¬ Reachable grid2x1 (1, 0) (0, 0) ∧ (generate_route grid2x1 junkMem 0 1 0 0 0).ret = -1 := by
  have hnr : ¬ Reachable grid2x1 (1, 0) (0, 0) := by
    intro h
    rcases Relation.ReflTransGen.cases_tail h with h1 | ⟨q, _, hq⟩
    · exact absurd h1 (by decide)
    · exact absurd hq.2.2.2 (by decide)
  exact ⟨hnr, (generate_route_bounded grid2x1 junkMem 0 1 0 0 0).2.2 hnr⟩

/-- The walker variables of the exit state do not depend on the content of the map
nor on the columns the worker owns. -/
theorem walkFinal_sameWalker (g h : RouteCtx) (hg : sameGrid g h) (mem mem1 : Int → Int)
    (sx sy tx ty : Int) :
    sameWalker (walkFinal g mem sx sy tx ty) (walkFinal h mem1 sx sy tx ty) := by
  unfold walkFinal
  rw [hg.1, hg.2.1]
  exact walkAt_sameWalker g h hg mem mem1 sx sy tx ty _

theorem generate_route_ret (g : RouteCtx) (mem : Int → Int) (cri sx sy tx ty : Int)
    (h : (walkFinal g mem sx sy tx ty).found_route = true) :
    (generate_route g mem cri sx sy tx ty).ret = cri := by
  unfold generate_route
  simp [h]

/-- C6: on the 16 by 16 grid with islands at (2,12) and (5,15), whatever the columns
the worker owns and the content of the allocated block, `generate_route(0,10,14,15)`
returns the route index (`0` in the test driver), the walk reaches (14,15) after 15
steps, fewer than 256, and every cell on it, the source included, lies inside the
grid and is not blocked.  In general, after every successful `generate_route` each
cell reached by a step lies inside the grid and is not blocked (and so does the
source when it is itself such a cell). -/
theorem test_driver_route :
    (∀ (local_nx basex : Int) (mem : Int → Int) (cri : Int),
      (generate_route (grid16On local_nx basex) mem cri 0 10 14 15).ret = cri ∧
      (generate_route (grid16On local_nx basex) mem 0 0 10 14 15).ret ≠ -1 ∧
      routeLength (grid16On local_nx basex) mem 0 10 14 15 = 15 ∧
      routeLength (grid16On local_nx basex) mem 0 10 14 15 < 256 ∧
      walkerPos (grid16On local_nx basex) mem 0 10 14 15 15 = (14, 15) ∧
      ∀ k : Nat, k ≤ 15 →
        inGrid (grid16On local_nx basex)
          (walkerPos (grid16On local_nx basex) mem 0 10 14 15 k).1
          (walkerPos (grid16On local_nx basex) mem 0 10 14 15 k).2 ∧
        is_cell_blocked (grid16On local_nx basex)
          (walkerPos (grid16On local_nx basex) mem 0 10 14 15 k).1
          (walkerPos (grid16On local_nx basex) mem 0 10 14 15 k).2 = false) ∧
    (∀ (g : RouteCtx) (mem : Int → Int) (cri sx sy tx ty : Int),
      (generate_route g mem cri sx sy tx ty).ret ≠ -1 →
      ∀ k : Nat, k ≤ routeLength g mem sx sy tx ty →
        (1 ≤ k ∨ (inGrid g sx sy ∧ is_cell_blocked g sx sy = false)) →
        inGrid g (walkerPos g mem sx sy tx ty k).1 (walkerPos g mem sx sy tx ty k).2 ∧
        is_cell_blocked g (walkerPos g mem sx sy tx ty k).1 (walkerPos g mem sx sy tx ty k).2
          = false) := by
  have general : ∀ (g : RouteCtx) (mem : Int → Int) (cri sx sy tx ty : Int),
      (generate_route g mem cri sx sy tx ty).ret ≠ -1 →
      ∀ k : Nat, k ≤ routeLength g mem sx sy tx ty →
        (1 ≤ k ∨ (inGrid g sx sy ∧ is_cell_blocked g sx sy = false)) →
        inGrid g (walkerPos g mem sx sy tx ty k).1 (walkerPos g mem sx sy tx ty k).2 ∧
        is_cell_blocked g (walkerPos g mem sx sy tx ty k).1 (walkerPos g mem sx sy tx ty k).2
          = false := by
    intro g mem cri sx sy tx ty hret k hk hor
    have hf := generate_route_found g mem cri sx sy tx ty hret
    by_cases hk1 : 1 ≤ k
    · exact walkerPos_inGrid g mem sx sy tx ty hf k hk1 hk
    · have hk0 : k = 0 := by omega
      subst hk0
      rcases hor with h1 | h1
      · omega
      · rw [walkerPos_zero]; exact h1
  refine ⟨?_, general⟩
  intro local_nx basex mem cri
  have hsame := walkFinal_sameWalker (grid16On local_nx basex) grid16 ⟨rfl, rfl, rfl⟩ mem zeroMem
    0 10 14 15
  have hfound : (walkFinal (grid16On local_nx basex) mem 0 10 14 15).found_route = true := by
    rw [hsame.2.2.1]; decide
  have hlen : routeLength (grid16On local_nx basex) mem 0 10 14 15 = 15 := by
    unfold routeLength; rw [hsame.2.2.2.2]; decide
  have hret := generate_route_ret (grid16On local_nx basex) mem 0 0 10 14 15 hfound
  have hne : (generate_route (grid16On local_nx basex) mem 0 0 10 14 15).ret ≠ -1 := by
    rw [hret]; decide
  refine ⟨generate_route_ret _ mem cri 0 10 14 15 hfound, hne, hlen, by rw [hlen]; decide, ?_, ?_⟩
  · have := (walk_success _ mem 0 10 14 15 hfound).2.2.2.2.1
    rw [hlen] at this
    exact this
  · intro k hk
    have hsrc : inGrid grid16 0 10 ∧ is_cell_blocked grid16 0 10 = false := by decide
    exact general _ mem 0 0 10 14 15 hne k (by rw [hlen]; exact hk) (Or.inr hsrc)

/-- Witness of C6: the general part at the 4 by 4 grid without islands, route from
(0,0) to (3,3), second step. -/
theorem test_driver_route_witness :
    (generate_route grid4 zeroMem 0 0 0 3 3).ret ≠ -1 ∧
    2 ≤ routeLength grid4 zeroMem 0 0 3 3 ∧
    inGrid grid4 (walkerPos grid4 zeroMem 0 0 3 3 2).1 (walkerPos grid4 zeroMem 0 0 3 3 2).2 ∧
    is_cell_blocked grid4 (walkerPos grid4 zeroMem 0 0 3 3 2).1
      (walkerPos grid4 zeroMem 0 0 3 3 2).2 = false :=
  ⟨by decide, by decide,
    test_driver_route.2 grid4 zeroMem 0 0 0 3 3 (by decide) 2 (by decide) (Or.inl (by decide))⟩

/-- C7 as stated fails: on the 8 by 8 grid with islands at (i, 7 - i), i = 0..7, on a
single worker, `generate_route` does not return `-1` for (0,0) to (7,7) nor for
(7,7) to (0,0): both calls return the route index `0`, while every one of the eight
barrier cells is blocked. -/
theorem diagonal_barrier_crossed :
    (generate_route grid8 junkMem 0 0 0 7 7).ret = 0 ∧
    (generate_route grid8 junkMem 0 0 0 7 7).ret ≠ -1 ∧
    (generate_route grid8 junkMem 0 7 7 0 0).ret = 0 ∧
    (generate_route grid8 junkMem 0 7 7 0 0).ret ≠ -1 ∧
    (∀ i : Fin 8, is_cell_blocked grid8 (i.val : Int) (7 - (i.val : Int)) = true) := by
  decide

/-- C7 (as amended): on the 8 by 8 grid with islands at (i, 7 - i), i = 0..7, whatever
the columns the worker owns and the content of the allocated block, `generate_route`
succeeds in both directions and returns the route index: the walker takes the 7
diagonal steps (1,1), ..., (7,7), respectively (6,6), ..., (0,0), stepping between the
islands (3,4) and (4,3), which are neighbours only by a corner. -/
theorem diagonal_barrier_route (local_nx basex : Int) (mem : Int → Int) (cri : Int) :
    ((generate_route (grid8On local_nx basex) mem cri 0 0 7 7).ret = cri ∧
      routeLength (grid8On local_nx basex) mem 0 0 7 7 = 7 ∧
      ∀ k : Nat, k ≤ 7 →
        walkerPos (grid8On local_nx basex) mem 0 0 7 7 k = ((k : Int), (k : Int))) ∧
    ((generate_route (grid8On local_nx basex) mem cri 7 7 0 0).ret = cri ∧
      routeLength (grid8On local_nx basex) mem 7 7 0 0 = 7 ∧
      ∀ k : Nat, k ≤ 7 →
        walkerPos (grid8On local_nx basex) mem 7 7 0 0 k = (7 - (k : Int), 7 - (k : Int))) := by
  have hsame1 := walkFinal_sameWalker (grid8On local_nx basex) grid8 ⟨rfl, rfl, rfl⟩ mem zeroMem
    0 0 7 7
  have hsame2 := walkFinal_sameWalker (grid8On local_nx basex) grid8 ⟨rfl, rfl, rfl⟩ mem zeroMem
    7 7 0 0
  have hpos1 : ∀ k : Nat, k ≤ 7 →
      walkerPos (grid8On local_nx basex) mem 0 0 7 7 k = ((k : Int), (k : Int)) := by
    intro k hk
    have hs := walkAt_sameWalker (grid8On local_nx basex) grid8 ⟨rfl, rfl, rfl⟩ mem zeroMem
      0 0 7 7 k
    unfold walkerPos
    rw [hs.1, hs.2.1]
    have hall : ∀ j : Fin 8, ((walkAt grid8 zeroMem 0 0 7 7 j.val).current_x,
        (walkAt grid8 zeroMem 0 0 7 7 j.val).current_y) = ((j.val : Int), (j.val : Int)) := by
      decide
    exact hall ⟨k, by omega⟩
  have hpos2 : ∀ k : Nat, k ≤ 7 →
      walkerPos (grid8On local_nx basex) mem 7 7 0 0 k = (7 - (k : Int), 7 - (k : Int)) := by
    intro k hk
    have hs := walkAt_sameWalker (grid8On local_nx basex) grid8 ⟨rfl, rfl, rfl⟩ mem zeroMem
      7 7 0 0 k
    unfold walkerPos
    rw [hs.1, hs.2.1]
    have hall : ∀ j : Fin 8, ((walkAt grid8 zeroMem 7 7 0 0 j.val).current_x,
        (walkAt grid8 zeroMem 7 7 0 0 j.val).current_y)
          = (7 - (j.val : Int), 7 - (j.val : Int)) := by
      decide
    exact hall ⟨k, by omega⟩
  refine ⟨⟨?_, ?_, hpos1⟩, ⟨?_, ?_, hpos2⟩⟩
  · exact generate_route_ret _ mem cri 0 0 7 7 (by rw [hsame1.2.2.1]; decide)
  · unfold routeLength; rw [hsame1.2.2.2.2]; decide
  · exact generate_route_ret _ mem cri 7 7 0 0 (by rw [hsame2.2.2.1]; decide)
  · unfold routeLength; rw [hsame2.2.2.2.2]; decide

/-! ## The walk on a grid without islands -/

theorem axis_gain (d a : Int) (ha : -1 ≤ a ∧ a ≤ 1) :
    abs_int d - abs_int (d - a) ≤ abs_int (sgn d) ∧
    (abs_int d - abs_int (d - a) = abs_int (sgn d) → a = sgn d) ∧
    abs_int d - abs_int (d - sgn d) = abs_int (sgn d) := by
  unfold abs_int sgn
  refine ⟨?_, ?_, ?_⟩ <;> split_ifs <;> omega

theorem scanOrder_bounds (o : Int × Int) (h : o ∈ scanOrder) :
    (-1 ≤ o.1 ∧ o.1 ≤ 1) ∧ (-1 ≤ o.2 ∧ o.2 ≤ 1) := by
  unfold scanOrder at h
  simp only [List.mem_cons, List.mem_singleton, List.not_mem_nil, or_false] at h
  rcases h with rfl | rfl | rfl | rfl | rfl | rfl | rfl | rfl | rfl <;> decide

theorem mem_scanOrder (a b : Int) (ha : -1 ≤ a ∧ a ≤ 1) (hb : -1 ≤ b ∧ b ≤ 1) :
    (a, b) ∈ scanOrder := by
  have h1 : a = -1 ∨ a = 0 ∨ a = 1 := by omega
  have h2 : b = -1 ∨ b = 0 ∨ b = 1 := by omega
  rcases h1 with rfl | rfl | rfl <;> rcases h2 with rfl | rfl | rfl <;> decide

theorem sgn_bounds (d : Int) : -1 ≤ sgn d ∧ sgn d ≤ 1 := by
  unfold sgn; split_ifs <;> omega

theorem is_cell_blocked_nil (g : RouteCtx) (hno : g.blocked_cells = []) (x y : Int) :
    is_cell_blocked g x y = false := by
  unfold is_cell_blocked
  rw [hno]
  rfl

/-- The score of every offset is `LOW_SCORE` or the sum of the progress on both axes. -/
theorem grid_scores_cases (g : RouteCtx) (x y tx ty : Int) (o : Int × Int) :
    grid_scores g x y tx ty o = LOW_SCORE ∨
    grid_scores g x y tx ty o =
      (abs_int (tx - x) - abs_int (tx - x - o.1)) + (abs_int (ty - y) - abs_int (ty - y - o.2)) := by
  unfold grid_scores generate_score
  rw [show tx - (x + o.1) = tx - x - o.1 by ring, show ty - (y + o.2) = ty - y - o.2 by ring]
  split_ifs <;> simp

/-- Without islands, the score of an offset that stays inside the grid and is not the
centre is the sum of the progress on both axes. -/
theorem grid_scores_free (g : RouteCtx) (hno : g.blocked_cells = []) (x y tx ty : Int)
    (o : Int × Int) (ho : o ≠ (0, 0)) (hin : inGrid g (x + o.1) (y + o.2)) :
    grid_scores g x y tx ty o =
      (abs_int (tx - x) - abs_int (tx - x - o.1)) + (abs_int (ty - y) - abs_int (ty - y - o.2)) := by
  unfold inGrid at hin
  unfold grid_scores generate_score
  rw [show tx - (x + o.1) = tx - x - o.1 by ring, show ty - (y + o.2) = ty - y - o.2 by ring,
    is_cell_blocked_nil g hno, if_neg ho, if_neg (by omega), if_neg (by omega),
    if_neg (by omega), if_neg (by omega)]
  simp

/-- Without islands, from a cell of the grid other than the target the walker chooses
the offset that advances on every axis on which it is not yet aligned with the
target. -/
theorem selectBest_no_islands (g : RouteCtx) (hno : g.blocked_cells = []) (x y tx ty : Int)
    (hin : inGrid g x y) (htin : inGrid g tx ty) (hne : (x, y) ≠ (tx, ty)) :
    selectBest (grid_scores g x y tx ty) =
      ⟨abs_int (sgn (tx - x)) + abs_int (sgn (ty - y)), sgn (tx - x), sgn (ty - y)⟩ := by
  unfold inGrid at hin htin
  have hxy : tx - x ≠ 0 ∨ ty - y ≠ 0 := by
    by_contra hc
    apply hne
    rw [Prod.mk.injEq]
    omega
  have hsx := sgn_bounds (tx - x)
  have hsy := sgn_bounds (ty - y)
  have ho0 : (sgn (tx - x), sgn (ty - y)) ≠ (0, 0) := by
    rw [Ne, Prod.mk.injEq]
    unfold sgn
    split_ifs <;> first | omega | simp
  have hoin : inGrid g (x + sgn (tx - x)) (y + sgn (ty - y)) := by
    unfold inGrid sgn
    split_ifs <;> omega
  have hscore := grid_scores_free g hno x y tx ty (sgn (tx - x), sgn (ty - y)) ho0 hoin
  dsimp only at hscore
  rw [(axis_gain (tx - x) 0 (by omega)).2.2, (axis_gain (ty - y) 0 (by omega)).2.2] at hscore
  have hpos : abs_int (sgn (tx - x)) + abs_int (sgn (ty - y)) ≥ 1 := by
    unfold abs_int sgn
    split_ifs <;> omega
  have key := selectBest_unique_max (grid_scores g x y tx ty) (sgn (tx - x), sgn (ty - y))
    (mem_scanOrder _ _ hsx hsy) (by rw [hscore]; unfold LOW_SCORE; omega) (by
      intro p hp hpne
      rw [hscore]
      rcases grid_scores_cases g x y tx ty p with h1 | h1
      · rw [h1]; unfold LOW_SCORE; omega
      · rw [h1]
        have hb := scanOrder_bounds p hp
        have a1 := axis_gain (tx - x) p.1 hb.1
        have a2 := axis_gain (ty - y) p.2 hb.2
        by_contra hge
        apply hpne
        apply Prod.ext
        · exact a1.2.1 (by omega)
        · exact a2.2.1 (by omega))
  rw [key, hscore]

theorem walkLoop_found (g : RouteCtx) (tx ty : Int) (n : Nat) (s : WalkState)
    (h : s.found_route = true) : walkLoop g tx ty n s = s := by
  cases n with
  | zero => rfl
  | succ n => rw [walkLoop_succ]; simp [h]

/-- Without islands, a walker that stands inside the grid at Chebyshev distance
`D ≥ 1` from the target arrives after exactly `D` more steps when the loop bound
allows them. -/
theorem walkLoop_no_islands (g : RouteCtx) (hno : g.blocked_cells = []) (tx ty : Int)
    (htin : inGrid g tx ty) (D n : Nat) (s : WalkState) (hf : s.found_route = false)
    (hin : inGrid g s.current_x s.current_y)
    (hD : chebyshev s.current_x s.current_y tx ty = (D : Int)) (hD1 : 1 ≤ D) (hn : D ≤ n) :
    (walkLoop g tx ty n s).found_route = true ∧
    (walkLoop g tx ty n s).number_steps = s.number_steps + D := by
  induction D generalizing n s with
  | zero => omega
  | succ d ih =>
    obtain ⟨n, rfl⟩ : ∃ m, n = m + 1 := ⟨n - 1, by omega⟩
    have hne : (s.current_x, s.current_y) ≠ (tx, ty) := by
      intro he
      rw [Prod.mk.injEq] at he
      unfold chebyshev abs_int at hD
      rw [he.1, he.2] at hD
      simp at hD
      omega
    have hsel := selectBest_no_islands g hno s.current_x s.current_y tx ty hin htin hne
    have hch : chosen g tx ty s = ⟨abs_int (sgn (tx - s.current_x))
        + abs_int (sgn (ty - s.current_y)), sgn (tx - s.current_x), sgn (ty - s.current_y)⟩ :=
      hsel
    have hlow : (chosen g tx ty s).current_best ≠ LOW_SCORE := by
      rw [hch]
      unfold LOW_SCORE abs_int sgn
      dsimp only
      split_ifs <;> omega
    rw [walkLoop_succ, hf, if_neg (by simp), if_neg hlow, hch]
    have hin1 : inGrid g (s.current_x + sgn (tx - s.current_x))
        (s.current_y + sgn (ty - s.current_y)) := by
      unfold inGrid at hin htin ⊢
      unfold sgn
      split_ifs <;> omega
    have hD' : chebyshev (s.current_x + sgn (tx - s.current_x))
        (s.current_y + sgn (ty - s.current_y)) tx ty = (d : Int) := by
      unfold chebyshev abs_int at hD ⊢
      unfold sgn
      push_cast at hD
      split_ifs at hD ⊢ <;> omega
    by_cases hd : d = 0
    · subst hd
      have hat : s.current_x + sgn (tx - s.current_x) = tx ∧
          s.current_y + sgn (ty - s.current_y) = ty := by
        unfold chebyshev abs_int at hD'
        push_cast at hD'
        split_ifs at hD' <;> omega
      have hfound : (advance g tx ty s ⟨abs_int (sgn (tx - s.current_x))
          + abs_int (sgn (ty - s.current_y)), sgn (tx - s.current_x),
          sgn (ty - s.current_y)⟩).found_route = true := by
        simp only [advance, hat, and_self, if_true]
      rw [walkLoop_found g tx ty n _ hfound]
      exact ⟨hfound, rfl⟩
    · have hnat : ¬ (s.current_x + sgn (tx - s.current_x) = tx ∧
          s.current_y + sgn (ty - s.current_y) = ty) := by
        intro hat
        unfold chebyshev abs_int at hD'
        rw [hat.1, hat.2] at hD'
        simp at hD'
        omega
      have := ih n (advance g tx ty s ⟨abs_int (sgn (tx - s.current_x))
          + abs_int (sgn (ty - s.current_y)), sgn (tx - s.current_x),
          sgn (ty - s.current_y)⟩) (by simp only [advance, hnat, if_false]; exact hf)
        hin1 hD' (by omega) (by omega)
      refine ⟨this.1, ?_⟩
      rw [this.2]
      simp only [advance]
      omega

/-- C8: on a grid without islands, for every pair of distinct cells of the grid (a
source or target in column 0 included), `generate_route` succeeds, returning the
route index, and the number of walker steps is the Chebyshev distance
`max(|tx - sx|, |ty - sy|)`; on the 4 by 4 grid the route from (0,0) to (3,3) is the
three diagonal steps (1,1), (2,2), (3,3). -/
theorem no_islands_route (g : RouteCtx) (hno : g.blocked_cells = []) (mem : Int → Int)
    (cri sx sy tx ty : Int) (hsrc : inGrid g sx sy) (htgt : inGrid g tx ty)
    (hne : (sx, sy) ≠ (tx, ty)) :
    (walkFinal g mem sx sy tx ty).found_route = true ∧
    (generate_route g mem cri sx sy tx ty).ret = cri ∧
    (routeLength g mem sx sy tx ty : Int) = chebyshev sx sy tx ty ∧
    (routeLength grid4 mem 0 0 3 3 = 3 ∧ walkerPos grid4 mem 0 0 3 3 1 = (1, 1) ∧
      walkerPos grid4 mem 0 0 3 3 2 = (2, 2) ∧ walkerPos grid4 mem 0 0 3 3 3 = (3, 3)) := by
  have hc : 1 ≤ chebyshev sx sy tx ty ∧
      (chebyshev sx sy tx ty < g.size_x ∨ chebyshev sx sy tx ty < g.size_y) := by
    have hxy : tx - sx ≠ 0 ∨ ty - sy ≠ 0 := by
      by_contra hc
      apply hne
      rw [Prod.mk.injEq]
      omega
    unfold inGrid at hsrc htgt
    unfold chebyshev abs_int
    split_ifs <;> omega
  have hx1 : g.size_x ≤ g.size_x * g.size_y := by
    unfold inGrid at hsrc
    nlinarith [hsrc.1, hsrc.2.1, hsrc.2.2.1, hsrc.2.2.2]
  have hy1 : g.size_y ≤ g.size_x * g.size_y := by
    unfold inGrid at hsrc
    nlinarith [hsrc.1, hsrc.2.1, hsrc.2.2.1, hsrc.2.2.2]
  have hfuel : (chebyshev sx sy tx ty).toNat ≤ (g.size_x * g.size_y).toNat := by
    apply Int.toNat_le_toNat
    rcases hc.2 with h | h <;> linarith
  have key := walkLoop_no_islands g hno tx ty htgt (chebyshev sx sy tx ty).toNat
    (g.size_x * g.size_y).toNat (walkStart g mem sx sy) rfl hsrc
    (by rw [Int.toNat_of_nonneg (by omega)]; rfl) (by omega) hfuel
  have hfound : (walkFinal g mem sx sy tx ty).found_route = true := key.1
  refine ⟨hfound, generate_route_ret g mem cri sx sy tx ty hfound, ?_, ?_⟩
  · have h2 : routeLength g mem sx sy tx ty = 0 + (chebyshev sx sy tx ty).toNat := key.2
    rw [h2]
    push_cast
    rw [Int.toNat_of_nonneg (by omega)]
    ring
  · have hs := walkFinal_sameWalker grid4 grid4 ⟨rfl, rfl, rfl⟩ mem zeroMem 0 0 3 3
    have h1 := walkAt_sameWalker grid4 grid4 ⟨rfl, rfl, rfl⟩ mem zeroMem 0 0 3 3 1
    have h2 := walkAt_sameWalker grid4 grid4 ⟨rfl, rfl, rfl⟩ mem zeroMem 0 0 3 3 2
    have h3 := walkAt_sameWalker grid4 grid4 ⟨rfl, rfl, rfl⟩ mem zeroMem 0 0 3 3 3
    refine ⟨?_, ?_, ?_, ?_⟩
    · unfold routeLength; rw [hs.2.2.2.2]; decide
    · unfold walkerPos; rw [h1.1, h1.2.1]; decide
    · unfold walkerPos; rw [h2.1, h2.2.1]; decide
    · unfold walkerPos; rw [h3.1, h3.2.1]; decide

/-- Witness of C8: on the 16 by 16 grid without islands, the route from the left
edge cell (0,10) to (14,15) succeeds with 14 steps. -/
theorem no_islands_route_witness :
    open16.blocked_cells = [] ∧ inGrid open16 0 10 ∧ inGrid open16 14 15 ∧
    ((0 : Int), (10 : Int)) ≠ (14, 15) ∧
    (routeLength open16 zeroMem 0 10 14 15 : Int) = chebyshev 0 10 14 15 ∧
    chebyshev 0 10 14 15 = 14 :=
  ⟨rfl, by decide, by decide, by decide,
    (no_islands_route open16 rfl zeroMem 0 0 10 14 15 (by decide) (by decide)
      (by decide)).2.2.1,
    by decide⟩

/-! ## The column partition -/

/-- The partition in closed form: the first `nx mod size` ranks own one column more
than `nx div size`, and the base column is the number of columns owned by the lower
ranks. -/
theorem partition_eq (SX W : Nat) (hW : 1 ≤ W) (r : Int) (hr : 0 ≤ r) :
    partition SX W r =
      if r < (SX : Int) % W then ((SX : Int) / W + 1, r * ((SX : Int) / W + 1))
      else ((SX : Int) / W,
        ((SX : Int) % W) * ((SX : Int) / W + 1) + (r - (SX : Int) % W) * ((SX : Int) / W)) := by
  have hWpos : (0 : Int) < W := by exact_mod_cast hW
  have hdiv : (W : Int) * ((SX : Int) / W) + (SX : Int) % W = SX := Int.ediv_add_emod _ _
  have hm0 : 0 ≤ (SX : Int) % W := Int.emod_nonneg _ (by omega)
  unfold partition
  rw [Int.tdiv_eq_ediv (by omega) (by omega)]
  generalize (SX : Int) / W = q at *
  generalize (SX : Int) % W = m at *
  have hqW : q * (W : Int) = W * q := by ring
  dsimp only
  by_cases h1 : q * (W : Int) < SX
  · rw [if_pos h1]
    have hspec : (SX : Int) - q * W = m := by omega
    rw [hspec]
  · rw [if_neg h1]
    have hm : m = 0 := by omega
    rw [hm, if_neg (by omega)]
    apply Prod.ext
    · rfl
    · dsimp only; ring

theorem local_nx_eq (SX W : Nat) (hW : 1 ≤ W) (r : Nat) :
    local_nx SX W r = if (r : Int) < (SX : Int) % W then (SX : Int) / W + 1 else (SX : Int) / W := by
  unfold local_nx
  rw [partition_eq SX W hW r (by omega)]
  split <;> rfl

theorem basex_eq (SX W : Nat) (hW : 1 ≤ W) (r : Nat) :
    basex SX W r = if (r : Int) < (SX : Int) % W then (r : Int) * ((SX : Int) / W + 1)
      else ((SX : Int) % W) * ((SX : Int) / W + 1) + ((r : Int) - (SX : Int) % W) * ((SX : Int) / W) := by
  unfold basex
  rw [partition_eq SX W hW r (by omega)]
  split <;> rfl

theorem local_nx_nonneg (SX W : Nat) (hW : 1 ≤ W) (r : Nat) : 0 ≤ local_nx SX W r := by
  rw [local_nx_eq SX W hW]
  have : 0 ≤ (SX : Int) / W := Int.ediv_nonneg (by omega) (by omega)
  split <;> omega

/-- The base column of the next rank is the base column of this rank plus the number
of columns this rank owns. -/
theorem basex_succ (SX W : Nat) (hW : 1 ≤ W) (r : Nat) :
    basex SX W ((r + 1 : Nat) : Int) = basex SX W r + local_nx SX W r := by
  rw [basex_eq SX W hW, basex_eq SX W hW, local_nx_eq SX W hW]
  push_cast
  generalize (SX : Int) / W = q
  generalize (SX : Int) % W = m
  by_cases h1 : (r : Int) + 1 < m
  · have h2 : (r : Int) < m := by omega
    simp only [if_pos h1, if_pos h2]
    ring
  · by_cases h2 : (r : Int) < m
    · have hm : m = (r : Int) + 1 := by omega
      simp only [if_neg h1, if_pos h2]
      rw [hm]
      ring
    · simp only [if_neg h1, if_neg h2]
      ring

theorem basex_zero (SX W : Nat) (hW : 1 ≤ W) : basex SX W 0 = 0 := by
  have := basex_eq SX W hW 0
  have hm0 : 0 ≤ (SX : Int) % W := Int.emod_nonneg _ (by omega)
  push_cast at this
  rw [this]
  split
  · ring
  · have hm : (SX : Int) % W = 0 := by omega
    rw [hm]
    ring

/-- The columns owned by the ranks below `n` number `basex n`. -/
theorem sum_local_nx (SX W : Nat) (hW : 1 ≤ W) (n : Nat) :
    ∑ r in Finset.range n, local_nx SX W (r : Int) = basex SX W n := by
  induction n with
  | zero => rw [Finset.sum_range_zero]; exact (basex_zero SX W hW).symm
  | succ n ih => rw [Finset.sum_range_succ, ih, basex_succ SX W hW]

theorem basex_size (SX W : Nat) (hW : 1 ≤ W) : basex SX W W = SX := by
  rw [basex_eq SX W hW]
  have hWpos : (0 : Int) < W := by exact_mod_cast hW
  have hdiv : (W : Int) * ((SX : Int) / W) + (SX : Int) % W = SX := Int.ediv_add_emod _ _
  have hlt : (SX : Int) % W < W := Int.emod_lt_of_pos _ hWpos
  rw [if_neg (by omega)]
  linarith

theorem basex_mono (SX W : Nat) (hW : 1 ≤ W) (r s : Nat) (h : r ≤ s) :
    basex SX W r ≤ basex SX W s := by
  induction s with
  | zero =>
    have : r = 0 := by omega
    rw [this]
  | succ s ih =>
    by_cases hrs : r = s + 1
    · rw [hrs]
    · have h1 := ih (by omega)
      have h2 := basex_succ SX W hW s
      have h3 := local_nx_nonneg SX W hW s
      omega

/-- Every column below the base column of rank `n` lies in the range of a lower
rank. -/
theorem column_owner_exists (SX W : Nat) (hW : 1 ≤ W) (n : Nat) (x : Int) (hx0 : 0 ≤ x)
    (hx : x < basex SX W n) :
    ∃ r : Nat, r < n ∧ basex SX W r ≤ x ∧ x < basex SX W r + local_nx SX W r := by
  induction n with
  | zero =>
    have := basex_zero SX W hW
    push_cast at hx
    omega
  | succ n ih =>
    by_cases h : x < basex SX W n
    · obtain ⟨r, hr, h1, h2⟩ := ih h
      exact ⟨r, by omega, h1, h2⟩
    · have h2 := basex_succ SX W hW n
      exact ⟨n, by omega, by omega, by omega⟩

/-- C9: for every `SX ≥ 0`, `W ≥ 1` and rank `r` in `[0, W)`, the partition computed in
`main` gives `local_nx(r) = SX div W + 1` when `r < SX mod W` and `SX div W`
otherwise, and the sum of `local_nx(r)` over all ranks is `SX`. -/
theorem local_nx_sum (SX W : Nat) (hW : 1 ≤ W) :
    (∀ r : Nat, r < W →
      local_nx SX W r = if (r : Int) < (SX : Int) % W then (SX : Int) / W + 1
        else (SX : Int) / W) ∧
    ∑ r in Finset.range W, local_nx SX W (r : Int) = SX := by
  refine ⟨fun r _ => local_nx_eq SX W hW r, ?_⟩
  rw [sum_local_nx SX W hW, basex_size SX W hW]

/-- Witness of C9: 10 columns on 4 workers are split 3, 3, 2, 2. -/
theorem local_nx_sum_witness :
    1 ≤ 4 ∧ ∑ r in Finset.range 4, local_nx (10 : Nat) (4 : Nat) (r : Int) = (10 : Nat) ∧
    local_nx 10 4 0 = 3 ∧ local_nx 10 4 1 = 3 ∧ local_nx 10 4 2 = 2 ∧ local_nx 10 4 3 = 2 :=
  ⟨by decide, (local_nx_sum 10 4 (by decide)).2, by decide, by decide, by decide, by decide⟩

/-- C10: for every `SX ≥ 0` and `W ≥ 1`, `basex(0) = 0`, `basex(r + 1) = basex(r) +
local_nx(r)` for every `r < W - 1`, `basex` is monotone non-decreasing over the
ranks, and every global column `x` in `[0, SX)` satisfies
`basex(r) ≤ x < basex(r) + local_nx(r)` for exactly one rank `r`. -/
theorem basex_columns (SX W : Nat) (hW : 1 ≤ W) :
    basex SX W 0 = 0 ∧
    (∀ r : Nat, r + 1 < W →
      basex SX W ((r + 1 : Nat) : Int) = basex SX W r + local_nx SX W r) ∧
    (∀ r s : Nat, r ≤ s → s < W → basex SX W r ≤ basex SX W s) ∧
    (∀ x : Nat, x < SX →
      ∃! r : Nat, r < W ∧ basex SX W r ≤ (x : Int) ∧
        (x : Int) < basex SX W r + local_nx SX W r) := by
  refine ⟨basex_zero SX W hW, fun r _ => basex_succ SX W hW r,
    fun r s h _ => basex_mono SX W hW r s h, ?_⟩
  intro x hx
  obtain ⟨r, hr, h1, h2⟩ := column_owner_exists SX W hW W x (by omega)
    (by rw [basex_size SX W hW]; exact_mod_cast hx)
  refine ⟨r, ⟨hr, h1, h2⟩, ?_⟩
  rintro s ⟨_, hs1, hs2⟩
  by_contra hne
  rcases Nat.lt_or_gt_of_ne hne with hlt | hgt
  · have e := basex_succ SX W hW s
    have m := basex_mono SX W hW (s + 1) r (by omega)
    omega
  · have e := basex_succ SX W hW r
    have m := basex_mono SX W hW (r + 1) s (by omega)
    omega

/-- Witness of C10: with 10 columns on 4 workers the base columns are 0, 3, 6, 8, and
column 7 belongs to exactly one rank. -/
theorem basex_columns_witness :
    1 ≤ 4 ∧ basex (10 : Nat) (4 : Nat) 0 = 0 ∧
    basex 10 4 1 = 3 ∧ basex 10 4 2 = 6 ∧ basex 10 4 3 = 8 ∧
    (∃! r : Nat, r < 4 ∧ basex (10 : Nat) (4 : Nat) r ≤ ((7 : Nat) : Int) ∧
      ((7 : Nat) : Int) < basex (10 : Nat) (4 : Nat) r + local_nx (10 : Nat) (4 : Nat) r) :=
  ⟨by decide, (basex_columns 10 4 (by decide)).1, by decide, by decide, by decide,
    (basex_columns 10 4 (by decide)).2.2.2 7 (by decide)⟩

/-! ## The route map of one worker among several -/

/-- Two cells whose rows lie between `-1` and `size_y` and that share a slab index are
equal. -/
theorem cellIndex_inj_wide (g : RouteCtx) (x y x1 y1 : Int) (hy : -1 ≤ y ∧ y ≤ g.size_y)
    (hy1 : -1 ≤ y1 ∧ y1 ≤ g.size_y) (h : cellIndex g x y = cellIndex g x1 y1) :
    x = x1 ∧ y = y1 := by
  unfold cellIndex mem_size_y at h
  have hx : x = x1 := by
    rcases lt_trichotomy x x1 with hlt | heq | hgt
    · exfalso
      have : (x1 - x) * (g.size_y + 2) ≥ 1 * (g.size_y + 2) :=
        Int.mul_le_mul_of_nonneg_right (by omega) (by omega)
      nlinarith
    · exact heq
    · exfalso
      have : (x - x1) * (g.size_y + 2) ≥ 1 * (g.size_y + 2) :=
        Int.mul_le_mul_of_nonneg_right (by omega) (by omega)
      nlinarith
  subst hx
  exact ⟨rfl, by omega⟩

/-- On entry to the walker loop, for a source whose row lies between `-1` and
`size_y`, an owned cell holds `0` when it is the source, and otherwise `-1` when it is
blocked and `0` when it is not. -/
theorem walkStart_route_wide (g : RouteCtx) (mem : Int → Int) (sx sy x y : Int)
    (hsy : -1 ≤ sy ∧ sy ≤ g.size_y) (hx : ownsColumn g x) (hy : 0 ≤ y ∧ y < g.size_y) :
    (walkStart g mem sx sy).route (cellIndex g x y) =
      if (x, y) = (sx, sy) then 0 else if is_cell_blocked g x y then -1 else 0 := by
  unfold walkStart markSource
  dsimp only
  by_cases he : (x, y) = (sx, sy)
  · rw [if_pos he]
    simp only [Prod.mk.injEq] at he
    obtain ⟨rfl, rfl⟩ := he
    unfold ownsColumn at hx
    rw [if_pos hx]
    exact writeCell_same _ _ _
  · rw [if_neg he]
    split
    · rw [writeCell_other, initRoute_owned g mem x y hx hy]
      intro hc
      have := cellIndex_inj_wide g x y sx sy (by omega) hsy hc
      exact he (by rw [this.1, this.2])
    · exact initRoute_owned g mem x y hx hy

/-- One execution of the loop body stores the route counter in the cell moved to when
its column is owned, and changes no other entry of the map. -/
theorem advance_route (g : RouteCtx) (tx ty : Int) (s : WalkState) (b : Best) (x y : Int)
    (hy : 0 ≤ y ∧ y < g.size_y)
    (hny : 0 ≤ s.current_y + b.best_y ∧ s.current_y + b.best_y < g.size_y)
    (hx : ownsColumn g x) :
    (advance g tx ty s b).route (cellIndex g x y) =
      if (s.current_x + b.best_x, s.current_y + b.best_y) = (x, y) then s.routeCounter
      else s.route (cellIndex g x y) := by
  unfold advance
  dsimp only
  by_cases he : (s.current_x + b.best_x, s.current_y + b.best_y) = (x, y)
  · rw [if_pos he]
    rw [Prod.mk.injEq] at he
    rw [he.1, he.2]
    unfold ownsColumn at hx
    rw [if_pos hx]
    exact writeCell_same _ _ _
  · rw [if_neg he]
    split
    · rw [writeCell_other]
      intro hc
      have := cellIndex_inj g _ _ _ _ hy hny hc
      exact he (by rw [this.1, this.2])
    · rfl

/-- Two workers that see the same grid and islands hold the same value in every cell
that both own, after any number of walker iterations, provided the row of the source
lies between `-1` and `size_y`. -/
theorem walkAt_route_agree (g h : RouteCtx) (hg : sameGrid g h) (mem mem1 : Int → Int)
    (sx sy tx ty : Int) (hsy : -1 ≤ sy ∧ sy ≤ g.size_y) (k : Nat) (x y : Int)
    (hxg : ownsColumn g x) (hxh : ownsColumn h x) (hy : 0 ≤ y ∧ y < g.size_y) :
    (walkAt g mem sx sy tx ty k).route (cellIndex g x y) =
      (walkAt h mem1 sx sy tx ty k).route (cellIndex h x y) := by
  have hyh : 0 ≤ y ∧ y < h.size_y := by rw [← hg.2.1]; exact hy
  induction k with
  | zero =>
    rw [walkAt_zero, walkAt_zero, walkStart_route_wide g mem sx sy x y hsy hxg hy,
      walkStart_route_wide h mem1 sx sy x y (by rw [← hg.2.1]; exact hsy) hxh hyh]
    have hb : is_cell_blocked g x y = is_cell_blocked h x y := by
      unfold is_cell_blocked; rw [hg.2.2]
    rw [hb]
  | succ k ih =>
    have hs := walkAt_sameWalker g h hg mem mem1 sx sy tx ty k
    have hs1 := walkAt_sameWalker g h hg mem mem1 sx sy tx ty (k + 1)
    rcases walkAt_succ_cases g mem sx sy tx ty k with e1 | ⟨_, c1, e1⟩ <;>
      rcases walkAt_succ_cases h mem1 sx sy tx ty k with e2 | ⟨_, c2, e2⟩
    · rw [e1, e2]; exact ih
    · exfalso
      have := hs1.2.2.2.2
      rw [e1, e2] at this
      simp only [advance] at this
      have := hs.2.2.2.2
      omega
    · exfalso
      have := hs1.2.2.2.2
      rw [e1, e2] at this
      simp only [advance] at this
      have := hs.2.2.2.2
      omega
    · have ok1 := chosen_ok g tx ty _ c1
      have ok2 := chosen_ok h tx ty _ c2
      have hpx : (walkAt g mem sx sy tx ty k).current_x
          + (chosen g tx ty (walkAt g mem sx sy tx ty k)).best_x
          = (walkAt h mem1 sx sy tx ty k).current_x
          + (chosen h tx ty (walkAt h mem1 sx sy tx ty k)).best_x := by
        have := hs1.1
        rw [e1, e2] at this
        exact this
      have hpy : (walkAt g mem sx sy tx ty k).current_y
          + (chosen g tx ty (walkAt g mem sx sy tx ty k)).best_y
          = (walkAt h mem1 sx sy tx ty k).current_y
          + (chosen h tx ty (walkAt h mem1 sx sy tx ty k)).best_y := by
        have := hs1.2.1
        rw [e1, e2] at this
        exact this
      rw [e1, e2, advance_route g tx ty _ _ x y hy ⟨ok1.2.2.2.2.1, ok1.2.2.2.2.2.1⟩ hxg,
        advance_route h tx ty _ _ x y hyh ⟨ok2.2.2.2.2.1, ok2.2.2.2.2.2.1⟩ hxh, hpx, hpy, ih,
        hs.2.2.2.1]

/-- A successful walk starts in a row between `-1` and `size_y`. -/
theorem source_row_of_success (g : RouteCtx) (mem : Int → Int) (sx sy tx ty : Int)
    (h : (walkFinal g mem sx sy tx ty).found_route = true) : -1 ≤ sy ∧ sy ≤ g.size_y := by
  obtain ⟨hL, _, _, hlive, _, _⟩ := walk_success g mem sx sy tx ty h
  have hstep := walkerPos_step_ok g mem sx sy tx ty 0 (hlive 1 hL)
  have hb := scanOrder_bounds _ hstep.2.2.1
  have hin := hstep.1
  unfold inGrid at hin
  rw [walkerPos_zero] at hb
  dsimp only at hb
  omega

theorem basex_nonneg (SX W : Nat) (hW : 1 ≤ W) (r : Nat) : 0 ≤ basex SX W r := by
  have h0 := basex_zero SX W hW
  have := basex_mono SX W hW 0 r (by omega)
  push_cast at this
  omega

theorem basex_add_local_nx_le (SX W : Nat) (hW : 1 ≤ W) (r : Nat) (hr : r < W) :
    basex SX W r + local_nx SX W r ≤ SX := by
  have h1 := basex_succ SX W hW r
  have h2 := basex_mono SX W hW (r + 1) W (by omega)
  have h3 := basex_size SX W hW
  omega

/-- C11: for every `W ≥ 1` and every rank `r < W` with the partition
`(basex(r), local_nx(r))`, and every source, target and island set, `generate_route` on
worker `r` returns the same value as on a single worker owning the whole grid (for
the same `current_route_index`), and when it succeeds every owned cell `(i, j)`,
`1 ≤ i ≤ local_nx(r)`, `1 ≤ j ≤ SY`, of the map of worker `r` holds the value the
single-worker map holds at the global cell `(basex(r) + i - 1, j - 1)`. -/
theorem worker_route_refines_single (SX W r : Nat) (hW : 1 ≤ W) (hr : r < W) (SY : Int)
    (blocked : List (Int × Int)) (mem memS : Int → Int) (cri sx sy tx ty : Int) :
    (generate_route (workerCtx SX W r SY blocked) mem cri sx sy tx ty).ret
      = (generate_route (singleCtx SX SY blocked) memS cri sx sy tx ty).ret ∧
    ((generate_route (workerCtx SX W r SY blocked) mem cri sx sy tx ty).ret ≠ -1 →
      ∀ i j : Int, 1 ≤ i → i ≤ local_nx SX W r → 1 ≤ j → j ≤ SY →
        (generate_route (workerCtx SX W r SY blocked) mem cri sx sy tx ty).route
            (i * mem_size_y (workerCtx SX W r SY blocked) + j)
          = (generate_route (singleCtx SX SY blocked) memS cri sx sy tx ty).route
            (cellIndex (singleCtx SX SY blocked) (basex SX W r + i - 1) (j - 1))) := by
  have hg : sameGrid (workerCtx SX W r SY blocked) (singleCtx SX SY blocked) := ⟨rfl, rfl, rfl⟩
  have hsame := walkFinal_sameWalker _ _ hg mem memS sx sy tx ty
  constructor
  · unfold generate_route
    dsimp only
    rw [hsame.2.2.1]
    split <;> rfl
  · intro hret i j hi1 hi hj1 hj
    have hf := generate_route_found _ mem cri sx sy tx ty hret
    have hsy := source_row_of_success _ mem sx sy tx ty hf
    have hb0 := basex_nonneg SX W hW r
    have hb1 := basex_add_local_nx_le SX W hW r hr
    rw [generate_route_route, generate_route_route]
    have key := walkAt_route_agree (workerCtx SX W r SY blocked) (singleCtx SX SY blocked) hg
      mem memS sx sy tx ty hsy ((workerCtx SX W r SY blocked).size_x
        * (workerCtx SX W r SY blocked).size_y).toNat (basex SX W r + i - 1) (j - 1)
      (by unfold ownsColumn workerCtx; dsimp only; omega)
      (by unfold ownsColumn singleCtx; dsimp only; omega)
      (by unfold workerCtx; dsimp only; omega)
    have e : cellIndex (workerCtx SX W r SY blocked) (basex SX W r + i - 1) (j - 1)
        = i * mem_size_y (workerCtx SX W r SY blocked) + j := by
      unfold cellIndex workerCtx
      dsimp only
      ring
    rw [e] at key
    exact key

/-- Witness of C11: rank 1 of 2 workers on the 4 by 4 grid without islands, route from
(0,0) to (3,3); its owned cell (1,3) is the global cell (2,2), which holds `2`. -/
theorem worker_route_refines_single_witness :
    1 ≤ 2 ∧ 1 < 2 ∧
    (generate_route (workerCtx 4 2 1 4 []) junkMem 0 0 0 3 3).ret ≠ -1 ∧
    (generate_route (workerCtx 4 2 1 4 []) junkMem 0 0 0 3 3).route
        (1 * mem_size_y (workerCtx 4 2 1 4 []) + 3)
      = (generate_route (singleCtx 4 4 []) zeroMem 0 0 0 3 3).route
        (cellIndex (singleCtx 4 4 []) (basex (4 : Nat) (2 : Nat) (1 : Nat) + 1 - 1) (3 - 1)) ∧
    (generate_route (singleCtx 4 4 []) zeroMem 0 0 0 3 3).route
        (cellIndex (singleCtx 4 4 []) 2 2) = 2 :=
  ⟨by decide, by decide, by decide,
    (worker_route_refines_single 4 2 1 (by decide) (by decide) 4 [] junkMem zeroMem 0 0 0 3 3).2
      (by decide) 1 3 (by decide) (by decide) (by decide) (by decide),
    by decide⟩

/-! ## The halo swap -/

theorem readBuf_length (data : Int → Int) (start count : Int) :
    (readBuf data start count).length = count.toNat := by
  simp [readBuf]

theorem readBuf_getD (data : Int → Int) (start count : Int) (t : Nat) (ht : t < count.toNat) :
    (readBuf data start count).getD t 0 = data (start + (t : Int)) := by
  simp [readBuf, List.getD_eq_getElem?_getD, ht]

/-- A receive stores entry `t` of the message sent at offset `t` of the receive
buffer. -/
theorem writeBuf_readBuf (data src : Int → Int) (start s0 count t : Int) (ht : 0 ≤ t ∧ t < count) :
    writeBuf data start count (readBuf src s0 count) (start + t) = src (s0 + t) := by
  unfold writeBuf
  rw [readBuf_length]
  have h1 : (start + t - start).toNat = t.toNat := by rw [show start + t - start = t by ring]
  rw [if_pos (by rw [h1]; omega), h1, readBuf_getD _ _ _ _ (by omega), Int.toNat_of_nonneg ht.1]

/-- A receive changes nothing outside its buffer. -/
theorem writeBuf_outside (data : Int → Int) (start count : Int) (msg : List Int) (k : Int)
    (hk : k < start ∨ start + count ≤ k) : writeBuf data start count msg k = data k := by
  unfold writeBuf
  rw [if_neg (by omega)]

/-- An entry outside the two ghost columns, or in their rows `0` and `ny + 1`, is left
unchanged by `perform_halo_swap`. -/
theorem perform_halo_swap_outside (myrank size local_nx ny mem_size_y : Int) (data : Int → Int)
    (fromLeft fromRight : List Int) (k : Int)
    (h1 : k < 1 ∨ 1 + ny ≤ k)
    (h2 : k < (local_nx + 1) * mem_size_y + 1 ∨ (local_nx + 1) * mem_size_y + 1 + ny ≤ k) :
    perform_halo_swap myrank size local_nx ny mem_size_y data fromLeft fromRight k = data k := by
  unfold perform_halo_swap
  split
  · rw [writeBuf_outside _ _ _ _ _ h2]
    split
    · exact writeBuf_outside _ _ _ _ _ h1
    · rfl
  · split
    · exact writeBuf_outside _ _ _ _ _ h1
    · rfl

/-- The receive from the right neighbour stores its message in the rows `1..ny` of the
ghost column `local_nx + 1`. -/
theorem perform_halo_swap_right (myrank size local_nx ny mem_size_y : Int) (data src : Int → Int)
    (fromLeft : List Int) (s0 t : Int) (hr : myrank < size - 1) (ht : 0 ≤ t ∧ t < ny) :
    perform_halo_swap myrank size local_nx ny mem_size_y data fromLeft (readBuf src s0 ny)
      ((local_nx + 1) * mem_size_y + 1 + t) = src (s0 + t) := by
  unfold perform_halo_swap
  rw [if_pos hr]
  exact writeBuf_readBuf _ _ _ _ _ _ ht

/-- The receive from the left neighbour stores its message in the rows `1..ny` of the
ghost column `0`. -/
theorem perform_halo_swap_left (myrank size local_nx ny : Int) (data src : Int → Int)
    (fromRight : List Int) (s0 t : Int) (hr : myrank > 0) (hl : 0 ≤ local_nx)
    (ht : 0 ≤ t ∧ t < ny) :
    perform_halo_swap myrank size local_nx ny (ny + 2) data (readBuf src s0 ny) fromRight
      (1 + t) = src (s0 + t) := by
  unfold perform_halo_swap
  rw [if_pos hr]
  split
  · rw [writeBuf_outside _ _ _ _ _ (Or.inl (by nlinarith))]
    exact writeBuf_readBuf _ _ _ _ _ _ ht
  · exact writeBuf_readBuf _ _ _ _ _ _ ht

theorem haloToLeft_sent (myrank ny mem_size_y : Int) (data : Int → Int) (h : myrank > 0) :
    (haloToLeft myrank ny mem_size_y data).getD [] = readBuf data (1 + mem_size_y) ny := by
  unfold haloToLeft
  rw [if_pos h]
  rfl

theorem haloToRight_sent (myrank size local_nx ny mem_size_y : Int) (data : Int → Int)
    (h : myrank < size - 1) :
    (haloToRight myrank size local_nx ny mem_size_y data).getD []
      = readBuf data (local_nx * mem_size_y + 1) ny := by
  unfold haloToRight
  rw [if_pos h]
  rfl

/-- C12: in the lockstep model of the exchange, for adjacent workers `r` and `r + 1`
that each own at least one column, after `perform_halo_swap` on a route map: for every
row `y` in `1..SY`, the ghost column `local_nx(r) + 1` of worker `r` equals the owned
column `1` of worker `r + 1`, and the ghost column `0` of worker `r + 1` equals the
owned column `local_nx(r)` of worker `r`; on every worker the owned columns (all their
rows) and the rows `0` and `SY + 1` of every column are unchanged; rank `0` leaves its
column `0` untouched and rank `W - 1` its column `local_nx + 1`. -/
theorem halo_swap_columns (W r ny : Int) (local_nx : Int → Int) (data : Int → Int → Int)
    (hr0 : 0 ≤ r) (hrW : r + 1 < W) (hny : 0 ≤ ny) (hl : 1 ≤ local_nx r)
    (hl1 : 1 ≤ local_nx (r + 1)) :
    (∀ y : Int, 1 ≤ y → y ≤ ny →
      haloExchange W ny (ny + 2) local_nx data r ((local_nx r + 1) * (ny + 2) + y)
        = haloExchange W ny (ny + 2) local_nx data (r + 1) (1 * (ny + 2) + y)) ∧
    (∀ y : Int, 1 ≤ y → y ≤ ny →
      haloExchange W ny (ny + 2) local_nx data (r + 1) (0 * (ny + 2) + y)
        = haloExchange W ny (ny + 2) local_nx data r (local_nx r * (ny + 2) + y)) ∧
    (∀ q c y : Int, 1 ≤ c → c ≤ local_nx q → 0 ≤ y → y ≤ ny + 1 →
      haloExchange W ny (ny + 2) local_nx data q (c * (ny + 2) + y)
        = data q (c * (ny + 2) + y)) ∧
    (∀ q c : Int, 0 ≤ local_nx q → 0 ≤ c → c ≤ local_nx q + 1 →
      haloExchange W ny (ny + 2) local_nx data q (c * (ny + 2) + 0) = data q (c * (ny + 2) + 0) ∧
      haloExchange W ny (ny + 2) local_nx data q (c * (ny + 2) + (ny + 1))
        = data q (c * (ny + 2) + (ny + 1))) ∧
    (∀ y : Int, 0 ≤ local_nx 0 → 0 ≤ y → y ≤ ny + 1 →
      haloExchange W ny (ny + 2) local_nx data 0 (0 * (ny + 2) + y) = data 0 (0 * (ny + 2) + y)) ∧
    (∀ y : Int, 0 ≤ local_nx (W - 1) → 0 ≤ y → y ≤ ny + 1 →
      haloExchange W ny (ny + 2) local_nx data (W - 1) ((local_nx (W - 1) + 1) * (ny + 2) + y)
        = data (W - 1) ((local_nx (W - 1) + 1) * (ny + 2) + y)) := by
  have owned : ∀ q c y : Int, 1 ≤ c → c ≤ local_nx q → 0 ≤ y → y ≤ ny + 1 →
      haloExchange W ny (ny + 2) local_nx data q (c * (ny + 2) + y)
        = data q (c * (ny + 2) + y) := by
    intro q c y hc1 hc hy0 hy
    unfold haloExchange
    apply perform_halo_swap_outside
    · right
      nlinarith
    · left
      nlinarith
  refine ⟨?_, ?_, owned, ?_, ?_, ?_⟩
  · intro y hy1 hy
    rw [owned (r + 1) 1 y (by omega) hl1 (by omega) (by omega)]
    unfold haloExchange
    rw [haloToLeft_sent _ _ _ _ (by omega)]
    have := perform_halo_swap_right r W (local_nx r) ny (ny + 2) (data r) (data (r + 1))
      ((haloToRight (r - 1) W (local_nx (r - 1)) ny (ny + 2) (data (r - 1))).getD [])
      (1 + (ny + 2)) (y - 1) (by omega) (by omega)
    rw [show (local_nx r + 1) * (ny + 2) + 1 + (y - 1) = (local_nx r + 1) * (ny + 2) + y by ring,
      show 1 + (ny + 2) + (y - 1) = 1 * (ny + 2) + y by ring] at this
    exact this
  · intro y hy1 hy
    rw [owned r (local_nx r) y hl (le_refl _) (by omega) (by omega)]
    unfold haloExchange
    rw [show r + 1 - 1 = r by ring, haloToRight_sent _ _ _ _ _ _ (by omega)]
    have := perform_halo_swap_left (r + 1) W (local_nx (r + 1)) ny (data (r + 1)) (data r)
      ((haloToLeft (r + 1 + 1) ny (ny + 2) (data (r + 1 + 1))).getD [])
      (local_nx r * (ny + 2) + 1) (y - 1) (by omega) (by omega) (by omega)
    rw [show (1 : Int) + (y - 1) = 0 * (ny + 2) + y by ring,
      show local_nx r * (ny + 2) + 1 + (y - 1) = local_nx r * (ny + 2) + y by ring] at this
    exact this
  · intro q c hl0 hc0 hc
    constructor
    · unfold haloExchange
      apply perform_halo_swap_outside
      · rcases lt_or_ge 0 c with h | h
        · right; nlinarith
        · left
          have : c = 0 := by omega
          rw [this]; omega
      · left; nlinarith
    · unfold haloExchange
      apply perform_halo_swap_outside
      · right; nlinarith
      · rcases lt_or_ge c (local_nx q + 1) with h | h
        · left; nlinarith
        · right
          have : c = local_nx q + 1 := by omega
          rw [this]; omega
  · intro y hl0 hy0 hy
    unfold haloExchange perform_halo_swap
    rw [if_neg (show ¬ (0 : Int) > 0 by omega)]
    split
    · exact writeBuf_outside _ _ _ _ _ (Or.inl (by nlinarith))
    · rfl
  · intro y hl0 hy0 hy
    unfold haloExchange perform_halo_swap
    rw [if_neg (show ¬ (W - 1 < W - 1) by omega)]
    split
    · exact writeBuf_outside _ _ _ _ _ (Or.inr (by nlinarith))
    · rfl

/-- Witness of C12: two workers with two columns each on a grid with `SY = 3`; the
ghost column `3` of rank 0 receives the owned column `1` of rank 1, row 2. -/
theorem halo_swap_columns_witness :
    (0 : Int) ≤ 0 ∧ (0 : Int) + 1 < 2 ∧ (0 : Int) ≤ 3 ∧
    haloExchange 2 3 (3 + 2) (fun _ => 2) rankMaps 0 ((2 + 1) * (3 + 2) + 2)
      = haloExchange 2 3 (3 + 2) (fun _ => 2) rankMaps (0 + 1) (1 * (3 + 2) + 2) ∧
    haloExchange 2 3 (3 + 2) (fun _ => 2) rankMaps 0 ((2 + 1) * (3 + 2) + 2) = 107 :=
  ⟨by decide, by decide, by decide,
    (halo_swap_columns 2 0 3 (fun _ => 2) rankMaps (by decide) (by decide) (by decide)
      (by decide) (by decide)).1 2 (by decide) (by decide),
    by decide⟩

/-! ## Loops over the owned cells -/

theorem foldOpt_append {σ α : Type} (f : σ → α → Option σ) (l1 l2 : List α) (s : σ) :
    foldOpt f (l1 ++ l2) s =
      match foldOpt f l1 s with
      | none => none
      | some s1 => foldOpt f l2 s1 := by
  induction l1 generalizing s with
  | nil => rfl
  | cons a l ih =>
    simp only [List.cons_append, foldOpt]
    cases f s a with
    | none => rfl
    | some s1 => exact ih s1

/-- A property kept by every pass of a loop that may fail holds when the loop ends. -/
theorem foldOpt_inv {σ α : Type} (f : σ → α → Option σ) (P : σ → Prop) (l : List α)
    (hstep : ∀ s a s1, a ∈ l → P s → f s a = some s1 → P s1) (s s1 : σ) (h0 : P s)
    (h : foldOpt f l s = some s1) : P s1 := by
  induction l generalizing s with
  | nil =>
    simp only [foldOpt, Option.some.injEq] at h
    rw [← h]; exact h0
  | cons a l ih =>
    simp only [foldOpt] at h
    cases hfa : f s a with
    | none => rw [hfa] at h; exact absurd h (by simp)
    | some s2 =>
      rw [hfa] at h
      exact ih (fun s a s1 ha => hstep s a s1 (List.mem_cons_of_mem _ ha)) s2
        (hstep s a s2 (List.mem_cons_self _ _) h0 hfa) h

/-- A loop that may fail returns a state when every pass does. -/
theorem foldOpt_isSome {σ α : Type} (f : σ → α → Option σ) (l : List α)
    (hstep : ∀ s a, a ∈ l → ∃ s1, f s a = some s1) (s : σ) : ∃ s1, foldOpt f l s = some s1 := by
  induction l generalizing s with
  | nil => exact ⟨s, rfl⟩
  | cons a l ih =>
    obtain ⟨s2, h2⟩ := hstep s a (List.mem_cons_self _ _)
    simp only [foldOpt, h2]
    exact ih (fun s a ha => hstep s a (List.mem_cons_of_mem _ ha)) s2

theorem mem_slabCells (local_nx ny : Int) (c : Int × Int) :
    c ∈ slabCells local_nx ny ↔ (1 ≤ c.1 ∧ c.1 ≤ local_nx) ∧ (1 ≤ c.2 ∧ c.2 ≤ ny) := by
  unfold slabCells
  simp only [List.mem_flatMap, List.mem_map, mem_upTo]
  constructor
  · rintro ⟨i, hi, j, hj, rfl⟩
    exact ⟨hi, hj⟩
  · intro h
    exact ⟨c.1, h.1, c.2, h.2, rfl⟩

/-- Two slab cells with rows in `1..ny` that share an index are equal. -/
theorem slabIndex_inj (ny : Int) (a b : Int × Int) (ha : 1 ≤ a.2 ∧ a.2 ≤ ny)
    (hb : 1 ≤ b.2 ∧ b.2 ≤ ny) (h : slabIndex ny a = slabIndex ny b) : a = b := by
  unfold slabIndex at h
  have hx : a.1 = b.1 := by
    rcases lt_trichotomy a.1 b.1 with hlt | heq | hgt
    · exfalso
      have : (b.1 - a.1) * (ny + 2) ≥ 1 * (ny + 2) :=
        Int.mul_le_mul_of_nonneg_right (by omega) (by omega)
      nlinarith
    · exact heq
    · exfalso
      have : (a.1 - b.1) * (ny + 2) ≥ 1 * (ny + 2) :=
        Int.mul_le_mul_of_nonneg_right (by omega) (by omega)
      nlinarith
  apply Prod.ext hx
  rw [hx] at h
  omega

theorem upTo_nodup (n : Int) : (upTo n).Nodup := by
  unfold upTo
  apply List.Nodup.map
  · intro a b hab
    simp only at hab
    omega
  · exact List.nodup_range _

theorem slabCells_nodup (local_nx ny : Int) : (slabCells local_nx ny).Nodup :=
  List.Nodup.product (upTo_nodup local_nx) (upTo_nodup ny)

/-- The owned cells have pairwise different indices in `sub_domain`. -/
theorem slabCells_pairwise (local_nx ny : Int) :
    (slabCells local_nx ny).Pairwise (fun a b => slabIndex ny a ≠ slabIndex ny b) := by
  apply List.Pairwise.imp_of_mem _ (slabCells_nodup local_nx ny)
  intro a b ha hb hab he
  rw [mem_slabCells] at ha hb
  exact hab (slabIndex_inj ny a b ha.2 hb.2 he)

theorem setCell_same (d : Int → cell_struct) (idx : Int) (c : cell_struct) :
    setCell d idx c idx = c := by
  simp [setCell]

theorem setCell_other (d : Int → cell_struct) (idx : Int) (c : cell_struct) (k : Int)
    (h : k ≠ idx) : setCell d idx c k = d k := by
  simp [setCell, h]

theorem setSlot_same (ships : Nat → Option ship_struct) (z : Nat) (v : Option ship_struct) :
    setSlot ships z v z = v := by
  simp [setSlot]

theorem setSlot_other (ships : Nat → Option ship_struct) (z : Nat) (v : Option ship_struct)
    (k : Nat) (h : k ≠ z) : setSlot ships z v k = ships k := by
  simp [setSlot, h]

/-- A loop over cells with pairwise different indices whose every pass only writes its
own cell: each visited cell ends in the state its own pass left it in, and the other
cells are unchanged. -/
theorem foldOpt_cells (ny : Int) (f : SimState → Int × Int → Option SimState)
    (P : Int × Int → cell_struct → cell_struct → Prop) (l : List (Int × Int))
    (hl : l.Pairwise (fun a b => slabIndex ny a ≠ slabIndex ny b))
    (hstep : ∀ st jk st1, jk ∈ l → f st jk = some st1 →
      P jk (st.sub_domain (slabIndex ny jk)) (st1.sub_domain (slabIndex ny jk)) ∧
      ∀ c, c ≠ slabIndex ny jk → st1.sub_domain c = st.sub_domain c)
    (st st1 : SimState) (h : foldOpt f l st = some st1) :
    (∀ jk ∈ l, P jk (st.sub_domain (slabIndex ny jk)) (st1.sub_domain (slabIndex ny jk))) ∧
    (∀ c, (∀ jk ∈ l, slabIndex ny jk ≠ c) → st1.sub_domain c = st.sub_domain c) := by
  induction l generalizing st with
  | nil =>
    simp only [foldOpt, Option.some.injEq] at h
    subst h
    exact ⟨fun jk hjk => absurd hjk (List.not_mem_nil _), fun c _ => rfl⟩
  | cons a l ih =>
    simp only [foldOpt] at h
    cases hfa : f st a with
    | none => rw [hfa] at h; exact absurd h (by simp)
    | some s2 =>
      rw [hfa] at h
      obtain ⟨hpa, hframe⟩ := hstep st a s2 (List.mem_cons_self _ _) hfa
      rw [List.pairwise_cons] at hl
      obtain ⟨ih1, ih2⟩ := ih hl.2
        (fun st jk st1 hjk => hstep st jk st1 (List.mem_cons_of_mem _ hjk)) s2 h
      constructor
      · intro jk hjk
        rcases List.mem_cons.mp hjk with rfl | hjk
        · rw [ih2 _ (fun b hb => (hl.1 b hb).symm)]
          exact hpa
        · have := ih1 jk hjk
          rw [hframe _ (hl.1 jk hjk).symm] at this
          exact this
      · intro c hc
        rw [ih2 c (fun jk hjk => hc jk (List.mem_cons_of_mem _ hjk)),
          hframe c (fun he => hc a (List.mem_cons_self _ _) he.symm)]
/-! ## The initial domain -/

/-- When `getTargetPort` returns, its result differs from the current port and is a
draw of `rand()` reduced modulo the number of ports. -/
theorem getTargetPort_spec (rand : Nat → Nat) (numberPorts currentPort : Int) (fuel calls : Nat)
    (t : Int) (calls1 : Nat)
    (h : getTargetPort rand numberPorts currentPort fuel calls = some (t, calls1)) :
    t ≠ currentPort ∧ ∃ c : Nat, calls ≤ c ∧ c < calls1 ∧ t = Int.tmod (rand c) numberPorts := by
  induction fuel generalizing calls with
  | zero => simp [getTargetPort] at h
  | succ fuel ih =>
    unfold getTargetPort at h
    dsimp only at h
    split at h
    · obtain ⟨h1, c, hc1, hc2, hc3⟩ := ih (calls + 1) h
      exact ⟨h1, c, by omega, hc2, hc3⟩
    · simp only [Option.some.injEq, Prod.mk.injEq] at h
      obtain ⟨rfl, rfl⟩ := h
      exact ⟨by assumption, calls, le_refl _, by omega, rfl⟩

/-- The resampling of `getTargetPort` ends when one of the next `fuel` draws differs
from the current port. -/
theorem getTargetPort_returns (rand : Nat → Nat) (numberPorts currentPort : Int)
    (fuel calls : Nat)
    (h : ∃ i : Nat, i < fuel ∧ Int.tmod (rand (calls + i)) numberPorts ≠ currentPort) :
    ∃ r, getTargetPort rand numberPorts currentPort fuel calls = some r := by
  induction fuel generalizing calls with
  | zero => obtain ⟨i, hi, _⟩ := h; omega
  | succ fuel ih =>
    unfold getTargetPort
    dsimp only
    split
    · rename_i heq
      apply ih
      obtain ⟨i, hi, hne⟩ := h
      have hi0 : i ≠ 0 := by
        intro h0
        rw [h0] at hne
        exact hne heq
      exact ⟨i - 1, by omega, by rw [show calls + 1 + (i - 1) = calls + i by omega]; exact hne⟩
    · exact ⟨_, rfl⟩

theorem mem_indexRange (n i : Int) : i ∈ indexRange n ↔ 0 ≤ i ∧ i < n := by
  unfold indexRange
  simp only [List.mem_map, List.mem_range]
  constructor
  · rintro ⟨k, hk, hki⟩
    omega
  · intro h
    refine ⟨i.toNat, ?_, ?_⟩ <;> omega

/-- On a cell where a port lies, `getCellPortIndex` is the index of a configured port
at that cell. -/
theorem getCellPortIndex_spec (config : simulation_configuration_struct) (x y : Int)
    (h : isCellAPort config x y = true) :
    0 ≤ getCellPortIndex config x y ∧ getCellPortIndex config x y < config.number_ports ∧
    (config.ports (getCellPortIndex config x y)).x = x ∧
    (config.ports (getCellPortIndex config x y)).y = y := by
  unfold isCellAPort at h
  unfold getCellPortIndex
  cases hf : (indexRange config.number_ports).find?
      (fun i => decide ((config.ports i).x = x ∧ (config.ports i).y = y)) with
  | none =>
    exfalso
    rw [List.find?_eq_none] at hf
    rw [List.any_eq_true] at h
    obtain ⟨i, hi, hp⟩ := h
    exact hf i hi hp
  | some i =>
    dsimp only
    have hm := List.mem_of_find?_eq_some hf
    have hp := List.find?_some hf
    rw [mem_indexRange] at hm
    simp only [decide_eq_true_eq] at hp
    exact ⟨hm.1, hm.2, hp.1, hp.2⟩

/-- One pass of the loop of `initialisePort` stores a fresh ship in slot `i` and leaves
the rest of the cell unchanged. -/
theorem initialisePortShip_spec (env : SimEnv) (w w1 : PortWork) (i : Nat)
    (h : initialisePortShip env w i = some w1) :
    ∃ ship : ship_struct, ship.hoursAtSea = 0 ∧ ship.cargoAmount = 0 ∧
      ship.willMoveThisTimestep = true ∧
      w1.cell = { w.cell with ships_data := setSlot w.cell.ships_data i (some ship) } := by
  unfold initialisePortShip at h
  dsimp only at h
  split at h
  · exact absurd h (by simp)
  · simp only [Option.some.injEq] at h
    rw [← h]
    exact ⟨_, rfl, rfl, rfl, rfl⟩

/-- The loop of `initialisePort` over `n` ships fills the slots below `n` with fresh
ships and leaves the other slots and the other fields of the cell unchanged. -/
theorem initialisePortShips_spec (env : SimEnv) (n : Nat) (w w1 : PortWork)
    (h : foldOpt (initialisePortShip env) (List.range n) w = some w1) :
    (∀ z : Nat, z < n → ∃ ship, w1.cell.ships_data z = some ship ∧ ship.hoursAtSea = 0 ∧
      ship.cargoAmount = 0 ∧ ship.willMoveThisTimestep = true) ∧
    (∀ z : Nat, n ≤ z → w1.cell.ships_data z = w.cell.ships_data z) ∧
    w1.cell.x = w.cell.x ∧ w1.cell.y = w.cell.y ∧ w1.cell.isWater = w.cell.isWater ∧
    w1.cell.isPort = w.cell.isPort ∧ w1.cell.isIsland = w.cell.isIsland ∧
    w1.cell.port_data = w.cell.port_data ∧ w1.cell.number_ships = w.cell.number_ships := by
  induction n generalizing w1 with
  | zero =>
    simp only [List.range_zero, foldOpt, Option.some.injEq] at h
    subst h
    exact ⟨fun z hz => absurd hz (by omega), fun z _ => rfl, rfl, rfl, rfl, rfl, rfl, rfl, rfl⟩
  | succ n ih =>
    rw [List.range_succ, foldOpt_append] at h
    cases hn : foldOpt (initialisePortShip env) (List.range n) w with
    | none => rw [hn] at h; exact absurd h (by simp)
    | some w2 =>
      rw [hn] at h
      dsimp only at h
      simp only [foldOpt] at h
      cases hs : initialisePortShip env w2 n with
      | none => rw [hs] at h; exact absurd h (by simp)
      | some w3 =>
        rw [hs] at h
        simp only [Option.some.injEq] at h
        subst h
        obtain ⟨ship, s1, s2, s3, hcell⟩ := initialisePortShip_spec env w2 w3 n hs
        obtain ⟨i1, i2, i3, i4, i5, i6, i7, i8, i9⟩ := ih w2 hn
        rw [hcell]
        refine ⟨?_, ?_, i3, i4, i5, i6, i7, i8, i9⟩
        · intro z hz
          by_cases hzn : z = n
          · subst hzn
            exact ⟨ship, setSlot_same _ _ _, s1, s2, s3⟩
          · obtain ⟨sh, e1, e2⟩ := i1 z (by omega)
            exact ⟨sh, by dsimp only; rw [setSlot_other _ _ _ _ hzn]; exact e1, e2⟩
        · intro z hz
          dsimp only
          rw [setSlot_other _ _ _ _ (by omega)]
          exact i2 z (by omega)

/-- What `initialiseCell` does to its own cell and that it writes no other cell. -/
theorem initialiseCell_spec (env : SimEnv) (st st1 : SimState) (jk : Int × Int)
    (h : initialiseCell env st jk = some st1) :
    (InitialCell env jk (st1.sub_domain (slabIndex env.ny jk)) ∧
      (st1.sub_domain (slabIndex env.ny jk)).port_data.shipsInPastHundredHours
        = (st.sub_domain (slabIndex env.ny jk)).port_data.shipsInPastHundredHours) ∧
    ∀ c, c ≠ slabIndex env.ny jk → st1.sub_domain c = st.sub_domain c := by
  unfold initialiseCell at h
  dsimp only at h
  by_cases hp : isCellAPort env.config (env.basex + jk.1 - 1) (jk.2 - 1) = true
  · rw [if_pos hp] at h
    unfold initialisePort at h
    dsimp only at h
    split at h
    · exact absurd h (by simp)
    · rename_i w hw
      split at hw
      · exact absurd hw (by simp)
      · rename_i w1 hfold
        simp only [Option.some.injEq] at hw h
        subst hw
        subst h
        obtain ⟨i1, i2, i3, i4, i5, i6, i7, i8, i9⟩ :=
          initialisePortShips_spec env _ _ w1 hfold
        dsimp only at i2 i3 i4 i5 i6 i7 i8 i9
        unfold slabIndex InitialCell
        dsimp only
        refine ⟨⟨⟨?_, ?_, ?_, ?_, ?_, ?_, ?_⟩, ?_⟩, ?_⟩
        · rw [setCell_same]; exact i3
        · rw [setCell_same]; exact i4
        · rw [setCell_same, hp]; exact i6
        · rw [setCell_same, hp]; exact i7
        · rw [setCell_same, hp]; exact i5
        · intro _
          rw [setCell_same]
          dsimp only
          rw [i8]
          refine ⟨rfl, rfl, rfl, rfl, ?_, ?_⟩
          · intro z hz
            exact i1 z (by omega)
          · intro z hz hz200
            rw [i2 z (by omega), if_pos hz200]
        · intro hf
          rw [hp] at hf
          exact absurd hf (by simp)
        · rw [setCell_same]
          dsimp only
          rw [i8]
        · intro c hc
          exact setCell_other _ _ _ _ hc
  · rw [if_neg hp] at h
    have hpf : isCellAPort env.config (env.basex + jk.1 - 1) (jk.2 - 1) = false := by
      simpa using hp
    by_cases hi : isCellAnIsland env.config (env.basex + jk.1 - 1) (jk.2 - 1) = true
    · rw [if_pos hi] at h
      simp only [Option.some.injEq] at h
      subst h
      unfold slabIndex InitialCell
      dsimp only
      rw [setCell_same, hpf, hi]
      refine ⟨⟨⟨rfl, rfl, rfl, rfl, rfl, ?_, ?_⟩, rfl⟩, ?_⟩
      · intro hf; exact absurd hf (by simp)
      · intro _
        exact ⟨rfl, fun z hz => by dsimp only; rw [if_pos hz]⟩
      · intro c hc
        exact setCell_other _ _ _ _ hc
    · rw [if_neg hi] at h
      have hif : isCellAnIsland env.config (env.basex + jk.1 - 1) (jk.2 - 1) = false := by
        simpa using hi
      simp only [Option.some.injEq] at h
      subst h
      unfold slabIndex InitialCell
      dsimp only
      rw [setCell_same, hpf, hif]
      refine ⟨⟨⟨rfl, rfl, rfl, rfl, rfl, ?_, ?_⟩, rfl⟩, ?_⟩
      · intro hf; exact absurd hf (by simp)
      · intro _
        exact ⟨rfl, fun z hz => by dsimp only; rw [if_pos hz]⟩
      · intro c hc
        exact setCell_other _ _ _ _ hc

/-- After `initialiseDomain` every owned cell is in its initial state, with the
history of a port cell as it was found in the allocated block, and the cells that are
not owned are unchanged. -/
theorem initialiseDomain_spec (env : SimEnv) (st st1 : SimState)
    (h : initialiseDomain env st = some st1) :
    (∀ jk ∈ slabCells env.local_nx env.ny,
      InitialCell env jk (st1.sub_domain (slabIndex env.ny jk)) ∧
      (st1.sub_domain (slabIndex env.ny jk)).port_data.shipsInPastHundredHours
        = (st.sub_domain (slabIndex env.ny jk)).port_data.shipsInPastHundredHours) ∧
    (∀ c, (∀ jk ∈ slabCells env.local_nx env.ny, slabIndex env.ny jk ≠ c) →
      st1.sub_domain c = st.sub_domain c) :=
  foldOpt_cells env.ny (initialiseCell env)
    (fun jk c0 c => InitialCell env jk c ∧
      c.port_data.shipsInPastHundredHours = c0.port_data.shipsInPastHundredHours)
    (slabCells env.local_nx env.ny) (slabCells_pairwise env.local_nx env.ny)
    (fun st jk st1 _ hs => initialiseCell_spec env st st1 jk hs) st st1 h

theorem foldOpt_ne_none {σ α : Type} (f : σ → α → Option σ) (l : List α)
    (hstep : ∀ s a, a ∈ l → f s a ≠ none) (s : σ) : foldOpt f l s ≠ none := by
  induction l generalizing s with
  | nil => simp [foldOpt]
  | cons a l ih =>
    simp only [foldOpt]
    cases hfa : f s a with
    | none => exact absurd hfa (hstep s a (List.mem_cons_self _ _))
    | some s2 => exact ih (fun s a ha => hstep s a (List.mem_cons_of_mem _ ha)) s2

theorem getTargetPort_ne_none (env : SimEnv) (hr : Resamples env) (currentPort : Int)
    (calls : Nat) :
    getTargetPort env.rand env.config.number_ports currentPort env.fuel calls ≠ none := by
  obtain ⟨r, h⟩ := getTargetPort_returns env.rand env.config.number_ports currentPort env.fuel
    calls (hr calls currentPort)
  rw [h]
  simp

theorem initialisePort_ne_none (env : SimEnv) (hr : Resamples env) (w : PortWork)
    (x_coord y_coord : Int) : initialisePort env w x_coord y_coord ≠ none := by
  unfold initialisePort
  dsimp only
  split
  · rename_i heq
    exact absurd heq (foldOpt_ne_none _ _ (fun w i _ => by
      unfold initialisePortShip
      dsimp only
      split
      · rename_i h
        exact absurd h (getTargetPort_ne_none env hr _ _)
      · simp) _)
  · simp

/-- When the resampling of `getTargetPort` always ends within the bound,
`initialiseDomain` returns. -/
theorem initialiseDomain_returns (env : SimEnv) (hr : Resamples env) (st : SimState) :
    ∃ st1, initialiseDomain env st = some st1 := by
  have : initialiseDomain env st ≠ none := by
    unfold initialiseDomain
    apply foldOpt_ne_none
    intro s jk _
    unfold initialiseCell
    dsimp only
    split
    · split
      · rename_i h
        exact absurd h (initialisePort_ne_none env hr _ _ _)
      · simp
    · split <;> simp
  cases h : initialiseDomain env st with
  | none => exact absurd h this
  | some st1 => exact ⟨st1, rfl⟩

theorem countP_range_lt (m n : Nat) :
    (List.range m).countP (fun z => decide (z < n)) = min m n := by
  induction m with
  | zero => simp
  | succ m ih =>
    rw [List.range_succ, List.countP_append, ih]
    by_cases h : m < n
    · simp [List.countP_cons, h]
      omega
    · simp [List.countP_cons, h]
      omega

theorem rosterCount_congr (a b : Nat → Option ship_struct)
    (h : ∀ z, z < MAX_SHIPS_PER_CELL → (a z).isSome = (b z).isSome) :
    rosterCount a = rosterCount b := by
  unfold rosterCount
  apply List.countP_congr
  intro z hz
  rw [h z (List.mem_range.mp hz)]

/-- A roster whose first `n` slots are occupied and whose other slots are `NULL`
holds `n` ships. -/
theorem rosterCount_prefix (ships : Nat → Option ship_struct) (n : Nat)
    (hn : n ≤ MAX_SHIPS_PER_CELL)
    (h : ∀ z, z < MAX_SHIPS_PER_CELL → ((ships z).isSome = true ↔ z < n)) :
    rosterCount ships = n := by
  unfold rosterCount
  rw [List.countP_congr (q := fun z => decide (z < n)), countP_range_lt]
  · omega
  · intro z hz
    have := h z (List.mem_range.mp hz)
    simp [this]

theorem isCellAPort_iff (config : simulation_configuration_struct) (x y : Int) :
    isCellAPort config x y = true ↔
      ∃ i, 0 ≤ i ∧ i < config.number_ports ∧ (config.ports i).x = x ∧ (config.ports i).y = y := by
  unfold isCellAPort
  rw [List.any_eq_true]
  constructor
  · rintro ⟨i, hi, hp⟩
    exact ⟨i, ((mem_indexRange _ _).mp hi).1, ((mem_indexRange _ _).mp hi).2,
      (of_decide_eq_true hp).1, (of_decide_eq_true hp).2⟩
  · rintro ⟨i, h0, h1, hx, hy⟩
    exact ⟨i, (mem_indexRange _ _).mpr ⟨h0, h1⟩, decide_eq_true ⟨hx, hy⟩⟩

theorem isCellAnIsland_iff (config : simulation_configuration_struct) (x y : Int) :
    isCellAnIsland config x y = true ↔
      ∃ i, 0 ≤ i ∧ i < config.number_islands ∧ config.islands i = (x, y) := by
  unfold isCellAnIsland
  rw [List.any_eq_true]
  constructor
  · rintro ⟨i, hi, hp⟩
    exact ⟨i, ((mem_indexRange _ _).mp hi).1, ((mem_indexRange _ _).mp hi).2,
      Prod.ext (of_decide_eq_true hp).1 (of_decide_eq_true hp).2⟩
  · rintro ⟨i, h0, h1, hxy⟩
    refine ⟨i, (mem_indexRange _ _).mpr ⟨h0, h1⟩, decide_eq_true ?_⟩
    rw [hxy]
    exact ⟨rfl, rfl⟩

/-- The triples of the final report are those of the port cells of the slab. -/
theorem mem_reportFinalInformation (env : SimEnv) (d : Int → cell_struct) (t : Int × Int × Int) :
    t ∈ reportFinalInformation env d ↔
      ∃ jk ∈ slabCells env.local_nx env.ny, (d (slabIndex env.ny jk)).isPort = true ∧
        t = ((d (slabIndex env.ny jk)).port_data.port_index,
             (d (slabIndex env.ny jk)).port_data.cargoShipped,
             (d (slabIndex env.ny jk)).port_data.cargoArrived) := by
  unfold reportFinalInformation
  have key : ∀ (l : List (Int × Int)) (acc : List (Int × Int × Int)),
      t ∈ l.foldl (finalReportCell env d) acc ↔
        t ∈ acc ∨ ∃ jk ∈ l, (d (slabIndex env.ny jk)).isPort = true ∧
          t = ((d (slabIndex env.ny jk)).port_data.port_index,
               (d (slabIndex env.ny jk)).port_data.cargoShipped,
               (d (slabIndex env.ny jk)).port_data.cargoArrived) := by
    intro l
    induction l with
    | nil => intro acc; simp
    | cons a l ih =>
      intro acc
      rw [List.foldl_cons, ih]
      unfold finalReportCell slabIndex
      dsimp only
      by_cases hp : (d (a.1 * (env.ny + 2) + a.2)).isPort = true
      · rw [if_pos hp]
        simp only [List.mem_append, List.mem_singleton, List.mem_cons, exists_eq_or_imp,
          List.not_mem_nil, or_false]
        tauto
      · rw [if_neg hp]
        simp only [List.mem_cons, exists_eq_or_imp]
        tauto
  rw [key]
  simp

/-- The history ring is not written: `initialiseDomain` leaves
`shipsInPastHundredHours` of every owned cell as the allocated block held it. -/
theorem initialiseDomain_history (env : SimEnv) (st st1 : SimState)
    (h : initialiseDomain env st = some st1) (jk : Int × Int)
    (hjk : jk ∈ slabCells env.local_nx env.ny) :
    (st1.sub_domain (slabIndex env.ny jk)).port_data.shipsInPastHundredHours
      = (st.sub_domain (slabIndex env.ny jk)).port_data.shipsInPastHundredHours :=
  ((initialiseDomain_spec env st st1 h).1 jk hjk).2

/-- C19 at the failing input: on the example of two adjacent ports, with an allocated
block that holds 7 everywhere, the port cell `(1, 1)` has entry 0 of
`shipsInPastHundredHours` equal to 7 after `initialiseDomain`, while its `cargoShipped`
and `cargoArrived` are 0. -/
theorem initialiseDomain_history_stale :
    (initialiseDomain pairEnv staleState).map
      (fun st1 => ((st1.sub_domain (slabIndex pairEnv.ny (1, 1))).isPort,
        (st1.sub_domain (slabIndex pairEnv.ny (1, 1))).port_data.shipsInPastHundredHours 0,
        (st1.sub_domain (slabIndex pairEnv.ny (1, 1))).port_data.cargoShipped,
        (st1.sub_domain (slabIndex pairEnv.ny (1, 1))).port_data.cargoArrived))
      = some (true, 7, 0, 0) := by
  decide

/-! ## The port step -/

theorem cellCargo_eq_sum (c : cell_struct) :
    cellCargo c = ((List.range MAX_SHIPS_PER_CELL).map (fun z => shipCargo (c.ships_data z))).sum := by
  unfold cellCargo
  have key : ∀ (l : List Nat) (acc : Int),
      l.foldl (fun acc z => match c.ships_data z with
        | some ship => acc + ship.cargoAmount
        | none => acc) acc = acc + (l.map (fun z => shipCargo (c.ships_data z))).sum := by
    intro l
    induction l with
    | nil => intro acc; simp
    | cons a l ih =>
      intro acc
      rw [List.foldl_cons, ih, List.map_cons, List.sum_cons]
      cases h : c.ships_data a with
      | none => simp [shipCargo]
      | some ship => simp [shipCargo, add_assoc]
  exact (key _ _).trans (by simp)

/-- One pass of the roster loop of `processPort`, for slot `z`. -/
theorem processPortSlot_spec (env : SimEnv) (w w1 : PortWork) (z : Nat)
    (h : processPortSlot env w z = some w1) :
    w1.cell.port_data.port_index = w.cell.port_data.port_index ∧
    w1.currentShipId = w.currentShipId ∧
    (∀ k, k ≠ z → w1.cell.ships_data k = w.cell.ships_data k) ∧
    w1.cell.port_data.cargoArrived
      = w.cell.port_data.cargoArrived + shipCargo (w.cell.ships_data z) ∧
    w1.cell.port_data.cargoShipped = w.cell.port_data.cargoShipped +
      (if (w1.cell.ships_data z).isSome then
        (env.config.ports w.cell.port_data.port_index).cargo else 0) ∧
    w1.cell.number_ships = w.cell.number_ships -
      (if (w.cell.ships_data z).isSome ∧ (w1.cell.ships_data z).isSome = false then 1 else 0) ∧
    (w.cell.ships_data z = none → w1.cell.ships_data z = none) ∧
    (∀ ship1, w1.cell.ships_data z = some ship1 →
      ship1.willMoveThisTimestep = true ∧
      ship1.cargoAmount = (env.config.ports w.cell.port_data.port_index).cargo ∧
      (∃ t, t ≠ w.cell.port_data.port_index ∧
        (∃ c : Nat, t = Int.tmod (env.rand c) env.config.number_ports) ∧
        ship1.route = (env.config.ports w.cell.port_data.port_index).target_route_indexes t) ∧
      ∃ ship, w.cell.ships_data z = some ship ∧ ship1.id = ship.id ∧
        ship1.hoursAtSea = ship.hoursAtSea) ∧
    (∀ ship, w.cell.ships_data z = some ship → w1.cell.ships_data z = none →
      ship.hoursAtSea ≥ 100 ∧ w.cell.number_ships > 1) := by
  unfold processPortSlot at h
  cases hz : w.cell.ships_data z with
  | none =>
    rw [hz] at h
    simp only [Option.some.injEq] at h
    subst h
    simp [hz, shipCargo]
  | some ship =>
    rw [hz] at h
    dsimp only at h
    by_cases hrem : (if w.cell.number_ships > 1 then
        shouldRemoveShip env.rand ship.hoursAtSea w.randCalls else (false, w.randCalls)).1 = true
    · rw [if_pos hrem] at h
      simp only [Option.some.injEq] at h
      subst h
      have hcond : w.cell.number_ships > 1 ∧ ship.hoursAtSea ≥ 100 := by
        by_cases hn : w.cell.number_ships > 1
        · rw [if_pos hn] at hrem
          unfold shouldRemoveShip at hrem
          by_cases hh : ship.hoursAtSea < 100
          · rw [if_pos hh] at hrem
            simp at hrem
          · exact ⟨hn, by omega⟩
        · rw [if_neg hn] at hrem
          simp at hrem
      refine ⟨rfl, rfl, ?_, ?_, ?_, ?_, ?_, ?_, ?_⟩
      · intro k hk
        exact setSlot_other _ _ _ _ hk
      · simp [shipCargo]
      · simp [setSlot_same]
      · simp [setSlot_same]
      · intro hnone
        simp at hnone
      · intro ship1 h1
        simp [setSlot_same] at h1
      · intro ship2 h2 _
        simp only [Option.some.injEq] at h2
        subst h2
        exact ⟨hcond.2, hcond.1⟩
    · rw [if_neg hrem] at h
      split at h
      · simp at h
      · rename_i t calls ht
        simp only [Option.some.injEq] at h
        subst h
        have hne := (getTargetPort_spec _ _ _ _ _ _ _ ht).1
        obtain ⟨cdraw, _, _, hdraw⟩ := (getTargetPort_spec _ _ _ _ _ _ _ ht).2
        refine ⟨rfl, rfl, ?_, ?_, ?_, ?_, ?_, ?_, ?_⟩
        · intro k hk
          exact setSlot_other _ _ _ _ hk
        · simp [shipCargo]
        · simp [setSlot_same]
        · simp [setSlot_same]
        · intro hnone
          simp at hnone
        · intro ship1 h1
          simp only [setSlot_same, Option.some.injEq] at h1
          subst h1
          exact ⟨rfl, rfl, ⟨t, hne, ⟨cdraw, hdraw⟩, rfl⟩, ship, rfl, rfl, rfl⟩
        · intro ship2 _ h2
          simp [setSlot_same] at h2
/-- The roster loop of `processPort` after the slots `0, ..., n - 1`, started from `c`. -/
theorem processPortLoop_spec (env : SimEnv) (c : PortWork) (n : Nat) (wn : PortWork)
    (h : foldOpt (processPortSlot env) (List.range n) c = some wn) :
    wn.cell.port_data.port_index = c.cell.port_data.port_index ∧
    wn.currentShipId = c.currentShipId ∧
    (∀ k, n ≤ k → wn.cell.ships_data k = c.cell.ships_data k) ∧
    wn.cell.port_data.cargoArrived = c.cell.port_data.cargoArrived
      + ((List.range n).map (fun z => shipCargo (c.cell.ships_data z))).sum ∧
    wn.cell.port_data.cargoShipped = c.cell.port_data.cargoShipped
      + (env.config.ports c.cell.port_data.port_index).cargo
        * ((List.range n).countP (fun z => (wn.cell.ships_data z).isSome) : Nat) ∧
    (∀ z, z < n → c.cell.ships_data z = none → wn.cell.ships_data z = none) ∧
    (∀ z ship1, z < n → wn.cell.ships_data z = some ship1 →
      ship1.willMoveThisTimestep = true ∧
      ship1.cargoAmount = (env.config.ports c.cell.port_data.port_index).cargo ∧
      (∃ t, t ≠ c.cell.port_data.port_index ∧
        (∃ k : Nat, t = Int.tmod (env.rand k) env.config.number_ports) ∧
        ship1.route = (env.config.ports c.cell.port_data.port_index).target_route_indexes t) ∧
      ∃ ship, c.cell.ships_data z = some ship ∧ ship1.id = ship.id ∧
        ship1.hoursAtSea = ship.hoursAtSea) ∧
    (∀ z ship, z < n → c.cell.ships_data z = some ship → wn.cell.ships_data z = none →
      ship.hoursAtSea ≥ 100 ∧
      ∃ wz, foldOpt (processPortSlot env) (List.range z) c = some wz ∧
        wz.cell.number_ships > 1) := by
  induction n generalizing wn with
  | zero =>
    simp only [List.range_zero, foldOpt, Option.some.injEq] at h
    subst h
    simp
  | succ n ih =>
    rw [List.range_succ, foldOpt_append] at h
    cases hm : foldOpt (processPortSlot env) (List.range n) c with
    | none => rw [hm] at h; simp at h
    | some wm =>
      rw [hm] at h
      simp only [foldOpt] at h
      cases hf : processPortSlot env wm n with
      | none => rw [hf] at h; simp at h
      | some w2 =>
        rw [hf] at h
        simp only [Option.some.injEq] at h
        subst h
        obtain ⟨i1, i2, i3, i4, i5, i6, i7, i8⟩ := ih wm hm
        obtain ⟨s1, s2, s3, s4, s5, _, s7, s8, s9⟩ := processPortSlot_spec env wm w2 n hf
        have hsame : wm.cell.ships_data n = c.cell.ships_data n := i3 n (le_refl n)
        refine ⟨by rw [s1, i1], by rw [s2, i2], ?_, ?_, ?_, ?_, ?_, ?_⟩
        · intro k hk
          rw [s3 k (by omega), i3 k (by omega)]
        · rw [List.range_succ, List.map_append, List.sum_append, s4, i4, hsame]
          simp only [List.map_cons, List.map_nil, List.sum_cons, List.sum_nil]
          omega
        · have hcount : (List.range n).countP (fun z => (w2.cell.ships_data z).isSome)
              = (List.range n).countP (fun z => (wm.cell.ships_data z).isSome) := by
            apply List.countP_congr
            intro z hz
            rw [s3 z (by have := List.mem_range.mp hz; omega)]
          rw [List.range_succ, List.countP_append, hcount, s5, i5, i1]
          by_cases hsome : (w2.cell.ships_data n).isSome = true
          · simp only [hsome, if_true, List.countP_cons, List.countP_nil]
            push_cast
            ring
          · simp only [hsome, List.countP_cons, List.countP_nil]
            simp
        · intro z hz hnone
          by_cases hzn : z = n
          · subst hzn
            exact s7 (by rw [hsame]; exact hnone)
          · rw [s3 z hzn]
            exact i6 z (by omega) hnone
        · intro z ship1 hz h1
          by_cases hzn : z = n
          · subst hzn
            obtain ⟨a1, a2, a3, a4⟩ := s8 ship1 h1
            rw [i1] at a2 a3
            rw [hsame] at a4
            exact ⟨a1, a2, a3, a4⟩
          · rw [s3 z hzn] at h1
            exact i7 z ship1 (by omega) h1
        · intro z ship hz hship hnone
          by_cases hzn : z = n
          · subst hzn
            rw [← hsame] at hship
            obtain ⟨b1, b2⟩ := s9 ship hship hnone
            exact ⟨b1, wm, hm, b2⟩
          · rw [s3 z hzn] at hnone
            exact i8 z ship (by omega) hship hnone
/-- The first index below `n` that satisfies `p`, as `List.find?` returns it. -/
theorem find?_range_spec (p : Nat → Bool) (n : Nat) :
    ((List.range n).find? p = none ∧ ∀ z, z < n → p z = false) ∨
    ∃ z, (List.range n).find? p = some z ∧ z < n ∧ p z = true ∧ ∀ k, k < z → p k = false := by
  induction n with
  | zero => left; simp
  | succ n ih =>
    rw [List.range_succ, List.find?_append]
    rcases ih with ⟨hnone, hall⟩ | ⟨z, hz, hlt, hp, hmin⟩
    · rw [hnone]
      by_cases hpn : p n = true
      · right
        exact ⟨n, by simp [hpn], by omega, hpn, fun k hk => hall k hk⟩
      · left
        refine ⟨by simp [hpn], ?_⟩
        intro z hz
        by_cases hzn : z = n
        · subst hzn; simpa using hpn
        · exact hall z (by omega)
    · right
      exact ⟨z, by rw [hz]; rfl, by omega, hp, hmin⟩

/-- The function `findFreeShipIndex` returns the first `NULL` slot, or `-1` when the
roster is full. -/
theorem findFreeShipIndex_spec (c : cell_struct) :
    (findFreeShipIndex c = -1 ∧ ∀ z, z < MAX_SHIPS_PER_CELL → (c.ships_data z).isSome = true) ∨
    ∃ z : Nat, findFreeShipIndex c = (z : Int) ∧ z < MAX_SHIPS_PER_CELL ∧ c.ships_data z = none ∧
      ∀ k, k < z → (c.ships_data k).isSome = true := by
  unfold findFreeShipIndex
  rcases find?_range_spec (fun z => (c.ships_data z).isNone) MAX_SHIPS_PER_CELL with
    ⟨hnone, hall⟩ | ⟨z, hz, hlt, hp, hmin⟩
  · left
    rw [hnone]
    refine ⟨rfl, fun z hz => ?_⟩
    have := hall z hz
    cases hc : c.ships_data z with
    | none => rw [hc] at this; simp at this
    | some s => rfl
  · right
    rw [hz]
    refine ⟨z, rfl, hlt, ?_, fun k hk => ?_⟩
    · cases hc : c.ships_data z with
      | none => rfl
      | some s => rw [hc] at hp; simp at hp
    · have := hmin k hk
      cases hc : c.ships_data k with
      | none => rw [hc] at this; simp at this
      | some s => rfl

/-- The part of `processPort` before the roster loop leaves the port index and the two
cargo counters alone; the roster either stays or receives, in a slot that was `NULL`,
a ship with `hoursAtSea = 0` and `cargoAmount = 0`, and then the count grows by one. -/
theorem processPortCreate_spec (env : SimEnv) (w : PortWork) :
    (processPortCreate env w).cell.port_data.port_index = w.cell.port_data.port_index ∧
    (processPortCreate env w).cell.port_data.cargoShipped = w.cell.port_data.cargoShipped ∧
    (processPortCreate env w).cell.port_data.cargoArrived = w.cell.port_data.cargoArrived ∧
    (((processPortCreate env w).cell.ships_data = w.cell.ships_data ∧
      (processPortCreate env w).cell.number_ships = w.cell.number_ships) ∨
     ∃ z : Nat, z < MAX_SHIPS_PER_CELL ∧ w.cell.ships_data z = none ∧
      (processPortCreate env w).cell.ships_data = setSlot w.cell.ships_data z
        (some { hoursAtSea := 0, cargoAmount := 0, id := w.currentShipId,
                route := env.junkRoute, willMoveThisTimestep := env.junkFlag }) ∧
      (processPortCreate env w).cell.number_ships = w.cell.number_ships + 1) := by
  unfold processPortCreate
  dsimp only
  split
  · split
    · rename_i hidx
      refine ⟨rfl, rfl, rfl, Or.inr ?_⟩
      rcases findFreeShipIndex_spec { w.cell with port_data := { w.cell.port_data with
          shipsInPastHundredHours := fun k => if k = 9 then w.cell.number_ships
            else ((List.range 9).foldl historyStep
              (w.cell.port_data.shipsInPastHundredHours, 0)).1 k } } with
        ⟨hneg, _⟩ | ⟨z, hz, hlt, hnone, _⟩
      · rw [hneg] at hidx
        exact absurd hidx (by decide)
      · rw [hz]
        exact ⟨z, hlt, hnone, by simp, rfl⟩
    · exact ⟨rfl, rfl, rfl, Or.inl ⟨rfl, rfl⟩⟩
  · exact ⟨rfl, rfl, rfl, Or.inl ⟨rfl, rfl⟩⟩

theorem cellCargo_processPortCreate (env : SimEnv) (w : PortWork) :
    cellCargo (processPortCreate env w).cell = cellCargo w.cell := by
  rw [cellCargo_eq_sum, cellCargo_eq_sum]
  congr 1
  apply List.map_congr_left
  intro z _
  rcases (processPortCreate_spec env w).2.2.2 with ⟨h, _⟩ | ⟨z0, _, hnone, h, _⟩
  · rw [h]
  · rw [h]
    by_cases hz : z = z0
    · subst hz
      rw [setSlot_same, hnone]
      rfl
    · rw [setSlot_other _ _ _ _ hz]

theorem processPortSlot_ne_none (env : SimEnv) (hr : Resamples env) (w : PortWork) (z : Nat) :
    processPortSlot env w z ≠ none := by
  unfold processPortSlot
  cases hz : w.cell.ships_data z with
  | none => simp
  | some ship =>
    dsimp only
    generalize (if w.cell.number_ships > 1 then
      shouldRemoveShip env.rand ship.hoursAtSea w.randCalls else (false, w.randCalls)) = removal
    split
    · simp
    · split
      · rename_i h
        exact absurd h (getTargetPort_ne_none env hr _ _)
      · simp

/-- C20: `processPort` returns whenever the resampling of `getTargetPort` ends, and for
every port cell and every stream of `rand()` results the cell it returns is as follows,
with `p` the `port_index` of the cell.  Each ship of the roster (the one created in this
call included) has `willMoveThisTimestep = true`, `cargoAmount = ports[p].cargo` and
`route = ports[p].target_route_indexes[t]` for some `t` different from `p`.
`cargoShipped` has grown by `ports[p].cargo` times the number of ships of the roster,
and `cargoArrived` by the cargo that the ships of the roster carried on entry.  A ship
of the roster is removed only if its `hoursAtSea` is at least 100 and `number_ships`
was more than 1 when its slot was processed. -/
theorem processPort_ships (env : SimEnv) (w : PortWork) :
    (Resamples env → ∃ w1, processPort env w = some w1) ∧
    ∀ w1, processPort env w = some w1 →
      (∀ z ship, z < MAX_SHIPS_PER_CELL → w1.cell.ships_data z = some ship →
        ship.willMoveThisTimestep = true ∧
        ship.cargoAmount = (env.config.ports w.cell.port_data.port_index).cargo ∧
        ∃ t, t ≠ w.cell.port_data.port_index ∧
          ship.route = (env.config.ports w.cell.port_data.port_index).target_route_indexes t) ∧
      w1.cell.port_data.cargoShipped = w.cell.port_data.cargoShipped
        + (env.config.ports w.cell.port_data.port_index).cargo
          * (rosterCount w1.cell.ships_data : Nat) ∧
      w1.cell.port_data.cargoArrived = w.cell.port_data.cargoArrived + cellCargo w.cell ∧
      (∀ z ship, z < MAX_SHIPS_PER_CELL →
        (processPortCreate env w).cell.ships_data z = some ship →
        w1.cell.ships_data z = none →
        ship.hoursAtSea ≥ 100 ∧
        ∃ wz, foldOpt (processPortSlot env) (List.range z) (processPortCreate env w) = some wz ∧
          wz.cell.number_ships > 1) := by
  constructor
  · intro hr
    have hne : processPort env w ≠ none :=
      foldOpt_ne_none _ _ (fun s a _ => processPortSlot_ne_none env hr s a) _
    cases h : processPort env w with
    | none => exact absurd h hne
    | some w1 => exact ⟨w1, rfl⟩
  · intro w1 h
    obtain ⟨c1, c2, c3, _⟩ := processPortCreate_spec env w
    obtain ⟨_, _, _, i4, i5, _, i7, i8⟩ :=
      processPortLoop_spec env (processPortCreate env w) MAX_SHIPS_PER_CELL w1 h
    rw [c1] at i5 i7
    refine ⟨?_, ?_, ?_, ?_⟩
    · intro z ship hz hship
      obtain ⟨a1, a2, ⟨t, ht, _, hroute⟩, _⟩ := i7 z ship hz hship
      exact ⟨a1, a2, t, ht, hroute⟩
    · rw [i5, c2]
      rfl
    · rw [i4, c3, ← cellCargo_processPortCreate env w, cellCargo_eq_sum]
    · intro z ship hz hship hnone
      exact i8 z ship hz hship hnone
/-- Witness of C20: on the example port with one ship carrying 3, `processPort` returns,
3 has arrived and 5 has been shipped for each ship of the roster. -/
theorem processPort_ships_witness :
    ∃ w1, processPort pairEnv harbour = some w1 ∧
      w1.cell.port_data.cargoShipped = 0 + 5 * (rosterCount w1.cell.ships_data : Nat) ∧
      w1.cell.port_data.cargoArrived = 0 + 3 := by
  obtain ⟨w1, h1⟩ : ∃ w1, processPort pairEnv harbour = some w1 :=
    Option.isSome_iff_exists.mp (by decide)
  have hc : cellCargo harbour.cell = 3 := by decide
  have h := (processPort_ships pairEnv harbour).2 w1 h1
  exact ⟨w1, h1, h.2.1, hc ▸ h.2.2.1⟩

/-! ## The movement step -/

theorem setShip_ships (d : Int → cell_struct) (idx : Int) (z : Nat) (v : Option ship_struct)
    (c : Int) (k : Nat) :
    (setShip d idx z v c).ships_data k = if c = idx ∧ k = z then v else (d c).ships_data k := by
  unfold setShip setCell setSlot
  by_cases hc : c = idx
  · subst hc
    by_cases hk : k = z <;> simp [hk]
  · simp [hc]

theorem setShip_number (d : Int → cell_struct) (idx : Int) (z : Nat) (v : Option ship_struct)
    (c : Int) : (setShip d idx z v c).number_ships = (d c).number_ships := by
  unfold setShip setCell
  by_cases hc : c = idx
  · subst hc; simp
  · simp [hc]

theorem setShip_sameKind (d : Int → cell_struct) (idx : Int) (z : Nat) (v : Option ship_struct)
    (c : Int) : sameKind (setShip d idx z v c) (d c) := by
  unfold setShip setCell sameKind
  by_cases hc : c = idx
  · subst hc; simp
  · simp [hc]

theorem addShips_ships (d : Int → cell_struct) (idx n : Int) (c : Int) :
    (addShips d idx n c).ships_data = (d c).ships_data := by
  unfold addShips setCell
  by_cases hc : c = idx
  · subst hc; simp
  · simp [hc]

theorem addShips_number (d : Int → cell_struct) (idx n : Int) (c : Int) :
    (addShips d idx n c).number_ships = (d c).number_ships + (if c = idx then n else 0) := by
  unfold addShips setCell
  by_cases hc : c = idx
  · subst hc; simp
  · simp [hc]

theorem addShips_sameKind (d : Int → cell_struct) (idx n : Int) (c : Int) :
    sameKind (addShips d idx n c) (d c) := by
  unfold addShips setCell sameKind
  by_cases hc : c = idx
  · subst hc; simp
  · simp [hc]

theorem sameKind_refl (a : cell_struct) : sameKind a a := ⟨rfl, rfl, rfl, rfl, rfl, rfl⟩

theorem sameKind_trans {a b c : cell_struct} (h1 : sameKind a b) (h2 : sameKind b c) :
    sameKind a c :=
  ⟨h1.1.trans h2.1, h1.2.1.trans h2.2.1, h1.2.2.1.trans h2.2.2.1, h1.2.2.2.1.trans h2.2.2.2.1,
    h1.2.2.2.2.1.trans h2.2.2.2.2.1, h1.2.2.2.2.2.trans h2.2.2.2.2.2⟩

/-- The body of the scan of `updateMovement` changes nothing at an empty slot or at a
ship that is not flagged. -/
theorem moveShip_idle (env : SimEnv) (next : Int → Int → Int → Option (Int × Int))
    (find : cell_struct → Int) (m : MoveState) (jk : Int × Int) (z : Nat)
    (h : ∀ ship, (m.sub_domain (slabIndex env.ny jk)).ships_data z = some ship →
      ship.willMoveThisTimestep = false) :
    moveShip env next find m (jk, z) = m := by
  unfold moveShip
  unfold slabIndex at h
  dsimp only
  cases hs : (m.sub_domain (jk.1 * (env.ny + 2) + jk.2)).ships_data z with
  | none => rfl
  | some ship =>
    dsimp only
    rw [h ship hs]
    simp

/-- What the body of the scan of `updateMovement` does with a flagged ship in slot `z`
of the cell `(j, k)`: the flag is cleared, and then the ship either leaves for a send
buffer, or stays (no free slot), or is stored in the destination cell. -/
theorem moveShip_flagged (env : SimEnv) (next : Int → Int → Int → Option (Int × Int))
    (find : cell_struct → Int) (m : MoveState) (jk : Int × Int) (z : Nat) (ship : ship_struct)
    (hs : (m.sub_domain (slabIndex env.ny jk)).ships_data z = some ship)
    (hf : ship.willMoveThisTimestep = true)
    (off : Int × Int)
    (hoff : off = moveOffset env next (m.sub_domain (slabIndex env.ny jk)) ship jk.1 jk.2 z)
    (target : Int) (htarget : target = moveTarget env.ny jk off)
    (ni : Int)
    (hni : ni = find (setShip m.sub_domain (slabIndex env.ny jk) z
      (some { ship with willMoveThisTimestep := false }) target)) :
    (∀ c, sameKind ((moveShip env next find m (jk, z)).sub_domain c) (m.sub_domain c)) ∧
    (((jk.1 + off.1 = env.local_nx + 1 ∨ jk.1 + off.1 = 0) ∧
      ∀ c, ((moveShip env next find m (jk, z)).sub_domain c).number_ships
          = (m.sub_domain c).number_ships + (if c = slabIndex env.ny jk then -1 else 0) ∧
        ∀ k, ((moveShip env next find m (jk, z)).sub_domain c).ships_data k
          = if c = slabIndex env.ny jk ∧ k = z then none else (m.sub_domain c).ships_data k) ∨
     ((jk.1 + off.1 ≠ env.local_nx + 1 ∧ jk.1 + off.1 ≠ 0) ∧ ¬ ni > -1 ∧
      ∀ c, ((moveShip env next find m (jk, z)).sub_domain c).number_ships
          = (m.sub_domain c).number_ships ∧
        ∀ k, ((moveShip env next find m (jk, z)).sub_domain c).ships_data k
          = if c = slabIndex env.ny jk ∧ k = z then
              some { ship with willMoveThisTimestep := false }
            else (m.sub_domain c).ships_data k) ∨
     ((jk.1 + off.1 ≠ env.local_nx + 1 ∧ jk.1 + off.1 ≠ 0) ∧ ni > -1 ∧
      ∀ c, ((moveShip env next find m (jk, z)).sub_domain c).number_ships
          = (m.sub_domain c).number_ships + (if c = slabIndex env.ny jk then -1 else 0)
            + (if c = target then 1 else 0) ∧
        ∀ k, ((moveShip env next find m (jk, z)).sub_domain c).ships_data k
          = if c = slabIndex env.ny jk ∧ k = z then none
            else if c = target ∧ k = ni.toNat then
              some { ship with willMoveThisTimestep := false }
            else (m.sub_domain c).ships_data k)) := by
  unfold slabIndex at hs hoff hni ⊢
  generalize hr : moveShip env next find m (jk, z) = r
  unfold moveShip at hr
  dsimp only at hr
  rw [hs] at hr
  dsimp only at hr
  rw [if_pos hf, ← hoff] at hr
  by_cases hE : jk.1 + off.1 = env.local_nx + 1
  · rw [if_pos hE] at hr
    subst hr
    refine ⟨fun c => ?_, Or.inl ⟨Or.inl hE, fun c => ⟨?_, fun k => ?_⟩⟩⟩
    · exact sameKind_trans (addShips_sameKind _ _ _ _)
        (sameKind_trans (setShip_sameKind _ _ _ _ _) (setShip_sameKind _ _ _ _ _))
    · dsimp only
      rw [addShips_number, setShip_number, setShip_number]
    · dsimp only
      rw [addShips_ships, setShip_ships, setShip_ships]
      split_ifs <;> rfl
  · rw [if_neg hE] at hr
    by_cases hW : jk.1 + off.1 = 0
    · rw [if_pos hW] at hr
      subst hr
      refine ⟨fun c => ?_, Or.inl ⟨Or.inr hW, fun c => ⟨?_, fun k => ?_⟩⟩⟩
      · exact sameKind_trans (addShips_sameKind _ _ _ _)
          (sameKind_trans (setShip_sameKind _ _ _ _ _) (setShip_sameKind _ _ _ _ _))
      · dsimp only
        rw [addShips_number, setShip_number, setShip_number]
      · dsimp only
        rw [addShips_ships, setShip_ships, setShip_ships]
        split_ifs <;> rfl
    · rw [if_neg hW] at hr
      have ht : moveTarget env.ny (jk.1, jk.2) (off.1, off.2) = target := by
        rw [htarget]
      rw [ht, ← hni] at hr
      by_cases hN : ni > -1
      · rw [if_pos hN] at hr
        subst hr
        refine ⟨fun c => ?_, Or.inr (Or.inr ⟨⟨hE, hW⟩, hN, fun c => ⟨?_, fun k => ?_⟩⟩)⟩
        · exact sameKind_trans (addShips_sameKind _ _ _ _)
            (sameKind_trans (addShips_sameKind _ _ _ _)
              (sameKind_trans (setShip_sameKind _ _ _ _ _)
                (sameKind_trans (setShip_sameKind _ _ _ _ _) (setShip_sameKind _ _ _ _ _))))
        · dsimp only
          rw [addShips_number, addShips_number, setShip_number, setShip_number, setShip_number]
        · dsimp only
          rw [addShips_ships, addShips_ships, setShip_ships, setShip_ships, setShip_ships]
          split_ifs <;> rfl
      · rw [if_neg hN] at hr
        subst hr
        refine ⟨fun c => ?_, Or.inr (Or.inl ⟨⟨hE, hW⟩, hN, fun c => ⟨?_, fun k => ?_⟩⟩)⟩
        · exact setShip_sameKind _ _ _ _ _
        · dsimp only
          rw [setShip_number]
        · dsimp only
          rw [setShip_ships]
/-! ## The count of ships and the roster -/

/-- A property kept by every pass of a loop holds when the loop ends. -/
theorem foldl_inv {σ α : Type} (f : σ → α → σ) (P : σ → Prop) (l : List α)
    (hstep : ∀ s a, a ∈ l → P s → P (f s a)) (s : σ) (h0 : P s) : P (l.foldl f s) := by
  induction l generalizing s with
  | nil => exact h0
  | cons a l ih =>
    rw [List.foldl_cons]
    exact ih (fun s a ha => hstep s a (List.mem_cons_of_mem _ ha)) _
      (hstep s a (List.mem_cons_self _ _) h0)

theorem sum_map_update {α : Type} [DecidableEq α] (l : List α) (hnd : l.Nodup) (f g : α → Int)
    (a : α) (h : ∀ k, k ≠ a → g k = f k) :
    (l.map g).sum = (l.map f).sum + (if a ∈ l then g a - f a else 0) := by
  induction l with
  | nil => simp
  | cons b l ih =>
    rw [List.nodup_cons] at hnd
    rw [List.map_cons, List.map_cons, List.sum_cons, List.sum_cons, ih hnd.2]
    by_cases hb : b = a
    · subst hb
      simp only [List.mem_cons, true_or, if_true, if_neg hnd.1]
      omega
    · rw [h b hb]
      by_cases ha : a ∈ l
      · simp only [List.mem_cons, ha, or_true, if_true]
        omega
      · have hab : ¬ a = b := fun h1 => hb h1.symm
        simp only [List.mem_cons, hab, ha, or_self, if_false]
        omega

theorem countP_eq_sum (p : Nat → Bool) (l : List Nat) :
    (l.countP p : Int) = (l.map (fun z => if p z = true then (1 : Int) else 0)).sum := by
  induction l with
  | nil => simp
  | cons a l ih =>
    rw [List.countP_cons, List.map_cons, List.sum_cons, ← ih]
    by_cases h : p a = true
    · simp only [h, if_true]
      push_cast
      omega
    · simp only [h, if_false]
      push_cast
      simp

/-- Changing slot `z` of a roster changes the number of its ships by the change at
that slot. -/
theorem rosterCount_update (old new : Nat → Option ship_struct) (z : Nat)
    (hz : z < MAX_SHIPS_PER_CELL) (h : ∀ k, k ≠ z → new k = old k) :
    (rosterCount new : Int) = rosterCount old
      + (if (new z).isSome = true then 1 else 0) - (if (old z).isSome = true then 1 else 0) := by
  unfold rosterCount
  rw [countP_eq_sum, countP_eq_sum,
    sum_map_update (List.range MAX_SHIPS_PER_CELL) (List.nodup_range _)
      (fun z => if (old z).isSome = true then (1 : Int) else 0)
      (fun z => if (new z).isSome = true then (1 : Int) else 0) z
      (fun k hk => by dsimp only; rw [h k hk])]
  rw [if_pos (List.mem_range.mpr hz)]
  omega

theorem rosterCount_le (ships : Nat → Option ship_struct) :
    rosterCount ships ≤ MAX_SHIPS_PER_CELL := by
  unfold rosterCount
  exact le_trans (List.countP_le_length _) (by simp)

theorem mem_scanSlots (local_nx ny : Int) (s : (Int × Int) × Nat) :
    s ∈ scanSlots local_nx ny ↔ s.1 ∈ slabCells local_nx ny ∧ s.2 < MAX_SHIPS_PER_CELL := by
  unfold scanSlots
  rw [List.mem_flatMap]
  constructor
  · rintro ⟨jk, hjk, hs⟩
    rw [List.mem_map] at hs
    obtain ⟨z, hz, rfl⟩ := hs
    exact ⟨hjk, List.mem_range.mp hz⟩
  · rintro ⟨h1, h2⟩
    exact ⟨s.1, h1, List.mem_map.mpr ⟨s.2, List.mem_range.mpr h2, rfl⟩⟩

theorem processPortCreate_consistent (env : SimEnv) (w : PortWork) (h : Consistent w.cell) :
    Consistent (processPortCreate env w).cell := by
  unfold Consistent at h ⊢
  rcases (processPortCreate_spec env w).2.2.2 with ⟨h1, h2⟩ | ⟨z, hz, hnone, h1, h2⟩
  · rw [h1, h2, h]
  · rw [h1, h2, h, rosterCount_update w.cell.ships_data _ z hz
      (fun k hk => setSlot_other _ _ _ _ hk), setSlot_same, hnone]
    simp

theorem processPortSlot_consistent (env : SimEnv) (w w1 : PortWork) (z : Nat)
    (hz : z < MAX_SHIPS_PER_CELL) (h : Consistent w.cell)
    (hs : processPortSlot env w z = some w1) : Consistent w1.cell := by
  unfold Consistent at h ⊢
  obtain ⟨_, _, s3, _, _, s6, s7, _, _⟩ := processPortSlot_spec env w w1 z hs
  rw [s6, h, rosterCount_update w.cell.ships_data w1.cell.ships_data z hz s3]
  cases hold : w.cell.ships_data z with
  | none =>
    rw [s7 hold]
    simp
  | some ship =>
    cases hnew : w1.cell.ships_data z <;> simp

theorem processPort_consistent (env : SimEnv) (w w1 : PortWork) (h : Consistent w.cell)
    (hs : processPort env w = some w1) : Consistent w1.cell :=
  foldOpt_inv (processPortSlot env) (fun w => Consistent w.cell) _
    (fun s a s1 ha hP hf => processPortSlot_consistent env s s1 a (List.mem_range.mp ha) hP hf)
    (processPortCreate env w) w1 (processPortCreate_consistent env w h) hs

theorem processWaterSlot_consistent (env : SimEnv) (dt : Int) (s : cell_struct × Nat) (z : Nat)
    (hz : z < MAX_SHIPS_PER_CELL) (h : Consistent s.1) :
    Consistent (processWaterSlot env dt s z).1 := by
  unfold processWaterSlot
  cases hs : s.1.ships_data z with
  | none => exact h
  | some ship =>
    unfold Consistent at h ⊢
    dsimp only
    rw [h, rosterCount_update s.1.ships_data _ z hz (fun k hk => setSlot_other _ _ _ _ hk),
      setSlot_same, hs]
    simp

theorem processWater_consistent (env : SimEnv) (c : cell_struct) (dt : Int) (calls : Nat)
    (h : Consistent c) : Consistent (processWater env c dt calls).1 :=
  foldl_inv (processWaterSlot env dt) (fun s => Consistent s.1) _
    (fun s a ha hP => processWaterSlot_consistent env dt s a (List.mem_range.mp ha) hP) _ h
/-- The slot that `findFreeShipIndex` returns for the destination of a move is a slot
below 200 that is `NULL` before the move and is not the slot the ship leaves. -/
theorem freeSlot_of_findFreeShipIndex (d : Int → cell_struct) (idx target : Int) (z : Nat)
    (moved : ship_struct)
    (hN : findFreeShipIndex (setShip d idx z (some moved) target) > -1) :
    (findFreeShipIndex (setShip d idx z (some moved) target)).toNat < MAX_SHIPS_PER_CELL ∧
    (d target).ships_data (findFreeShipIndex (setShip d idx z (some moved) target)).toNat = none ∧
    ¬ (target = idx ∧ (findFreeShipIndex (setShip d idx z (some moved) target)).toNat = z) := by
  rcases findFreeShipIndex_spec (setShip d idx z (some moved) target) with
    ⟨hneg, _⟩ | ⟨z1, hz1, hlt, hnone, _⟩
  · rw [hneg] at hN
    exact absurd hN (by decide)
  · rw [hz1, Int.toNat_ofNat]
    rw [setShip_ships] at hnone
    by_cases hc : target = idx ∧ z1 = z
    · rw [if_pos hc] at hnone
      cases hnone
    · rw [if_neg hc] at hnone
      exact ⟨hlt, hnone, hc⟩

/-- The body of the scan of `updateMovement` keeps, in every cell, the count of ships
equal to the number of occupied slots. -/
theorem moveShip_consistent (env : SimEnv) (next : Int → Int → Int → Option (Int × Int))
    (m : MoveState) (jk : Int × Int) (z : Nat) (hz : z < MAX_SHIPS_PER_CELL) (c : Int)
    (hc : Consistent (m.sub_domain c)) :
    Consistent ((moveShip env next findFreeShipIndex m (jk, z)).sub_domain c) := by
  cases hslot : (m.sub_domain (slabIndex env.ny jk)).ships_data z with
  | none =>
    rw [moveShip_idle env next _ m jk z (fun ship hs => by rw [hslot] at hs; cases hs)]
    exact hc
  | some ship =>
    by_cases hf : ship.willMoveThisTimestep = true
    · obtain ⟨_, hcase⟩ := moveShip_flagged env next findFreeShipIndex m jk z ship hslot hf
        _ rfl _ rfl _ rfl
      unfold Consistent at hc ⊢
      generalize (moveShip env next findFreeShipIndex m (jk, z)).sub_domain = rd at hcase ⊢
      rcases hcase with ⟨_, hall⟩ | ⟨_, _, hall⟩ | ⟨_, hN, hall⟩
      · obtain ⟨hnum, hships⟩ := hall c
        rw [hnum, hc, rosterCount_update (m.sub_domain c).ships_data (rd c).ships_data z hz
          (fun k hk => by rw [hships k]; simp [hk]), hships z]
        by_cases hci : c = slabIndex env.ny jk
        · subst hci
          simp [hslot]
          omega
        · simp [hci]
      · obtain ⟨hnum, hships⟩ := hall c
        rw [hnum, hc, rosterCount_update (m.sub_domain c).ships_data (rd c).ships_data z hz
          (fun k hk => by rw [hships k]; simp [hk]), hships z]
        by_cases hci : c = slabIndex env.ny jk
        · subst hci
          simp [hslot]
        · simp [hci]
      · obtain ⟨hnum, hships⟩ := hall c
        obtain ⟨hlt, hfree, hne⟩ := freeSlot_of_findFreeShipIndex m.sub_domain
          (slabIndex env.ny jk) _ z _ hN
        generalize (findFreeShipIndex (setShip m.sub_domain (slabIndex env.ny jk) z
          (some { ship with willMoveThisTimestep := false })
          (moveTarget env.ny jk (moveOffset env next (m.sub_domain (slabIndex env.ny jk)) ship
            jk.1 jk.2 z)))).toNat = ni at hships hlt hfree hne
        generalize moveTarget env.ny jk (moveOffset env next (m.sub_domain (slabIndex env.ny jk))
          ship jk.1 jk.2 z) = target at hnum hships hfree hne
        have h1 : (rosterCount (fun k => if c = target ∧ k = ni then
              some { ship with willMoveThisTimestep := false }
            else (m.sub_domain c).ships_data k) : Int)
            = rosterCount (m.sub_domain c).ships_data + (if c = target then 1 else 0) := by
          rw [rosterCount_update (m.sub_domain c).ships_data (fun k => if c = target ∧ k = ni then
              some { ship with willMoveThisTimestep := false }
            else (m.sub_domain c).ships_data k) ni hlt (fun k hk => by simp [hk])]
          by_cases hct : c = target
          · subst hct
            simp [hfree]
          · simp [hct]
        have h2 : (rosterCount (rd c).ships_data : Int)
            = rosterCount (fun k => if c = target ∧ k = ni then
                some { ship with willMoveThisTimestep := false }
              else (m.sub_domain c).ships_data k)
              + (if c = slabIndex env.ny jk then -1 else 0) := by
          rw [rosterCount_update (fun k => if c = target ∧ k = ni then
                some { ship with willMoveThisTimestep := false }
              else (m.sub_domain c).ships_data k) (rd c).ships_data z hz
            (fun k hk => by rw [hships k]; simp [hk]), hships z]
          by_cases hci : c = slabIndex env.ny jk
          · subst hci
            by_cases hb : slabIndex env.ny jk = target ∧ z = ni
            · exact absurd ⟨hb.1.symm, hb.2.symm⟩ hne
            · simp [hb, hslot]
              omega
          · simp [hci]
        rw [hnum, hc, h2, h1]
        omega
    · rw [moveShip_idle env next _ m jk z (fun ship2 hs => by
        rw [hslot] at hs
        cases hs
        simpa using hf)]
      exact hc

theorem scanMovement_consistent (env : SimEnv) (next : Int → Int → Int → Option (Int × Int))
    (d : Int → cell_struct) (c : Int) (hc : Consistent (d c)) :
    Consistent ((scanMovement env next findFreeShipIndex d).sub_domain c) :=
  foldl_inv (moveShip env next findFreeShipIndex) (fun m => Consistent (m.sub_domain c)) _
    (fun m s hs hP => moveShip_consistent env next m s.1 s.2
      ((mem_scanSlots _ _ s).mp hs).2 c hP) _ hc

/-- A worker that is alone receives nothing: the domain that `updateMovement` leaves
is the one after the scan. -/
theorem updateMovement_alone (env : SimEnv) (h : Alone env)
    (next : Int → Int → Int → Option (Int × Int)) (find : cell_struct → Int)
    (d : Int → cell_struct) (fromNext fromPrevious : List (ship_struct × Int)) :
    (updateMovement env next find d fromNext fromPrevious).sub_domain
      = (scanMovement env next find d).sub_domain := by
  obtain ⟨h1, h2⟩ := h
  unfold updateMovement
  dsimp only
  rw [if_neg (by omega), if_neg (by omega)]

/-- What `initialiseDomain` establishes makes the count of ships equal to the number
of occupied slots, when `initialShips` is between 0 and 200. -/
theorem InitialCell_consistent (env : SimEnv) (jk : Int × Int) (c : cell_struct)
    (h0 : 0 ≤ env.config.initialShips) (h200 : env.config.initialShips ≤ 200)
    (h : InitialCell env jk c) : Consistent c := by
  obtain ⟨_, _, _, _, _, hport, hother⟩ := h
  unfold Consistent
  cases hp : isCellAPort env.config (env.basex + jk.1 - 1) (jk.2 - 1) with
  | true =>
    obtain ⟨_, _, _, hn, hlow, hhigh⟩ := hport hp
    rw [hn, rosterCount_prefix c.ships_data env.config.initialShips.toNat
      (by unfold MAX_SHIPS_PER_CELL; omega)]
    · omega
    · intro z hz
      constructor
      · intro hsome
        by_contra hlt
        rw [hhigh z (by omega) hz] at hsome
        simp at hsome
      · intro hlt
        obtain ⟨ship, hship, _⟩ := hlow z (by omega)
        rw [hship]
        rfl
  | false =>
    obtain ⟨hn, hempty⟩ := hother hp
    rw [hn, rosterCount_prefix c.ships_data 0 (by unfold MAX_SHIPS_PER_CELL; omega)]
    · rfl
    · intro z hz
      rw [hempty z hz]
      simp
/-- C15, as amended: when `0 <= initialShips <= 200`, after `initialiseDomain` every
owned cell has `number_ships` equal to the number of its roster slots that are not
`NULL`; `processPort`, `processWater` and the `updateMovement` of a worker that is alone
keep this equality in every cell, and a cell in which it holds has at most 200 ships. -/
theorem number_ships_counts_roster (env : SimEnv) :
    (0 ≤ env.config.initialShips → env.config.initialShips ≤ 200 →
      ∀ st st1, initialiseDomain env st = some st1 →
        ∀ jk ∈ slabCells env.local_nx env.ny,
          Consistent (st1.sub_domain (slabIndex env.ny jk))) ∧
    (∀ w w1, Consistent w.cell → processPort env w = some w1 → Consistent w1.cell) ∧
    (∀ c dt calls, Consistent c → Consistent (processWater env c dt calls).1) ∧
    (Alone env → ∀ next d c, Consistent (d c) →
      Consistent ((updateMovement env next findFreeShipIndex d [] []).sub_domain c)) ∧
    (∀ c, Consistent c → c.number_ships ≤ 200) := by
  refine ⟨?_, ?_, ?_, ?_, ?_⟩
  · intro h0 h200 st st1 h jk hjk
    exact InitialCell_consistent env jk _ h0 h200 ((initialiseDomain_spec env st st1 h).1 jk hjk).1
  · intro w w1 hc h
    exact processPort_consistent env w w1 hc h
  · intro c dt calls hc
    exact processWater_consistent env c dt calls hc
  · intro ha next d c hc
    rw [updateMovement_alone env ha]
    exact scanMovement_consistent env next d c hc
  · intro c hc
    unfold Consistent at hc
    have := rosterCount_le c.ships_data
    unfold MAX_SHIPS_PER_CELL at this
    omega

/-- Witness of C15: on the example of two adjacent ports the port cell `(1, 1)` has
its count equal to its roster after `initialiseDomain` and after a following
`updateMovement`. -/
theorem number_ships_counts_roster_witness :
    (0 ≤ pairEnv.config.initialShips ∧ pairEnv.config.initialShips ≤ 200 ∧ Alone pairEnv) ∧
    ∃ st1, initialiseDomain pairEnv staleState = some st1 ∧
      Consistent (st1.sub_domain (slabIndex pairEnv.ny (1, 1))) ∧
      Consistent ((updateMovement pairEnv (fun _ _ _ => none) findFreeShipIndex
        st1.sub_domain [] []).sub_domain (slabIndex pairEnv.ny (1, 1))) := by
  refine ⟨⟨by decide, by decide, by decide, by decide⟩, ?_⟩
  obtain ⟨st1, h1⟩ : ∃ st1, initialiseDomain pairEnv staleState = some st1 :=
    Option.isSome_iff_exists.mp (by decide)
  have hc := (number_ships_counts_roster pairEnv).1 (by decide) (by decide) staleState st1 h1
    (1, 1) (by decide)
  exact ⟨st1, h1, hc,
    (number_ships_counts_roster pairEnv).2.2.2.1 ⟨by decide, by decide⟩ _ _ _ hc⟩

/-- Counterexample to C15 as stated: with `initialShips = -1` (which is `<= 200`) the
port cell `(1, 1)` has `number_ships = -1` and an empty roster after `initialiseDomain`. -/
theorem number_ships_negative :
    negEnv.config.initialShips ≤ 200 ∧
    ∃ st1, initialiseDomain negEnv staleState = some st1 ∧
      (1, 1) ∈ slabCells negEnv.local_nx negEnv.ny ∧
      (st1.sub_domain (slabIndex negEnv.ny (1, 1))).number_ships = -1 ∧
      rosterCount (st1.sub_domain (slabIndex negEnv.ny (1, 1))).ships_data = 0 ∧
      ¬ Consistent (st1.sub_domain (slabIndex negEnv.ny (1, 1))) := by
  refine ⟨by decide, ?_⟩
  obtain ⟨st1, h1⟩ : ∃ st1, initialiseDomain negEnv staleState = some st1 :=
    Option.isSome_iff_exists.mp (by decide)
  have hv : (initialiseDomain negEnv staleState).map
      (fun st1 => ((st1.sub_domain (slabIndex negEnv.ny (1, 1))).number_ships,
        rosterCount (st1.sub_domain (slabIndex negEnv.ny (1, 1))).ships_data)) = some (-1, 0) := by
    set_option maxRecDepth 100000 in decide
  rw [h1] at hv
  simp only [Option.map_some', Option.some.injEq, Prod.mk.injEq] at hv
  refine ⟨st1, h1, by decide, hv.1, hv.2, ?_⟩
  unfold Consistent
  rw [hv.1, hv.2]
  decide

/-! ## The fleet during the movement step -/

theorem sum_map_indicator {α : Type} [DecidableEq α] (l : List α) (hnd : l.Nodup) (a : α)
    (v : Int) (ha : a ∈ l) : (l.map (fun s => if s = a then v else 0)).sum = v := by
  rw [sum_map_update l hnd (fun _ => 0) (fun s => if s = a then v else 0) a
    (fun k hk => by simp [hk])]
  simp [ha]

/-- A sum over a list without repetition whose terms change at two entries. -/
theorem sum_map_two_point {α : Type} [DecidableEq α] (l : List α) (hnd : l.Nodup)
    (f g : α → Int) (a b : α) (va vb : Int) (ha : a ∈ l) (hb : b ∈ l)
    (h : ∀ s ∈ l, g s = f s + (if s = a then va else 0) + (if s = b then vb else 0)) :
    (l.map g).sum = (l.map f).sum + va + vb := by
  rw [List.map_congr_left h, List.sum_map_add, List.sum_map_add,
    sum_map_indicator l hnd a va ha, sum_map_indicator l hnd b vb hb]

theorem scanSlots_nodup (local_nx ny : Int) : (scanSlots local_nx ny).Nodup :=
  List.Nodup.product (slabCells_nodup local_nx ny) (List.nodup_range _)

theorem count_filterMap_eq_sum {α β : Type} [DecidableEq β] (f : α → Option β) (a : β)
    (l : List α) :
    ((l.filterMap f).count a : Int) = (l.map (fun s => if f s = some a then (1 : Int) else 0)).sum := by
  induction l with
  | nil => simp
  | cons x l ih =>
    rw [List.map_cons, List.sum_cons, ← ih]
    cases hx : f x with
    | none => simp [List.filterMap_cons, hx]
    | some b =>
      rw [List.filterMap_cons_some hx, List.count_cons]
      by_cases hb : b = a
      · subst hb
        simp
        omega
      · have : ¬ (some b = some a) := fun h => hb (Option.some.inj h)
        simp [hb, this]

theorem slabIndex_eq_iff (env : SimEnv) (a b : Int × Int)
    (ha : a ∈ slabCells env.local_nx env.ny) (hb : b ∈ slabCells env.local_nx env.ny) :
    slabIndex env.ny a = slabIndex env.ny b ↔ a = b := by
  constructor
  · intro h
    exact slabIndex_inj env.ny a b ((mem_slabCells _ _ a).mp ha).2 ((mem_slabCells _ _ b).mp hb).2 h
  · intro h
    rw [h]

theorem moveTarget_eq_slabIndex (ny : Int) (jk o : Int × Int) :
    moveTarget ny jk o = slabIndex ny (jk.1 + o.1, jk.2 + o.2) := by
  unfold moveTarget slabIndex
  dsimp only
  omega
/-- Where the ships come from after the body of the scan of `updateMovement`: every cell
keeps its kind, and a ship of a slot was either in that slot before, or is a ship that
was flagged before and has had its flag cleared. -/
theorem moveShip_origin (env : SimEnv) (next : Int → Int → Int → Option (Int × Int))
    (find : cell_struct → Int) (m : MoveState) (jk : Int × Int) (z : Nat) :
    (∀ c, sameKind ((moveShip env next find m (jk, z)).sub_domain c) (m.sub_domain c)) ∧
    ∀ c k ship1, ((moveShip env next find m (jk, z)).sub_domain c).ships_data k = some ship1 →
      (m.sub_domain c).ships_data k = some ship1 ∨
      ∃ ship, (m.sub_domain (slabIndex env.ny jk)).ships_data z = some ship ∧
        ship.willMoveThisTimestep = true ∧
        ship1 = { ship with willMoveThisTimestep := false } := by
  cases hslot : (m.sub_domain (slabIndex env.ny jk)).ships_data z with
  | none =>
    rw [moveShip_idle env next _ m jk z (fun ship hs => by rw [hslot] at hs; cases hs)]
    exact ⟨fun c => sameKind_refl _, fun c k ship1 h => Or.inl h⟩
  | some ship =>
    by_cases hf : ship.willMoveThisTimestep = true
    · obtain ⟨hkind, hcase⟩ := moveShip_flagged env next find m jk z ship hslot hf
        _ rfl _ rfl _ rfl
      refine ⟨hkind, ?_⟩
      intro c k ship1 h1
      rcases hcase with ⟨_, hall⟩ | ⟨_, _, hall⟩ | ⟨_, _, hall⟩
      · rw [(hall c).2 k] at h1
        split_ifs at h1
        exact Or.inl h1
      · rw [(hall c).2 k] at h1
        split_ifs at h1
        · exact Or.inr ⟨ship, rfl, hf, (Option.some.inj h1).symm⟩
        · exact Or.inl h1
      · rw [(hall c).2 k] at h1
        split_ifs at h1
        · exact Or.inr ⟨ship, rfl, hf, (Option.some.inj h1).symm⟩
        · exact Or.inl h1
    · rw [moveShip_idle env next _ m jk z (fun ship2 hs => by
        rw [hslot] at hs
        cases hs
        simpa using hf)]
      exact ⟨fun c => sameKind_refl _, fun c k ship1 h => Or.inl h⟩

/-- The body of the scan of `updateMovement`, at a slot whose flagged ship is given an
offset that leads to an owned cell, keeps every sum over the slots of a weight that does
not depend on the flag, and the sum of `number_ships`. -/
theorem moveShip_inBounds (env : SimEnv) (next : Int → Int → Int → Option (Int × Int))
    (m : MoveState) (jk : Int × Int) (z : Nat) (hjk : jk ∈ slabCells env.local_nx env.ny)
    (hz : z < MAX_SHIPS_PER_CELL)
    (hnext : ∀ ship, (m.sub_domain (slabIndex env.ny jk)).ships_data z = some ship →
      ship.willMoveThisTimestep = true →
      ∃ o, next ship.route (env.basex + (m.sub_domain (slabIndex env.ny jk)).x - 1)
          ((m.sub_domain (slabIndex env.ny jk)).y - 1) = some o ∧
        (jk.1 + o.1, jk.2 + o.2) ∈ slabCells env.local_nx env.ny) :
    (∀ wt, FlagBlind wt →
      slotSum env wt (moveShip env next findFreeShipIndex m (jk, z)).sub_domain
        = slotSum env wt m.sub_domain) ∧
    totalShips env (moveShip env next findFreeShipIndex m (jk, z)).sub_domain
      = totalShips env m.sub_domain := by
  cases hslot : (m.sub_domain (slabIndex env.ny jk)).ships_data z with
  | none =>
    rw [moveShip_idle env next _ m jk z (fun ship hs => by rw [hslot] at hs; cases hs)]
    exact ⟨fun _ _ => rfl, rfl⟩
  | some ship =>
    by_cases hf : ship.willMoveThisTimestep = true
    · obtain ⟨o, ho, hdest⟩ := hnext ship hslot hf
      have hoff : o = moveOffset env next (m.sub_domain (slabIndex env.ny jk)) ship jk.1 jk.2 z := by
        unfold moveOffset
        rw [ho]
      obtain ⟨_, hcase⟩ := moveShip_flagged env next findFreeShipIndex m jk z ship hslot hf
        o hoff (slabIndex env.ny (jk.1 + o.1, jk.2 + o.2)) (moveTarget_eq_slabIndex _ _ _).symm
        _ rfl
      generalize (moveShip env next findFreeShipIndex m (jk, z)).sub_domain = rd at hcase ⊢
      have hd1 := ((mem_slabCells _ _ _).mp hdest).1
      dsimp only at hd1
      rcases hcase with ⟨hsent, _⟩ | ⟨_, _, hall⟩ | ⟨_, hN, hall⟩
      · exfalso
        omega
      · constructor
        · intro wt hwt
          unfold slotSum
          congr 1
          apply List.map_congr_left
          intro s _
          rw [(hall _).2 s.2]
          split_ifs with hc
          · rw [hc.1, hc.2, hslot]
            exact hwt.2 ship
          · rfl
        · unfold totalShips
          congr 1
          apply List.map_congr_left
          intro s _
          rw [(hall _).1]
      · obtain ⟨hlt, hfree, hne⟩ := freeSlot_of_findFreeShipIndex m.sub_domain
          (slabIndex env.ny jk) _ z _ hN
        generalize (findFreeShipIndex (setShip m.sub_domain (slabIndex env.ny jk) z
          (some { ship with willMoveThisTimestep := false })
          (slabIndex env.ny (jk.1 + o.1, jk.2 + o.2)))).toNat = ni at hall hlt hfree hne
        rw [slabIndex_eq_iff env _ _ hdest hjk] at hne
        constructor
        · intro wt hwt
          unfold slotSum
          rw [sum_map_two_point (scanSlots env.local_nx env.ny) (scanSlots_nodup _ _)
            (fun s => wt ((m.sub_domain (slabIndex env.ny s.1)).ships_data s.2))
            (fun s => wt ((rd (slabIndex env.ny s.1)).ships_data s.2))
            (jk, z) ((jk.1 + o.1, jk.2 + o.2), ni) (- wt (some ship))
            (wt (some { ship with willMoveThisTimestep := false }))
            ((mem_scanSlots _ _ _).mpr ⟨hjk, hz⟩) ((mem_scanSlots _ _ _).mpr ⟨hdest, hlt⟩)]
          · rw [hwt.2 ship]
            omega
          · intro s hs
            have hs1 := ((mem_scanSlots _ _ s).mp hs).1
            rw [(hall _).2 s.2]
            simp only [slabIndex_eq_iff env _ _ hs1 hjk, slabIndex_eq_iff env _ _ hs1 hdest]
            by_cases ha : s = (jk, z)
            · subst ha
              have hab : ¬ ((jk, z) = ((jk.1 + o.1, jk.2 + o.2), ni)) := by
                intro h
                rw [Prod.ext_iff] at h
                exact hne ⟨h.1.symm, h.2.symm⟩
              simp only [and_self, if_true, hab, if_false, hslot, hwt.1]
              omega
            · have ha2 : ¬ (s.1 = jk ∧ s.2 = z) := fun h => ha (Prod.ext h.1 h.2)
              rw [if_neg ha2, if_neg ha]
              by_cases hb : s = ((jk.1 + o.1, jk.2 + o.2), ni)
              · subst hb
                simp only [and_self, if_true]
                rw [hfree, hwt.1]
                omega
              · have hb2 : ¬ (s.1 = (jk.1 + o.1, jk.2 + o.2) ∧ s.2 = ni) :=
                  fun h => hb (Prod.ext h.1 h.2)
                rw [if_neg hb2, if_neg hb]
                omega
        · unfold totalShips
          rw [sum_map_two_point (slabCells env.local_nx env.ny) (slabCells_nodup _ _)
            (fun s => (m.sub_domain (slabIndex env.ny s)).number_ships)
            (fun s => (rd (slabIndex env.ny s)).number_ships)
            jk (jk.1 + o.1, jk.2 + o.2) (-1) 1 hjk hdest]
          · omega
          · intro s hs
            rw [(hall _).1]
            simp only [slabIndex_eq_iff env _ _ hs hjk, slabIndex_eq_iff env _ _ hs hdest]
    · rw [moveShip_idle env next _ m jk z (fun ship2 hs => by
        rw [hslot] at hs
        cases hs
        simpa using hf)]
      exact ⟨fun _ _ => rfl, rfl⟩
/-- The scan of `updateMovement`, when every flagged ship is given an offset that leads
to an owned cell, keeps every sum over the slots of a weight that does not depend on
the flag, and the sum of `number_ships`. -/
theorem scanMovement_inBounds (env : SimEnv) (next : Int → Int → Int → Option (Int × Int))
    (d : Int → cell_struct) (hnext : MovesInBounds env next d) :
    (∀ wt, FlagBlind wt →
      slotSum env wt (scanMovement env next findFreeShipIndex d).sub_domain = slotSum env wt d) ∧
    totalShips env (scanMovement env next findFreeShipIndex d).sub_domain = totalShips env d := by
  have key := foldl_inv (moveShip env next findFreeShipIndex)
    (fun m => (∀ c, sameKind (m.sub_domain c) (d c)) ∧
      (∀ c k ship, (m.sub_domain c).ships_data k = some ship →
        ship.willMoveThisTimestep = true → (d c).ships_data k = some ship) ∧
      (∀ wt, FlagBlind wt → slotSum env wt m.sub_domain = slotSum env wt d) ∧
      totalShips env m.sub_domain = totalShips env d)
    (scanSlots env.local_nx env.ny)
    (fun m s hs hI => by
      obtain ⟨ia, ib, ic, id⟩ := hI
      obtain ⟨hs1, hs2⟩ := (mem_scanSlots _ _ s).mp hs
      obtain ⟨oa, ob⟩ := moveShip_origin env next findFreeShipIndex m s.1 s.2
      obtain ⟨pa, pb⟩ := moveShip_inBounds env next m s.1 s.2 hs1 hs2 (fun ship hship hf => by
        have hx := (ia (slabIndex env.ny s.1)).1
        have hy := (ia (slabIndex env.ny s.1)).2.1
        rw [hx, hy]
        exact hnext s.1 hs1 s.2 hs2 ship (ib _ _ ship hship hf) hf)
      refine ⟨fun c => sameKind_trans (oa c) (ia c), ?_, ?_, ?_⟩
      · intro c k ship1 h1 hf1
        rcases ob c k ship1 h1 with hold | ⟨ship, _, _, hcl⟩
        · exact ib c k ship1 hold hf1
        · rw [hcl] at hf1
          cases hf1
      · intro wt hwt
        rw [pa wt hwt, ic wt hwt]
      · rw [pb, id])
    { sub_domain := d, sendShips1 := [], ys1 := [], sendShips2 := [], ys2 := [] }
    ⟨fun c => sameKind_refl _, fun c k ship h _ => h, fun _ _ => rfl, rfl⟩
  exact ⟨key.2.2.1, key.2.2.2⟩

theorem fleet_count (env : SimEnv) (d : Int → cell_struct) (a : Int × Int × Int × Int) :
    ((@List.count _ instBEqOfDecidableEq a (fleet env d) : Nat) : Int)
      = slotSum env (fun o => if o.map shipKey = some a then 1 else 0) d := by
  unfold fleet slotSum
  exact count_filterMap_eq_sum _ a _

theorem flagBlind_key (a : Int × Int × Int × Int) :
    FlagBlind (fun o => if o.map shipKey = some a then 1 else 0) := by
  constructor
  · simp
  · intro ship
    rfl

/-- C13: on a worker that is alone, when the next-cell strategy gives every flagged ship
an offset that leads to an owned cell, `updateMovement` leaves the ships
`(id, route, hoursAtSea, cargoAmount)` of the owned cells the same up to their order
(none lost, none duplicated) and the sum of `number_ships` over the owned cells the
same.  In the body of its scan, a flagged ship whose destination cell has all its 200
slots occupied stays in its slot with the flag cleared, and no roster or count
changes otherwise. -/
theorem updateMovement_keeps_ships (env : SimEnv) (ha : Alone env)
    (next : Int → Int → Int → Option (Int × Int)) (d : Int → cell_struct)
    (hnext : MovesInBounds env next d) :
    (fleet env (updateMovement env next findFreeShipIndex d [] []).sub_domain).Perm (fleet env d) ∧
    totalShips env (updateMovement env next findFreeShipIndex d [] []).sub_domain
      = totalShips env d ∧
    ∀ (m : MoveState) (jk : Int × Int) (z : Nat) (ship : ship_struct),
      (m.sub_domain (slabIndex env.ny jk)).ships_data z = some ship →
      ship.willMoveThisTimestep = true →
      jk.1 + (moveOffset env next (m.sub_domain (slabIndex env.ny jk)) ship jk.1 jk.2 z).1
        ≠ env.local_nx + 1 →
      jk.1 + (moveOffset env next (m.sub_domain (slabIndex env.ny jk)) ship jk.1 jk.2 z).1 ≠ 0 →
      (∀ k, k < MAX_SHIPS_PER_CELL →
        ((m.sub_domain (moveTarget env.ny jk
          (moveOffset env next (m.sub_domain (slabIndex env.ny jk)) ship jk.1 jk.2 z))).ships_data
            k).isSome = true) →
      ∀ c, ((moveShip env next findFreeShipIndex m (jk, z)).sub_domain c).number_ships
          = (m.sub_domain c).number_ships ∧
        ∀ k, ((moveShip env next findFreeShipIndex m (jk, z)).sub_domain c).ships_data k
          = if c = slabIndex env.ny jk ∧ k = z then
              some { ship with willMoveThisTimestep := false }
            else (m.sub_domain c).ships_data k := by
  obtain ⟨hsum, htot⟩ := scanMovement_inBounds env next d hnext
  rw [updateMovement_alone env ha]
  refine ⟨?_, htot, ?_⟩
  · rw [List.perm_iff_count]
    intro a
    apply Int.natCast_inj.mp
    rw [fleet_count, fleet_count]
    exact hsum _ (flagBlind_key a)
  · intro m jk z ship hslot hf hE hW hfull
    obtain ⟨_, hcase⟩ := moveShip_flagged env next findFreeShipIndex m jk z ship hslot hf
      _ rfl _ rfl _ rfl
    rcases hcase with ⟨hsent, _⟩ | ⟨_, _, hall⟩ | ⟨_, hN, _⟩
    · rcases hsent with h | h
      · exact absurd h hE
      · exact absurd h hW
    · exact hall
    · exfalso
      obtain ⟨hlt, hfree, _⟩ := freeSlot_of_findFreeShipIndex m.sub_domain
        (slabIndex env.ny jk) _ z _ hN
      have := hfull _ hlt
      rw [hfree] at this
      cases this
theorem movesInBounds_oneShip : MovesInBounds pairEnv eastward oneShipDomain := by
  intro jk hjk z hz ship hs hf
  have hm := (mem_slabCells _ _ jk).mp hjk
  have h1 : pairEnv.local_nx = 2 := rfl
  have h2 : pairEnv.ny = 1 := rfl
  rw [h1, h2] at hm
  have hcases : jk = (1, 1) ∨ jk = (2, 1) := by
    rcases hm with ⟨⟨a1, a2⟩, b1, b2⟩
    have hy : jk.2 = 1 := by omega
    have hx : jk.1 = 1 ∨ jk.1 = 2 := by omega
    rcases hx with hx | hx
    · exact Or.inl (Prod.ext hx hy)
    · exact Or.inr (Prod.ext hx hy)
  rcases hcases with rfl | rfl
  · exact ⟨(1, 0), rfl, by decide⟩
  · have : (oneShipDomain (slabIndex pairEnv.ny (2, 1))).ships_data z = none := by
      simp [oneShipDomain, slabIndex, h2]
    rw [this] at hs
    cases hs

/-- Witness of C13: on the example worker with one flagged ship in the cell `(1, 1)`
that is sent one column to the east, the fleet and the sum of `number_ships` are kept. -/
theorem updateMovement_keeps_ships_witness :
    Alone pairEnv ∧ MovesInBounds pairEnv eastward oneShipDomain ∧
    (fleet pairEnv (updateMovement pairEnv eastward findFreeShipIndex oneShipDomain [] []).sub_domain).Perm
      (fleet pairEnv oneShipDomain) ∧
    totalShips pairEnv (updateMovement pairEnv eastward findFreeShipIndex oneShipDomain [] []).sub_domain
      = totalShips pairEnv oneShipDomain :=
  ⟨⟨rfl, rfl⟩, movesInBounds_oneShip,
    (updateMovement_keeps_ships pairEnv ⟨rfl, rfl⟩ eastward oneShipDomain movesInBounds_oneShip).1,
    (updateMovement_keeps_ships pairEnv ⟨rfl, rfl⟩ eastward oneShipDomain movesInBounds_oneShip).2.1⟩

/-! ## A scan with one flagged ship -/

/-- A loop whose body changes the state at one entry `a` of the list only, before and
after that entry has been met, ends in the state that this one pass gives. -/
theorem foldl_single {σ α : Type} [DecidableEq α] (f : σ → α → σ) (l : List α) (hnd : l.Nodup)
    (a : α) (ha : a ∈ l) (m0 : σ) (h1 : ∀ s ∈ l, s ≠ a → f m0 s = m0)
    (h2 : ∀ s ∈ l, s ≠ a → f (f m0 a) s = f m0 a) : l.foldl f m0 = f m0 a := by
  induction l with
  | nil => cases ha
  | cons b l ih =>
    rw [List.nodup_cons] at hnd
    rw [List.foldl_cons]
    by_cases hb : b = a
    · subst hb
      have hidle : ∀ (l2 : List α), (∀ s ∈ l2, s ∈ l) → l2.foldl f (f m0 b) = f m0 b := by
        intro l2
        induction l2 with
        | nil => intro _; rfl
        | cons c l2 ih2 =>
          intro hsub
          rw [List.foldl_cons, h2 c (List.mem_cons_of_mem _ (hsub c (List.mem_cons_self _ _)))
            (fun hc => hnd.1 (hc ▸ hsub c (List.mem_cons_self _ _)))]
          exact ih2 (fun s hs => hsub s (List.mem_cons_of_mem _ hs))
      exact hidle l (fun s hs => hs)
    · rw [h1 b (List.mem_cons_self _ _) hb]
      have hal : a ∈ l := by
        rcases List.mem_cons.mp ha with h | h
        · exact absurd h.symm hb
        · exact h
      exact ih hnd.2 hal (fun s hs => h1 s (List.mem_cons_of_mem _ hs))
        (fun s hs => h2 s (List.mem_cons_of_mem _ hs))

/-- When the only flagged ship of the domain stands in the slot `z0` of the owned cell
`jk0`, the scan of `updateMovement` does what its body does at that slot. -/
theorem scanMovement_single (env : SimEnv) (next : Int → Int → Int → Option (Int × Int))
    (find : cell_struct → Int) (d : Int → cell_struct) (jk0 : Int × Int) (z0 : Nat)
    (hjk : jk0 ∈ slabCells env.local_nx env.ny) (hz : z0 < MAX_SHIPS_PER_CELL)
    (honly : ∀ c k ship, (d c).ships_data k = some ship → ship.willMoveThisTimestep = true →
      c = slabIndex env.ny jk0 ∧ k = z0) :
    scanMovement env next find d
      = moveShip env next find
          { sub_domain := d, sendShips1 := [], ys1 := [], sendShips2 := [], ys2 := [] }
          (jk0, z0) := by
  unfold scanMovement
  apply foldl_single _ _ (scanSlots_nodup _ _) (jk0, z0) ((mem_scanSlots _ _ _).mpr ⟨hjk, hz⟩)
  · intro s hs hne
    apply moveShip_idle
    intro ship hship
    by_contra hf
    have hf2 : ship.willMoveThisTimestep = true := by simpa using hf
    obtain ⟨h1, h2⟩ := honly _ _ ship hship hf2
    exact hne (Prod.ext ((slabIndex_eq_iff env _ _ ((mem_scanSlots _ _ s).mp hs).1 hjk).mp h1) h2)
  · intro s hs hne
    apply moveShip_idle
    intro ship1 hship1
    by_contra hf
    have hf2 : ship1.willMoveThisTimestep = true := by simpa using hf
    have hidx : ¬ (slabIndex env.ny s.1 = slabIndex env.ny jk0 ∧ s.2 = z0) := fun h =>
      hne (Prod.ext ((slabIndex_eq_iff env _ _ ((mem_scanSlots _ _ s).mp hs).1 hjk).mp h.1) h.2)
    rcases (moveShip_origin env next find _ jk0 z0).2 _ _ ship1 hship1 with hold | ⟨ship, _, _, hcl⟩
    · exact hidx (honly _ _ ship1 hold hf2)
    · rw [hcl] at hf2
      cases hf2

/-! ## The cargo accounts -/

theorem reportFinalInformation_sum (env : SimEnv) (d : Int → cell_struct)
    (g : Int × Int × Int → Int) :
    ((reportFinalInformation env d).map g).sum
      = ((slabCells env.local_nx env.ny).map (fun jk =>
          if (d (slabIndex env.ny jk)).isPort = true then
            g ((d (slabIndex env.ny jk)).port_data.port_index,
               (d (slabIndex env.ny jk)).port_data.cargoShipped,
               (d (slabIndex env.ny jk)).port_data.cargoArrived)
          else 0)).sum := by
  unfold reportFinalInformation
  have key : ∀ (l : List (Int × Int)) (acc : List (Int × Int × Int)),
      ((l.foldl (finalReportCell env d) acc).map g).sum
        = (acc.map g).sum + (l.map (fun jk =>
          if (d (slabIndex env.ny jk)).isPort = true then
            g ((d (slabIndex env.ny jk)).port_data.port_index,
               (d (slabIndex env.ny jk)).port_data.cargoShipped,
               (d (slabIndex env.ny jk)).port_data.cargoArrived)
          else 0)).sum := by
    intro l
    induction l with
    | nil => intro acc; simp
    | cons a l ih =>
      intro acc
      rw [List.foldl_cons, ih, List.map_cons, List.sum_cons]
      unfold finalReportCell slabIndex
      dsimp only
      by_cases hp : (d (a.1 * (env.ny + 2) + a.2)).isPort = true
      · rw [if_pos hp, if_pos hp, List.map_append, List.sum_append]
        simp only [List.map_cons, List.map_nil, List.sum_cons, List.sum_nil]
        omega
      · rw [if_neg hp, if_neg hp]
        omega
  rw [key]
  simp

theorem reportGeneralStatistics_cargo (env : SimEnv) (d : Int → cell_struct) :
    (reportGeneralStatistics env d).cargoInTransit
      = ((slabCells env.local_nx env.ny).map (fun jk =>
          if (d (slabIndex env.ny jk)).isWater = true then cellCargo (d (slabIndex env.ny jk))
          else 0)).sum := by
  unfold reportGeneralStatistics
  have key : ∀ (l : List (Int × Int)) (acc : Statistics),
      (l.foldl (reportCell env d) acc).cargoInTransit
        = acc.cargoInTransit + (l.map (fun jk =>
          if (d (slabIndex env.ny jk)).isWater = true then cellCargo (d (slabIndex env.ny jk))
          else 0)).sum := by
    intro l
    induction l with
    | nil => intro acc; simp
    | cons a l ih =>
      intro acc
      rw [List.foldl_cons, ih, List.map_cons, List.sum_cons]
      unfold reportCell slabIndex
      dsimp only
      by_cases hw : (d (a.1 * (env.ny + 2) + a.2)).isWater = true
      · rw [if_pos hw, if_pos hw]
        split_ifs <;> first | omega | (dsimp only; omega)
      · rw [if_neg hw, if_neg hw]
        split_ifs <;> first | omega | (dsimp only; omega)
  rw [key]
  simp

theorem slotSum_eq_cells (env : SimEnv) (wt : Option ship_struct → Int) (d : Int → cell_struct) :
    slotSum env wt d
      = ((slabCells env.local_nx env.ny).map (fun jk =>
          ((List.range MAX_SHIPS_PER_CELL).map
            (fun z => wt ((d (slabIndex env.ny jk)).ships_data z))).sum)).sum := by
  unfold slotSum scanSlots
  induction slabCells env.local_nx env.ny with
  | nil => simp
  | cons a l ih =>
    rw [List.flatMap_cons, List.map_append, List.sum_append, ih, List.map_cons, List.sum_cons,
      List.map_map]
    rfl

theorem flagBlind_shipCargo : FlagBlind shipCargo := ⟨rfl, fun _ => rfl⟩

/-- The cargo aboard all ships of the owned cells. -/
theorem slotSum_shipCargo (env : SimEnv) (d : Int → cell_struct) :
    slotSum env shipCargo d
      = ((slabCells env.local_nx env.ny).map (fun jk => cellCargo (d (slabIndex env.ny jk)))).sum := by
  rw [slotSum_eq_cells]
  congr 1
  apply List.map_congr_left
  intro jk _
  rw [cellCargo_eq_sum]
theorem sum_const_countP (p : Nat → Bool) (v : Int) (l : List Nat) :
    (l.map (fun z => if p z = true then v else 0)).sum = v * (l.countP p : Nat) := by
  induction l with
  | nil => simp
  | cons a l ih =>
    rw [List.map_cons, List.sum_cons, ih, List.countP_cons]
    by_cases h : p a = true
    · simp only [h, if_true]
      push_cast
      ring
    · simp only [h, if_false]
      simp

theorem processPortSlot_flags (env : SimEnv) (w w1 : PortWork) (z : Nat)
    (h : processPortSlot env w z = some w1) :
    w1.cell.isPort = w.cell.isPort ∧ w1.cell.isWater = w.cell.isWater := by
  unfold processPortSlot at h
  cases hz : w.cell.ships_data z with
  | none =>
    rw [hz] at h
    simp only [Option.some.injEq] at h
    subst h
    exact ⟨rfl, rfl⟩
  | some ship =>
    rw [hz] at h
    dsimp only at h
    generalize (if w.cell.number_ships > 1 then
      shouldRemoveShip env.rand ship.hoursAtSea w.randCalls else (false, w.randCalls)) = removal
      at h
    split at h
    · simp only [Option.some.injEq] at h
      subst h
      exact ⟨rfl, rfl⟩
    · split at h
      · simp at h
      · simp only [Option.some.injEq] at h
        subst h
        exact ⟨rfl, rfl⟩

theorem processPortCreate_flags (env : SimEnv) (w : PortWork) :
    (processPortCreate env w).cell.isPort = w.cell.isPort ∧
    (processPortCreate env w).cell.isWater = w.cell.isWater := by
  unfold processPortCreate
  dsimp only
  split_ifs <;> exact ⟨rfl, rfl⟩

/-- The function `processPort` keeps the kind of the cell and its balance: what it adds
to `cargoShipped` is aboard the ships of the roster afterwards, and what it adds to
`cargoArrived` was aboard them before. -/
theorem processPort_balance (env : SimEnv) (w w1 : PortWork) (h : processPort env w = some w1) :
    w1.cell.isPort = w.cell.isPort ∧ w1.cell.isWater = w.cell.isWater ∧
    w1.cell.port_data.cargoShipped - w1.cell.port_data.cargoArrived - cellCargo w1.cell
      = w.cell.port_data.cargoShipped - w.cell.port_data.cargoArrived - cellCargo w.cell := by
  have hflags := foldOpt_inv (processPortSlot env)
    (fun w2 => w2.cell.isPort = w.cell.isPort ∧ w2.cell.isWater = w.cell.isWater) _
    (fun s a s1 _ hP hf => by
      obtain ⟨f1, f2⟩ := processPortSlot_flags env s s1 a hf
      exact ⟨f1.trans hP.1, f2.trans hP.2⟩)
    (processPortCreate env w) w1 (processPortCreate_flags env w) h
  obtain ⟨c1, c2, c3, _⟩ := processPortCreate_spec env w
  obtain ⟨_, _, _, i4, i5, _, i7, _⟩ :=
    processPortLoop_spec env (processPortCreate env w) MAX_SHIPS_PER_CELL w1 h
  refine ⟨hflags.1, hflags.2, ?_⟩
  have hcargo : cellCargo w1.cell
      = (env.config.ports (processPortCreate env w).cell.port_data.port_index).cargo
        * ((List.range MAX_SHIPS_PER_CELL).countP (fun z => (w1.cell.ships_data z).isSome) : Nat) := by
    rw [cellCargo_eq_sum, ← sum_const_countP]
    congr 1
    apply List.map_congr_left
    intro z hz
    cases hs : w1.cell.ships_data z with
    | none => simp [shipCargo]
    | some ship =>
      have := (i7 z ship (List.mem_range.mp hz) hs).2.1
      simp [shipCargo, this]
  rw [hcargo, i5, i4, c2, c3, ← cellCargo_eq_sum, cellCargo_processPortCreate]
  ring

theorem processWater_cargo (env : SimEnv) (c : cell_struct) (dt : Int) (calls : Nat) :
    sameKind (processWater env c dt calls).1 c ∧
    cellCargo (processWater env c dt calls).1 = cellCargo c := by
  unfold processWater
  have key := foldl_inv (processWaterSlot env dt)
    (fun s => sameKind s.1 c ∧ ∀ k, shipCargo (s.1.ships_data k) = shipCargo (c.ships_data k))
    (List.range MAX_SHIPS_PER_CELL)
    (fun s z _ hP => by
      unfold processWaterSlot
      cases hs : s.1.ships_data z with
      | none => exact hP
      | some ship =>
        refine ⟨hP.1, fun k => ?_⟩
        dsimp only
        by_cases hk : k = z
        · subst hk
          rw [setSlot_same, ← hP.2 k, hs]
          rfl
        · rw [setSlot_other _ _ _ _ hk]
          exact hP.2 k)
    (c, calls) ⟨sameKind_refl c, fun _ => rfl⟩
  refine ⟨key.1, ?_⟩
  rw [cellCargo_eq_sum, cellCargo_eq_sum]
  exact congrArg List.sum (List.map_congr_left (fun z _ => key.2 z))

/-- The body of the loops of `updateProperties` keeps the kind and the balance of the
cell it works on and leaves the other cells alone. -/
theorem updateCell_balance (env : SimEnv) (st st1 : SimState) (jk : Int × Int)
    (h : updateCell env st jk = some st1) :
    ((st1.sub_domain (slabIndex env.ny jk)).isPort = (st.sub_domain (slabIndex env.ny jk)).isPort ∧
      (st1.sub_domain (slabIndex env.ny jk)).isWater
        = (st.sub_domain (slabIndex env.ny jk)).isWater ∧
      cellBalance (st1.sub_domain (slabIndex env.ny jk))
        = cellBalance (st.sub_domain (slabIndex env.ny jk))) ∧
    ∀ c, c ≠ slabIndex env.ny jk → st1.sub_domain c = st.sub_domain c := by
  unfold updateCell at h
  unfold slabIndex
  dsimp only at h
  by_cases hp : (st.sub_domain (jk.1 * (env.ny + 2) + jk.2)).isPort = true
  · rw [if_pos hp] at h
    split at h
    · simp at h
    · rename_i w hw
      simp only [Option.some.injEq] at h
      subst h
      obtain ⟨b1, b2, b3⟩ := processPort_balance env _ w hw
      dsimp only at b1 b2 b3 ⊢
      refine ⟨?_, fun c hc => setCell_other _ _ _ _ hc⟩
      rw [setCell_same]
      refine ⟨b1, b2, ?_⟩
      unfold cellBalance
      rw [b1, hp]
      simp only [if_true]
      exact b3
  · rw [if_neg hp] at h
    by_cases hw : (st.sub_domain (jk.1 * (env.ny + 2) + jk.2)).isWater = true
    · rw [if_pos hw] at h
      simp only [Option.some.injEq] at h
      subst h
      obtain ⟨k1, k2⟩ := processWater_cargo env (st.sub_domain (jk.1 * (env.ny + 2) + jk.2))
        env.config.dt st.randCalls
      dsimp only
      refine ⟨?_, fun c hc => setCell_other _ _ _ _ hc⟩
      rw [setCell_same]
      refine ⟨k1.2.2.2.1, k1.2.2.1, ?_⟩
      unfold cellBalance
      rw [k1.2.2.2.1, k2, k1.2.2.2.2.2]
    · rw [if_neg hw] at h
      simp only [Option.some.injEq] at h
      subst h
      exact ⟨⟨rfl, rfl, rfl⟩, fun _ _ => rfl⟩
theorem sum_map_sub_int {α : Type} (l : List α) (f g : α → Int) :
    (l.map (fun a => f a - g a)).sum = (l.map f).sum - (l.map g).sum := by
  induction l with
  | nil => simp
  | cons a l ih =>
    simp only [List.map_cons, List.sum_cons, ih]
    omega

theorem sum_map_zero {α : Type} (l : List α) (f : α → Int) (h : ∀ a ∈ l, f a = 0) :
    (l.map f).sum = 0 := by
  induction l with
  | nil => simp
  | cons a l ih =>
    rw [List.map_cons, List.sum_cons, h a (List.mem_cons_self _ _),
      ih (fun b hb => h b (List.mem_cons_of_mem _ hb))]
    rfl

/-- The accounts of the reports against the balances of the owned cells. -/
theorem accounts_eq_balance (env : SimEnv) (d : Int → cell_struct) :
    (reportGeneralStatistics env d).cargoInTransit + cargoDocked env d
        + cargoArrivedTotal env d - cargoShippedTotal env d
      = - ((slabCells env.local_nx env.ny).map
          (fun jk => cellBalance (d (slabIndex env.ny jk)))).sum := by
  unfold cargoDocked cargoArrivedTotal cargoShippedTotal
  rw [reportGeneralStatistics_cargo, reportFinalInformation_sum, reportFinalInformation_sum]
  unfold cellBalance
  dsimp only
  induction slabCells env.local_nx env.ny with
  | nil => simp
  | cons a l ih =>
    simp only [List.map_cons, List.sum_cons]
    split_ifs <;> omega

theorem updateProperties_balance (env : SimEnv) (st st1 : SimState)
    (h : updateProperties env st = some st1) :
    ∀ jk ∈ slabCells env.local_nx env.ny,
      (st1.sub_domain (slabIndex env.ny jk)).isPort = (st.sub_domain (slabIndex env.ny jk)).isPort ∧
      (st1.sub_domain (slabIndex env.ny jk)).isWater
        = (st.sub_domain (slabIndex env.ny jk)).isWater ∧
      cellBalance (st1.sub_domain (slabIndex env.ny jk))
        = cellBalance (st.sub_domain (slabIndex env.ny jk)) :=
  (foldOpt_cells env.ny (updateCell env)
    (fun _ c0 c => c.isPort = c0.isPort ∧ c.isWater = c0.isWater ∧ cellBalance c = cellBalance c0)
    (slabCells env.local_nx env.ny) (slabCells_pairwise env.local_nx env.ny)
    (fun st jk st1 _ hs => updateCell_balance env st st1 jk hs) st st1 h).1

theorem scanMovement_sameKind (env : SimEnv) (next : Int → Int → Int → Option (Int × Int))
    (find : cell_struct → Int) (d : Int → cell_struct) (c : Int) :
    sameKind ((scanMovement env next find d).sub_domain c) (d c) :=
  foldl_inv (moveShip env next find) (fun m => sameKind (m.sub_domain c) (d c)) _
    (fun m s _ hP => sameKind_trans ((moveShip_origin env next find m s.1 s.2).1 c) hP) _
    (sameKind_refl _)

/-- The movement of a worker that is alone, when every flagged ship is given an offset
that leads to an owned cell, keeps the sum of the balances of the owned cells. -/
theorem updateMovement_balance (env : SimEnv) (ha : Alone env)
    (next : Int → Int → Int → Option (Int × Int)) (d : Int → cell_struct)
    (hnext : MovesInBounds env next d) :
    ((slabCells env.local_nx env.ny).map (fun jk => cellBalance
        ((updateMovement env next findFreeShipIndex d [] []).sub_domain (slabIndex env.ny jk)))).sum
      = ((slabCells env.local_nx env.ny).map (fun jk => cellBalance (d (slabIndex env.ny jk)))).sum := by
  rw [updateMovement_alone env ha]
  have hk := scanMovement_sameKind env next findFreeShipIndex d
  have hc := (scanMovement_inBounds env next d hnext).1 shipCargo flagBlind_shipCargo
  rw [slotSum_shipCargo, slotSum_shipCargo] at hc
  have e1 : ∀ (r : Int → cell_struct), (∀ c, sameKind (r c) (d c)) →
      ((slabCells env.local_nx env.ny).map (fun jk => cellBalance (r (slabIndex env.ny jk)))).sum
        = ((slabCells env.local_nx env.ny).map (fun jk =>
            if (d (slabIndex env.ny jk)).isPort = true then
              (d (slabIndex env.ny jk)).port_data.cargoShipped
                - (d (slabIndex env.ny jk)).port_data.cargoArrived
            else 0)).sum
          - ((slabCells env.local_nx env.ny).map (fun jk => cellCargo (r (slabIndex env.ny jk)))).sum := by
    intro r hr
    rw [← sum_map_sub_int]
    apply congrArg List.sum
    apply List.map_congr_left
    intro jk _
    unfold cellBalance
    rw [(hr _).2.2.2.1, (hr _).2.2.2.2.2]
  rw [e1 _ hk, e1 d (fun c => sameKind_refl _), hc]

theorem initialiseDomain_balance (env : SimEnv) (st st0 : SimState)
    (h : initialiseDomain env st = some st0) :
    ((slabCells env.local_nx env.ny).map
      (fun jk => cellBalance (st0.sub_domain (slabIndex env.ny jk)))).sum = 0 := by
  apply sum_map_zero
  intro jk hjk
  obtain ⟨⟨_, _, hP, _, _, hport, hother⟩, _⟩ := (initialiseDomain_spec env st st0 h).1 jk hjk
  have hcargo : cellCargo (st0.sub_domain (slabIndex env.ny jk)) = 0 := by
    rw [cellCargo_eq_sum]
    apply sum_map_zero
    intro z hz
    have hz2 := List.mem_range.mp hz
    cases hp : isCellAPort env.config (env.basex + jk.1 - 1) (jk.2 - 1) with
    | true =>
      obtain ⟨_, _, _, _, hlow, hhigh⟩ := hport hp
      by_cases hlt : (z : Int) < env.config.initialShips
      · obtain ⟨ship, hship, _, hc, _⟩ := hlow z hlt
        rw [hship]
        exact hc
      · rw [hhigh z (by omega) hz2]
        rfl
    | false =>
      rw [(hother hp).2 z hz2]
      rfl
  unfold cellBalance
  rw [hcargo, hP]
  cases hp : isCellAPort env.config (env.basex + jk.1 - 1) (jk.2 - 1) with
  | true =>
    obtain ⟨_, hs, har, _⟩ := hport hp
    simp [hs, har]
  | false => simp
theorem updateProperties_ne_none (env : SimEnv) (hr : Resamples env) (st : SimState) :
    updateProperties env st ≠ none := by
  unfold updateProperties
  apply foldOpt_ne_none
  intro s jk _
  unfold updateCell
  dsimp only
  split
  · split
    · rename_i h
      exact absurd h (foldOpt_ne_none _ _ (fun s a _ => processPortSlot_ne_none env hr s a) _)
    · simp
  · split <;> simp

theorem runSteps_returns (env : SimEnv) (hr : Resamples env)
    (next : Int → Int → Int → Option (Int × Int)) (n : Nat) (st : SimState) :
    ∃ stn, runSteps env next n st = some stn := by
  induction n with
  | zero => exact ⟨st, rfl⟩
  | succ n ih =>
    obtain ⟨stn, hn⟩ := ih
    simp only [runSteps, hn]
    unfold timestep
    cases hu : updateProperties env stn with
    | none => exact absurd hu (updateProperties_ne_none env hr stn)
    | some st1 => exact ⟨_, rfl⟩

theorem runSteps_succ (env : SimEnv) (next : Int → Int → Int → Option (Int × Int)) (n : Nat)
    (st0 st2 : SimState) (h : runSteps env next (n + 1) st0 = some st2) :
    ∃ stn st1, runSteps env next n st0 = some stn ∧ updateProperties env stn = some st1 ∧
      st2.sub_domain
        = (updateMovement env next findFreeShipIndex st1.sub_domain [] []).sub_domain := by
  simp only [runSteps] at h
  cases hn : runSteps env next n st0 with
  | none => rw [hn] at h; simp at h
  | some stn =>
    rw [hn] at h
    unfold timestep at h
    dsimp only at h
    cases hu : updateProperties env stn with
    | none => rw [hu] at h; simp at h
    | some st1 =>
      rw [hu] at h
      simp only [Option.some.injEq] at h
      subst h
      exact ⟨stn, st1, rfl, hu, rfl⟩

/-- The sum of the balances of the owned cells is the same after `n` timesteps in
which every flagged ship is given an offset that leads to an owned cell. -/
theorem runSteps_balance (env : SimEnv) (ha : Alone env)
    (next : Int → Int → Int → Option (Int × Int)) (st0 : SimState) (n : Nat)
    (hrun : RunInBounds env next st0 n) (stn : SimState)
    (h : runSteps env next n st0 = some stn) :
    ((slabCells env.local_nx env.ny).map
        (fun jk => cellBalance (stn.sub_domain (slabIndex env.ny jk)))).sum
      = ((slabCells env.local_nx env.ny).map
        (fun jk => cellBalance (st0.sub_domain (slabIndex env.ny jk)))).sum := by
  induction n generalizing stn with
  | zero =>
    simp only [runSteps, Option.some.injEq] at h
    rw [h]
  | succ n ih =>
    obtain ⟨stm, st1, hm, hu, hd⟩ := runSteps_succ env next n st0 stn h
    rw [hd, updateMovement_balance env ha next st1.sub_domain (hrun n (by omega) stm st1 hm hu),
      ← ih (fun k hk => hrun k (by omega)) stm hm]
    apply congrArg List.sum
    apply List.map_congr_left
    intro jk hjk
    rw [(updateProperties_balance env stm st1 hu jk hjk).2.2]

/-- C17, as amended: on a worker that is alone, at the end of every timestep of a run in
which every flagged ship is given an offset that leads to an owned cell, the reported
cargo in transit (the cargo aboard the ships in water cells) plus the cargo aboard the
ships standing in the other owned cells, plus the sum of `cargoArrived` over the ports,
minus the sum of `cargoShipped` over the ports, is 0.  The run returns whenever the
resampling of `getTargetPort` ends. -/
theorem cargo_accounts_balance (env : SimEnv) (ha : Alone env)
    (next : Int → Int → Int → Option (Int × Int)) (st st0 : SimState) (n : Nat)
    (h0 : initialiseDomain env st = some st0) (hrun : RunInBounds env next st0 n) :
    (Resamples env → ∃ stn, simulate env next st n = some stn) ∧
    ∀ stn, simulate env next st n = some stn →
      (reportGeneralStatistics env stn.sub_domain).cargoInTransit + cargoDocked env stn.sub_domain
        + cargoArrivedTotal env stn.sub_domain - cargoShippedTotal env stn.sub_domain = 0 := by
  constructor
  · intro hr
    unfold simulate
    rw [h0]
    exact runSteps_returns env hr next n st0
  · intro stn hn
    unfold simulate at hn
    rw [h0] at hn
    rw [accounts_eq_balance, runSteps_balance env ha next st0 n hrun stn hn,
      initialiseDomain_balance env st st0 h0]
    rfl
/-- The two port cells of the example after `initialiseDomain` and the first
`updateProperties`: both are port cells and not water cells, port 0 has shipped 5 and
port 1 has shipped 7, and nothing has arrived. -/
theorem pair_first_updateProperties :
    ((initialiseDomain pairEnv zeroState).bind (updateProperties pairEnv)).map
      (fun s => (((s.sub_domain 4).isPort, (s.sub_domain 4).isWater,
          (s.sub_domain 4).port_data.cargoShipped, (s.sub_domain 4).port_data.cargoArrived),
        ((s.sub_domain 7).isPort, (s.sub_domain 7).isWater,
          (s.sub_domain 7).port_data.cargoShipped, (s.sub_domain 7).port_data.cargoArrived)))
      = some ((true, false, 5, 0), (true, false, 7, 0)) := by
  set_option maxRecDepth 100000 in decide

/-- The accounts of the example when its two cells are port cells that have shipped 5
and 7 and have seen nothing arrive. -/
theorem pair_accounts (rd : Int → cell_struct)
    (h4 : (rd 4).isPort = true ∧ (rd 4).isWater = false ∧ (rd 4).port_data.cargoShipped = 5 ∧
      (rd 4).port_data.cargoArrived = 0)
    (h7 : (rd 7).isPort = true ∧ (rd 7).isWater = false ∧ (rd 7).port_data.cargoShipped = 7 ∧
      (rd 7).port_data.cargoArrived = 0) :
    (reportGeneralStatistics pairEnv rd).cargoInTransit = 0 ∧
    cargoArrivedTotal pairEnv rd = 0 ∧ cargoShippedTotal pairEnv rd = 12 := by
  have hcells : slabCells pairEnv.local_nx pairEnv.ny = [(1, 1), (2, 1)] := by decide
  have i4 : slabIndex pairEnv.ny (1, 1) = 4 := by decide
  have i7 : slabIndex pairEnv.ny (2, 1) = 7 := by decide
  obtain ⟨a1, a2, a3, a4⟩ := h4
  obtain ⟨b1, b2, b3, b4⟩ := h7
  unfold cargoArrivedTotal cargoShippedTotal
  rw [reportGeneralStatistics_cargo, reportFinalInformation_sum, reportFinalInformation_sum, hcells]
  simp only [List.map_cons, List.map_nil, List.sum_cons, List.sum_nil, i4, i7, a1, a2, a3, a4,
    b1, b2, b3, b4]
  simp

/-- Counterexample to C17 as stated: on the example of two adjacent ports, at the end of
the first timestep both ships are loaded and stand in port cells, so the reported cargo
in transit is 0, nothing has arrived, and 12 has been shipped. -/
theorem cargo_in_transit_unbalanced :
    Alone pairEnv ∧
    ∃ st1, simulate pairEnv pairLookup zeroState 1 = some st1 ∧
      (reportGeneralStatistics pairEnv st1.sub_domain).cargoInTransit = 0 ∧
      cargoArrivedTotal pairEnv st1.sub_domain = 0 ∧
      cargoShippedTotal pairEnv st1.sub_domain = 12 ∧
      (reportGeneralStatistics pairEnv st1.sub_domain).cargoInTransit
        + cargoArrivedTotal pairEnv st1.sub_domain - cargoShippedTotal pairEnv st1.sub_domain ≠ 0 := by
  refine ⟨⟨rfl, rfl⟩, ?_⟩
  have hv := pair_first_updateProperties
  cases h0 : initialiseDomain pairEnv zeroState with
  | none => rw [h0] at hv; simp at hv
  | some st0 =>
    rw [h0] at hv
    simp only [Option.some_bind] at hv
    cases hu : updateProperties pairEnv st0 with
    | none => rw [hu] at hv; simp at hv
    | some stP =>
      rw [hu] at hv
      simp only [Option.map_some', Option.some.injEq, Prod.mk.injEq] at hv
      obtain ⟨⟨a1, a2, a3, a4⟩, b1, b2, b3, b4⟩ := hv
      obtain ⟨rd, hrd⟩ : ∃ rd : Int → cell_struct,
          rd = (updateMovement pairEnv pairLookup findFreeShipIndex stP.sub_domain [] []).sub_domain :=
        ⟨_, rfl⟩
      have hsim : simulate pairEnv pairLookup zeroState 1 = some { stP with sub_domain := rd } := by
        unfold simulate
        rw [h0, hrd]
        simp only [runSteps]
        unfold timestep
        rw [hu]
      have hk : ∀ c, sameKind (rd c) (stP.sub_domain c) := by
        intro c
        rw [hrd, updateMovement_alone pairEnv ⟨rfl, rfl⟩]
        exact scanMovement_sameKind _ _ _ _ c
      clear hrd
      have h4 := hk 4
      have h7 := hk 7
      unfold sameKind at h4 h7
      obtain ⟨e1, e2, e3⟩ := pair_accounts rd
        ⟨h4.2.2.2.1.trans a1, h4.2.2.1.trans a2, by rw [h4.2.2.2.2.2]; exact a3,
          by rw [h4.2.2.2.2.2]; exact a4⟩
        ⟨h7.2.2.2.1.trans b1, h7.2.2.1.trans b2, by rw [h7.2.2.2.2.2]; exact b3,
          by rw [h7.2.2.2.2.2]; exact b4⟩
      refine ⟨_, hsim, e1, e2, e3, ?_⟩
      dsimp only at e1 e2 e3 ⊢
      rw [e1, e2, e3]
      decide
theorem movesInBounds_of_check (env : SimEnv) (next : Int → Int → Int → Option (Int × Int))
    (d : Int → cell_struct) (h : movesInBoundsB env next d = true) : MovesInBounds env next d := by
  intro jk hjk z hz ship hs hf
  unfold movesInBoundsB at h
  rw [List.all_eq_true] at h
  have := h (jk, z) ((mem_scanSlots _ _ _).mpr ⟨hjk, hz⟩)
  dsimp only at this
  rw [hs] at this
  dsimp only at this
  rw [hf] at this
  cases hn : next ship.route (env.basex + (d (slabIndex env.ny jk)).x - 1)
      ((d (slabIndex env.ny jk)).y - 1) with
  | none =>
    rw [hn] at this
    simp at this
  | some o =>
    rw [hn] at this
    simp only [Bool.not_true, Bool.false_or, decide_eq_true_eq] at this
    exact ⟨o, rfl, this⟩

/-- In the first timestep of the example of two adjacent ports every flagged ship is
given an offset that leads to an owned cell. -/
theorem pair_first_moves :
    ((initialiseDomain pairEnv zeroState).bind (updateProperties pairEnv)).map
      (fun s => movesInBoundsB pairEnv pairLookup s.sub_domain) = some true := by
  set_option maxRecDepth 100000 in decide

/-- Witness of C17: on the example of two adjacent ports the accounts balance at the
end of the first timestep once the cargo of the ships that stand in port cells is
counted. -/
theorem cargo_accounts_balance_witness :
    Alone pairEnv ∧
    ∃ st0, initialiseDomain pairEnv zeroState = some st0 ∧
      RunInBounds pairEnv pairLookup st0 1 ∧
      ∃ st1, simulate pairEnv pairLookup zeroState 1 = some st1 ∧
        (reportGeneralStatistics pairEnv st1.sub_domain).cargoInTransit
          + cargoDocked pairEnv st1.sub_domain + cargoArrivedTotal pairEnv st1.sub_domain
          - cargoShippedTotal pairEnv st1.sub_domain = 0 := by
  refine ⟨⟨rfl, rfl⟩, ?_⟩
  have hv := pair_first_moves
  cases h0 : initialiseDomain pairEnv zeroState with
  | none => rw [h0] at hv; simp at hv
  | some st0 =>
    rw [h0] at hv
    simp only [Option.some_bind] at hv
    cases hu : updateProperties pairEnv st0 with
    | none => rw [hu] at hv; simp at hv
    | some stP =>
      rw [hu] at hv
      simp only [Option.map_some', Option.some.injEq] at hv
      have hrun : RunInBounds pairEnv pairLookup st0 1 := by
        intro k hk stk st1 hk0 hu1
        have hk00 : k = 0 := by omega
        subst hk00
        simp only [runSteps, Option.some.injEq] at hk0
        subst hk0
        rw [hu] at hu1
        simp only [Option.some.injEq] at hu1
        subst hu1
        exact movesInBounds_of_check _ _ _ hv
      have hsim : simulate pairEnv pairLookup zeroState 1
          = some { stP with sub_domain :=
              (updateMovement pairEnv pairLookup findFreeShipIndex stP.sub_domain [] []).sub_domain } := by
        unfold simulate
        rw [h0]
        simp only [runSteps]
        unfold timestep
        rw [hu]
      exact ⟨st0, rfl, hrun, _, hsim,
        (cargo_accounts_balance pairEnv ⟨rfl, rfl⟩ pairLookup zeroState st0 1 h0 hrun).2 _ hsim⟩

/-! ## The routes after planning -/

theorem mem_portPairs (n : Int) (ij : Int × Int) :
    ij ∈ portPairs n ↔ (0 ≤ ij.1 ∧ ij.1 < n) ∧ (0 ≤ ij.2 ∧ ij.2 < n) := by
  unfold portPairs
  rw [List.mem_flatMap]
  constructor
  · rintro ⟨i, hi, hj⟩
    rw [List.mem_map] at hj
    obtain ⟨j, hj, rfl⟩ := hj
    exact ⟨(mem_indexRange _ _).mp hi, (mem_indexRange _ _).mp hj⟩
  · rintro ⟨h1, h2⟩
    exact ⟨ij.1, (mem_indexRange _ _).mpr h1, List.mem_map.mpr ⟨ij.2, (mem_indexRange _ _).mpr h2, rfl⟩⟩

/-! ## The cargo of the ships at sea -/

/-- After `processPort` on a port cell with the index of a configured port, every ship
of the roster follows a route from that port and carries its cargo. -/
theorem processPort_loaded (env : SimEnv) (w w1 : PortWork)
    (hq : 0 ≤ w.cell.port_data.port_index ∧ w.cell.port_data.port_index < env.config.number_ports)
    (h : processPort env w = some w1) :
    w1.cell.port_data.port_index = w.cell.port_data.port_index ∧
    ∀ z ship, z < MAX_SHIPS_PER_CELL → w1.cell.ships_data z = some ship →
      LoadedFrom env.config ship := by
  obtain ⟨c1, _, _, _⟩ := processPortCreate_spec env w
  obtain ⟨i1, _, _, _, _, _, i7, _⟩ :=
    processPortLoop_spec env (processPortCreate env w) MAX_SHIPS_PER_CELL w1 h
  rw [c1] at i1 i7
  refine ⟨i1, ?_⟩
  intro z ship hz hs
  obtain ⟨_, hcargo, ⟨t, hne, ⟨k, hk⟩, hroute⟩, _⟩ := i7 z ship hz hs
  have hpos : 0 < env.config.number_ports := by omega
  refine ⟨w.cell.port_data.port_index, t, hq.1, hq.2, ?_, ?_, hne, hroute, hcargo⟩
  · rw [hk]
    exact Int.tmod_nonneg _ (Int.ofNat_nonneg _)
  · rw [hk]
    exact Int.tmod_lt_of_pos _ hpos

theorem processWater_ships (env : SimEnv) (c : cell_struct) (dt : Int) (calls : Nat) (k : Nat)
    (ship1 : ship_struct) (h : (processWater env c dt calls).1.ships_data k = some ship1) :
    ∃ ship, c.ships_data k = some ship ∧ ship1.route = ship.route ∧
      ship1.cargoAmount = ship.cargoAmount := by
  unfold processWater at h
  have key := foldl_inv (processWaterSlot env dt)
    (fun s => ∀ k ship1, s.1.ships_data k = some ship1 →
      ∃ ship, c.ships_data k = some ship ∧ ship1.route = ship.route ∧
        ship1.cargoAmount = ship.cargoAmount)
    (List.range MAX_SHIPS_PER_CELL)
    (fun s z _ hP => by
      unfold processWaterSlot
      cases hs : s.1.ships_data z with
      | none => exact hP
      | some ship =>
        intro k ship1 h1
        dsimp only at h1
        by_cases hk : k = z
        · subst hk
          rw [setSlot_same] at h1
          obtain ⟨ship0, h0, hr, hc⟩ := hP k ship hs
          simp only [Option.some.injEq] at h1
          subst h1
          exact ⟨ship0, h0, hr, hc⟩
        · rw [setSlot_other _ _ _ _ hk] at h1
          exact hP k ship1 h1)
    (c, calls) (fun k ship1 h1 => ⟨ship1, h1, rfl, rfl⟩)
  exact key k ship1 h
theorem processPort_loaded_index (env : SimEnv) (w w1 : PortWork)
    (h : processPort env w = some w1) :
    w1.cell.port_data.port_index = w.cell.port_data.port_index := by
  obtain ⟨c1, _, _, _⟩ := processPortCreate_spec env w
  obtain ⟨i1, _⟩ :=
    processPortLoop_spec env (processPortCreate env w) MAX_SHIPS_PER_CELL w1 h
  rw [i1, c1]
/-- The body of the loops of `updateProperties` keeps the kind and the port index of
the cell it works on, leaves the other cells alone, and leaves every ship of the cell
loaded when the cell is a port cell with the index of a configured port, or when it is
not a port cell and its ships were loaded. -/
theorem updateCell_loaded (env : SimEnv) (st st1 : SimState) (jk : Int × Int)
    (h : updateCell env st jk = some st1) :
    ((st1.sub_domain (slabIndex env.ny jk)).isPort = (st.sub_domain (slabIndex env.ny jk)).isPort ∧
      (st1.sub_domain (slabIndex env.ny jk)).isWater
        = (st.sub_domain (slabIndex env.ny jk)).isWater ∧
      (st1.sub_domain (slabIndex env.ny jk)).port_data.port_index
        = (st.sub_domain (slabIndex env.ny jk)).port_data.port_index ∧
      ((((st.sub_domain (slabIndex env.ny jk)).isPort = true ∧
          0 ≤ (st.sub_domain (slabIndex env.ny jk)).port_data.port_index ∧
          (st.sub_domain (slabIndex env.ny jk)).port_data.port_index < env.config.number_ports) ∨
        ((st.sub_domain (slabIndex env.ny jk)).isPort = false ∧
          ∀ z ship, z < MAX_SHIPS_PER_CELL →
            (st.sub_domain (slabIndex env.ny jk)).ships_data z = some ship →
            LoadedFrom env.config ship)) →
        ∀ z ship, z < MAX_SHIPS_PER_CELL →
          (st1.sub_domain (slabIndex env.ny jk)).ships_data z = some ship →
          LoadedFrom env.config ship)) ∧
    ∀ c, c ≠ slabIndex env.ny jk → st1.sub_domain c = st.sub_domain c := by
  unfold updateCell at h
  unfold slabIndex
  dsimp only at h
  by_cases hp : (st.sub_domain (jk.1 * (env.ny + 2) + jk.2)).isPort = true
  · rw [if_pos hp] at h
    split at h
    · simp at h
    · rename_i w hw
      simp only [Option.some.injEq] at h
      subst h
      obtain ⟨b1, b2, _⟩ := processPort_balance env _ w hw
      dsimp only at b1 b2 ⊢
      refine ⟨?_, fun c hc => setCell_other _ _ _ _ hc⟩
      rw [setCell_same]
      refine ⟨b1, b2, ?_, ?_⟩
      · exact (processPort_loaded_index env _ w hw)
      · intro hcase z ship hz hs
        rcases hcase with ⟨_, hq⟩ | ⟨hnp, _⟩
        · exact (processPort_loaded env _ w hq hw).2 z ship hz hs
        · rw [hp] at hnp
          cases hnp
  · rw [if_neg hp] at h
    by_cases hw : (st.sub_domain (jk.1 * (env.ny + 2) + jk.2)).isWater = true
    · rw [if_pos hw] at h
      simp only [Option.some.injEq] at h
      subst h
      obtain ⟨k1, _⟩ := processWater_cargo env (st.sub_domain (jk.1 * (env.ny + 2) + jk.2))
        env.config.dt st.randCalls
      dsimp only
      refine ⟨?_, fun c hc => setCell_other _ _ _ _ hc⟩
      rw [setCell_same]
      refine ⟨k1.2.2.2.1, k1.2.2.1, by rw [k1.2.2.2.2.2], ?_⟩
      intro hcase z ship hz hs
      rcases hcase with ⟨hq, _⟩ | ⟨_, hall⟩
      · exact absurd hq hp
      · obtain ⟨ship0, h0, hr, hc⟩ := processWater_ships env _ _ _ z ship hs
        obtain ⟨q, t, g1, g2, g3, g4, g5, g6, g7⟩ := hall z ship0 hz h0
        exact ⟨q, t, g1, g2, g3, g4, g5, hr.trans g6, hc.trans g7⟩
    · rw [if_neg hw] at h
      simp only [Option.some.injEq] at h
      subst h
      refine ⟨⟨rfl, rfl, rfl, ?_⟩, fun _ _ => rfl⟩
      intro hcase z ship hz hs
      rcases hcase with ⟨hq, _⟩ | ⟨_, hall⟩
      · exact absurd hq hp
      · exact hall z ship hz hs
theorem loadedFrom_cleared (config : simulation_configuration_struct) (ship : ship_struct)
    (h : LoadedFrom config ship) :
    LoadedFrom config { ship with willMoveThisTimestep := false } := h

/-- After `updateProperties`, started in a state that satisfies `SeaInv`, every ship of
every owned cell is loaded. -/
theorem updateProperties_loaded (env : SimEnv) (st st1 : SimState)
    (hinv : SeaInv env st.sub_domain) (h : updateProperties env st = some st1) :
    SeaInv env st1.sub_domain ∧
    ∀ jk ∈ slabCells env.local_nx env.ny, ∀ z ship, z < MAX_SHIPS_PER_CELL →
      (st1.sub_domain (slabIndex env.ny jk)).ships_data z = some ship →
      LoadedFrom env.config ship := by
  have key := (foldOpt_cells env.ny (updateCell env)
    (fun _ c0 c => c.isPort = c0.isPort ∧ c.isWater = c0.isWater ∧
      c.port_data.port_index = c0.port_data.port_index ∧
      (((c0.isPort = true ∧ 0 ≤ c0.port_data.port_index ∧
          c0.port_data.port_index < env.config.number_ports) ∨
        (c0.isPort = false ∧ ∀ z ship, z < MAX_SHIPS_PER_CELL → c0.ships_data z = some ship →
          LoadedFrom env.config ship)) →
        ∀ z ship, z < MAX_SHIPS_PER_CELL → c.ships_data z = some ship →
          LoadedFrom env.config ship))
    (slabCells env.local_nx env.ny) (slabCells_pairwise env.local_nx env.ny)
    (fun st jk st1 _ hs => updateCell_loaded env st st1 jk hs) st st1 h).1
  have hall : ∀ jk ∈ slabCells env.local_nx env.ny, ∀ z ship, z < MAX_SHIPS_PER_CELL →
      (st1.sub_domain (slabIndex env.ny jk)).ships_data z = some ship →
      LoadedFrom env.config ship := by
    intro jk hjk z ship hz hs
    obtain ⟨_, _, _, k4⟩ := key jk hjk
    obtain ⟨iA, _, iB⟩ := hinv jk hjk
    cases hp : (st.sub_domain (slabIndex env.ny jk)).isPort with
    | true => exact k4 (Or.inl ⟨hp, iA hp⟩) z ship hz hs
    | false => exact k4 (Or.inr ⟨hp, iB hp⟩) z ship hz hs
  refine ⟨?_, hall⟩
  intro jk hjk
  obtain ⟨k1, k2, k3, _⟩ := key jk hjk
  obtain ⟨iA, iE, _⟩ := hinv jk hjk
  rw [k1, k2, k3]
  exact ⟨iA, iE, fun _ => hall jk hjk⟩

/-- The scan of `updateMovement` leaves every ship of every owned cell loaded when they
all were. -/
theorem scanMovement_loaded (env : SimEnv) (next : Int → Int → Int → Option (Int × Int))
    (find : cell_struct → Int) (d : Int → cell_struct)
    (hall : ∀ jk ∈ slabCells env.local_nx env.ny, ∀ z ship, z < MAX_SHIPS_PER_CELL →
      (d (slabIndex env.ny jk)).ships_data z = some ship → LoadedFrom env.config ship) :
    ∀ jk ∈ slabCells env.local_nx env.ny, ∀ z ship, z < MAX_SHIPS_PER_CELL →
      ((scanMovement env next find d).sub_domain (slabIndex env.ny jk)).ships_data z = some ship →
      LoadedFrom env.config ship :=
  foldl_inv (moveShip env next find)
    (fun m => ∀ jk ∈ slabCells env.local_nx env.ny, ∀ z ship, z < MAX_SHIPS_PER_CELL →
      (m.sub_domain (slabIndex env.ny jk)).ships_data z = some ship → LoadedFrom env.config ship)
    (scanSlots env.local_nx env.ny)
    (fun m s hs hP jk hjk z ship1 hz h1 => by
      obtain ⟨hs1, hs2⟩ := (mem_scanSlots _ _ s).mp hs
      rcases (moveShip_origin env next find m s.1 s.2).2 _ _ ship1 h1 with hold | ⟨ship, h0, _, hcl⟩
      · exact hP jk hjk z ship1 hz hold
      · rw [hcl]
        exact loadedFrom_cleared _ _ (hP s.1 hs1 s.2 ship hs2 h0))
    _ hall

theorem timestep_seaInv (env : SimEnv) (ha : Alone env)
    (next : Int → Int → Int → Option (Int × Int)) (stn st1 : SimState) (d2 : Int → cell_struct)
    (hinv : SeaInv env stn.sub_domain) (hu : updateProperties env stn = some st1)
    (hd : d2 = (updateMovement env next findFreeShipIndex st1.sub_domain [] []).sub_domain) :
    SeaInv env d2 := by
  obtain ⟨h1, hall⟩ := updateProperties_loaded env stn st1 hinv hu
  rw [hd, updateMovement_alone env ha]
  intro jk hjk
  have hk := scanMovement_sameKind env next findFreeShipIndex st1.sub_domain (slabIndex env.ny jk)
  obtain ⟨iA, iE, _⟩ := h1 jk hjk
  rw [hk.2.2.2.1, hk.2.2.1, hk.2.2.2.2.2]
  exact ⟨iA, iE, fun _ => scanMovement_loaded env next findFreeShipIndex st1.sub_domain hall jk hjk⟩

theorem initialiseDomain_seaInv (env : SimEnv) (st st0 : SimState)
    (h : initialiseDomain env st = some st0) : SeaInv env st0.sub_domain := by
  intro jk hjk
  obtain ⟨⟨_, _, hP, _, hW, hport, hother⟩, _⟩ := (initialiseDomain_spec env st st0 h).1 jk hjk
  refine ⟨?_, ?_, ?_⟩
  · intro hp
    rw [hP] at hp
    obtain ⟨g0, g1, _, _⟩ := getCellPortIndex_spec env.config _ _ hp
    rw [(hport hp).1]
    exact ⟨g0, g1⟩
  · intro hw
    rw [hW] at hw
    rw [hP]
    cases hp : isCellAPort env.config (env.basex + jk.1 - 1) (jk.2 - 1) with
    | true => rw [hp] at hw; simp at hw
    | false => rfl
  · intro hp z ship hz hs
    rw [hP] at hp
    rw [(hother hp).2 z hz] at hs
    cases hs

theorem runSteps_seaInv (env : SimEnv) (ha : Alone env)
    (next : Int → Int → Int → Option (Int × Int)) (st0 : SimState) (n : Nat)
    (hinv : SeaInv env st0.sub_domain) (stn : SimState)
    (h : runSteps env next n st0 = some stn) : SeaInv env stn.sub_domain := by
  induction n generalizing stn with
  | zero =>
    simp only [runSteps, Option.some.injEq] at h
    rw [← h]
    exact hinv
  | succ n ih =>
    obtain ⟨stm, st1, hm, hu, hd⟩ := runSteps_succ env next n st0 stn h
    exact timestep_seaInv env ha next stm st1 _ (ih stm hm) hu hd
theorem resamples_counting (env : SimEnv) (hrand : env.rand = fun n => n)
    (hports : env.config.number_ports = 2) (hfuel : env.fuel = 2) : Resamples env := by
  intro calls currentPort
  rw [hrand, hports, hfuel]
  by_cases h : Int.tmod ((calls : Nat) : Int) 2 = currentPort
  · refine ⟨1, by omega, ?_⟩
    dsimp only
    rw [← h, Int.tmod_eq_emod (by omega) (by omega), Int.tmod_eq_emod (by omega) (by omega)]
    omega
  · exact ⟨0, by omega, h⟩

theorem allPlanned_voyage : AllPlanned strip3 (fun _ => zeroMem) voyageConfig := by
  intro ij hij hne c hc
  have hm := (mem_portPairs _ _).mp hij
  have hn : voyageConfig.number_ports = 2 := rfl
  rw [hn] at hm
  have hcases : ij = (0, 1) ∨ ij = (1, 0) := by
    rcases hm with ⟨⟨a1, a2⟩, b1, b2⟩
    have h1 : ij.1 = 0 ∨ ij.1 = 1 := by omega
    have h2 : ij.2 = 0 ∨ ij.2 = 1 := by omega
    rcases h1 with h1 | h1 <;> rcases h2 with h2 | h2
    · exact absurd (h1.trans h2.symm) hne
    · exact Or.inl (Prod.ext h1 h2)
    · exact Or.inr (Prod.ext h1 h2)
    · exact absurd (h1.trans h2.symm) hne
  rcases hcases with rfl | rfl
  · rw [generate_route_ret _ _ _ _ _ _ _ (by decide)]
    omega
  · rw [generate_route_ret _ _ _ _ _ _ _ (by decide)]
    omega

/-! ## The first free slot -/

/-- C21: `findFreeShipIndex` returns either `-1` or an index `z` below 200; in the
second case slot `z` is `NULL` and every slot before it is occupied, so `z` is the
smallest empty slot; it returns `-1` if and only if all 200 slots are occupied.  When
`processPort` decides to create a ship in a port cell whose 200 slots are all occupied,
the ship is dropped: the roster and `number_ships` are as before the creation step
(and `currentShipId` has advanced by one). -/
theorem findFreeShipIndex_first (env : SimEnv) (c : cell_struct) (w : PortWork) :
    (findFreeShipIndex c = -1 ∨
      ∃ z : Nat, findFreeShipIndex c = (z : Int) ∧ z < MAX_SHIPS_PER_CELL ∧
        c.ships_data z = none ∧ ∀ k, k < z → (c.ships_data k).isSome = true) ∧
    (findFreeShipIndex c = -1 ↔
      ∀ z, z < MAX_SHIPS_PER_CELL → (c.ships_data z).isSome = true) ∧
    ((∀ z, z < MAX_SHIPS_PER_CELL → (w.cell.ships_data z).isSome = true) →
      (processPortCreate env w).cell.ships_data = w.cell.ships_data ∧
      (processPortCreate env w).cell.number_ships = w.cell.number_ships ∧
      ((processPortCreate env w).currentShipId = w.currentShipId ∨
        (processPortCreate env w).currentShipId = w.currentShipId + 1)) := by
  refine ⟨?_, ?_, ?_⟩
  · rcases findFreeShipIndex_spec c with ⟨h, _⟩ | ⟨z, h1, h2, h3, h4⟩
    · exact Or.inl h
    · exact Or.inr ⟨z, h1, h2, h3, h4⟩
  · constructor
    · intro hneg
      rcases findFreeShipIndex_spec c with ⟨_, hall⟩ | ⟨z, h1, _, _, _⟩
      · exact hall
      · rw [h1] at hneg
        omega
    · intro hall
      rcases findFreeShipIndex_spec c with ⟨h, _⟩ | ⟨z, _, h2, h3, _⟩
      · exact h
      · have := hall z h2
        rw [h3] at this
        cases this
  · intro hfull
    rcases (processPortCreate_spec env w).2.2.2 with ⟨h1, h2⟩ | ⟨z, hz, hnone, _, _⟩
    · refine ⟨h1, h2, ?_⟩
      unfold processPortCreate
      dsimp only
      split_ifs
      · exact Or.inr rfl
      · exact Or.inr rfl
      · exact Or.inl rfl
    · have := hfull z hz
      rw [hnone] at this
      cases this

/-- Witness of C21: in the example port cell with 200 ships a ship is created and
dropped: the identifier advances and the count stays 200. -/
theorem findFreeShipIndex_first_witness :
    findFreeShipIndex fullHarbour.cell = -1 ∧
    (processPortCreate pairEnv fullHarbour).currentShipId = 201 ∧
    (processPortCreate pairEnv fullHarbour).cell.number_ships = 200 ∧
    (processPortCreate pairEnv fullHarbour).cell.ships_data = fullHarbour.cell.ships_data :=
  ⟨by decide, by decide,
    ((findFreeShipIndex_first pairEnv fullHarbour.cell fullHarbour).2.2 (fun _ _ => rfl)).2.1,
    ((findFreeShipIndex_first pairEnv fullHarbour.cell fullHarbour).2.2 (fun _ _ => rfl)).1⟩

/-! ## The history of a port -/

/-- The first loop of `processPort`: every entry below 9 takes the value of the next
one, and the total is the sum of the entries 1 to 9. -/
theorem historyShift (h : Nat → Int) :
    (List.range 9).foldl historyStep (h, 0)
      = (fun k => if k < 9 then h (k + 1) else h k,
         h 1 + h 2 + h 3 + h 4 + h 5 + h 6 + h 7 + h 8 + h 9) := by
  have hr : List.range 9 = [0, 1, 2, 3, 4, 5, 6, 7, 8] := by decide
  rw [hr]
  simp only [List.foldl, historyStep]
  refine Prod.ext ?_ ?_
  · funext k
    dsimp only
    by_cases hk : k < 9
    · rw [if_pos hk]
      interval_cases k <;> simp
    · rw [if_neg hk]
      have h0 : k ≠ 0 := by omega
      have h1 : k ≠ 1 := by omega
      have h2 : k ≠ 2 := by omega
      have h3 : k ≠ 3 := by omega
      have h4 : k ≠ 4 := by omega
      have h5 : k ≠ 5 := by omega
      have h6 : k ≠ 6 := by omega
      have h7 : k ≠ 7 := by omega
      have h8 : k ≠ 8 := by omega
      simp [h0, h1, h2, h3, h4, h5, h6, h7, h8]
  · simp

theorem processPortSlot_history (env : SimEnv) (w w1 : PortWork) (z : Nat)
    (h : processPortSlot env w z = some w1) :
    w1.cell.port_data.shipsInPastHundredHours = w.cell.port_data.shipsInPastHundredHours := by
  unfold processPortSlot at h
  cases hz : w.cell.ships_data z with
  | none =>
    rw [hz] at h
    simp only [Option.some.injEq] at h
    subst h
    rfl
  | some ship =>
    rw [hz] at h
    dsimp only at h
    generalize (if w.cell.number_ships > 1 then
      shouldRemoveShip env.rand ship.hoursAtSea w.randCalls else (false, w.randCalls)) = removal
      at h
    split at h
    · simp only [Option.some.injEq] at h
      subst h
      rfl
    · split at h
      · simp at h
      · simp only [Option.some.injEq] at h
        subst h
        rfl

/-- The creation step of `processPort` in terms of the history `h` and the count `n` on
entry: the history becomes `h[1], ..., h[9], n`, and a ship is created (the identifier
advances) exactly when `shouldCreateNewShip` says so of `h[1] + ... + h[9] + n`. -/
theorem processPortCreate_history (env : SimEnv) (w : PortWork) :
    (processPortCreate env w).cell.port_data.shipsInPastHundredHours
      = (fun k => if k = 9 then w.cell.number_ships
          else if k < 9 then w.cell.port_data.shipsInPastHundredHours (k + 1)
          else w.cell.port_data.shipsInPastHundredHours k) ∧
    (processPortCreate env w).currentShipId = w.currentShipId +
      (if (shouldCreateNewShip env.rand
          (w.cell.port_data.shipsInPastHundredHours 1 + w.cell.port_data.shipsInPastHundredHours 2
            + w.cell.port_data.shipsInPastHundredHours 3 + w.cell.port_data.shipsInPastHundredHours 4
            + w.cell.port_data.shipsInPastHundredHours 5 + w.cell.port_data.shipsInPastHundredHours 6
            + w.cell.port_data.shipsInPastHundredHours 7 + w.cell.port_data.shipsInPastHundredHours 8
            + w.cell.port_data.shipsInPastHundredHours 9 + w.cell.number_ships)
          w.randCalls).1 = true then 1 else 0) ∧
    (processPortCreate env w).randCalls = (shouldCreateNewShip env.rand
          (w.cell.port_data.shipsInPastHundredHours 1 + w.cell.port_data.shipsInPastHundredHours 2
            + w.cell.port_data.shipsInPastHundredHours 3 + w.cell.port_data.shipsInPastHundredHours 4
            + w.cell.port_data.shipsInPastHundredHours 5 + w.cell.port_data.shipsInPastHundredHours 6
            + w.cell.port_data.shipsInPastHundredHours 7 + w.cell.port_data.shipsInPastHundredHours 8
            + w.cell.port_data.shipsInPastHundredHours 9 + w.cell.number_ships)
          w.randCalls).2 := by
  unfold processPortCreate
  rw [historyShift]
  dsimp only
  refine ⟨?_, ?_, ?_⟩
  · split_ifs <;> rfl
  · split_ifs <;> simp
  · split_ifs <;> rfl

theorem processPort_returns (env : SimEnv) (hr : Resamples env) (w : PortWork) :
    ∃ w1, processPort env w = some w1 := by
  have hne : processPort env w ≠ none :=
    foldOpt_ne_none _ _ (fun s a _ => processPortSlot_ne_none env hr s a) _
  cases h : processPort env w with
  | none => exact absurd h hne
  | some w1 => exact ⟨w1, rfl⟩

/-- C28: `processPort` returns whenever the resampling of `getTargetPort` ends, and for
every port cell with history `h[0..9]` and count `n` of ships on entry it leaves the
history `h[1], ..., h[9], n`.  The value given to `shouldCreateNewShip` is
`h[1] + ... + h[9] + n`, the sum of the ten entries of the new history, with `n` the
count before any ship is created: a ship is created (the identifier advances) exactly
when `shouldCreateNewShip` returns true for that sum, and the calls of `rand()` made by
the creation step are those of `shouldCreateNewShip` on that sum. -/
theorem processPort_history (env : SimEnv) (w : PortWork) :
    (Resamples env → ∃ w1, processPort env w = some w1) ∧
    ∀ w1, processPort env w = some w1 →
      (∀ k, k < 9 → w1.cell.port_data.shipsInPastHundredHours k
        = w.cell.port_data.shipsInPastHundredHours (k + 1)) ∧
      w1.cell.port_data.shipsInPastHundredHours 9 = w.cell.number_ships ∧
      ((List.range 10).map w1.cell.port_data.shipsInPastHundredHours).sum
        = w.cell.port_data.shipsInPastHundredHours 1 + w.cell.port_data.shipsInPastHundredHours 2
          + w.cell.port_data.shipsInPastHundredHours 3 + w.cell.port_data.shipsInPastHundredHours 4
          + w.cell.port_data.shipsInPastHundredHours 5 + w.cell.port_data.shipsInPastHundredHours 6
          + w.cell.port_data.shipsInPastHundredHours 7 + w.cell.port_data.shipsInPastHundredHours 8
          + w.cell.port_data.shipsInPastHundredHours 9 + w.cell.number_ships ∧
      w1.currentShipId = w.currentShipId +
        (if (shouldCreateNewShip env.rand
            (((List.range 10).map w1.cell.port_data.shipsInPastHundredHours).sum)
            w.randCalls).1 = true then 1 else 0) ∧
      (processPortCreate env w).randCalls
        = (shouldCreateNewShip env.rand
            (((List.range 10).map w1.cell.port_data.shipsInPastHundredHours).sum)
            w.randCalls).2 := by
  refine ⟨fun hr => processPort_returns env hr w, ?_⟩
  intro w1 h
  have hh : w1.cell.port_data.shipsInPastHundredHours
      = (processPortCreate env w).cell.port_data.shipsInPastHundredHours :=
    foldOpt_inv (processPortSlot env)
      (fun w2 => w2.cell.port_data.shipsInPastHundredHours
        = (processPortCreate env w).cell.port_data.shipsInPastHundredHours) _
      (fun s a s1 _ hP hf => (processPortSlot_history env s s1 a hf).trans hP)
      (processPortCreate env w) w1 rfl h
  obtain ⟨c1, c2, c3⟩ := processPortCreate_history env w
  obtain ⟨_, i2, _⟩ := processPortLoop_spec env (processPortCreate env w) MAX_SHIPS_PER_CELL w1 h
  rw [c1] at hh
  have hsum : ((List.range 10).map w1.cell.port_data.shipsInPastHundredHours).sum
      = w.cell.port_data.shipsInPastHundredHours 1 + w.cell.port_data.shipsInPastHundredHours 2
        + w.cell.port_data.shipsInPastHundredHours 3 + w.cell.port_data.shipsInPastHundredHours 4
        + w.cell.port_data.shipsInPastHundredHours 5 + w.cell.port_data.shipsInPastHundredHours 6
        + w.cell.port_data.shipsInPastHundredHours 7 + w.cell.port_data.shipsInPastHundredHours 8
        + w.cell.port_data.shipsInPastHundredHours 9 + w.cell.number_ships := by
    have hr : List.range 10 = [0, 1, 2, 3, 4, 5, 6, 7, 8, 9] := by decide
    rw [hr, hh]
    simp
    omega
  refine ⟨?_, ?_, hsum, ?_, ?_⟩
  · intro k hk
    rw [hh]
    dsimp only
    rw [if_neg (by omega), if_pos hk]
  · rw [hh]
    simp
  · rw [i2, c2, hsum]
  · rw [c3, hsum]

/-- Witness of C28: the example port with one ship and a history of zeros has the
history `0, ..., 0, 1` after `processPort`, and no ship is created. -/
theorem processPort_history_witness :
    ∃ w1, processPort pairEnv harbour = some w1 ∧
      w1.cell.port_data.shipsInPastHundredHours 9 = 1 ∧
      w1.cell.port_data.shipsInPastHundredHours 8 = 0 := by
  obtain ⟨w1, h1⟩ : ∃ w1, processPort pairEnv harbour = some w1 :=
    Option.isSome_iff_exists.mp (by decide)
  have h := (processPort_history pairEnv harbour).2 w1 h1
  exact ⟨w1, h1, h.2.1, h.1 8 (by decide)⟩

/-! ## The water step -/

theorem processWater_prefix (env : SimEnv) (c : cell_struct) (dt : Int) (calls : Nat) (n : Nat) :
    ((List.range n).foldl (processWaterSlot env dt) (c, calls)).1
      = { c with ships_data := fun z =>
            if z < n then (c.ships_data z).map (fun ship =>
              { ship with
                willMoveThisTimestep :=
                  if (willShipMove env.rand c.number_ships
                      (processWaterCalls env c dt calls z)).1 then true
                  else ship.willMoveThisTimestep
                hoursAtSea := ship.hoursAtSea + dt })
            else c.ships_data z } := by
  induction n with
  | zero => simp
  | succ n ih =>
    rw [List.range_succ, List.foldl_append, List.foldl_cons, List.foldl_nil]
    have hcalls : ((List.range n).foldl (processWaterSlot env dt) (c, calls)).2
        = processWaterCalls env c dt calls n := rfl
    generalize hs : (List.range n).foldl (processWaterSlot env dt) (c, calls) = s at ih hcalls
    unfold processWaterSlot
    have hslot : s.1.ships_data n = c.ships_data n := by
      rw [ih]
      simp
    rw [hslot]
    cases hc : c.ships_data n with
    | none =>
      dsimp only
      rw [ih]
      congr 1
      funext z
      by_cases hz : z = n
      · subst hz
        simp [hc]
      · have h1 : (z < n + 1) = (z < n) := by
          apply propext
          omega
        simp only [h1]
    | some ship =>
      dsimp only
      rw [hcalls]
      rw [ih]
      dsimp only
      congr 1
      funext z
      by_cases hz : z = n
      · subst hz
        simp [setSlot, hc]
      · have h1 : (z < n + 1) = (z < n) := by
          apply propext
          omega
        simp only [setSlot, if_neg hz, h1]

/-- C29: for every cell, every `dt` and every stream of `rand()` (every outcome of
`willShipMove`), `processWater` gives each ship of the cell `hoursAtSea + dt`, flagged
or not; the flag of a ship afterwards is true exactly when it was true before or
`willShipMove(number_ships)` returned true at the ship's turn; the ship's `route`,
`id` and `cargoAmount`, the empty slots, the slots beyond the roster, `number_ships`
and the other fields of the cell are unchanged. -/
theorem processWater_frame (env : SimEnv) (c : cell_struct) (dt : Int) (calls : Nat) :
    (∀ z ship, c.ships_data z = some ship → z < MAX_SHIPS_PER_CELL →
      (processWater env c dt calls).1.ships_data z
        = some { route := ship.route, hoursAtSea := ship.hoursAtSea + dt, id := ship.id,
                 cargoAmount := ship.cargoAmount,
                 willMoveThisTimestep :=
                   (willShipMove env.rand c.number_ships
                     (processWaterCalls env c dt calls z)).1 || ship.willMoveThisTimestep }) ∧
    (∀ z, c.ships_data z = none → (processWater env c dt calls).1.ships_data z = none) ∧
    (∀ z, MAX_SHIPS_PER_CELL ≤ z →
      (processWater env c dt calls).1.ships_data z = c.ships_data z) ∧
    (processWater env c dt calls).1.number_ships = c.number_ships ∧
    (processWater env c dt calls).1
      = { c with ships_data := (processWater env c dt calls).1.ships_data } := by
  have key := processWater_prefix env c dt calls MAX_SHIPS_PER_CELL
  have hp : processWater env c dt calls
      = (List.range MAX_SHIPS_PER_CELL).foldl (processWaterSlot env dt) (c, calls) := rfl
  rw [← hp] at key
  refine ⟨?_, ?_, ?_, ?_, ?_⟩
  · intro z ship hz hlt
    rw [key]
    dsimp only
    rw [if_pos hlt, hz]
    cases (willShipMove env.rand c.number_ships (processWaterCalls env c dt calls z)).1 <;> simp
  · intro z hz
    rw [key]
    dsimp only
    split_ifs <;> simp [hz]
  · intro z hz
    rw [key]
    dsimp only
    rw [if_neg (by omega)]
  · rw [key]
  · rw [key]

/-- Witness of C29: the flagged ship of the example water cell, alone in its cell, has
13 hours at sea after `processWater` with `dt = 10` and is still flagged. -/
theorem processWater_frame_witness :
    (processWater pairEnv (oneShipDomain 4) 10 0).1.ships_data 0
      = some { route := 0, hoursAtSea := 13, id := 9, cargoAmount := 5,
               willMoveThisTimestep := true } :=
  (processWater_frame pairEnv (oneShipDomain 4) 10 0).1 0
    { route := 0, hoursAtSea := 3, id := 9, cargoAmount := 5, willMoveThisTimestep := true }
    (by decide) (by decide)

/-! ## The score of an offset -/

theorem is_cell_blocked_iff (g : RouteCtx) (x y : Int) :
    is_cell_blocked g x y = true ↔ (x, y) ∈ g.blocked_cells := by
  unfold is_cell_blocked
  rw [List.any_eq_true]
  constructor
  · rintro ⟨b, hb, hxy⟩
    have h := of_decide_eq_true hxy
    have hb2 : b = (x, y) := Prod.ext h.1 h.2
    rw [← hb2]
    exact hb
  · intro h
    exact ⟨(x, y), h, decide_eq_true ⟨rfl, rfl⟩⟩

theorem progress_bounds (t s d : Int) (h1 : -1 ≤ d) (h2 : d ≤ 1) :
    -1 ≤ abs_int (t - s) - abs_int (t - (s + d)) ∧
    abs_int (t - s) - abs_int (t - (s + d)) ≤ 1 := by
  unfold abs_int
  split_ifs <;> omega

/-- C27: `generate_score` returns `LOW_SCORE = -10` when the offset cell lies outside
the global grid or is one of the blocked cells, and otherwise returns
`(|tx - sx| - |tx - (sx + dx)|) + (|ty - sy| - |ty - (sy + dy)|)`; for `dx`, `dy` in
`{-1, 0, 1}` that sum lies between `-2` and `2`, so that for such offsets the score is
`LOW_SCORE` exactly when the offset cell is outside the grid or blocked. -/
theorem generate_score_low (g : RouteCtx) (sx sy tx ty dx dy : Int) :
    LOW_SCORE = -10 ∧
    (¬ inGrid g (sx + dx) (sy + dy) ∨ (sx + dx, sy + dy) ∈ g.blocked_cells →
      generate_score g sx sy tx ty dx dy = LOW_SCORE) ∧
    (¬ (¬ inGrid g (sx + dx) (sy + dy) ∨ (sx + dx, sy + dy) ∈ g.blocked_cells) →
      generate_score g sx sy tx ty dx dy
        = (abs_int (tx - sx) - abs_int (tx - (sx + dx)))
          + (abs_int (ty - sy) - abs_int (ty - (sy + dy)))) ∧
    (-1 ≤ dx → dx ≤ 1 → -1 ≤ dy → dy ≤ 1 →
      -2 ≤ (abs_int (tx - sx) - abs_int (tx - (sx + dx)))
          + (abs_int (ty - sy) - abs_int (ty - (sy + dy))) ∧
      (abs_int (tx - sx) - abs_int (tx - (sx + dx)))
          + (abs_int (ty - sy) - abs_int (ty - (sy + dy))) ≤ 2 ∧
      (generate_score g sx sy tx ty dx dy = LOW_SCORE ↔
        ¬ inGrid g (sx + dx) (sy + dy) ∨ (sx + dx, sy + dy) ∈ g.blocked_cells)) := by
  have hlow : generate_score g sx sy tx ty dx dy = LOW_SCORE ∨
      (¬ (¬ inGrid g (sx + dx) (sy + dy) ∨ (sx + dx, sy + dy) ∈ g.blocked_cells) ∧
        generate_score g sx sy tx ty dx dy
          = (abs_int (tx - sx) - abs_int (tx - (sx + dx)))
            + (abs_int (ty - sy) - abs_int (ty - (sy + dy)))) := by
    unfold generate_score
    split_ifs with h1 h2 h3 h4 h5
    · exact Or.inl rfl
    · exact Or.inl rfl
    · exact Or.inl rfl
    · exact Or.inl rfl
    · exact Or.inl rfl
    · right
      refine ⟨?_, rfl⟩
      rintro (hout | hb)
      · exact hout ⟨by omega, by omega, by omega, by omega⟩
      · exact h5 ((is_cell_blocked_iff g _ _).mpr hb)
  have hout : ¬ inGrid g (sx + dx) (sy + dy) ∨ (sx + dx, sy + dy) ∈ g.blocked_cells →
      generate_score g sx sy tx ty dx dy = LOW_SCORE := by
    intro h
    unfold generate_score
    split_ifs with h1 h2 h3 h4 h5
    · rfl
    · rfl
    · rfl
    · rfl
    · rfl
    · exfalso
      rcases h with hout | hb
      · exact hout ⟨by omega, by omega, by omega, by omega⟩
      · exact h5 ((is_cell_blocked_iff g _ _).mpr hb)
  refine ⟨rfl, hout, ?_, ?_⟩
  · intro hin
    rcases hlow with h | ⟨_, h⟩
    · unfold generate_score
      unfold generate_score at h
      have hin2 := not_or.mp hin
      have hg := not_not.mp hin2.1
      have hb : is_cell_blocked g (sx + dx) (sy + dy) = false := by
        cases hc : is_cell_blocked g (sx + dx) (sy + dy) with
        | false => rfl
        | true => exact absurd ((is_cell_blocked_iff g _ _).mp hc) hin2.2
      rw [if_neg (by have := hg.1; omega), if_neg (by have := hg.2.2.1; omega),
        if_neg (by have := hg.2.1; omega), if_neg (by have := hg.2.2.2; omega)]
      simp [hb]
    · exact h
  · intro a1 a2 b1 b2
    have px := progress_bounds tx sx dx a1 a2
    have py := progress_bounds ty sy dy b1 b2
    refine ⟨by omega, by omega, ⟨?_, hout⟩⟩
    intro h
    by_contra hin
    rcases hlow with _ | ⟨_, h2⟩
    · have hin2 := not_or.mp hin
      have hg := not_not.mp hin2.1
      have hb : is_cell_blocked g (sx + dx) (sy + dy) = false := by
        cases hc : is_cell_blocked g (sx + dx) (sy + dy) with
        | false => rfl
        | true => exact absurd ((is_cell_blocked_iff g _ _).mp hc) hin2.2
      unfold generate_score at h
      rw [if_neg (by have := hg.1; omega), if_neg (by have := hg.2.2.1; omega),
        if_neg (by have := hg.2.1; omega), if_neg (by have := hg.2.2.2; omega)] at h
      simp only [hb] at h
      unfold LOW_SCORE at h
      simp at h
      omega
    · rw [h2] at h
      unfold LOW_SCORE at h
      omega

/-- Witness of C27: on the 16 by 16 test grid the offset `(1, 1)` from `(0, 10)` towards
`(14, 15)` scores 2, and the offset `(-1, 0)`, which leaves the grid, scores
`LOW_SCORE`. -/
theorem generate_score_low_witness :
    generate_score grid16 0 10 14 15 1 1 = 2 ∧
    generate_score grid16 0 10 14 15 (-1) 0 = LOW_SCORE :=
  ⟨((generate_score_low grid16 0 10 14 15 1 1).2.2.1 (by decide)).trans (by decide),
   (generate_score_low grid16 0 10 14 15 (-1) 0).2.1 (Or.inl (by decide))⟩

/-! ## The choice of the walker -/

theorem foldl_bestUpdate_first (score : Int × Int → Int) (l : List (Int × Int)) (b0 : Best) :
    (l.foldl (bestUpdate score) b0 = b0 ∧ ∀ o ∈ l, score o ≤ b0.current_best) ∨
    ∃ l1 o l2, l = l1 ++ o :: l2 ∧ l.foldl (bestUpdate score) b0 = ⟨score o, o.1, o.2⟩ ∧
      score o > b0.current_best ∧ (∀ p ∈ l1, score p < score o) ∧
      (∀ p ∈ l2, score p ≤ score o) := by
  induction l generalizing b0 with
  | nil => left; exact ⟨rfl, fun o ho => absurd ho (List.not_mem_nil o)⟩
  | cons a l ih =>
    rw [List.foldl_cons]
    by_cases ha : score a > b0.current_best
    · have hb : bestUpdate score b0 a = ⟨score a, a.1, a.2⟩ := by
        unfold bestUpdate
        rw [if_pos ha]
      rw [hb]
      rcases ih ⟨score a, a.1, a.2⟩ with ⟨h1, h2⟩ | ⟨l1, o, l2, h1, h2, h3, h4, h5⟩
      · right
        exact ⟨[], a, l, rfl, h1, ha, fun p hp => absurd hp (List.not_mem_nil p), h2⟩
      · right
        dsimp only at h3
        refine ⟨a :: l1, o, l2, by rw [h1]; rfl, h2, by omega, ?_, h5⟩
        intro p hp
        rcases List.mem_cons.mp hp with hp | hp
        · rw [hp]; omega
        · exact h4 p hp
    · have hb : bestUpdate score b0 a = b0 := by
        unfold bestUpdate
        rw [if_neg ha]
      rw [hb]
      rcases ih b0 with ⟨h1, h2⟩ | ⟨l1, o, l2, h1, h2, h3, h4, h5⟩
      · left
        refine ⟨h1, ?_⟩
        intro p hp
        rcases List.mem_cons.mp hp with hp | hp
        · rw [hp]; omega
        · exact h2 p hp
      · right
        refine ⟨a :: l1, o, l2, by rw [h1]; rfl, h2, h3, ?_, h5⟩
        intro p hp
        rcases List.mem_cons.mp hp with hp | hp
        · rw [hp]; omega
        · exact h4 p hp

theorem generate_score_ge_low (g : RouteCtx) (x y tx ty : Int) (o : Int × Int)
    (ho : o ∈ scanOrder) : LOW_SCORE ≤ generate_score g x y tx ty o.1 o.2 := by
  have hb : -1 ≤ o.1 ∧ o.1 ≤ 1 ∧ -1 ≤ o.2 ∧ o.2 ≤ 1 := by
    unfold scanOrder at ho
    simp only [List.mem_cons, List.mem_singleton, List.not_mem_nil, or_false] at ho
    rcases ho with h | h | h | h | h | h | h | h | h <;> rw [h] <;> decide
  have px := progress_bounds tx x o.1 hb.1 hb.2.1
  have py := progress_bounds ty y o.2 hb.2.2.1 hb.2.2.2
  unfold generate_score LOW_SCORE
  split_ifs <;> omega

/-- C26: at every walker state, the selection loops of `generate_route` end with
`current_best = LOW_SCORE` exactly when all 8 non-centre offsets score `LOW_SCORE`; in
that case the walker loop ends there (the state is returned as it is).  Otherwise the
chosen offset is not the centre, its score is `current_best`, every non-centre offset
before it in the scan order (`dx = -1, 0, 1` outer, `dy = -1, 0, 1` inner) scores
strictly less and every one after it at most as much, and the walker moves by the
chosen offset. -/
theorem chosen_first_max (g : RouteCtx) (tx ty : Int) (s : WalkState) (n : Nat) :
    ((chosen g tx ty s).current_best = LOW_SCORE ↔
      ∀ o ∈ scanOrder, o ≠ (0, 0) →
        generate_score g s.current_x s.current_y tx ty o.1 o.2 = LOW_SCORE) ∧
    ((chosen g tx ty s).current_best ≠ LOW_SCORE →
      ((chosen g tx ty s).best_x, (chosen g tx ty s).best_y) ≠ (0, 0) ∧
      generate_score g s.current_x s.current_y tx ty (chosen g tx ty s).best_x
        (chosen g tx ty s).best_y = (chosen g tx ty s).current_best ∧
      ∃ l1 l2, scanOrder = l1 ++ ((chosen g tx ty s).best_x, (chosen g tx ty s).best_y) :: l2 ∧
        (∀ p ∈ l1, p ≠ (0, 0) →
          generate_score g s.current_x s.current_y tx ty p.1 p.2
            < (chosen g tx ty s).current_best) ∧
        (∀ p ∈ l2, p ≠ (0, 0) →
          generate_score g s.current_x s.current_y tx ty p.1 p.2
            ≤ (chosen g tx ty s).current_best)) ∧
    (s.found_route = false → (chosen g tx ty s).current_best = LOW_SCORE →
      walkLoop g tx ty (n + 1) s = s) ∧
    (s.found_route = false → (chosen g tx ty s).current_best ≠ LOW_SCORE →
      walkLoop g tx ty (n + 1) s
        = walkLoop g tx ty n (advance g tx ty s (chosen g tx ty s)) ∧
      (advance g tx ty s (chosen g tx ty s)).current_x
        = s.current_x + (chosen g tx ty s).best_x ∧
      (advance g tx ty s (chosen g tx ty s)).current_y
        = s.current_y + (chosen g tx ty s).best_y) := by
  have hgs : ∀ p : Int × Int, p ≠ (0, 0) →
      grid_scores g s.current_x s.current_y tx ty p
        = generate_score g s.current_x s.current_y tx ty p.1 p.2 := by
    intro p hp
    unfold grid_scores
    rw [if_neg hp]
  have hcentre : grid_scores g s.current_x s.current_y tx ty (0, 0) = LOW_SCORE := by
    unfold grid_scores
    rw [if_pos rfl]
  have hfirst := foldl_bestUpdate_first (grid_scores g s.current_x s.current_y tx ty)
    scanOrder ⟨LOW_SCORE, 0, 0⟩
  have hch : chosen g tx ty s
      = scanOrder.foldl (bestUpdate (grid_scores g s.current_x s.current_y tx ty))
          ⟨LOW_SCORE, 0, 0⟩ := rfl
  rw [← hch] at hfirst
  dsimp only at hfirst
  refine ⟨?_, ?_, ?_, ?_⟩
  · constructor
    · intro hlow o ho hne
      rcases hfirst with ⟨_, h2⟩ | ⟨l1, p, l2, h1, h2, h3, _, _⟩
      · have := h2 o ho
        rw [hgs o hne] at this
        have := generate_score_ge_low g s.current_x s.current_y tx ty o ho
        omega
      · rw [h2] at hlow
        dsimp only at hlow
        omega
    · intro hall
      rcases hfirst with ⟨h1, _⟩ | ⟨l1, p, l2, h1, h2, h3, _, _⟩
      · rw [h1]
      · exfalso
        have hp : p ∈ scanOrder := by rw [h1]; simp
        by_cases hp0 : p = (0, 0)
        · rw [hp0, hcentre] at h3
          omega
        · rw [hgs p hp0, hall p hp hp0] at h3
          omega
  · intro hne
    rcases hfirst with ⟨h1, _⟩ | ⟨l1, p, l2, h1, h2, h3, h4, h5⟩
    · rw [h1] at hne
      exact absurd rfl hne
    · have hp0 : p ≠ (0, 0) := by
        intro hp0
        rw [hp0, hcentre] at h3
        omega
      rw [h2]
      dsimp only
      refine ⟨hp0, (hgs p hp0).symm, l1, l2, h1, ?_, ?_⟩
      · intro q hq hq0
        rw [← hgs q hq0]
        exact h4 q hq
      · intro q hq hq0
        rw [← hgs q hq0]
        exact h5 q hq
  · intro hf hlow
    have hlow2 : (selectBest (grid_scores g s.current_x s.current_y tx ty)).current_best
        = LOW_SCORE := hlow
    rw [walkLoop]
    simp [hf, hlow2]
  · intro hf hne
    have hne2 : (selectBest (grid_scores g s.current_x s.current_y tx ty)).current_best
        ≠ LOW_SCORE := hne
    refine ⟨?_, rfl, rfl⟩
    rw [walkLoop]
    simp only [hf, Bool.false_eq_true, if_false, if_neg hne2]
    rfl

/-- Witness of C26: on the 16 by 16 test grid, at the source `(0, 10)` of the route to
`(14, 15)` the chosen offset is `(1, 1)`, with score 2. -/
theorem chosen_first_max_witness :
    (chosen grid16 14 15 (walkStart grid16 zeroMem 0 10)).current_best ≠ LOW_SCORE ∧
    generate_score grid16 0 10 14 15
      (chosen grid16 14 15 (walkStart grid16 zeroMem 0 10)).best_x
      (chosen grid16 14 15 (walkStart grid16 zeroMem 0 10)).best_y
      = (chosen grid16 14 15 (walkStart grid16 zeroMem 0 10)).current_best :=
  ⟨by decide,
   ((chosen_first_max grid16 14 15 (walkStart grid16 zeroMem 0 10) 0).2.1 (by decide)).2.1⟩

/-! ## The positions of the walker -/

theorem grid_injection_card (g : RouteCtx) (n : Nat) (hn : 0 < n) (p : Nat → Int × Int)
    (hin : ∀ k, k < n → inGrid g (p k).1 (p k).2)
    (hinj : ∀ i j, i < j → j < n → p i ≠ p j) : (n : Int) ≤ g.size_x * g.size_y := by
  have h0 := hin 0 hn
  unfold inGrid at h0
  have hcard : (Finset.range n).card
      ≤ (Finset.Ico (0 : Int) g.size_x ×ˢ Finset.Ico (0 : Int) g.size_y).card := by
    apply Finset.card_le_card_of_injOn p
    · intro k hk
      have hk2 := hin k (List.mem_range.mp (by simpa using hk))
      unfold inGrid at hk2
      rw [Finset.mem_product, Finset.mem_Ico, Finset.mem_Ico]
      exact ⟨⟨hk2.1, hk2.2.1⟩, ⟨hk2.2.2.1, hk2.2.2.2⟩⟩
    · intro i hi j hj hij
      have hi2 : i < n := by simpa using hi
      have hj2 : j < n := by simpa using hj
      by_contra hne
      rcases Nat.lt_or_gt_of_ne hne with h | h
      · exact hinj i j h hj2 hij
      · exact hinj j i h hi2 hij.symm
  rw [Finset.card_range, Finset.card_product, Int.card_Ico, Int.card_Ico] at hcard
  have hx : ((g.size_x - 0).toNat : Int) = g.size_x := by
    rw [Int.toNat_of_nonneg (by omega)]; omega
  have hy : ((g.size_y - 0).toNat : Int) = g.size_y := by
    rw [Int.toNat_of_nonneg (by omega)]; omega
  have : (n : Int) ≤ ((g.size_x - 0).toNat : Int) * ((g.size_y - 0).toNat : Int) := by
    exact_mod_cast hcard
  rw [hx, hy] at this
  exact this

/-- C30 (as amended): for every successful `generate_route` with distinct source and
target, with `L` the number of steps of the walk: the walker's positions `p_0` (the
source), ..., `p_L` (the target) are pairwise distinct, each being determined by the one
before; the cells written by two different steps have different indices, so the value `k` written
at step `k` in an owned column is still there at the end; `L ≤ SX * SY`; and when the
source is a cell of the grid, no step writes to it, it holds 0 at the end when its
column is owned, and `L ≤ SX * SY - 1`. -/
theorem walk_positions_distinct (g : RouteCtx) (mem : Int → Int) (cri sx sy tx ty : Int)
    (hret : (generate_route g mem cri sx sy tx ty).ret ≠ -1) (hne : (sx, sy) ≠ (tx, ty)) :
    walkerPos g mem sx sy tx ty 0 = (sx, sy) ∧
    walkerPos g mem sx sy tx ty (routeLength g mem sx sy tx ty) = (tx, ty) ∧
    (∀ i j, i < j → j ≤ routeLength g mem sx sy tx ty →
      walkerPos g mem sx sy tx ty i ≠ walkerPos g mem sx sy tx ty j) ∧
    (∀ k, k < routeLength g mem sx sy tx ty →
      walkerPos g mem sx sy tx ty (k + 1) = nextPos g tx ty (walkerPos g mem sx sy tx ty k)) ∧
    (∀ i j, 1 ≤ i → i < j → j ≤ routeLength g mem sx sy tx ty →
      cellIndex g (walkerPos g mem sx sy tx ty i).1 (walkerPos g mem sx sy tx ty i).2
        ≠ cellIndex g (walkerPos g mem sx sy tx ty j).1 (walkerPos g mem sx sy tx ty j).2) ∧
    (∀ k, 1 ≤ k → k ≤ routeLength g mem sx sy tx ty →
      ownsColumn g (walkerPos g mem sx sy tx ty k).1 →
      (generate_route g mem cri sx sy tx ty).route
        (cellIndex g (walkerPos g mem sx sy tx ty k).1 (walkerPos g mem sx sy tx ty k).2)
        = (k : Int)) ∧
    (routeLength g mem sx sy tx ty : Int) ≤ g.size_x * g.size_y ∧
    (inGrid g sx sy →
      (∀ j, 1 ≤ j → j ≤ routeLength g mem sx sy tx ty →
        cellIndex g (walkerPos g mem sx sy tx ty j).1 (walkerPos g mem sx sy tx ty j).2
          ≠ cellIndex g sx sy) ∧
      (ownsColumn g sx →
        (generate_route g mem cri sx sy tx ty).route (cellIndex g sx sy) = 0) ∧
      (routeLength g mem sx sy tx ty : Int) ≤ g.size_x * g.size_y - 1) := by
  have hf := generate_route_found g mem cri sx sy tx ty hret
  obtain ⟨hL1, hLle, heq, hlive, htarget, _⟩ := walk_success g mem sx sy tx ty hf
  have hdist : ∀ i j, i < j → j ≤ routeLength g mem sx sy tx ty →
      walkerPos g mem sx sy tx ty i ≠ walkerPos g mem sx sy tx ty j :=
    fun i j hij hj => walkerPos_distinct g mem sx sy tx ty hf i j hij hj (Or.inr hne)
  have hgrid : ∀ k, 1 ≤ k → k ≤ routeLength g mem sx sy tx ty →
      inGrid g (walkerPos g mem sx sy tx ty k).1 (walkerPos g mem sx sy tx ty k).2 :=
    fun k hk1 hk => (walkerPos_inGrid g mem sx sy tx ty hf k hk1 hk).1
  have hcell : ∀ i j, 1 ≤ i → i < j → j ≤ routeLength g mem sx sy tx ty →
      cellIndex g (walkerPos g mem sx sy tx ty i).1 (walkerPos g mem sx sy tx ty i).2
        ≠ cellIndex g (walkerPos g mem sx sy tx ty j).1 (walkerPos g mem sx sy tx ty j).2 := by
    intro i j hi hij hj he
    have h1 := hgrid i hi (by omega)
    have h2 := hgrid j (by omega) hj
    have := cellIndex_inj g _ _ _ _ ⟨h1.2.2.1, h1.2.2.2⟩ ⟨h2.2.2.1, h2.2.2.2⟩ he
    exact hdist i j hij hj (Prod.ext this.1 this.2)
  refine ⟨rfl, htarget, hdist, ?_, hcell, ?_, ?_, ?_⟩
  · intro k hk
    exact walkerPos_succ g mem sx sy tx ty k (hlive (k + 1) (by omega))
  · intro k hk1 hk ho
    rw [generate_route_route, heq]
    apply route_written g mem sx sy tx ty _ k (hlive _ (Nat.le_refl _)) hk1 hk ho
    intro i hki hi _ he
    exact hcell k i hk1 hki hi he.symm
  · generalize g.size_x * g.size_y = m at hLle ⊢
    omega
  · intro hin
    have hsrc : ∀ j, 1 ≤ j → j ≤ routeLength g mem sx sy tx ty →
        walkerPos g mem sx sy tx ty j ≠ (sx, sy) := by
      intro j hj1 hj he
      exact hdist 0 j (by omega) hj he.symm
    refine ⟨?_, ?_, ?_⟩
    · intro j hj1 hj he
      have h1 := hgrid j hj1 hj
      have := cellIndex_inj g _ _ _ _ ⟨h1.2.2.1, h1.2.2.2⟩ ⟨hin.2.2.1, hin.2.2.2⟩ he
      exact hsrc j hj1 hj (Prod.ext this.1 this.2)
    · intro ho
      rw [generate_route_route, route_off_path g mem sx sy tx ty hf sx sy hin hsrc,
        walkStart_route g mem sx sy sx sy ⟨hin.2.2.1, hin.2.2.2⟩ ho ⟨hin.2.2.1, hin.2.2.2⟩,
        if_pos rfl]
    · have hc := grid_injection_card g (routeLength g mem sx sy tx ty + 1) (by omega)
        (walkerPos g mem sx sy tx ty)
        (fun k hk => by
          by_cases hk0 : k = 0
          · rw [hk0]; exact hin
          · exact hgrid k (by omega) (by omega))
        (fun i j hij hj => hdist i j hij (by omega))
      push_cast at hc
      omega

/-- Witness of C30 on the 16 by 16 test grid: the route from `(0, 10)` to `(14, 15)`
has at most 255 steps and its source holds 0. -/
theorem walk_positions_distinct_witness :
    (generate_route grid16 zeroMem 0 0 10 14 15).ret ≠ -1 ∧
    ((0 : Int), (10 : Int)) ≠ (14, 15) ∧
    (routeLength grid16 zeroMem 0 10 14 15 : Int) ≤ grid16.size_x * grid16.size_y - 1 ∧
    (generate_route grid16 zeroMem 0 0 10 14 15).route (cellIndex grid16 0 10) = 0 :=
  ⟨by decide, by decide,
   ((walk_positions_distinct grid16 zeroMem 0 0 10 14 15 (by decide) (by decide)).2.2.2.2.2.2.2
      (by decide)).2.2,
   ((walk_positions_distinct grid16 zeroMem 0 0 10 14 15 (by decide) (by decide)).2.2.2.2.2.2.2
      (by decide)).2.1 (by decide)⟩

/-- Counterexample to C30 as stated: on the grid of a single cell, `generate_route` from
`(-1, 0)`, which is not a cell of the grid, to `(0, 0)` succeeds with a walk of one
step, more than `SX * SY - 1 = 0`. -/
theorem walk_source_outside_grid :
    (generate_route grid1 zeroMem 0 (-1) 0 0 0).ret ≠ -1 ∧
    ((-1 : Int), (0 : Int)) ≠ (0, 0) ∧
    routeLength grid1 zeroMem (-1) 0 0 0 = 1 ∧
    ¬ ((routeLength grid1 zeroMem (-1) 0 0 0 : Int) ≤ grid1.size_x * grid1.size_y - 1) := by
  decide

/-! ## The start of `main` -/

/-- C24 at the failing input: when the program is started with `argc = 1`, the test
`argc < 1` of `main` does not hold, so `main` reports nothing and does not return: it
calls `MPI_Init` and then `parseConfiguration(argv[1], ...)`.  The test holds, and `main`
returns `-1`, only for `argc < 1`. -/
theorem main_startup_missing_argument :
    main_startup 1 = ([StartupCall.MPI_Init, StartupCall.parseConfiguration 1], none) ∧
    ∀ argc : Int, ((main_startup argc).2 = some (-1) ↔ argc < 1) ∧
      ((main_startup argc).1 = [StartupCall.reportMissingArgument] ↔ argc < 1) := by
  refine ⟨by decide, ?_⟩
  intro argc
  unfold main_startup
  by_cases h : argc < 1
  · rw [if_pos h]
    simp [h]
  · rw [if_neg h]
    simp [h]

/-! ## Migration between two workers -/

theorem moveShip_send_next (env : SimEnv) (next : Int → Int → Int → Option (Int × Int))
    (find : cell_struct → Int) (m : MoveState) (jk : Int × Int) (z : Nat) (ship : ship_struct)
    (hs : (m.sub_domain (slabIndex env.ny jk)).ships_data z = some ship)
    (hf : ship.willMoveThisTimestep = true) (off : Int × Int)
    (hoff : off = moveOffset env next (m.sub_domain (slabIndex env.ny jk)) ship jk.1 jk.2 z)
    (hE : jk.1 + off.1 = env.local_nx + 1) :
    moveShip env next find m (jk, z)
      = { m with
          sub_domain := addShips (setShip (setShip m.sub_domain (slabIndex env.ny jk) z
            (some { ship with willMoveThisTimestep := false })) (slabIndex env.ny jk) z none)
            (slabIndex env.ny jk) (-1),
          sendShips1 := m.sendShips1 ++ [{ ship with willMoveThisTimestep := false }],
          ys1 := m.ys1 ++ [jk.2 + off.2] } := by
  unfold slabIndex at hs hoff ⊢
  generalize hr : moveShip env next find m (jk, z) = r
  unfold moveShip at hr
  dsimp only at hr
  rw [hs] at hr
  dsimp only at hr
  rw [if_pos hf, ← hoff, if_pos hE] at hr
  exact hr.symm

theorem moveShip_send_previous (env : SimEnv) (next : Int → Int → Int → Option (Int × Int))
    (find : cell_struct → Int) (m : MoveState) (jk : Int × Int) (z : Nat) (ship : ship_struct)
    (hs : (m.sub_domain (slabIndex env.ny jk)).ships_data z = some ship)
    (hf : ship.willMoveThisTimestep = true) (off : Int × Int)
    (hoff : off = moveOffset env next (m.sub_domain (slabIndex env.ny jk)) ship jk.1 jk.2 z)
    (hE : jk.1 + off.1 ≠ env.local_nx + 1) (hW : jk.1 + off.1 = 0) :
    moveShip env next find m (jk, z)
      = { m with
          sub_domain := addShips (setShip (setShip m.sub_domain (slabIndex env.ny jk) z
            (some { ship with willMoveThisTimestep := false })) (slabIndex env.ny jk) z none)
            (slabIndex env.ny jk) (-1),
          sendShips2 := m.sendShips2 ++ [{ ship with willMoveThisTimestep := false }],
          ys2 := m.ys2 ++ [jk.2 + off.2] } := by
  unfold slabIndex at hs hoff ⊢
  generalize hr : moveShip env next find m (jk, z) = r
  unfold moveShip at hr
  dsimp only at hr
  rw [hs] at hr
  dsimp only at hr
  rw [if_pos hf, ← hoff, if_neg hE, if_pos hW] at hr
  exact hr.symm

/-- One pass of the scan only appends to the send buffers, a ship and its row
together. -/
theorem moveShip_buffers (env : SimEnv) (next : Int → Int → Int → Option (Int × Int))
    (find : cell_struct → Int) (m : MoveState) (s : (Int × Int) × Nat) :
    ∃ e1 e2 : List (ship_struct × Int),
      (moveShip env next find m s).sendShips1 = m.sendShips1 ++ e1.map Prod.fst ∧
      (moveShip env next find m s).ys1 = m.ys1 ++ e1.map Prod.snd ∧
      (moveShip env next find m s).sendShips2 = m.sendShips2 ++ e2.map Prod.fst ∧
      (moveShip env next find m s).ys2 = m.ys2 ++ e2.map Prod.snd := by
  generalize hr : moveShip env next find m s = r
  unfold moveShip at hr
  dsimp only at hr
  cases hs : (m.sub_domain (s.1.1 * (env.ny + 2) + s.1.2)).ships_data s.2 with
  | none =>
    rw [hs] at hr
    dsimp only at hr
    subst hr
    exact ⟨[], [], by simp, by simp, by simp, by simp⟩
  | some ship =>
    rw [hs] at hr
    dsimp only at hr
    by_cases hf : ship.willMoveThisTimestep = true
    · rw [if_pos hf] at hr
      by_cases hE : s.1.1 + (moveOffset env next (m.sub_domain (s.1.1 * (env.ny + 2) + s.1.2))
          ship s.1.1 s.1.2 s.2).1 = env.local_nx + 1
      · rw [if_pos hE] at hr
        subst hr
        exact ⟨[({ ship with willMoveThisTimestep := false },
          s.1.2 + (moveOffset env next (m.sub_domain (s.1.1 * (env.ny + 2) + s.1.2))
            ship s.1.1 s.1.2 s.2).2)], [], by simp, by simp, by simp, by simp⟩
      · rw [if_neg hE] at hr
        by_cases hW : s.1.1 + (moveOffset env next
            (m.sub_domain (s.1.1 * (env.ny + 2) + s.1.2)) ship s.1.1 s.1.2 s.2).1 = 0
        · rw [if_pos hW] at hr
          subst hr
          exact ⟨[], [({ ship with willMoveThisTimestep := false },
            s.1.2 + (moveOffset env next (m.sub_domain (s.1.1 * (env.ny + 2) + s.1.2))
              ship s.1.1 s.1.2 s.2).2)], by simp, by simp, by simp, by simp⟩
        · rw [if_neg hW] at hr
          split at hr
          · subst hr
            exact ⟨[], [], by simp, by simp, by simp, by simp⟩
          · subst hr
            exact ⟨[], [], by simp, by simp, by simp, by simp⟩
    · rw [if_neg hf] at hr
      subst hr
      exact ⟨[], [], by simp, by simp, by simp, by simp⟩

theorem foldl_moveShip_buffers (env : SimEnv) (next : Int → Int → Int → Option (Int × Int))
    (find : cell_struct → Int) (l : List ((Int × Int) × Nat)) (m : MoveState) :
    ∃ e1 e2 : List (ship_struct × Int),
      (l.foldl (moveShip env next find) m).sendShips1 = m.sendShips1 ++ e1.map Prod.fst ∧
      (l.foldl (moveShip env next find) m).ys1 = m.ys1 ++ e1.map Prod.snd ∧
      (l.foldl (moveShip env next find) m).sendShips2 = m.sendShips2 ++ e2.map Prod.fst ∧
      (l.foldl (moveShip env next find) m).ys2 = m.ys2 ++ e2.map Prod.snd := by
  induction l generalizing m with
  | nil => exact ⟨[], [], by simp, by simp, by simp, by simp⟩
  | cons s l ih =>
    rw [List.foldl_cons]
    obtain ⟨a1, a2, h1, h2, h3, h4⟩ := moveShip_buffers env next find m s
    obtain ⟨b1, b2, g1, g2, g3, g4⟩ := ih (moveShip env next find m s)
    refine ⟨a1 ++ b1, a2 ++ b2, ?_, ?_, ?_, ?_⟩
    · rw [g1, h1, List.map_append, List.append_assoc]
    · rw [g2, h2, List.map_append, List.append_assoc]
    · rw [g3, h3, List.map_append, List.append_assoc]
    · rw [g4, h4, List.map_append, List.append_assoc]

theorem zip_map_fst_snd {α β : Type} (e : List (α × β)) :
    (e.map Prod.fst).zip (e.map Prod.snd) = e := by
  induction e with
  | nil => rfl
  | cons a e ih => simp [ih]

/-- A ship appended to a send buffer during the scan is in the message at the end of the
scan, at the place where it was appended. -/
theorem scan_message (env : SimEnv) (next : Int → Int → Int → Option (Int × Int))
    (find : cell_struct → Int) (d : Int → cell_struct) (pre post : List ((Int × Int) × Nat))
    (s : (Int × Int) × Nat) (hsplit : scanSlots env.local_nx env.ny = pre ++ s :: post) :
    (∀ moved y,
      (moveShip env next find (scanState env next find d pre) s).sendShips1
        = (scanState env next find d pre).sendShips1 ++ [moved] →
      (moveShip env next find (scanState env next find d pre) s).ys1
        = (scanState env next find d pre).ys1 ++ [y] →
      ∃ after, (scanMovement env next find d).sendShips1.zip (scanMovement env next find d).ys1
        = (scanState env next find d pre).sendShips1.zip (scanState env next find d pre).ys1
          ++ (moved, y) :: after) ∧
    (∀ moved y,
      (moveShip env next find (scanState env next find d pre) s).sendShips2
        = (scanState env next find d pre).sendShips2 ++ [moved] →
      (moveShip env next find (scanState env next find d pre) s).ys2
        = (scanState env next find d pre).ys2 ++ [y] →
      ∃ after, (scanMovement env next find d).sendShips2.zip (scanMovement env next find d).ys2
        = (scanState env next find d pre).sendShips2.zip (scanState env next find d pre).ys2
          ++ (moved, y) :: after) := by
  have hscan : scanMovement env next find d
      = post.foldl (moveShip env next find)
          (moveShip env next find (scanState env next find d pre) s) := by
    unfold scanMovement scanState
    rw [hsplit, List.foldl_append, List.foldl_cons]
  obtain ⟨a1, a2, h1, h2, h3, h4⟩ := foldl_moveShip_buffers env next find pre
    { sub_domain := d, sendShips1 := [], ys1 := [], sendShips2 := [], ys2 := [] }
  have hm : scanState env next find d pre = pre.foldl (moveShip env next find)
      { sub_domain := d, sendShips1 := [], ys1 := [], sendShips2 := [], ys2 := [] } := rfl
  rw [← hm] at h1 h2 h3 h4
  simp only [List.nil_append] at h1 h2 h3 h4
  obtain ⟨b1, b2, g1, g2, g3, g4⟩ := foldl_moveShip_buffers env next find post
    (moveShip env next find (scanState env next find d pre) s)
  rw [← hscan] at g1 g2 g3 g4
  constructor
  · intro moved y hm1 hy1
    refine ⟨b1, ?_⟩
    rw [g1, g2, hm1, hy1, h1, h2]
    have e1 : (a1.map Prod.fst ++ [moved]) ++ b1.map Prod.fst
        = (a1 ++ (moved, y) :: b1).map Prod.fst := by simp
    have e2 : (a1.map Prod.snd ++ [y]) ++ b1.map Prod.snd
        = (a1 ++ (moved, y) :: b1).map Prod.snd := by simp
    rw [e1, e2, zip_map_fst_snd, zip_map_fst_snd]
  · intro moved y hm1 hy1
    refine ⟨b2, ?_⟩
    rw [g3, g4, hm1, hy1, h3, h4]
    have e1 : (a2.map Prod.fst ++ [moved]) ++ b2.map Prod.fst
        = (a2 ++ (moved, y) :: b2).map Prod.fst := by simp
    have e2 : (a2.map Prod.snd ++ [y]) ++ b2.map Prod.snd
        = (a2 ++ (moved, y) :: b2).map Prod.snd := by simp
    rw [e1, e2, zip_map_fst_snd, zip_map_fst_snd]

/-- A received ship is stored in the first free slot of its cell, when there is one, and
nothing else changes but the count of that cell. -/
theorem receiveShip_stores (env : SimEnv) (col : Int) (d : Int → cell_struct)
    (r : ship_struct × Int)
    (hfree : findFreeShipIndex (d (col * (env.ny + 2) + r.2)) > -1) :
    (findFreeShipIndex (d (col * (env.ny + 2) + r.2))).toNat < MAX_SHIPS_PER_CELL ∧
    (d (col * (env.ny + 2) + r.2)).ships_data
      (findFreeShipIndex (d (col * (env.ny + 2) + r.2))).toNat = none ∧
    (receiveShip env findFreeShipIndex col d r (col * (env.ny + 2) + r.2)).ships_data
      (findFreeShipIndex (d (col * (env.ny + 2) + r.2))).toNat = some r.1 ∧
    (receiveShip env findFreeShipIndex col d r (col * (env.ny + 2) + r.2)).number_ships
      = (d (col * (env.ny + 2) + r.2)).number_ships + 1 ∧
    ∀ c k, ¬ (c = col * (env.ny + 2) + r.2 ∧
        k = (findFreeShipIndex (d (col * (env.ny + 2) + r.2))).toNat) →
      (receiveShip env findFreeShipIndex col d r c).ships_data k = (d c).ships_data k := by
  have hrec : receiveShip env findFreeShipIndex col d r
      = setCell d (col * (env.ny + 2) + r.2)
          { d (col * (env.ny + 2) + r.2) with
            ships_data := setSlot (d (col * (env.ny + 2) + r.2)).ships_data
              (findFreeShipIndex (d (col * (env.ny + 2) + r.2))).toNat (some r.1)
            number_ships := (d (col * (env.ny + 2) + r.2)).number_ships + 1 } := by
    unfold receiveShip
    dsimp only
    rw [if_pos hfree]
  rcases findFreeShipIndex_spec (d (col * (env.ny + 2) + r.2)) with
    ⟨hneg, _⟩ | ⟨z1, hz1, hlt, hnone, _⟩
  · rw [hneg] at hfree
    exact absurd hfree (by decide)
  · rw [hrec, hz1, Int.toNat_ofNat]
    refine ⟨hlt, hnone, ?_, ?_, ?_⟩
    · rw [setCell_same]
      exact setSlot_same _ _ _
    · rw [setCell_same]
    · intro c k hck
      by_cases hc : c = col * (env.ny + 2) + r.2
      · rw [hc, setCell_same]
        dsimp only
        rw [setSlot_other _ _ _ _ (fun hk => hck ⟨hc, hk⟩)]
      · rw [setCell_other _ _ _ _ hc]

/-- The receive loops never overwrite an occupied slot. -/
theorem receiveShip_keeps (env : SimEnv) (col : Int) (d : Int → cell_struct)
    (r : ship_struct × Int) (c : Int) (k : Nat) (ship : ship_struct)
    (h : (d c).ships_data k = some ship) :
    (receiveShip env findFreeShipIndex col d r c).ships_data k = some ship := by
  by_cases hfree : findFreeShipIndex (d (col * (env.ny + 2) + r.2)) > -1
  · obtain ⟨_, hnone, _, _, hother⟩ := receiveShip_stores env col d r hfree
    rw [hother c k ?_]
    · exact h
    · rintro ⟨hc, hk⟩
      rw [hc, hk, hnone] at h
      cases h
  · unfold receiveShip
    dsimp only
    rw [if_neg hfree]
    exact h

theorem receiveShips_keep (env : SimEnv) (col : Int) (l : List (ship_struct × Int))
    (d : Int → cell_struct) (c : Int) (k : Nat) (ship : ship_struct)
    (h : (d c).ships_data k = some ship) :
    (l.foldl (receiveShip env findFreeShipIndex col) d c).ships_data k = some ship := by
  induction l generalizing d with
  | nil => exact h
  | cons r l ih =>
    rw [List.foldl_cons]
    exact ih _ (receiveShip_keeps env col d r c k ship h)

theorem updateMovement_toNext (env : SimEnv) (next : Int → Int → Int → Option (Int × Int))
    (find : cell_struct → Int) (d : Int → cell_struct) (fn fp : List (ship_struct × Int))
    (h : env.myrank < env.size - 1) :
    (updateMovement env next find d fn fp).toNext
      = some ((scanMovement env next find d).sendShips1.zip (scanMovement env next find d).ys1) := by
  unfold updateMovement
  dsimp only
  rw [if_pos h]

theorem updateMovement_toPrevious (env : SimEnv) (next : Int → Int → Int → Option (Int × Int))
    (find : cell_struct → Int) (d : Int → cell_struct) (fn fp : List (ship_struct × Int))
    (h : env.myrank > 0) :
    (updateMovement env next find d fn fp).toPrevious
      = some ((scanMovement env next find d).sendShips2.zip (scanMovement env next find d).ys2) := by
  unfold updateMovement
  dsimp only
  rw [if_pos h]

/-- With a previous rank, the ships received from it are stored last, in column 1. -/
theorem updateMovement_fromPrevious (env : SimEnv)
    (next : Int → Int → Int → Option (Int × Int)) (find : cell_struct → Int)
    (d : Int → cell_struct) (fn fp : List (ship_struct × Int)) (h : env.myrank > 0) :
    (updateMovement env next find d fn fp).sub_domain
      = fp.foldl (receiveShip env find 1) (updateMovement env next find d fn []).sub_domain := by
  unfold updateMovement
  dsimp only
  simp only [if_pos h, List.foldl_nil]

/-- With a next rank, the ships received from it are stored first, in column
`local_nx`; those of the previous rank, if there is one, follow. -/
theorem updateMovement_fromNext (env : SimEnv)
    (next : Int → Int → Int → Option (Int × Int)) (find : cell_struct → Int)
    (d : Int → cell_struct) (fn fp : List (ship_struct × Int)) (h : env.myrank < env.size - 1) :
    (updateMovement env next find d fn fp).sub_domain
      = (if env.myrank > 0 then fp else []).foldl (receiveShip env find 1)
          (fn.foldl (receiveShip env find env.local_nx) (scanMovement env next find d).sub_domain) := by
  unfold updateMovement
  dsimp only
  rw [if_pos h]
  by_cases h0 : env.myrank > 0
  · rw [if_pos h0, if_pos h0]
  · rw [if_neg h0, if_neg h0]
    rfl

theorem scanMovement_idle (env : SimEnv) (next : Int → Int → Int → Option (Int × Int))
    (find : cell_struct → Int) (d : Int → cell_struct)
    (h : ∀ c k ship, (d c).ships_data k = some ship → ship.willMoveThisTimestep = false) :
    scanMovement env next find d
      = { sub_domain := d, sendShips1 := [], ys1 := [], sendShips2 := [], ys2 := [] } := by
  unfold scanMovement
  apply foldl_inv (moveShip env next find)
    (fun m => m = { sub_domain := d, sendShips1 := [], ys1 := [], sendShips2 := [], ys2 := [] })
  · intro s a _ hs
    rw [hs]
    exact moveShip_idle env next find _ a.1 a.2 (fun ship hship => h _ _ ship hship)
  · rfl

/-! ## The initialisation of the route planner -/

theorem initialise_routemap_loop (config : simulation_configuration_struct) (l : List Int)
    (H : RouteGlobals) :
    ((l.foldl (storeIsland config) H).size_x = H.size_x ∧
      (l.foldl (storeIsland config) H).size_y = H.size_y ∧
      (l.foldl (storeIsland config) H).current_route_index = H.current_route_index ∧
      (l.foldl (storeIsland config) H).num_blocked_cells = H.num_blocked_cells ∧
      (l.foldl (storeIsland config) H).local_nx = H.local_nx ∧
      (l.foldl (storeIsland config) H).size = H.size ∧
      (l.foldl (storeIsland config) H).myrank = H.myrank ∧
      (l.foldl (storeIsland config) H).basex = H.basex ∧
      (l.foldl (storeIsland config) H).mem_size_x = H.mem_size_x ∧
      (l.foldl (storeIsland config) H).mem_size_y = H.mem_size_y) ∧
    ∀ k,
      ((l.foldl (storeIsland config) H).blocked_cells_x k
        = if k ∈ l then (config.islands k).1 else H.blocked_cells_x k) ∧
      ((l.foldl (storeIsland config) H).blocked_cells_y k
        = if k ∈ l then (config.islands k).2 else H.blocked_cells_y k) := by
  induction l generalizing H with
  | nil => simp
  | cons a l ih =>
    rw [List.foldl_cons]
    obtain ⟨⟨h1, h2, h3, h4, h5, h6, h7, h8, h9, h10⟩, h11⟩ := ih (storeIsland config H a)
    refine ⟨⟨h1, h2, h3, h4, h5, h6, h7, h8, h9, h10⟩, ?_⟩
    intro k
    rw [(h11 k).1, (h11 k).2]
    unfold storeIsland
    dsimp only
    by_cases hk : k ∈ l
    · simp [hk]
    · by_cases hka : k = a
      · subst hka
        simp [hk]
      · simp [hk, hka]

/-- C35: whatever the arguments, `initialise_routemap` leaves the module-level variables
`local_nx`, `myrank`, `size` and `basex` (and `mem_size_x`, `mem_size_y`) of the route
planner as they were on entry: the four assignments write the parameters of the same
names, which keep their values.  It sets `size_x`, `size_y` and `num_blocked_cells` from
the configuration, `current_route_index` to 0, and the entries `0 .. number_islands - 1`
of the two arrays to the coordinates of the islands. -/
theorem initialise_routemap_frame (G : RouteGlobals) (config : simulation_configuration_struct)
    (params : RoutemapParams) (blockX blockY : Int → Int) :
    (initialise_routemap G config params blockX blockY).1.local_nx = G.local_nx ∧
    (initialise_routemap G config params blockX blockY).1.myrank = G.myrank ∧
    (initialise_routemap G config params blockX blockY).1.size = G.size ∧
    (initialise_routemap G config params blockX blockY).1.basex = G.basex ∧
    (initialise_routemap G config params blockX blockY).1.mem_size_x = G.mem_size_x ∧
    (initialise_routemap G config params blockX blockY).1.mem_size_y = G.mem_size_y ∧
    (initialise_routemap G config params blockX blockY).2 = params ∧
    (initialise_routemap G config params blockX blockY).1.size_x = config.size_x ∧
    (initialise_routemap G config params blockX blockY).1.size_y = config.size_y ∧
    (initialise_routemap G config params blockX blockY).1.num_blocked_cells
      = config.number_islands ∧
    (initialise_routemap G config params blockX blockY).1.current_route_index = 0 ∧
    ∀ i, 0 ≤ i → i < config.number_islands →
      (initialise_routemap G config params blockX blockY).1.blocked_cells_x i
        = (config.islands i).1 ∧
      (initialise_routemap G config params blockX blockY).1.blocked_cells_y i
        = (config.islands i).2 := by
  unfold initialise_routemap
  dsimp only
  obtain ⟨⟨h1, h2, h3, h4, h5, h6, h7, h8, h9, h10⟩, h11⟩ :=
    initialise_routemap_loop config (indexRange config.number_islands)
      { size_x := config.size_x, size_y := config.size_y, current_route_index := 0,
        num_blocked_cells := config.number_islands, local_nx := G.local_nx, size := G.size,
        myrank := G.myrank, basex := G.basex, mem_size_x := G.mem_size_x,
        mem_size_y := G.mem_size_y, blocked_cells_x := blockX, blocked_cells_y := blockY }
  refine ⟨h5, h7, h6, h8, h9, h10, rfl, h1, h2, h4, h3, ?_⟩
  intro i hi0 hi1
  rw [(h11 i).1, (h11 i).2, if_pos ((mem_indexRange _ _).mpr ⟨hi0, hi1⟩),
    if_pos ((mem_indexRange _ _).mpr ⟨hi0, hi1⟩)]
  exact ⟨rfl, rfl⟩

/-! ## The greedy planner is incomplete -/

/-- C33: on the 5 by 5 grid with the islands `(2, 1)`, `(2, 2)`, `(2, 3)`, the target
`(4, 2)` can be reached from the source `(1, 2)` by steps to 8-neighbours that lie inside
the grid and are not blocked (through `(1, 1)`, `(2, 0)`, `(3, 1)`), yet
`generate_route(1, 2, 4, 2)` returns `-1`, whatever the columns the worker owns, the
content of the allocated block and `current_route_index`: the walker goes from `(1, 2)`
to `(0, 2)` and back until the 25 iterations that the loop allows are used up. -/
theorem greedy_planner_incomplete :
    Reachable grid5 (1, 2) (4, 2) ∧
    ∀ (local_nx basex : Int) (mem : Int → Int) (cri : Int),
      Reachable (grid5On local_nx basex) (1, 2) (4, 2) ∧
      (generate_route (grid5On local_nx basex) mem cri 1 2 4 2).ret = -1 ∧
      (generate_route (grid5On local_nx basex) mem cri 1 2 4 2).current_route_index = cri ∧
      routeLength (grid5On local_nx basex) mem 1 2 4 2 = 25 ∧
      ∀ k, k ≤ 25 →
        walkerPos (grid5On local_nx basex) mem 1 2 4 2 k = if k % 2 = 0 then (1, 2) else (0, 2) := by
  have hreach : ∀ (local_nx basex : Int), Reachable (grid5On local_nx basex) (1, 2) (4, 2) := by
    intro local_nx basex
    have s1 : seaStep (grid5On local_nx basex) (1, 2) (1, 1) := by
      refine ⟨by decide, by decide, ⟨by decide, by simp [grid5On], by decide, by simp [grid5On]⟩,
        by simp [grid5On, is_cell_blocked]⟩
    have s2 : seaStep (grid5On local_nx basex) (1, 1) (2, 0) := by
      refine ⟨by decide, by decide, ⟨by decide, by simp [grid5On], by decide, by simp [grid5On]⟩,
        by simp [grid5On, is_cell_blocked]⟩
    have s3 : seaStep (grid5On local_nx basex) (2, 0) (3, 1) := by
      refine ⟨by decide, by decide, ⟨by decide, by simp [grid5On], by decide, by simp [grid5On]⟩,
        by simp [grid5On, is_cell_blocked]⟩
    have s4 : seaStep (grid5On local_nx basex) (3, 1) (4, 2) := by
      refine ⟨by decide, by decide, ⟨by decide, by simp [grid5On], by decide, by simp [grid5On]⟩,
        by simp [grid5On, is_cell_blocked]⟩
    exact Relation.ReflTransGen.tail (Relation.ReflTransGen.tail
      (Relation.ReflTransGen.tail (Relation.ReflTransGen.single s1) s2) s3) s4
  refine ⟨hreach 5 0, ?_⟩
  intro local_nx basex mem cri
  have hsame := walkFinal_sameWalker (grid5On local_nx basex) grid5 ⟨rfl, rfl, rfl⟩ mem zeroMem
    1 2 4 2
  have hfound : (walkFinal (grid5On local_nx basex) mem 1 2 4 2).found_route = false := by
    rw [hsame.2.2.1]
    decide
  have hsteps : routeLength (grid5On local_nx basex) mem 1 2 4 2 = 25 := by
    unfold routeLength
    rw [hsame.2.2.2.2]
    decide
  refine ⟨hreach local_nx basex, generate_route_fail _ _ _ _ _ _ _ hfound, ?_, hsteps, ?_⟩
  · unfold generate_route
    simp [hfound]
  · intro k hk
    have hk2 := walkAt_sameWalker (grid5On local_nx basex) grid5 ⟨rfl, rfl, rfl⟩ mem zeroMem
      1 2 4 2 k
    have hpos : walkerPos (grid5On local_nx basex) mem 1 2 4 2 k
        = walkerPos grid5 zeroMem 1 2 4 2 k := by
      unfold walkerPos
      rw [hk2.1, hk2.2.1]
    rw [hpos]
    have hall : ∀ j, j ≤ 25 →
        walkerPos grid5 zeroMem 1 2 4 2 j = if j % 2 = 0 then (1, 2) else (0, 2) := by
      decide
    exact hall k hk

/-! ## A port keeps a ship -/

theorem processPortSlot_keeps_one (env : SimEnv) (w w1 : PortWork) (z : Nat)
    (h1 : 1 ≤ w.cell.number_ships) (h : processPortSlot env w z = some w1) :
    1 ≤ w1.cell.number_ships := by
  obtain ⟨_, _, _, _, _, s6, _, _, s9⟩ := processPortSlot_spec env w w1 z h
  rw [s6]
  split_ifs with hc
  · cases hs : w.cell.ships_data z with
    | none => rw [hs] at hc; simp at hc
    | some ship =>
      have hnone : w1.cell.ships_data z = none := by
        cases h2 : w1.cell.ships_data z with
        | none => rfl
        | some s => rw [h2] at hc; simp at hc
      have := (s9 ship hs hnone).2
      omega
  · omega

theorem rosterCount_pos (ships : Nat → Option ship_struct) (h : 1 ≤ rosterCount ships) :
    ∃ z, z < MAX_SHIPS_PER_CELL ∧ (ships z).isSome = true := by
  unfold rosterCount at h
  obtain ⟨z, hz, hp⟩ := List.countP_pos_iff.mp (by omega : 0 < List.countP
    (fun z => (ships z).isSome) (List.range MAX_SHIPS_PER_CELL))
  exact ⟨z, List.mem_range.mp hz, hp⟩

/-- C34: for every port cell whose `number_ships` is the number of its occupied slots
and is at least 1 on entry, and for every stream of `rand()`, `processPort` returns
(when the resampling of `getTargetPort` ends) and leaves `number_ships` at least 1,
still equal to the number of occupied slots, so at least one slot holds a ship; a ship
is only removed by a pass of the roster loop that starts with `number_ships > 1`. -/
theorem processPort_keeps_one (env : SimEnv) (w : PortWork) (hc : Consistent w.cell)
    (h1 : 1 ≤ w.cell.number_ships) :
    (Resamples env → ∃ w1, processPort env w = some w1) ∧
    ∀ w1, processPort env w = some w1 →
      1 ≤ w1.cell.number_ships ∧ Consistent w1.cell ∧
      (∃ z, z < MAX_SHIPS_PER_CELL ∧ (w1.cell.ships_data z).isSome = true) ∧
      ∀ z ship, z < MAX_SHIPS_PER_CELL →
        (processPortCreate env w).cell.ships_data z = some ship →
        w1.cell.ships_data z = none →
        ∃ wz, foldOpt (processPortSlot env) (List.range z) (processPortCreate env w) = some wz ∧
          wz.cell.number_ships > 1 := by
  refine ⟨fun hr => processPort_returns env hr w, ?_⟩
  intro w1 h
  have hcreate : 1 ≤ (processPortCreate env w).cell.number_ships := by
    rcases (processPortCreate_spec env w).2.2.2 with ⟨_, hn⟩ | ⟨_, _, _, _, hn⟩
    · rw [hn]; exact h1
    · rw [hn]; omega
  have hone : 1 ≤ w1.cell.number_ships :=
    foldOpt_inv (processPortSlot env) (fun w2 => 1 ≤ w2.cell.number_ships) _
      (fun s a s1 _ hP hf => processPortSlot_keeps_one env s s1 a hP hf)
      (processPortCreate env w) w1 hcreate h
  have hcons := processPort_consistent env w w1 hc h
  refine ⟨hone, hcons, ?_, ?_⟩
  · apply rosterCount_pos
    unfold Consistent at hcons
    omega
  · intro z ship hz hs hnone
    obtain ⟨_, _, _, _, _, _, _, i8⟩ :=
      processPortLoop_spec env (processPortCreate env w) MAX_SHIPS_PER_CELL w1 h
    exact (i8 z ship hz hs hnone).2

/-- Witness of C34: the example port cell with one ship still holds a ship after
`processPort`. -/
theorem processPort_keeps_one_witness :
    ∃ w1, processPort pairEnv harbour = some w1 ∧ 1 ≤ w1.cell.number_ships ∧
      ∃ z, z < MAX_SHIPS_PER_CELL ∧ (w1.cell.ships_data z).isSome = true := by
  have hc : Consistent harbour.cell := by
    unfold Consistent rosterCount
    decide
  obtain ⟨w1, hw1⟩ : ∃ w1, processPort pairEnv harbour = some w1 :=
    Option.isSome_iff_exists.mp (by decide)
  have h := (processPort_keeps_one pairEnv harbour hc (by decide)).2 w1 hw1
  exact ⟨w1, hw1, h.1, h.2.2.1⟩

/-! ## The pass of `calculate_routes` over the pairs of ports -/

/-- For a pair `(i, i)` the body of the loops of `calculate_routes` does nothing. -/
theorem planPair_skip (g : RouteCtx) (myrank size : Int) (mem : Int × Int → Int → Int)
    (p : PlannerState) (ij : Int × Int) (h : ij.1 = ij.2) :
    planPair g myrank size mem p ij = some p := by
  unfold planPair
  rw [if_neg (not_not.mpr h)]

/-- A pair of different ports for which the body returns was entered with
`current_route_index` inside the table `routes`. -/
theorem planPair_guard (g : RouteCtx) (myrank size : Int) (mem : Int × Int → Int → Int)
    (p p1 : PlannerState) (ij : Int × Int) (hne : ij.1 ≠ ij.2)
    (h : planPair g myrank size mem p ij = some p1) :
    0 ≤ p.current_route_index ∧ p.current_route_index < ROUTES_MAX := by
  unfold planPair at h
  rw [if_pos hne] at h
  by_cases hin : 0 ≤ p.current_route_index ∧ p.current_route_index < ROUTES_MAX
  · exact hin
  · rw [if_neg hin] at h
    cases h

/-- A pair of different ports entered with `current_route_index` outside the table
`routes` overruns it. -/
theorem planPair_overrun (g : RouteCtx) (myrank size : Int) (mem : Int × Int → Int → Int)
    (p : PlannerState) (ij : Int × Int) (hne : ij.1 ≠ ij.2)
    (hout : ¬ (0 ≤ p.current_route_index ∧ p.current_route_index < ROUTES_MAX)) :
    planPair g myrank size mem p ij = none := by
  unfold planPair
  rw [if_pos hne, if_neg hout]

/-- The body returns for a pair entered with `current_route_index` inside the table, and
then `current_route_index` is the same or one more. -/
theorem planPair_returns (g : RouteCtx) (myrank size : Int) (mem : Int × Int → Int → Int)
    (p : PlannerState) (ij : Int × Int)
    (hin : 0 ≤ p.current_route_index ∧ p.current_route_index < ROUTES_MAX) :
    ∃ p1, planPair g myrank size mem p ij = some p1 ∧
      p.current_route_index ≤ p1.current_route_index ∧
      p1.current_route_index ≤ p.current_route_index + 1 := by
  by_cases hne : ij.1 ≠ ij.2
  · unfold planPair
    rw [if_pos hne, if_pos hin]
    dsimp only
    have hcri : (generate_route g (mem ij) p.current_route_index (p.ports ij.1).x (p.ports ij.1).y
        (p.ports ij.2).x (p.ports ij.2).y).current_route_index = p.current_route_index ∨
        (generate_route g (mem ij) p.current_route_index (p.ports ij.1).x (p.ports ij.1).y
        (p.ports ij.2).x (p.ports ij.2).y).current_route_index = p.current_route_index + 1 := by
      unfold generate_route
      dsimp only
      split_ifs
      · exact Or.inr rfl
      · exact Or.inl rfl
    by_cases hr : (generate_route g (mem ij) p.current_route_index (p.ports ij.1).x
        (p.ports ij.1).y (p.ports ij.2).x (p.ports ij.2).y).ret = -1
    · rw [if_pos hr]
      refine ⟨_, rfl, ?_, ?_⟩
      · dsimp only
        omega
      · dsimp only
        omega
    · rw [if_neg hr]
      refine ⟨_, rfl, ?_, ?_⟩
      · dsimp only
        omega
      · dsimp only
        omega
  · rw [planPair_skip g myrank size mem p ij (not_not.mp hne)]
    exact ⟨p, rfl, by omega, by omega⟩

/-- A pair planned with success gets the next route index; the pairs planned before
keep theirs. -/
theorem planPair_inv (g : RouteCtx) (myrank size : Int) (mem : Int × Int → Int → Int)
    (ports0 : Int → port_configuration_struct) (done : Int × Int → Prop) (p : PlannerState)
    (ij : Int × Int) (hinv : PlanInv ports0 done p) (hne : ij.1 ≠ ij.2)
    (hfound : (generate_route g (mem ij) p.current_route_index (p.ports ij.1).x (p.ports ij.1).y
      (p.ports ij.2).x (p.ports ij.2).y).ret ≠ -1)
    (p1 : PlannerState) (hp1 : planPair g myrank size mem p ij = some p1) :
    PlanInv ports0 (fun a => done a ∨ a = ij) p1 := by
  obtain ⟨ha, hb, hc, hd⟩ := hinv
  have hw := generate_route_found _ _ _ _ _ _ _ hfound
  have hret := generate_route_ret g (mem ij) p.current_route_index (p.ports ij.1).x
    (p.ports ij.1).y (p.ports ij.2).x (p.ports ij.2).y hw
  have hcri : (generate_route g (mem ij) p.current_route_index (p.ports ij.1).x (p.ports ij.1).y
      (p.ports ij.2).x (p.ports ij.2).y).current_route_index = p.current_route_index + 1 := by
    unfold generate_route
    simp [hw]
  have hin := planPair_guard g myrank size mem p p1 ij hne hp1
  unfold planPair at hp1
  rw [if_pos hne, if_pos hin] at hp1
  dsimp only at hp1
  rw [if_neg hfound] at hp1
  replace hp1 := Option.some.inj hp1
  subst hp1
  refine ⟨?_, ?_, ?_, ?_⟩
  · intro k
    dsimp only
    by_cases h1 : k = ij.1
    · rw [if_pos h1, h1]
      exact ha ij.1
    · rw [if_neg h1]
      exact ha k
  · dsimp only
    rw [hcri]
    omega
  · intro a hdone
    dsimp only
    rw [hret, hcri]
    by_cases hij : a = ij
    · subst hij
      simp only [if_true]
      exact ⟨hb, by omega, (ha a.1).1, (ha a.1).2.1⟩
    · rcases hdone with hdone | hdone
      · obtain ⟨c1, c2, c3, c4⟩ := hc a hdone
        have htri : (if a.1 = ij.1 then
              ({ p.ports ij.1 with
                target_route_indexes := fun t =>
                  if t = ij.2 then p.current_route_index
                  else (p.ports ij.1).target_route_indexes t } : port_configuration_struct)
            else p.ports a.1).target_route_indexes a.2
            = (p.ports a.1).target_route_indexes a.2 := by
          by_cases h1 : a.1 = ij.1
          · rw [if_pos h1]
            dsimp only
            by_cases h2 : a.2 = ij.2
            · exact absurd (Prod.ext h1 h2) hij
            · rw [if_neg h2, h1]
          · rw [if_neg h1]
        rw [htri]
        have hlt : (p.ports a.1).target_route_indexes a.2 ≠ p.current_route_index := by omega
        rw [if_neg hlt, if_neg hlt]
        exact ⟨c1, by omega, c3, c4⟩
      · exact absurd hdone hij
  · intro a a2 hdone hdone2 heq
    dsimp only at heq
    rw [hret] at heq
    have htri : ∀ b : Int × Int, (if b.1 = ij.1 then
          ({ p.ports ij.1 with
            target_route_indexes := fun t =>
              if t = ij.2 then p.current_route_index
              else (p.ports ij.1).target_route_indexes t } : port_configuration_struct)
        else p.ports b.1).target_route_indexes b.2
        = if b = ij then p.current_route_index else (p.ports b.1).target_route_indexes b.2 := by
      intro b
      by_cases h1 : b.1 = ij.1
      · rw [if_pos h1]
        dsimp only
        by_cases h2 : b.2 = ij.2
        · rw [if_pos h2, if_pos (Prod.ext h1 h2)]
        · rw [if_neg h2, if_neg (fun h => h2 (by rw [h])), h1]
      · rw [if_neg h1, if_neg (fun h => h1 (by rw [h]))]
    rw [htri a, htri a2] at heq
    by_cases hij : a = ij
    · by_cases hij2 : a2 = ij
      · rw [hij, hij2]
      · rw [if_pos hij, if_neg hij2] at heq
        rcases hdone2 with hdone2 | hdone2
        · have := (hc a2 hdone2).2.1
          omega
        · exact absurd hdone2 hij2
    · by_cases hij2 : a2 = ij
      · rw [if_neg hij, if_pos hij2] at heq
        rcases hdone with hdone | hdone
        · have := (hc a hdone).2.1
          omega
        · exact absurd hdone hij
      · rw [if_neg hij, if_neg hij2] at heq
        rcases hdone with hdone | hdone
        · rcases hdone2 with hdone2 | hdone2
          · exact hd a a2 hdone hdone2 heq
          · exact absurd hdone2 hij2
        · exact absurd hdone hij

theorem PlanInv_mono (ports0 : Int → port_configuration_struct) (done1 done2 : Int × Int → Prop)
    (p : PlannerState) (h : ∀ a, done2 a → done1 a) (hinv : PlanInv ports0 done1 p) :
    PlanInv ports0 done2 p :=
  ⟨hinv.1, hinv.2.1, fun a ha => hinv.2.2.1 a (h a ha),
    fun a a2 ha ha2 => hinv.2.2.2 a a2 (h a ha) (h a2 ha2)⟩

theorem planPairs_inv (g : RouteCtx) (myrank size : Int) (mem : Int × Int → Int → Int)
    (ports0 : Int → port_configuration_struct) (l : List (Int × Int))
    (hplanned : ∀ a ∈ l, a.1 ≠ a.2 → ∀ c : Int, 0 ≤ c →
      (generate_route g (mem a) c (ports0 a.1).x (ports0 a.1).y (ports0 a.2).x
        (ports0 a.2).y).ret ≠ -1)
    (done : Int × Int → Prop) (p : PlannerState) (hinv : PlanInv ports0 done p)
    (q : PlannerState) (hq : foldOpt (planPair g myrank size mem) l p = some q) :
    PlanInv ports0 (fun a => done a ∨ (a ∈ l ∧ a.1 ≠ a.2)) q := by
  induction l generalizing done p with
  | nil =>
    simp only [foldOpt, Option.some.injEq] at hq
    subst hq
    exact PlanInv_mono ports0 done _ p (fun a ha => by
      rcases ha with h | ⟨h, _⟩
      · exact h
      · cases h) hinv
  | cons b l ih =>
    simp only [foldOpt] at hq
    have hrest : ∀ a ∈ l, a.1 ≠ a.2 → ∀ c : Int, 0 ≤ c →
        (generate_route g (mem a) c (ports0 a.1).x (ports0 a.1).y (ports0 a.2).x
          (ports0 a.2).y).ret ≠ -1 :=
      fun a ha => hplanned a (List.mem_cons_of_mem _ ha)
    cases hb1 : planPair g myrank size mem p b with
    | none => rw [hb1] at hq; cases hq
    | some p1 =>
      rw [hb1] at hq
      dsimp only at hq
      by_cases hb : b.1 ≠ b.2
      · have hfound : (generate_route g (mem b) p.current_route_index (p.ports b.1).x
            (p.ports b.1).y (p.ports b.2).x (p.ports b.2).y).ret ≠ -1 := by
          rw [(hinv.1 b.1).1, (hinv.1 b.1).2.1, (hinv.1 b.2).1, (hinv.1 b.2).2.1]
          exact hplanned b (List.mem_cons_self _ _) hb _ hinv.2.1
        have h1 := planPair_inv g myrank size mem ports0 done p b hinv hb hfound p1 hb1
        exact PlanInv_mono ports0 _ _ _ (fun a ha => by
          rcases ha with h | ⟨h, hne⟩
          · exact Or.inl (Or.inl h)
          · rcases List.mem_cons.mp h with h | h
            · exact Or.inl (Or.inr h)
            · exact Or.inr ⟨h, hne⟩) (ih hrest _ _ h1 hq)
      · have hp : p1 = p := by
          rw [planPair_skip g myrank size mem p b (not_not.mp hb)] at hb1
          exact (Option.some.inj hb1).symm
        rw [hp] at hq
        exact PlanInv_mono ports0 _ _ _ (fun a ha => by
          rcases ha with h | ⟨h, hne⟩
          · exact Or.inl h
          · rcases List.mem_cons.mp h with h | h
            · rw [h] at hne
              exact absurd hne hb
            · exact Or.inr ⟨h, hne⟩) (ih hrest _ _ hinv hq)

/-- After `calculate_routes`, when every ordered pair of different ports is planned
with success, each such pair has a route index of its own whose entry of `routes`
starts at the first port of the pair; the ports keep their position and cargo. -/
theorem calculate_routes_inv (g : RouteCtx) (myrank size : Int) (mem : Int × Int → Int → Int)
    (config : simulation_configuration_struct) (routes0 : Int → specific_route)
    (hplanned : AllPlanned g mem config) (plan : PlannerState)
    (hplan : calculate_routes g myrank size mem config routes0 = some plan) :
    PlanInv config.ports (fun a => a ∈ portPairs config.number_ports ∧ a.1 ≠ a.2) plan := by
  unfold calculate_routes at hplan
  exact PlanInv_mono config.ports _ _ _ (fun a ha => Or.inr ha)
    (planPairs_inv g myrank size mem config.ports _ hplanned (fun _ => False) _
      ⟨fun _ => ⟨rfl, rfl, rfl⟩, le_refl 0, fun _ h => h.elim, fun _ _ h => h.elim⟩ plan hplan)

/-- When `calculate_routes` returns, `current_route_index` is at most `ROUTES_MAX`. -/
theorem calculate_routes_bound (g : RouteCtx) (myrank size : Int) (mem : Int × Int → Int → Int)
    (config : simulation_configuration_struct) (routes0 : Int → specific_route)
    (plan : PlannerState)
    (hplan : calculate_routes g myrank size mem config routes0 = some plan) :
    plan.current_route_index ≤ ROUTES_MAX := by
  unfold calculate_routes at hplan
  refine foldOpt_inv (planPair g myrank size mem) (fun p => p.current_route_index ≤ ROUTES_MAX)
    _ ?_ _ plan (show (0 : Int) ≤ ROUTES_MAX by decide) hplan
  intro p a p1 _ hP hp1
  by_cases hne : a.1 ≠ a.2
  · have hin := planPair_guard g myrank size mem p p1 a hne hp1
    obtain ⟨p2, hp2, _, hle⟩ := planPair_returns g myrank size mem p a hin
    rw [hp1] at hp2
    cases hp2
    omega
  · rw [planPair_skip g myrank size mem p a (not_not.mp hne)] at hp1
    cases hp1
    exact hP

/-- The planning returns when the pairs are so few that the table `routes` cannot be
overrun: at most 10 ports give at most 100 pairs. -/
theorem foldOpt_planPair_returns (g : RouteCtx) (myrank size : Int)
    (mem : Int × Int → Int → Int) (l : List (Int × Int)) (p : PlannerState)
    (h0 : 0 ≤ p.current_route_index)
    (hlen : p.current_route_index + (l.length : Int) ≤ ROUTES_MAX) :
    ∃ q, foldOpt (planPair g myrank size mem) l p = some q := by
  induction l generalizing p with
  | nil => exact ⟨p, rfl⟩
  | cons a l ih =>
    rw [List.length_cons] at hlen
    push_cast at hlen
    obtain ⟨p1, hp1, hge, hle⟩ := planPair_returns g myrank size mem p a ⟨h0, by omega⟩
    simp only [foldOpt, hp1]
    exact ih p1 (by omega) (by omega)

theorem length_flatMap_map {α β γ : Type} (l1 : List α) (l2 : List β) (f : α → β → γ) :
    (l1.flatMap (fun i => l2.map (f i))).length = l1.length * l2.length := by
  induction l1 with
  | nil => simp
  | cons a l ih =>
    rw [List.flatMap_cons, List.length_append, ih, List.length_map, List.length_cons,
      Nat.succ_mul]
    omega

theorem portPairs_length (n : Int) : (portPairs n).length = n.toNat * n.toNat := by
  unfold portPairs
  rw [length_flatMap_map]
  unfold indexRange
  simp

theorem calculate_routes_returns (g : RouteCtx) (myrank size : Int)
    (mem : Int × Int → Int → Int) (config : simulation_configuration_struct)
    (routes0 : Int → specific_route) (hn : config.number_ports ≤ 10) :
    ∃ plan, calculate_routes g myrank size mem config routes0 = some plan := by
  unfold calculate_routes
  apply foldOpt_planPair_returns
  · exact le_refl 0
  · rw [portPairs_length]
    have h1 : config.number_ports.toNat ≤ 10 := by omega
    have h2 : config.number_ports.toNat * config.number_ports.toNat ≤ 10 * 10 :=
      Nat.mul_le_mul h1 h1
    unfold ROUTES_MAX
    dsimp only
    push_cast
    omega

/-! ## The route indices of `calculate_routes` -/

/-- The body of the loops of `calculate_routes`: a pair `(i, i)` is skipped; a pair of
different ports entered with `current_route_index` outside the table `routes` overruns
it; otherwise the body returns, and then a pair that `generate_route` fails on leaves
the ports and `current_route_index` as they are, while a pair planned with success gets
`current_route_index` as its route index, which then advances by one, and no other entry
of `target_route_indexes` changes. -/
theorem planPair_step (g : RouteCtx) (myrank size : Int) (mem : Int × Int → Int → Int)
    (p : PlannerState) (ij : Int × Int) :
    (ij.1 = ij.2 → planPair g myrank size mem p ij = some p) ∧
    (ij.1 ≠ ij.2 → ¬ (0 ≤ p.current_route_index ∧ p.current_route_index < ROUTES_MAX) →
      planPair g myrank size mem p ij = none) ∧
    (ij.1 ≠ ij.2 → 0 ≤ p.current_route_index ∧ p.current_route_index < ROUTES_MAX →
      ∃ p1, planPair g myrank size mem p ij = some p1 ∧
        ((generate_route g (mem ij) p.current_route_index (p.ports ij.1).x (p.ports ij.1).y
            (p.ports ij.2).x (p.ports ij.2).y).ret = -1 →
          (walkFinal g (mem ij) (p.ports ij.1).x (p.ports ij.1).y (p.ports ij.2).x
            (p.ports ij.2).y).found_route = false →
          p1.ports = p.ports ∧ p1.current_route_index = p.current_route_index) ∧
        ((generate_route g (mem ij) p.current_route_index (p.ports ij.1).x (p.ports ij.1).y
            (p.ports ij.2).x (p.ports ij.2).y).ret ≠ -1 →
          (generate_route g (mem ij) p.current_route_index (p.ports ij.1).x (p.ports ij.1).y
            (p.ports ij.2).x (p.ports ij.2).y).ret = p.current_route_index ∧
          p1.current_route_index = p.current_route_index + 1 ∧
          (∀ a : Int × Int,
            (p1.ports a.1).target_route_indexes a.2
              = if a = ij then p.current_route_index
                else (p.ports a.1).target_route_indexes a.2) ∧
          ∀ k, (p1.ports k).x = (p.ports k).x ∧ (p1.ports k).y = (p.ports k).y ∧
            (p1.ports k).cargo = (p.ports k).cargo)) := by
  refine ⟨planPair_skip g myrank size mem p ij, planPair_overrun g myrank size mem p ij, ?_⟩
  intro hne hin
  by_cases hret1 : (generate_route g (mem ij) p.current_route_index (p.ports ij.1).x
      (p.ports ij.1).y (p.ports ij.2).x (p.ports ij.2).y).ret = -1
  · refine ⟨_, by unfold planPair; rw [if_pos hne, if_pos hin]; dsimp only; rw [if_pos hret1],
      ?_, fun h => absurd hret1 h⟩
    intro _ hfound
    refine ⟨rfl, ?_⟩
    dsimp only
    unfold generate_route
    simp [hfound]
  · refine ⟨_, by unfold planPair; rw [if_pos hne, if_pos hin]; dsimp only; rw [if_neg hret1],
      fun h => absurd h hret1, ?_⟩
    intro hfound
    have hw := generate_route_found _ _ _ _ _ _ _ hfound
    have hret := generate_route_ret g (mem ij) p.current_route_index (p.ports ij.1).x
      (p.ports ij.1).y (p.ports ij.2).x (p.ports ij.2).y hw
    have hcri : (generate_route g (mem ij) p.current_route_index (p.ports ij.1).x
        (p.ports ij.1).y (p.ports ij.2).x (p.ports ij.2).y).current_route_index
          = p.current_route_index + 1 := by
      unfold generate_route
      simp [hw]
    refine ⟨hret, hcri, ?_, ?_⟩
    · intro a
      dsimp only
      rw [hret]
      by_cases h1 : a.1 = ij.1
      · rw [if_pos h1]
        dsimp only
        by_cases h2 : a.2 = ij.2
        · rw [if_pos h2, if_pos (Prod.ext h1 h2)]
        · rw [if_neg h2, if_neg (fun h => h2 (by rw [h])), h1]
      · rw [if_neg h1, if_neg (fun h => h1 (by rw [h]))]
    · intro k
      dsimp only
      by_cases h1 : k = ij.1
      · rw [if_pos h1, h1]
        exact ⟨rfl, rfl, rfl⟩
      · rw [if_neg h1]
        exact ⟨rfl, rfl, rfl⟩

theorem portPairs_nat (n : Int) :
    portPairs n = (List.range n.toNat).flatMap (fun (i : Nat) =>
      (List.range n.toNat).map (fun (j : Nat) => ((i : Int), (j : Int)))) := by
  unfold portPairs indexRange
  rw [List.flatMap_map]
  congr 1
  funext i
  rw [List.map_map]
  rfl

theorem plannedUpTo_step (g : RouteCtx) (myrank size : Int) (mem : Int × Int → Int → Int)
    (ports0 : Int → port_configuration_struct) (n : Int) (i j : Nat)
    (hi : i < n.toNat) (hj : j < n.toNat)
    (hplanned : ∀ c : Int, 0 ≤ c → i ≠ j →
      (generate_route g (mem ((i : Int), (j : Int))) c (ports0 i).x (ports0 i).y (ports0 j).x
        (ports0 j).y).ret ≠ -1)
    (p : PlannerState) (hinv : PlannedUpTo ports0 n i j p) (p1 : PlannerState)
    (hp1 : planPair g myrank size mem p ((i : Int), (j : Int)) = some p1) :
    PlannedUpTo ports0 n i (j + 1) p1 := by
  obtain ⟨hpos, hcri, htri⟩ := hinv
  by_cases hij : i = j
  · have heq : p1 = p := by
      rw [planPair_skip g myrank size mem p _ (by dsimp only; omega)] at hp1
      exact (Option.some.inj hp1).symm
    rw [heq]
    refine ⟨hpos, ?_, ?_⟩
    · rw [hcri, if_pos (by omega), if_neg (by omega)]
      push_cast
      omega
    · intro a b ha hb hab hlt
      exact htri a b ha hb hab (by omega)
  · have hne : ((i : Int), (j : Int)).1 ≠ ((i : Int), (j : Int)).2 := by
      dsimp only
      omega
    have hnn : (0 : Int) ≤ (i : Int) * (n - 1) := by
      apply Int.mul_nonneg <;> omega
    have hc0 : 0 ≤ p.current_route_index := by
      rw [hcri]
      split_ifs <;> omega
    have hfound : (generate_route g (mem ((i : Int), (j : Int))) p.current_route_index
        (p.ports ((i : Int), (j : Int)).1).x (p.ports ((i : Int), (j : Int)).1).y
        (p.ports ((i : Int), (j : Int)).2).x (p.ports ((i : Int), (j : Int)).2).y).ret ≠ -1 := by
      dsimp only
      rw [(hpos i).1, (hpos i).2, (hpos j).1, (hpos j).2]
      exact hplanned _ hc0 hij
    obtain ⟨p2, hp2, _, t⟩ := (planPair_step g myrank size mem p ((i : Int), (j : Int))).2.2 hne
      (planPair_guard g myrank size mem p p1 _ hne hp1)
    rw [hp1] at hp2
    cases hp2
    obtain ⟨_, t2, t3, t4⟩ := t hfound
    refine ⟨?_, ?_, ?_⟩
    · intro k
      exact ⟨(t4 k).1.trans (hpos k).1, (t4 k).2.1.trans (hpos k).2⟩
    · rw [t2, hcri]
      split_ifs <;> push_cast <;> omega
    · intro a b ha hb hab hlt
      have := t3 ((a : Int), (b : Int))
      dsimp only at this
      rw [this]
      by_cases hab2 : ((a : Int), (b : Int)) = ((i : Int), (j : Int))
      · rw [if_pos hab2, hcri]
        simp only [Prod.mk.injEq] at hab2
        have h1 : a = i := by omega
        have h2 : b = j := by omega
        subst h1
        subst h2
        unfold pairIndex
        split_ifs <;> omega
      · rw [if_neg hab2]
        apply htri a b ha hb hab
        rcases hlt with h | ⟨h1, h2⟩
        · exact Or.inl h
        · right
          refine ⟨h1, ?_⟩
          by_contra hge
          have hbj : b = j := by omega
          exact hab2 (by rw [h1, hbj])

theorem plannedUpTo_row (g : RouteCtx) (myrank size : Int) (mem : Int × Int → Int → Int)
    (ports0 : Int → port_configuration_struct) (n : Int) (i : Nat) (hi : i < n.toNat)
    (hplanned : ∀ j : Nat, j < n.toNat → ∀ c : Int, 0 ≤ c → i ≠ j →
      (generate_route g (mem ((i : Int), (j : Int))) c (ports0 i).x (ports0 i).y (ports0 j).x
        (ports0 j).y).ret ≠ -1)
    (p : PlannerState) (hinv : PlannedUpTo ports0 n i 0 p) (m : Nat) (hm : m ≤ n.toNat)
    (q : PlannerState)
    (hq : foldOpt (planPair g myrank size mem)
      ((List.range m).map (fun (j : Nat) => ((i : Int), (j : Int)))) p = some q) :
    PlannedUpTo ports0 n i m q := by
  induction m generalizing q with
  | zero =>
    simp only [List.range_zero, List.map_nil, foldOpt, Option.some.injEq] at hq
    rw [← hq]
    exact hinv
  | succ m ih =>
    rw [List.range_succ, List.map_append, foldOpt_append] at hq
    cases hpre : foldOpt (planPair g myrank size mem)
        ((List.range m).map (fun (j : Nat) => ((i : Int), (j : Int)))) p with
    | none => rw [hpre] at hq; cases hq
    | some q1 =>
      rw [hpre] at hq
      simp only [List.map_cons, List.map_nil, foldOpt] at hq
      cases hlast : planPair g myrank size mem q1 ((i : Int), (m : Int)) with
      | none => rw [hlast] at hq; cases hq
      | some q2 =>
        rw [hlast] at hq
        simp only [Option.some.injEq] at hq
        rw [← hq]
        exact plannedUpTo_step g myrank size mem ports0 n i m hi (by omega)
          (hplanned m (by omega)) q1 (ih (by omega) q1 hpre) q2 hlast

theorem plannedUpTo_rows (g : RouteCtx) (myrank size : Int) (mem : Int × Int → Int → Int)
    (ports0 : Int → port_configuration_struct) (n : Int)
    (hplanned : ∀ i j : Nat, i < n.toNat → j < n.toNat → ∀ c : Int, 0 ≤ c → i ≠ j →
      (generate_route g (mem ((i : Int), (j : Int))) c (ports0 i).x (ports0 i).y (ports0 j).x
        (ports0 j).y).ret ≠ -1)
    (p : PlannerState) (hinv : PlannedUpTo ports0 n 0 0 p) (k : Nat) (hk : k ≤ n.toNat)
    (q : PlannerState)
    (hq : foldOpt (planPair g myrank size mem)
      ((List.range k).flatMap (fun (i : Nat) =>
          (List.range n.toNat).map (fun (j : Nat) => ((i : Int), (j : Int))))) p = some q) :
    PlannedUpTo ports0 n k 0 q := by
  induction k generalizing q with
  | zero =>
    simp only [List.range_zero, List.flatMap_nil, foldOpt, Option.some.injEq] at hq
    rw [← hq]
    exact hinv
  | succ k ih =>
    rw [List.range_succ, List.flatMap_append, foldOpt_append] at hq
    simp only [List.flatMap_cons, List.flatMap_nil, List.append_nil] at hq
    cases hpre : foldOpt (planPair g myrank size mem)
        ((List.range k).flatMap (fun (i : Nat) =>
          (List.range n.toNat).map (fun (j : Nat) => ((i : Int), (j : Int))))) p with
    | none => rw [hpre] at hq; cases hq
    | some q1 =>
      rw [hpre] at hq
      dsimp only at hq
      have hrow := plannedUpTo_row g myrank size mem ports0 n k (by omega)
        (fun j hj => hplanned k j (by omega) hj) q1 (ih (by omega) q1 hpre) n.toNat
        (Nat.le_refl _) q hq
      obtain ⟨h1, h2, h3⟩ := hrow
      refine ⟨h1, ?_, ?_⟩
      · rw [h2, if_neg (by omega), if_pos (Nat.zero_le _)]
        have hn : ((n.toNat : Nat) : Int) = n := Int.toNat_of_nonneg (by omega)
        rw [hn]
        push_cast
        ring
      · intro a b ha hb hab hlt
        apply h3 a b ha hb hab
        rcases hlt with h | ⟨_, h⟩
        · rcases Nat.lt_or_ge a k with h4 | h4
          · exact Or.inl h4
          · exact Or.inr ⟨by omega, hb⟩
        · omega

theorem pairIndex_range (n i j : Int) (hi : 0 ≤ i ∧ i < n) (hj : 0 ≤ j ∧ j < n) (hij : i ≠ j) :
    i * (n - 1) ≤ pairIndex n i j ∧ pairIndex n i j < (i + 1) * (n - 1) := by
  unfold pairIndex
  have h1 : (i + 1) * (n - 1) = i * (n - 1) + (n - 1) := by ring
  rw [h1]
  split_ifs <;> constructor <;> omega

theorem pairIndex_inj (n i j i1 j1 : Int) (hi : 0 ≤ i ∧ i < n) (hj : 0 ≤ j ∧ j < n)
    (hij : i ≠ j) (hi1 : 0 ≤ i1 ∧ i1 < n) (hj1 : 0 ≤ j1 ∧ j1 < n) (hij1 : i1 ≠ j1)
    (h : pairIndex n i j = pairIndex n i1 j1) : i = i1 ∧ j = j1 := by
  have r := pairIndex_range n i j hi hj hij
  have r1 := pairIndex_range n i1 j1 hi1 hj1 hij1
  have hii : i = i1 := by
    rcases lt_trichotomy i i1 with hlt | heq | hgt
    · exfalso
      have : (i + 1) * (n - 1) ≤ i1 * (n - 1) :=
        Int.mul_le_mul_of_nonneg_right (by omega) (by omega)
      omega
    · exact heq
    · exfalso
      have : (i1 + 1) * (n - 1) ≤ i * (n - 1) :=
        Int.mul_le_mul_of_nonneg_right (by omega) (by omega)
      omega
  subst hii
  refine ⟨rfl, ?_⟩
  unfold pairIndex at h
  split_ifs at h <;> omega

theorem portPairs_sorted (n : Int) :
    (portPairs n).Pairwise (fun a b => a.1 < b.1 ∨ (a.1 = b.1 ∧ a.2 < b.2)) := by
  rw [portPairs_nat]
  rw [List.pairwise_flatMap]
  constructor
  · intro i _
    rw [List.pairwise_map]
    apply List.Pairwise.imp _ (List.pairwise_lt_range _)
    intro a b hab
    right
    exact ⟨rfl, by dsimp only; omega⟩
  · apply List.Pairwise.imp _ (List.pairwise_lt_range _)
    intro a b hab x hx y hy
    rw [List.mem_map] at hx hy
    obtain ⟨_, _, rfl⟩ := hx
    obtain ⟨_, _, rfl⟩ := hy
    left
    dsimp only
    omega

/-- On a grid without islands `generate_route` finds the target from every cell of the
grid to every other cell of the grid. -/
theorem no_islands_found (g : RouteCtx) (hno : g.blocked_cells = []) (mem : Int → Int)
    (sx sy tx ty : Int) (hsrc : inGrid g sx sy) (htgt : inGrid g tx ty)
    (hne : (sx, sy) ≠ (tx, ty)) :
    (walkFinal g mem sx sy tx ty).found_route = true := by
  have hc : 1 ≤ chebyshev sx sy tx ty ∧
      (chebyshev sx sy tx ty < g.size_x ∨ chebyshev sx sy tx ty < g.size_y) := by
    have hxy : tx - sx ≠ 0 ∨ ty - sy ≠ 0 := by
      by_contra hc
      apply hne
      rw [Prod.mk.injEq]
      omega
    unfold inGrid at hsrc htgt
    unfold chebyshev abs_int
    split_ifs <;> omega
  have hx1 : g.size_x ≤ g.size_x * g.size_y := by
    unfold inGrid at hsrc
    nlinarith [hsrc.1, hsrc.2.1, hsrc.2.2.1, hsrc.2.2.2]
  have hy1 : g.size_y ≤ g.size_x * g.size_y := by
    unfold inGrid at hsrc
    nlinarith [hsrc.1, hsrc.2.1, hsrc.2.2.1, hsrc.2.2.2]
  have hfuel : (chebyshev sx sy tx ty).toNat ≤ (g.size_x * g.size_y).toNat := by
    apply Int.toNat_le_toNat
    rcases hc.2 with h | h <;> linarith
  exact (walkLoop_no_islands g hno tx ty htgt (chebyshev sx sy tx ty).toNat
    (g.size_x * g.size_y).toNat (walkStart g mem sx sy) rfl hsrc
    (by rw [Int.toNat_of_nonneg (by omega)]; rfl) (by omega) hfuel).1

/-- On a grid without islands every ordered pair of different ports is planned with
success, when the ports lie on distinct cells of the grid. -/
theorem allPlanned_no_islands (g : RouteCtx) (hno : g.blocked_cells = [])
    (mem : Int × Int → Int → Int) (config : simulation_configuration_struct)
    (hin : ∀ i, 0 ≤ i ∧ i < config.number_ports →
      inGrid g (config.ports i).x (config.ports i).y)
    (hd : DistinctPorts config) : AllPlanned g mem config := by
  intro ij hij hne c hc
  obtain ⟨h1, h2⟩ := (mem_portPairs _ _).mp hij
  rw [generate_route_ret _ _ _ _ _ _ _
    (no_islands_found g hno (mem ij) _ _ _ _ (hin ij.1 h1) (hin ij.2 h2) (hd ij.1 ij.2 h1 h2 hne))]
  omega

/-- With eleven ports or more, every ordered pair of different ports planned with
success, the 101st call of `generate_route` is entered with `current_route_index = 100`
and overruns the table `routes`. -/
theorem calculate_routes_overrun (g : RouteCtx) (myrank size : Int)
    (mem : Int × Int → Int → Int) (config : simulation_configuration_struct)
    (routes0 : Int → specific_route) (hall : AllPlanned g mem config)
    (hn : 11 ≤ config.number_ports) :
    calculate_routes g myrank size mem config routes0 = none := by
  have hcast : ((config.number_ports.toNat : Nat) : Int) = config.number_ports :=
    Int.toNat_of_nonneg (by omega)
  obtain ⟨m, hm⟩ : ∃ m, config.number_ports.toNat = 10 + (m + 1) :=
    ⟨config.number_ports.toNat - 11, by omega⟩
  obtain ⟨tail, hr⟩ : ∃ tail, List.range config.number_ports.toNat = List.range 10 ++ 10 :: tail := by
    refine ⟨(List.range m).map (fun x => 10 + (x + 1)), ?_⟩
    rw [hm, List.range_add, List.range_succ_eq_map m, List.map_cons, List.map_map]
    rfl
  obtain ⟨tail2, hr2⟩ : ∃ tail2, List.range config.number_ports.toNat = 0 :: tail2 := by
    refine ⟨(List.range (9 + (m + 1))).map Nat.succ, ?_⟩
    rw [hm, show 10 + (m + 1) = (9 + (m + 1)) + 1 by omega, List.range_succ_eq_map]
  have hflat : portPairs config.number_ports
      = (List.range 10).flatMap (fun (i : Nat) =>
          (List.range config.number_ports.toNat).map (fun (j : Nat) => ((i : Int), (j : Int))))
        ++ (((10 : Nat) : Int), ((0 : Nat) : Int)) ::
          (tail2.map (fun (j : Nat) => (((10 : Nat) : Int), (j : Int)))
            ++ tail.flatMap (fun (i : Nat) =>
              (List.range config.number_ports.toNat).map
                (fun (j : Nat) => ((i : Int), (j : Int))))) := by
    rw [portPairs_nat]
    have h1 := congrArg (fun l => l.flatMap (fun (i : Nat) =>
      (List.range config.number_ports.toNat).map (fun (j : Nat) => ((i : Int), (j : Int))))) hr
    dsimp only at h1
    rw [h1, List.flatMap_append, List.flatMap_cons]
    have h2 := congrArg (fun l => l.map (fun (j : Nat) => (((10 : Nat) : Int), (j : Int)))) hr2
    dsimp only at h2
    rw [h2, List.map_cons, List.cons_append]
  unfold calculate_routes
  rw [hflat, foldOpt_append]
  cases hpre : foldOpt (planPair g myrank size mem)
      ((List.range 10).flatMap (fun (i : Nat) =>
        (List.range config.number_ports.toNat).map (fun (j : Nat) => ((i : Int), (j : Int)))))
      { routes := routes0, current_route_index := 0, ports := config.ports } with
  | none => rfl
  | some p10 =>
    dsimp only
    have hinv := plannedUpTo_rows g myrank size mem config.ports config.number_ports
      (fun i j hi hj c hc hij => hall ((i : Int), (j : Int))
        ((mem_portPairs _ _).mpr ⟨⟨by dsimp only; omega, by dsimp only; omega⟩,
          ⟨by dsimp only; omega, by dsimp only; omega⟩⟩)
        (by dsimp only; omega) c hc)
      { routes := routes0, current_route_index := 0, ports := config.ports }
      ⟨fun _ => ⟨rfl, rfl⟩, by simp, fun a b _ _ _ h => by omega⟩
      10 (by omega) p10 hpre
    have hcri : p10.current_route_index = 10 * (config.number_ports - 1) := by
      rw [hinv.2.1]
      simp
    have hover : planPair g myrank size mem p10 (((10 : Nat) : Int), ((0 : Nat) : Int)) = none := by
      apply planPair_overrun
      · simp
      · rw [hcri]
        unfold ROUTES_MAX
        omega
    simp only [foldOpt, hover]

/-- The eleven ports of the strip of eleven cells lie on distinct cells of the grid. -/
theorem distinctPorts_eleven : DistinctPorts elevenConfig := by
  intro i j _ _ hne h
  apply hne
  have := congrArg Prod.fst h
  exact this

theorem allPlanned_eleven : AllPlanned strip11 (fun _ => zeroMem) elevenConfig := by
  apply allPlanned_no_islands strip11 rfl _ _ _ distinctPorts_eleven
  intro i hi
  have hn : elevenConfig.number_ports = 11 := rfl
  rw [hn] at hi
  refine ⟨hi.1, hi.2, ?_, ?_⟩
  · exact le_refl 0
  · exact Int.zero_lt_one

/-- Counterexample to C25 as stated: on the strip of eleven cells with a port on every
cell, every one of the 110 ordered pairs of different ports is planned with success by
`generate_route`, but the table `routes` has `ROUTES_MAX = 100` entries, and
`calculate_routes` overruns it: the pairs do not receive the indices `0..109`. -/
theorem calculate_routes_eleven_ports :
    AllPlanned strip11 (fun _ => zeroMem) elevenConfig ∧
    elevenConfig.number_ports * (elevenConfig.number_ports - 1) = 110 ∧
    ROUTES_MAX = 100 ∧
    calculate_routes strip11 0 1 (fun _ => zeroMem) elevenConfig noRoutes = none :=
  ⟨allPlanned_eleven, by decide, rfl,
    calculate_routes_overrun strip11 0 1 _ elevenConfig noRoutes allPlanned_eleven (by decide)⟩

/-- C25, as amended: `calculate_routes` runs the body `planPair` over the pairs `(i, j)`
of port indices in lexicographic order, each pair continuing from the variables the pair
before left, and it returns exactly when every pass of the body does.
`generate_route` returns the value of `current_route_index` on entry and increments it on
success, and returns `-1` leaving it unchanged on failure.  The body skips `i = j`; for
a pair of different ports it writes the entry `routes[current_route_index]`, which lies
in the table only for an index in `0 .. ROUTES_MAX - 1` (otherwise the table is overrun
and there is no result); for a pair that then fails it leaves every
`target_route_indexes` and `current_route_index` as they are; for a pair that succeeds
it stores the old `current_route_index` in `ports[i].target_route_indexes[j]` and
nothing else.  Hence if every pair succeeds and there are at most 10 ports, the planning
returns, `current_route_index` ends at `n(n-1)` and `ports[i].target_route_indexes[j]`
is the number of pairs of different ports before `(i, j)`: distinct indices, all in
`0..n(n-1)-1`.  With 11 ports or more that all succeed the table is overrun. -/
theorem calculate_routes_indices (g : RouteCtx) (myrank size : Int)
    (mem : Int × Int → Int → Int) (config : simulation_configuration_struct)
    (routes0 : Int → specific_route) :
    (portPairs config.number_ports).Pairwise
      (fun a b => a.1 < b.1 ∨ (a.1 = b.1 ∧ a.2 < b.2)) ∧
    (∀ ij, ij ∈ portPairs config.number_ports ↔
      (0 ≤ ij.1 ∧ ij.1 < config.number_ports) ∧ (0 ≤ ij.2 ∧ ij.2 < config.number_ports)) ∧
    (∀ l1 a l2, portPairs config.number_ports = l1 ++ a :: l2 →
      calculate_routes g myrank size mem config routes0
        = ((foldOpt (planPair g myrank size mem) l1
              { routes := routes0, current_route_index := 0, ports := config.ports }).bind
            (fun p => planPair g myrank size mem p a)).bind
          (foldOpt (planPair g myrank size mem) l2)) ∧
    (∀ (m : Int → Int) (cri sx sy tx ty : Int),
      ((walkFinal g m sx sy tx ty).found_route = true →
        (generate_route g m cri sx sy tx ty).ret = cri ∧
        (generate_route g m cri sx sy tx ty).current_route_index = cri + 1) ∧
      ((walkFinal g m sx sy tx ty).found_route = false →
        (generate_route g m cri sx sy tx ty).ret = -1 ∧
        (generate_route g m cri sx sy tx ty).current_route_index = cri)) ∧
    (∀ (p : PlannerState) (ij : Int × Int),
      (ij.1 = ij.2 → planPair g myrank size mem p ij = some p) ∧
      (ij.1 ≠ ij.2 → ¬ (0 ≤ p.current_route_index ∧ p.current_route_index < ROUTES_MAX) →
        planPair g myrank size mem p ij = none) ∧
      (ij.1 ≠ ij.2 → 0 ≤ p.current_route_index ∧ p.current_route_index < ROUTES_MAX →
        ∃ p1, planPair g myrank size mem p ij = some p1 ∧
          ((walkFinal g (mem ij) (p.ports ij.1).x (p.ports ij.1).y (p.ports ij.2).x
              (p.ports ij.2).y).found_route = false →
            p1.ports = p.ports ∧ p1.current_route_index = p.current_route_index) ∧
          ((walkFinal g (mem ij) (p.ports ij.1).x (p.ports ij.1).y (p.ports ij.2).x
              (p.ports ij.2).y).found_route = true →
            p1.current_route_index = p.current_route_index + 1 ∧
            ∀ a : Int × Int,
              (p1.ports a.1).target_route_indexes a.2
                = if a = ij then p.current_route_index
                  else (p.ports a.1).target_route_indexes a.2))) ∧
    (AllPlanned g mem config → 0 ≤ config.number_ports → config.number_ports ≤ 10 →
      ∃ plan, calculate_routes g myrank size mem config routes0 = some plan ∧
        plan.current_route_index = config.number_ports * (config.number_ports - 1) ∧
        plan.current_route_index ≤ ROUTES_MAX ∧
        (∀ i j, 0 ≤ i ∧ i < config.number_ports → 0 ≤ j ∧ j < config.number_ports → i ≠ j →
          (plan.ports i).target_route_indexes j = pairIndex config.number_ports i j ∧
          0 ≤ pairIndex config.number_ports i j ∧
          pairIndex config.number_ports i j
            < config.number_ports * (config.number_ports - 1)) ∧
        (∀ i j i1 j1, 0 ≤ i ∧ i < config.number_ports → 0 ≤ j ∧ j < config.number_ports →
          i ≠ j → 0 ≤ i1 ∧ i1 < config.number_ports → 0 ≤ j1 ∧ j1 < config.number_ports →
          i1 ≠ j1 →
          (plan.ports i).target_route_indexes j = (plan.ports i1).target_route_indexes j1 →
          i = i1 ∧ j = j1)) ∧
    (AllPlanned g mem config → 11 ≤ config.number_ports →
      calculate_routes g myrank size mem config routes0 = none) := by
  refine ⟨portPairs_sorted _, mem_portPairs _, ?_, ?_, ?_, ?_,
    calculate_routes_overrun g myrank size mem config routes0⟩
  · intro l1 a l2 h
    unfold calculate_routes
    rw [h, foldOpt_append]
    cases foldOpt (planPair g myrank size mem) l1
        { routes := routes0, current_route_index := 0, ports := config.ports } with
    | none => rfl
    | some p1 =>
      simp only [Option.some_bind, foldOpt]
      cases planPair g myrank size mem p1 a with
      | none => rfl
      | some p2 => rfl
  · intro m cri sx sy tx ty
    constructor
    · intro h
      unfold generate_route
      simp [h]
    · intro h
      unfold generate_route
      simp [h]
  · intro p ij
    obtain ⟨s1, s2, s3⟩ := planPair_step g myrank size mem p ij
    refine ⟨s1, s2, ?_⟩
    intro hne hin
    obtain ⟨p1, hp1, t1, t2⟩ := s3 hne hin
    refine ⟨p1, hp1, ?_, ?_⟩
    · intro hf
      exact t1 (generate_route_fail _ _ _ _ _ _ _ hf) hf
    · intro hf
      have hret := generate_route_ret g (mem ij) p.current_route_index (p.ports ij.1).x
        (p.ports ij.1).y (p.ports ij.2).x (p.ports ij.2).y hf
      obtain ⟨_, u2, u3, _⟩ := t2 (by rw [hret]; omega)
      exact ⟨u2, u3⟩
  · intro hall hn hten
    obtain ⟨plan, hplan⟩ := calculate_routes_returns g myrank size mem config routes0 hten
    refine ⟨plan, hplan, ?_⟩
    have hbound := calculate_routes_bound g myrank size mem config routes0 plan hplan
    have hcast : ((config.number_ports.toNat : Nat) : Int) = config.number_ports :=
      Int.toNat_of_nonneg hn
    have hplan2 := hplan
    unfold calculate_routes at hplan2
    rw [portPairs_nat] at hplan2
    have hfinal := plannedUpTo_rows g myrank size mem config.ports config.number_ports
      (fun i j hi hj c hc hij => hall ((i : Int), (j : Int))
        ((mem_portPairs _ _).mpr ⟨⟨by dsimp only; omega, by dsimp only; omega⟩,
          ⟨by dsimp only; omega, by dsimp only; omega⟩⟩)
        (by dsimp only; omega) c hc)
      { routes := routes0, current_route_index := 0, ports := config.ports }
      ⟨fun _ => ⟨rfl, rfl⟩, by simp, fun a b _ _ _ h => by omega⟩
      config.number_ports.toNat (Nat.le_refl _) plan hplan2
    obtain ⟨_, h2, h3⟩ := hfinal
    have htri : ∀ i j, 0 ≤ i ∧ i < config.number_ports → 0 ≤ j ∧ j < config.number_ports →
        i ≠ j → (plan.ports i).target_route_indexes j = pairIndex config.number_ports i j := by
      intro i j hi hj hij
      have := h3 i.toNat j.toNat (by omega) (by omega) (by omega) (Or.inl (by omega))
      rw [Int.toNat_of_nonneg hi.1, Int.toNat_of_nonneg hj.1] at this
      exact this
    refine ⟨?_, hbound, ?_, ?_⟩
    · rw [h2, if_pos (Nat.zero_le _), hcast]
      push_cast
      ring
    · intro i j hi hj hij
      have r := pairIndex_range config.number_ports i j hi hj hij
      have h0 : 0 ≤ i * (config.number_ports - 1) := Int.mul_nonneg hi.1 (by omega)
      have h1 : (i + 1) * (config.number_ports - 1)
          ≤ config.number_ports * (config.number_ports - 1) :=
        Int.mul_le_mul_of_nonneg_right (by omega) (by omega)
      exact ⟨htri i j hi hj hij, by omega, by omega⟩
    · intro i j i1 j1 hi hj hij hi1 hj1 hij1 heq
      rw [htri i j hi hj hij, htri i1 j1 hi1 hj1 hij1] at heq
      exact pairIndex_inj _ _ _ _ _ hi hj hij hi1 hj1 hij1 heq

/-- Witness of C25: on the strip with a port at each end the planning returns, the pair
`(0, 1)` gets route index 0, the pair `(1, 0)` gets route index 1, and
`current_route_index` ends at 2. -/
theorem calculate_routes_indices_witness :
    ∃ plan, calculate_routes strip3 0 1 (fun _ => zeroMem) voyageConfig noRoutes = some plan ∧
      plan.current_route_index = 2 ∧
      (plan.ports 0).target_route_indexes 1 = 0 ∧
      (plan.ports 1).target_route_indexes 0 = 1 := by
  obtain ⟨plan, hplan, h1, _, h3, _⟩ :=
    (calculate_routes_indices strip3 0 1 (fun _ => zeroMem) voyageConfig noRoutes).2.2.2.2.2.1
      allPlanned_voyage (by decide) (by decide)
  exact ⟨plan, hplan, h1, (h3 0 1 (by decide) (by decide) (by decide)).1,
    (h3 1 0 (by decide) (by decide) (by decide)).1⟩

/-! ## The cargo of the ships at sea, on the planned routes -/

/-- The planning of the strip with a port at each end returns `voyagePlan`. -/
theorem voyagePlan_planned :
    calculate_routes strip3 0 1 (fun _ => zeroMem) voyageConfig noRoutes = some voyagePlan := by
  obtain ⟨plan, hplan⟩ :=
    calculate_routes_returns strip3 0 1 (fun _ => zeroMem) voyageConfig noRoutes (by decide)
  unfold voyagePlan
  rw [hplan]
  rfl

/-- C16, as amended: with at most 10 ports (so that the `n(n-1)` routes fit the table
`routes[ROUTES_MAX]`) and every ordered pair of different ports planned with success,
`calculate_routes` returns the planner's variables `plan`; and on every worker that is
alone and simulates the configuration with the ports of `plan`, at the end of every
timestep each ship in an owned water cell follows a route that was planned from a port
`q` to another port, the route index lies inside the table, the entry of `routes` for it
starts at port `q`, no pair from another port has that route index, and the ship's
`cargoAmount` is `ports[q].cargo`.  The run returns whenever the resampling of
`getTargetPort` ends. -/
theorem water_ships_carry_port_cargo (g : RouteCtx) (mem : Int × Int → Int → Int)
    (config0 : simulation_configuration_struct) (routes0 : Int → specific_route)
    (hn : config0.number_ports ≤ 10) (hplanned : AllPlanned g mem config0) :
    ∃ plan, calculate_routes g 0 1 mem config0 routes0 = some plan ∧
      ∀ env : SimEnv, Alone env → env.config = { config0 with ports := plan.ports } →
        ∀ (next : Int → Int → Int → Option (Int × Int)) (st : SimState) (n : Nat),
          (Resamples env → ∃ stn, simulate env next st n = some stn) ∧
          ∀ stn, simulate env next st n = some stn →
            ∀ jk ∈ slabCells env.local_nx env.ny,
              (stn.sub_domain (slabIndex env.ny jk)).isWater = true →
              ∀ z ship, z < MAX_SHIPS_PER_CELL →
                (stn.sub_domain (slabIndex env.ny jk)).ships_data z = some ship →
                ∃ q, 0 ≤ q ∧ q < config0.number_ports ∧
                  (∃ t, 0 ≤ t ∧ t < config0.number_ports ∧ t ≠ q ∧
                    ship.route = (plan.ports q).target_route_indexes t) ∧
                  (0 ≤ ship.route ∧ ship.route < ROUTES_MAX) ∧
                  (plan.routes ship.route).start_x = (config0.ports q).x ∧
                  (plan.routes ship.route).start_y = (config0.ports q).y ∧
                  (∀ ij ∈ portPairs config0.number_ports, ij.1 ≠ ij.2 →
                    (plan.ports ij.1).target_route_indexes ij.2 = ship.route → ij.1 = q) ∧
                  ship.cargoAmount = (config0.ports q).cargo := by
  obtain ⟨plan, hplan⟩ := calculate_routes_returns g 0 1 mem config0 routes0 hn
  refine ⟨plan, hplan, ?_⟩
  intro env ha hcfg next st n
  constructor
  · intro hr
    unfold simulate
    obtain ⟨st0, h0⟩ := initialiseDomain_returns env hr st
    rw [h0]
    exact runSteps_returns env hr next n st0
  · intro stn hn jk hjk hw z ship hz hs
    unfold simulate at hn
    cases h0 : initialiseDomain env st with
    | none => rw [h0] at hn; simp at hn
    | some st0 =>
      rw [h0] at hn
      dsimp only at hn
      have hinv := runSteps_seaInv env ha next st0 n (initialiseDomain_seaInv env st st0 h0) stn hn
      obtain ⟨_, iE, iB⟩ := hinv jk hjk
      obtain ⟨q, t, q0, q1, t0, t1, hne, hroute, hcargo⟩ := iB (iE hw) z ship hz hs
      obtain ⟨pa, _, pc, pd⟩ := calculate_routes_inv g 0 1 mem config0 routes0 hplanned plan hplan
      have hbound := calculate_routes_bound g 0 1 mem config0 routes0 plan hplan
      rw [hcfg] at q1 t1 hroute hcargo
      dsimp only at q1 t1 hroute hcargo
      have hdone : (q, t) ∈ portPairs config0.number_ports ∧ (q, t).1 ≠ (q, t).2 :=
        ⟨(mem_portPairs _ _).mpr ⟨⟨q0, q1⟩, t0, t1⟩, fun h => hne h.symm⟩
      obtain ⟨c1, c2, c3, c4⟩ := pc (q, t) hdone
      dsimp only at c1 c2 c3 c4
      rw [← hroute] at c1 c2 c3 c4
      refine ⟨q, q0, q1, ⟨t, t0, t1, hne, hroute⟩, ⟨c1, by omega⟩, c3, c4, ?_, ?_⟩
      · intro ij hij hne2 heq
        have := pd ij (q, t) ⟨hij, hne2⟩ hdone (by dsimp only; rw [heq, hroute])
        rw [this]
      · rw [hcargo]
        exact (pa q).2.2

/-- Witness of C16: on the strip with a port at each end the planning returns
`voyagePlan`, the run of one timestep returns, and the ships of the water cell `(2, 1)`
carry the cargo of the port their route starts from. -/
theorem water_ships_carry_port_cargo_witness :
    voyageConfig.number_ports ≤ 10 ∧ AllPlanned strip3 (fun _ => zeroMem) voyageConfig ∧
    Alone voyageEnv ∧
    calculate_routes strip3 0 1 (fun _ => zeroMem) voyageConfig noRoutes = some voyagePlan ∧
    ∃ stn, simulate voyageEnv voyageLookup zeroState 1 = some stn ∧
      ∀ z ship, z < MAX_SHIPS_PER_CELL →
        (stn.sub_domain (slabIndex voyageEnv.ny (2, 1))).isWater = true →
        (stn.sub_domain (slabIndex voyageEnv.ny (2, 1))).ships_data z = some ship →
        ∃ q, 0 ≤ q ∧ q < voyageConfig.number_ports ∧
          (voyagePlan.routes ship.route).start_x = (voyageConfig.ports q).x ∧
          ship.cargoAmount = (voyageConfig.ports q).cargo := by
  obtain ⟨plan, hplan, hthm⟩ := water_ships_carry_port_cargo strip3 (fun _ => zeroMem)
    voyageConfig noRoutes (by decide) allPlanned_voyage
  have hvp : plan = voyagePlan := by
    have := voyagePlan_planned
    rw [hplan] at this
    exact Option.some.inj this
  subst hvp
  have h := hthm voyageEnv ⟨rfl, rfl⟩ rfl voyageLookup zeroState 1
  obtain ⟨stn, hstn⟩ := h.1 (resamples_counting voyageEnv rfl rfl rfl)
  refine ⟨by decide, allPlanned_voyage, ⟨rfl, rfl⟩, hplan, stn, hstn, ?_⟩
  intro z ship hz hw hs
  obtain ⟨q, q0, q1, _, _, hx, _, _, hc⟩ := h.2 stn hstn (2, 1) (by decide) hw z ship hz hs
  exact ⟨q, q0, q1, hx, hc⟩

/-- Counterexample to C16 as stated: on the strip of eleven cells with a port on every
cell, a single worker plans every one of the 110 ordered pairs of different ports with
success, but the route of the pair `(10, 0)` would have the index `100 = ROUTES_MAX`:
`calculate_routes` overruns the table `routes`, and there is no table whose entry
`routes[ship.route]` the ships of the run could be compared with. -/
theorem water_ships_table_overrun :
    SingleWorker strip11 ∧ AllPlanned strip11 (fun _ => zeroMem) elevenConfig ∧
    pairIndex elevenConfig.number_ports 10 0 = ROUTES_MAX ∧
    ¬ ∃ plan, calculate_routes strip11 0 1 (fun _ => zeroMem) elevenConfig noRoutes = some plan := by
  refine ⟨⟨rfl, rfl⟩, allPlanned_eleven, by decide, ?_⟩
  rintro ⟨plan, hplan⟩
  rw [calculate_routes_overrun strip11 0 1 _ elevenConfig noRoutes allPlanned_eleven
    (by decide)] at hplan
  cases hplan

/-! ## The route maps after planning -/

theorem perform_halo_swap_alone (local_nx ny msy : Int) (data : Int → Int)
    (fromLeft fromRight : List Int) :
    perform_halo_swap 0 1 local_nx ny msy data fromLeft fromRight = data := by
  unfold perform_halo_swap
  simp

/-- On a worker that is alone, a pair planned with success has its route map stored at
the old `current_route_index`, and the other entries of `routes` keep their map. -/
theorem planPair_routes_eq (g : RouteCtx) (mem : Int × Int → Int → Int) (p : PlannerState)
    (ij : Int × Int) (hne : ij.1 ≠ ij.2)
    (hfound : (generate_route g (mem ij) p.current_route_index (p.ports ij.1).x (p.ports ij.1).y
      (p.ports ij.2).x (p.ports ij.2).y).ret ≠ -1) (p1 : PlannerState)
    (hp1 : planPair g 0 1 mem p ij = some p1) (r : Int) :
    (p1.routes r).route
      = if r = p.current_route_index then
          (walkFinal g (mem ij) (p.ports ij.1).x (p.ports ij.1).y (p.ports ij.2).x
            (p.ports ij.2).y).route
        else (p.routes r).route := by
  have hw := generate_route_found _ _ _ _ _ _ _ hfound
  have hret := generate_route_ret g (mem ij) p.current_route_index (p.ports ij.1).x
    (p.ports ij.1).y (p.ports ij.2).x (p.ports ij.2).y hw
  have hin := planPair_guard g 0 1 mem p p1 ij hne hp1
  unfold planPair at hp1
  rw [if_pos hne, if_pos hin] at hp1
  dsimp only at hp1
  rw [if_neg hfound] at hp1
  replace hp1 := Option.some.inj hp1
  subst hp1
  dsimp only
  rw [hret]
  by_cases h1 : r = p.current_route_index
  · rw [if_pos h1, if_pos h1]
    dsimp only
    rw [if_pos rfl, perform_halo_swap_alone]
    dsimp only
    exact generate_route_route _ _ _ _ _ _ _
  · rw [if_neg h1, if_neg h1, if_neg h1]

theorem planPair_planRoutes (g : RouteCtx) (mem : Int × Int → Int → Int)
    (ports0 : Int → port_configuration_struct) (done : Int × Int → Prop) (p : PlannerState)
    (ij : Int × Int) (hinv : PlanInv ports0 done p) (hr : PlanRoutes g mem ports0 done p)
    (hne : ij.1 ≠ ij.2)
    (hfound : (generate_route g (mem ij) p.current_route_index (p.ports ij.1).x (p.ports ij.1).y
      (p.ports ij.2).x (p.ports ij.2).y).ret ≠ -1) (p1 : PlannerState)
    (hp1 : planPair g 0 1 mem p ij = some p1) :
    PlanRoutes g mem ports0 (fun a => done a ∨ a = ij) p1 := by
  obtain ⟨p2, hp2, _, t⟩ := (planPair_step g 0 1 mem p ij).2.2 hne
    (planPair_guard g 0 1 mem p p1 ij hne hp1)
  rw [hp1] at hp2
  cases hp2
  obtain ⟨_, _, t3, _⟩ := t hfound
  intro a ha
  rw [t3 a, planPair_routes_eq g mem p ij hne hfound p1 hp1]
  by_cases haij : a = ij
  · rw [if_pos haij, if_pos rfl, haij, (hinv.1 ij.1).1, (hinv.1 ij.1).2.1, (hinv.1 ij.2).1,
      (hinv.1 ij.2).2.1]
  · rw [if_neg haij]
    rcases ha with ha | ha
    · have hlt := (hinv.2.2.1 a ha).2.1
      rw [if_neg (by omega)]
      exact hr a ha
    · exact absurd ha haij

theorem planPairs_planRoutes (g : RouteCtx) (mem : Int × Int → Int → Int)
    (ports0 : Int → port_configuration_struct) (l : List (Int × Int))
    (hplanned : ∀ a ∈ l, a.1 ≠ a.2 → ∀ c : Int, 0 ≤ c →
      (generate_route g (mem a) c (ports0 a.1).x (ports0 a.1).y (ports0 a.2).x
        (ports0 a.2).y).ret ≠ -1)
    (done : Int × Int → Prop) (p : PlannerState) (hinv : PlanInv ports0 done p)
    (hr : PlanRoutes g mem ports0 done p) (q : PlannerState)
    (hq : foldOpt (planPair g 0 1 mem) l p = some q) :
    PlanRoutes g mem ports0 (fun a => done a ∨ (a ∈ l ∧ a.1 ≠ a.2)) q := by
  induction l generalizing done p with
  | nil =>
    simp only [foldOpt, Option.some.injEq] at hq
    subst hq
    intro a ha
    rcases ha with h | ⟨h, _⟩
    · exact hr a h
    · cases h
  | cons b l ih =>
    simp only [foldOpt] at hq
    have hrest : ∀ a ∈ l, a.1 ≠ a.2 → ∀ c : Int, 0 ≤ c →
        (generate_route g (mem a) c (ports0 a.1).x (ports0 a.1).y (ports0 a.2).x
          (ports0 a.2).y).ret ≠ -1 :=
      fun a ha => hplanned a (List.mem_cons_of_mem _ ha)
    cases hb1 : planPair g 0 1 mem p b with
    | none => rw [hb1] at hq; cases hq
    | some p1 =>
      rw [hb1] at hq
      dsimp only at hq
      by_cases hb : b.1 ≠ b.2
      · have hfound : (generate_route g (mem b) p.current_route_index (p.ports b.1).x
            (p.ports b.1).y (p.ports b.2).x (p.ports b.2).y).ret ≠ -1 := by
          rw [(hinv.1 b.1).1, (hinv.1 b.1).2.1, (hinv.1 b.2).1, (hinv.1 b.2).2.1]
          exact hplanned b (List.mem_cons_self _ _) hb _ hinv.2.1
        have h1 := planPair_inv g 0 1 mem ports0 done p b hinv hb hfound p1 hb1
        have h2 := planPair_planRoutes g mem ports0 done p b hinv hr hb hfound p1 hb1
        intro a ha
        apply ih hrest _ _ h1 h2 hq a
        rcases ha with h | ⟨h, hne⟩
        · exact Or.inl (Or.inl h)
        · rcases List.mem_cons.mp h with h | h
          · exact Or.inl (Or.inr h)
          · exact Or.inr ⟨h, hne⟩
      · have hp : p1 = p := by
          rw [planPair_skip g 0 1 mem p b (not_not.mp hb)] at hb1
          exact (Option.some.inj hb1).symm
        rw [hp] at hq
        intro a ha
        apply ih hrest _ _ hinv hr hq a
        rcases ha with h | ⟨h, hne⟩
        · exact Or.inl h
        · rcases List.mem_cons.mp h with h | h
          · rw [h] at hne
            exact absurd hne hb
          · exact Or.inr ⟨h, hne⟩

/-- After `calculate_routes` on a worker that is alone, when every ordered pair of
different ports is planned with success, the entry of `routes` at the route index of a
pair holds the route map that `generate_route` left for that pair. -/
theorem calculate_routes_routes (g : RouteCtx) (mem : Int × Int → Int → Int)
    (config : simulation_configuration_struct) (routes0 : Int → specific_route)
    (plan : PlannerState) (hplan : calculate_routes g 0 1 mem config routes0 = some plan)
    (hplanned : AllPlanned g mem config) (q t : Int)
    (hq : 0 ≤ q ∧ q < config.number_ports) (ht : 0 ≤ t ∧ t < config.number_ports)
    (hqt : q ≠ t) :
    (plan.routes ((plan.ports q).target_route_indexes t)).route
      = (walkFinal g (mem (q, t)) (config.ports q).x (config.ports q).y (config.ports t).x
          (config.ports t).y).route ∧
    (walkFinal g (mem (q, t)) (config.ports q).x (config.ports q).y (config.ports t).x
      (config.ports t).y).found_route = true := by
  have hmem : (q, t) ∈ portPairs config.number_ports := (mem_portPairs _ _).mpr ⟨hq, ht⟩
  constructor
  · unfold calculate_routes at hplan
    exact planPairs_planRoutes g mem config.ports _ hplanned (fun _ => False) _
      ⟨fun _ => ⟨rfl, rfl, rfl⟩, le_refl 0, fun _ h => h.elim, fun _ _ h => h.elim⟩
      (fun _ h => h.elim) plan hplan (q, t) (Or.inr ⟨hmem, hqt⟩)
  · exact generate_route_found _ _ 0 _ _ _ _ (hplanned (q, t) hmem hqt 0 (le_refl 0))

/-- When every pair is planned with success, every port that is the target of a pair
lies inside the grid. -/
theorem port_inGrid (g : RouteCtx) (mem : Int × Int → Int → Int)
    (config : simulation_configuration_struct) (hplanned : AllPlanned g mem config) (q t : Int)
    (hq : 0 ≤ q ∧ q < config.number_ports) (ht : 0 ≤ t ∧ t < config.number_ports)
    (hqt : q ≠ t) : inGrid g (config.ports t).x (config.ports t).y := by
  have hmem : (q, t) ∈ portPairs config.number_ports := (mem_portPairs _ _).mpr ⟨hq, ht⟩
  have hf := generate_route_found _ _ 0 _ _ _ _ (hplanned (q, t) hmem hqt 0 (le_refl 0))
  obtain ⟨hL1, _, _, _, htarget, _⟩ := walk_success _ _ _ _ _ _ hf
  have hin := (walkerPos_inGrid _ _ _ _ _ _ hf _ hL1 (Nat.le_refl _)).1
  rw [htarget] at hin
  exact hin

/-- On a single worker with every pair of ports planned and no two ports on the same
cell: at step `k < L` of the walk from port `q` to port `t`, `getNextCell` on the route
of the pair writes the offset to the cell of step `k + 1`, which lies inside the
grid. -/
theorem lookup_on_voyage (g : RouteCtx) (mem : Int × Int → Int → Int)
    (config : simulation_configuration_struct) (routes0 : Int → specific_route)
    (plan : PlannerState) (hplan : calculate_routes g 0 1 mem config routes0 = some plan)
    (hs : SingleWorker g) (hplanned : AllPlanned g mem config) (hd : DistinctPorts config)
    (q t : Int) (hq : 0 ≤ q ∧ q < config.number_ports) (ht : 0 ≤ t ∧ t < config.number_ports)
    (hqt : q ≠ t) (k : Nat) (hk : k < voyageLength g mem config q t) :
    plannedLookup g plan ((plan.ports q).target_route_indexes t)
        (voyagePos g mem config q t k).1 (voyagePos g mem config q t k).2
      = some ((voyagePos g mem config q t (k + 1)).1 - (voyagePos g mem config q t k).1,
              (voyagePos g mem config q t (k + 1)).2 - (voyagePos g mem config q t k).2) ∧
    inGrid g (voyagePos g mem config q t (k + 1)).1 (voyagePos g mem config q t (k + 1)).2 ∧
    voyagePos g mem config q t (voyageLength g mem config q t)
      = ((config.ports t).x, (config.ports t).y) ∧
    voyagePos g mem config q t 0 = ((config.ports q).x, (config.ports q).y) ∧
    (walkFinal g (mem (q, t)) (config.ports q).x (config.ports q).y (config.ports t).x
      (config.ports t).y).route
      (cellIndex g (voyagePos g mem config q t k).1 (voyagePos g mem config q t k).2) = (k : Int) ∧
    (walkFinal g (mem (q, t)) (config.ports q).x (config.ports q).y (config.ports t).x
      (config.ports t).y).route
      (cellIndex g (voyagePos g mem config q t (k + 1)).1 (voyagePos g mem config q t (k + 1)).2)
      = (k : Int) + 1 := by
  obtain ⟨hroute, hf⟩ := calculate_routes_routes g mem config routes0 plan hplan hplanned q t hq ht hqt
  unfold voyageLength at hk
  unfold voyagePos voyageLength plannedLookup
  obtain ⟨_, _, _, _, htarget, _⟩ := walk_success _ _ _ _ _ _ hf
  have hsrc := port_inGrid g mem config hplanned t q ht hq (fun h => hqt h.symm)
  have hval : (walkFinal g (mem (q, t)) (config.ports q).x (config.ports q).y (config.ports t).x
      (config.ports t).y).route
      (cellIndex g (walkerPos g (mem (q, t)) (config.ports q).x (config.ports q).y
        (config.ports t).x (config.ports t).y k).1
        (walkerPos g (mem (q, t)) (config.ports q).x (config.ports q).y
        (config.ports t).x (config.ports t).y k).2) = (k : Int) := by
    by_cases hk0 : k = 0
    · subst hk0
      rw [walkerPos_zero]
      exact route_at_source g _ _ _ _ _ hs hsrc (hd q t hq ht hqt) hf
    · exact route_at_step g _ _ _ _ _ hs hf k (by omega) (by omega)
  have hnext := route_at_step g _ _ _ _ _ hs hf (k + 1) (by omega) hk
  refine ⟨?_, (walkerPos_inGrid _ _ _ _ _ _ hf (k + 1) (by omega) hk).1, htarget, rfl, hval, ?_⟩
  · rw [hroute]
    exact getNextCell_on_path g _ _ _ _ _ hs hf k hk hval
  · rw [hnext]
    push_cast
    rfl

/-! ## The ships stay on their routes -/

theorem underway_congr (g : RouteCtx) (mem : Int × Int → Int → Int)
    (config0 : simulation_configuration_struct) (plan : PlannerState) (env : SimEnv)
    (c c1 : cell_struct) (ship ship1 : ship_struct) (hk : sameKind c1 c)
    (hr : ship1.route = ship.route) (h : Underway g mem config0 plan env c ship) :
    Underway g mem config0 plan env c1 ship1 := by
  obtain ⟨q, t, hq, ht, hqt, hroute, k, hk1, hpos, hport, hsea⟩ := h
  obtain ⟨kx, ky, _, kp, _, kd⟩ := hk
  refine ⟨q, t, hq, ht, hqt, hr.trans hroute, k, hk1, ?_, ?_, ?_⟩
  · rw [kx, ky]; exact hpos
  · rw [kp, kd]; exact hport
  · rw [kp]; exact hsea

theorem cellOk_congr (env : SimEnv) (jk : Int × Int) (c c1 : cell_struct) (hk : sameKind c1 c)
    (h : CellOk env jk c) : CellOk env jk c1 := by
  obtain ⟨kx, ky, _, kp, _, kd⟩ := hk
  obtain ⟨h1, h2, h3, h4⟩ := h
  exact ⟨kx.trans h1, ky.trans h2, kp.trans h3, fun hp => by rw [kd]; exact h4 (kp ▸ hp)⟩

theorem initialiseDomain_sailInv (g : RouteCtx) (mem : Int × Int → Int → Int)
    (config0 : simulation_configuration_struct) (plan : PlannerState) (env : SimEnv)
    (st st0 : SimState) (h : initialiseDomain env st = some st0) :
    SailInv g mem config0 plan env st0.sub_domain := by
  intro jk hjk
  obtain ⟨⟨hx, hy, hP, _, _, hport, hother⟩, _⟩ := (initialiseDomain_spec env st st0 h).1 jk hjk
  refine ⟨⟨hx, hy, hP, fun hp => ?_⟩, ?_⟩
  · rw [hP] at hp
    exact (hport hp).1
  · intro z ship hz hs hp
    rw [hP] at hp
    rw [(hother hp).2 z hz] at hs
    cases hs

theorem processPort_sameKind (env : SimEnv) (w w1 : PortWork) (h : processPort env w = some w1) :
    w1.cell.x = w.cell.x ∧ w1.cell.y = w.cell.y := by
  have hc : (processPortCreate env w).cell.x = w.cell.x ∧
      (processPortCreate env w).cell.y = w.cell.y := by
    unfold processPortCreate
    dsimp only
    split_ifs <;> exact ⟨rfl, rfl⟩
  exact foldOpt_inv (processPortSlot env)
    (fun w2 => w2.cell.x = w.cell.x ∧ w2.cell.y = w.cell.y) _
    (fun s a s1 _ hP hf => by
      have hstep : s1.cell.x = s.cell.x ∧ s1.cell.y = s.cell.y := by
        unfold processPortSlot at hf
        cases hz : s.cell.ships_data a with
        | none =>
          rw [hz] at hf
          simp only [Option.some.injEq] at hf
          subst hf
          exact ⟨rfl, rfl⟩
        | some ship =>
          rw [hz] at hf
          dsimp only at hf
          generalize (if s.cell.number_ships > 1 then
            shouldRemoveShip env.rand ship.hoursAtSea s.randCalls else (false, s.randCalls))
            = removal at hf
          split at hf
          · simp only [Option.some.injEq] at hf
            subst hf
            exact ⟨rfl, rfl⟩
          · split at hf
            · simp at hf
            · simp only [Option.some.injEq] at hf
              subst hf
              exact ⟨rfl, rfl⟩
      exact ⟨hstep.1.trans hP.1, hstep.2.trans hP.2⟩)
    (processPortCreate env w) w1 hc h

/-- In a port cell, a ship that `processPort` has given a route of the port of the cell
to another port is under way, at the source of that route. -/
theorem port_ship_underway (g : RouteCtx) (mem : Int × Int → Int → Int)
    (config0 : simulation_configuration_struct) (routes0 : Int → specific_route)
    (plan : PlannerState) (env : SimEnv)
    (hw : PlannedWorld g mem config0 routes0 plan env) (jk : Int × Int) (c : cell_struct)
    (hc : CellOk env jk c) (hp : c.isPort = true) (ship : ship_struct) (t : Int)
    (ht : t ≠ c.port_data.port_index)
    (htr : ∃ k : Nat, t = Int.tmod (env.rand k) env.config.number_ports)
    (hroute : ship.route
      = (env.config.ports c.port_data.port_index).target_route_indexes t) :
    Underway g mem config0 plan env c ship := by
  obtain ⟨_, _, _, _, _, hplan, hcfg, hplanned, _⟩ := hw
  obtain ⟨hx, hy, hP, hidx⟩ := hc
  have hport : isCellAPort env.config (env.basex + jk.1 - 1) (jk.2 - 1) = true := by
    rw [← hP]; exact hp
  obtain ⟨q0, q1, qx, qy⟩ := getCellPortIndex_spec env.config _ _ hport
  rw [← hidx hp] at q0 q1 qx qy
  obtain ⟨k, hk⟩ := htr
  have hn : env.config.number_ports = config0.number_ports := by rw [hcfg]
  have hports : env.config.ports = plan.ports := by
    rw [hcfg]
  have hpos : 0 < env.config.number_ports := by omega
  have ht0 : 0 ≤ t := by rw [hk]; exact Int.tmod_nonneg _ (Int.ofNat_nonneg _)
  have ht1 : t < env.config.number_ports := by rw [hk]; exact Int.tmod_lt_of_pos _ hpos
  obtain ⟨pa, _, _, _⟩ := calculate_routes_inv g 0 1 mem config0 routes0 hplanned plan hplan
  have hq : 0 ≤ c.port_data.port_index ∧ c.port_data.port_index < config0.number_ports :=
    ⟨q0, by omega⟩
  have htt : 0 ≤ t ∧ t < config0.number_ports := ⟨ht0, by omega⟩
  have hf := (calculate_routes_routes g mem config0 routes0 plan hplan hplanned c.port_data.port_index t
    hq htt (fun h => ht h.symm)).2
  obtain ⟨hL1, _⟩ := walk_success _ _ _ _ _ _ hf
  refine ⟨c.port_data.port_index, t, hq, htt, fun h => ht h.symm, ?_, 0, ?_, ?_,
    fun _ => ⟨rfl, rfl⟩, fun hnp => ?_⟩
  · rw [hroute, hports]
  · unfold voyageLength
    omega
  · unfold voyagePos
    rw [walkerPos_zero, ← (pa c.port_data.port_index).1, ← (pa c.port_data.port_index).2.1,
      ← hports, qx, qy, hx, hy]
  · rw [hp] at hnp
    cases hnp

/-- The body of the loops of `updateProperties` keeps the cell as `initialiseDomain`
made it and leaves the other cells alone; afterwards every ship of a port cell, and
every ship of another cell whose ships were under way, is under way. -/
theorem updateCell_scan (g : RouteCtx) (mem : Int × Int → Int → Int)
    (config0 : simulation_configuration_struct) (routes0 : Int → specific_route)
    (plan : PlannerState) (env : SimEnv)
    (hw : PlannedWorld g mem config0 routes0 plan env) (st st1 : SimState) (jk : Int × Int)
    (h : updateCell env st jk = some st1) :
    (CellOk env jk (st.sub_domain (slabIndex env.ny jk)) →
      CellOk env jk (st1.sub_domain (slabIndex env.ny jk)) ∧
      ((∀ z ship, z < MAX_SHIPS_PER_CELL →
          (st.sub_domain (slabIndex env.ny jk)).ships_data z = some ship →
          (st.sub_domain (slabIndex env.ny jk)).isPort = false →
          Underway g mem config0 plan env (st.sub_domain (slabIndex env.ny jk)) ship) →
        ∀ z ship, z < MAX_SHIPS_PER_CELL →
          (st1.sub_domain (slabIndex env.ny jk)).ships_data z = some ship →
          Underway g mem config0 plan env (st1.sub_domain (slabIndex env.ny jk)) ship)) ∧
    ∀ c, c ≠ slabIndex env.ny jk → st1.sub_domain c = st.sub_domain c := by
  unfold updateCell at h
  unfold slabIndex
  dsimp only at h
  by_cases hp : (st.sub_domain (jk.1 * (env.ny + 2) + jk.2)).isPort = true
  · rw [if_pos hp] at h
    split at h
    · simp at h
    · rename_i w hpw
      simp only [Option.some.injEq] at h
      subst h
      dsimp only
      refine ⟨?_, fun c hc => setCell_other _ _ _ _ hc⟩
      rw [setCell_same]
      intro hc
      obtain ⟨b1, _, _⟩ := processPort_balance env _ w hpw
      obtain ⟨bx, by1⟩ := processPort_sameKind env _ w hpw
      have bi := processPort_loaded_index env _ w hpw
      dsimp only at b1 bx by1 bi
      have hc1 : CellOk env jk w.cell := by
        obtain ⟨h1, h2, h3, h4⟩ := hc
        exact ⟨bx.trans h1, by1.trans h2, b1.trans h3, fun _ => by rw [bi]; exact h4 hp⟩
      refine ⟨hc1, ?_⟩
      intro _ z ship hz hs
      obtain ⟨c1, _, _, _⟩ := processPortCreate_spec env
        { cell := st.sub_domain (jk.1 * (env.ny + 2) + jk.2), currentShipId := st.currentShipId,
          randCalls := st.randCalls }
      obtain ⟨_, _, _, _, _, _, i7, _⟩ := processPortLoop_spec env _ MAX_SHIPS_PER_CELL w hpw
      obtain ⟨_, _, ⟨t, hne, htr, hroute⟩, _⟩ := i7 z ship hz hs
      rw [c1] at hne hroute
      dsimp only at hne hroute
      rw [← bi] at hne hroute
      exact port_ship_underway g mem config0 routes0 plan env hw jk w.cell hc1 (b1.trans hp) ship t
        hne htr hroute
  · rw [if_neg hp] at h
    by_cases hwat : (st.sub_domain (jk.1 * (env.ny + 2) + jk.2)).isWater = true
    · rw [if_pos hwat] at h
      simp only [Option.some.injEq] at h
      subst h
      obtain ⟨k1, _⟩ := processWater_cargo env (st.sub_domain (jk.1 * (env.ny + 2) + jk.2))
        env.config.dt st.randCalls
      dsimp only
      refine ⟨?_, fun c hc => setCell_other _ _ _ _ hc⟩
      rw [setCell_same]
      intro hc
      refine ⟨cellOk_congr env jk _ _ k1 hc, ?_⟩
      intro hall z ship hz hs
      obtain ⟨ship0, h0, hr, _⟩ := processWater_ships env _ _ _ z ship hs
      exact underway_congr g mem config0 plan env _ _ ship0 ship k1 hr
        (hall z ship0 hz h0 (by simpa using hp))
    · rw [if_neg hwat] at h
      simp only [Option.some.injEq] at h
      subst h
      refine ⟨fun hc => ⟨hc, ?_⟩, fun _ _ => rfl⟩
      intro hall z ship hz hs
      exact hall z ship hz hs (by simpa using hp)

/-- After `updateProperties`, started between two timesteps, every ship of every owned
cell is under way. -/
theorem updateProperties_scanInv (g : RouteCtx) (mem : Int × Int → Int → Int)
    (config0 : simulation_configuration_struct) (routes0 : Int → specific_route)
    (plan : PlannerState) (env : SimEnv)
    (hw : PlannedWorld g mem config0 routes0 plan env) (st st1 : SimState)
    (hinv : SailInv g mem config0 plan env st.sub_domain)
    (h : updateProperties env st = some st1) :
    ∀ jk ∈ slabCells env.local_nx env.ny,
      CellOk env jk (st1.sub_domain (slabIndex env.ny jk)) ∧
      ∀ z ship, z < MAX_SHIPS_PER_CELL →
        (st1.sub_domain (slabIndex env.ny jk)).ships_data z = some ship →
        Underway g mem config0 plan env (st1.sub_domain (slabIndex env.ny jk)) ship := by
  have key := (foldOpt_cells env.ny (updateCell env)
    (fun jk c0 c => CellOk env jk c0 →
      CellOk env jk c ∧
      ((∀ z ship, z < MAX_SHIPS_PER_CELL → c0.ships_data z = some ship → c0.isPort = false →
          Underway g mem config0 plan env c0 ship) →
        ∀ z ship, z < MAX_SHIPS_PER_CELL → c.ships_data z = some ship →
          Underway g mem config0 plan env c ship))
    (slabCells env.local_nx env.ny) (slabCells_pairwise env.local_nx env.ny)
    (fun st jk st1 _ hs => updateCell_scan g mem config0 routes0 plan env hw st st1 jk hs) st st1 h).1
  intro jk hjk
  obtain ⟨hc, hall⟩ := hinv jk hjk
  obtain ⟨k1, k2⟩ := key jk hjk hc
  exact ⟨k1, k2 hall⟩

/-- For a ship under way at step `k` of its route in the owned cell `(j, k')`,
`getNextCell` writes the offset to the cell of step `k + 1`, which is an owned cell; the
ship's cell holds `k` and that cell `k + 1` in the route map; and if that cell is not a
port cell then `k + 1 < L`. -/
theorem underway_next (g : RouteCtx) (mem : Int × Int → Int → Int)
    (config0 : simulation_configuration_struct) (routes0 : Int → specific_route)
    (plan : PlannerState) (env : SimEnv)
    (hw : PlannedWorld g mem config0 routes0 plan env) (jk : Int × Int) (c : cell_struct)
    (hc : CellOk env jk c) (ship : ship_struct)
    (h : Underway g mem config0 plan env c ship) :
    ∃ q t k, (0 ≤ q ∧ q < config0.number_ports) ∧ (0 ≤ t ∧ t < config0.number_ports) ∧ q ≠ t ∧
      ship.route
        = (plan.ports q).target_route_indexes t ∧
      k < voyageLength g mem config0 q t ∧
      voyagePos g mem config0 q t k = (env.basex + c.x - 1, c.y - 1) ∧
      (c.isPort = true → k = 0 ∧ q = c.port_data.port_index) ∧ (c.isPort = false → 1 ≤ k) ∧
      plannedLookup g plan ship.route
          (env.basex + c.x - 1) (c.y - 1)
        = some ((voyagePos g mem config0 q t (k + 1)).1 - (voyagePos g mem config0 q t k).1,
                (voyagePos g mem config0 q t (k + 1)).2 - (voyagePos g mem config0 q t k).2) ∧
      (jk.1 + ((voyagePos g mem config0 q t (k + 1)).1 - (voyagePos g mem config0 q t k).1),
       jk.2 + ((voyagePos g mem config0 q t (k + 1)).2 - (voyagePos g mem config0 q t k).2))
        ∈ slabCells env.local_nx env.ny ∧
      voyagePos g mem config0 q t (k + 1)
        = (env.basex + (jk.1 + ((voyagePos g mem config0 q t (k + 1)).1
              - (voyagePos g mem config0 q t k).1)) - 1,
           (jk.2 + ((voyagePos g mem config0 q t (k + 1)).2
              - (voyagePos g mem config0 q t k).2)) - 1) ∧
      (k + 1 = voyageLength g mem config0 q t →
        isCellAPort env.config (voyagePos g mem config0 q t (k + 1)).1
          (voyagePos g mem config0 q t (k + 1)).2 = true) ∧
      (plan.routes ship.route).route
        (cellIndex g (env.basex + c.x - 1) (c.y - 1)) = (k : Int) ∧
      (plan.routes ship.route).route
        (cellIndex g (voyagePos g mem config0 q t (k + 1)).1
          (voyagePos g mem config0 q t (k + 1)).2) = (k : Int) + 1 := by
  obtain ⟨_, hs, hnx, hny, hbx, hplan, hcfg, hplanned, hd⟩ := hw
  obtain ⟨q, t, hq, ht, hqt, hroute, k, hk, hpos, hport, hsea⟩ := h
  obtain ⟨hx, hy, _, _⟩ := hc
  obtain ⟨l1, l2, l3, _, l5, l6⟩ :=
    lookup_on_voyage g mem config0 routes0 plan hplan hs hplanned hd q t hq ht hqt k hk
  obtain ⟨hr, _⟩ := calculate_routes_routes g mem config0 routes0 plan hplan hplanned q t hq ht hqt
  have hp1 : (voyagePos g mem config0 q t k).1 = env.basex + c.x - 1 := by rw [hpos]
  have hp2 : (voyagePos g mem config0 q t k).2 = c.y - 1 := by rw [hpos]
  refine ⟨q, t, k, hq, ht, hqt, hroute, hk, hpos, hport, hsea, ?_, ?_, ?_, ?_, ?_, ?_⟩
  · rw [hroute, ← hp1, ← hp2]
    exact l1
  · rw [mem_slabCells]
    unfold inGrid at l2
    dsimp only
    rw [hp1, hp2, hx, hy, hnx, hny, hbx]
    omega
  · apply Prod.ext
    · dsimp only
      rw [hp1, hx]
      omega
    · dsimp only
      rw [hp2, hy]
      omega
  · intro hL
    rw [hL, l3]
    apply (isCellAPort_iff _ _ _).mpr
    obtain ⟨pa, _, _, _⟩ := calculate_routes_inv g 0 1 mem config0 routes0 hplanned plan hplan
    refine ⟨t, ht.1, by rw [hcfg]; exact ht.2, ?_, ?_⟩
    · rw [hcfg]
      exact (pa t).1
    · rw [hcfg]
      exact (pa t).2.1
  · rw [hroute, hr, ← hp1, ← hp2]
    exact l5
  · rw [hroute, hr]
    exact l6

/-- The body of the scan of `updateMovement` keeps `ScanInv`: a flagged ship is under
way, so `getNextCell` writes the offset to the next cell of its route, an owned cell,
where the ship is under way again unless that cell is a port cell. -/
theorem moveShip_scanInv (g : RouteCtx) (mem : Int × Int → Int → Int)
    (config0 : simulation_configuration_struct) (routes0 : Int → specific_route)
    (plan : PlannerState) (env : SimEnv)
    (hw : PlannedWorld g mem config0 routes0 plan env) (m : MoveState) (s : (Int × Int) × Nat)
    (hs : s ∈ scanSlots env.local_nx env.ny)
    (hinv : ScanInv g mem config0 plan env m.sub_domain) :
    ScanInv g mem config0 plan env
      (moveShip env (plannedLookup g plan)
        findFreeShipIndex m s).sub_domain := by
  obtain ⟨jk, z⟩ := s
  obtain ⟨hjk, hz⟩ := (mem_scanSlots _ _ _).mp hs
  dsimp only at hjk hz
  by_cases hidle : ∀ ship, (m.sub_domain (slabIndex env.ny jk)).ships_data z = some ship →
      ship.willMoveThisTimestep = false
  · rw [moveShip_idle env _ _ m jk z hidle]
    exact hinv
  · push_neg at hidle
    obtain ⟨ship, hslot, hflag⟩ := hidle
    have hf : ship.willMoveThisTimestep = true := by simpa using hflag
    obtain ⟨hc, hall⟩ := hinv jk hjk
    have hu := hall z ship hz hslot (Or.inr hf)
    obtain ⟨q, t, k, hq, ht, hqt, hroute, hk, hpos, _, _, hlook, hmem, hpos1, hport1, _, _⟩ :=
      underway_next g mem config0 routes0 plan env hw jk _ hc ship hu
    generalize ho : ((voyagePos g mem config0 q t (k + 1)).1 - (voyagePos g mem config0 q t k).1,
      (voyagePos g mem config0 q t (k + 1)).2 - (voyagePos g mem config0 q t k).2) = o
      at hlook hmem hpos1
    have ho1 : (voyagePos g mem config0 q t (k + 1)).1 - (voyagePos g mem config0 q t k).1
        = o.1 := by rw [← ho]
    have ho2 : (voyagePos g mem config0 q t (k + 1)).2 - (voyagePos g mem config0 q t k).2
        = o.2 := by rw [← ho]
    rw [ho1, ho2] at hmem hpos1
    have hoff : o = moveOffset env (plannedLookup g plan)
        (m.sub_domain (slabIndex env.ny jk)) ship jk.1 jk.2 z := by
      unfold moveOffset
      rw [hlook]
    obtain ⟨hkind, hcases⟩ := moveShip_flagged env
      (plannedLookup g plan) findFreeShipIndex m jk z ship
      hslot hf o hoff _ rfl _ rfl
    have hrange := (mem_slabCells _ _ _).mp hmem
    dsimp only at hrange
    intro jk1 hjk1
    obtain ⟨hc1, hall1⟩ := hinv jk1 hjk1
    have hcnew := cellOk_congr env jk1 _ _ (hkind (slabIndex env.ny jk1)) hc1
    refine ⟨hcnew, ?_⟩
    intro z1 ship1 hz1 hs1 hcond
    have hp_eq := (hkind (slabIndex env.ny jk1)).2.2.2.1
    rcases hcases with ⟨hsent, _⟩ | ⟨_, _, hdesc⟩ | ⟨_, _, hdesc⟩
    · exfalso
      rcases hsent with h | h <;> omega
    · rw [(hdesc (slabIndex env.ny jk1)).2 z1] at hs1
      by_cases hsame : slabIndex env.ny jk1 = slabIndex env.ny jk ∧ z1 = z
      · rw [if_pos hsame] at hs1
        simp only [Option.some.injEq] at hs1
        apply underway_congr g mem config0 plan env _ _ ship ship1
          (hkind (slabIndex env.ny jk1)) (by rw [← hs1])
        rw [hsame.1]
        exact hu
      · rw [if_neg hsame] at hs1
        apply underway_congr g mem config0 plan env _ _ ship1 ship1
          (hkind (slabIndex env.ny jk1)) rfl
        apply hall1 z1 ship1 hz1 hs1
        rw [← hp_eq]
        exact hcond
    · rw [(hdesc (slabIndex env.ny jk1)).2 z1] at hs1
      by_cases hsame : slabIndex env.ny jk1 = slabIndex env.ny jk ∧ z1 = z
      · rw [if_pos hsame] at hs1
        cases hs1
      · rw [if_neg hsame] at hs1
        by_cases htgt : slabIndex env.ny jk1 = moveTarget env.ny jk o ∧
            z1 = (findFreeShipIndex (setShip m.sub_domain (slabIndex env.ny jk) z
              (some { ship with willMoveThisTimestep := false })
              (moveTarget env.ny jk o))).toNat
        · rw [if_pos htgt] at hs1
          simp only [Option.some.injEq] at hs1
          have hjk1eq : jk1 = (jk.1 + o.1, jk.2 + o.2) := by
            apply (slabIndex_eq_iff env _ _ hjk1 hmem).mp
            rw [htgt.1, moveTarget_eq_slabIndex]
          have hnp : ((moveShip env
              (plannedLookup g plan)
              findFreeShipIndex m (jk, z)).sub_domain (slabIndex env.ny jk1)).isPort = false := by
            rcases hcond with h | h
            · exact h
            · rw [← hs1] at h
              simp at h
          obtain ⟨cx, cy, cp, _⟩ := hcnew
          have hposnew : voyagePos g mem config0 q t (k + 1)
              = (env.basex + jk1.1 - 1, jk1.2 - 1) := by
            rw [hpos1, hjk1eq]
          have hk1 : k + 1 < voyageLength g mem config0 q t := by
            by_contra hge
            have hL : k + 1 = voyageLength g mem config0 q t := by omega
            have := hport1 hL
            rw [hposnew] at this
            dsimp only at this
            rw [← cp, hnp] at this
            cases this
          refine ⟨q, t, hq, ht, hqt, by rw [← hs1]; exact hroute, k + 1, hk1, ?_, ?_, ?_⟩
          · rw [hposnew, cx, cy]
          · intro hp
            rw [hnp] at hp
            cases hp
          · intro _
            omega
        · rw [if_neg htgt] at hs1
          apply underway_congr g mem config0 plan env _ _ ship1 ship1
            (hkind (slabIndex env.ny jk1)) rfl
          apply hall1 z1 ship1 hz1 hs1
          rw [← hp_eq]
          exact hcond

theorem scanState_scanInv (g : RouteCtx) (mem : Int × Int → Int → Int)
    (config0 : simulation_configuration_struct) (routes0 : Int → specific_route)
    (plan : PlannerState) (env : SimEnv)
    (hw : PlannedWorld g mem config0 routes0 plan env) (d : Int → cell_struct)
    (hinv : ScanInv g mem config0 plan env d) (pre : List ((Int × Int) × Nat))
    (hpre : ∀ s ∈ pre, s ∈ scanSlots env.local_nx env.ny) :
    ScanInv g mem config0 plan env
      (scanState env (plannedLookup g plan)
        findFreeShipIndex d pre).sub_domain :=
  foldl_inv (moveShip env (plannedLookup g plan)
      findFreeShipIndex)
    (fun m => ScanInv g mem config0 plan env m.sub_domain) pre
    (fun m s hs hP => moveShip_scanInv g mem config0 routes0 plan env hw m s (hpre s hs) hP) _ hinv

theorem scanInv_of_all (g : RouteCtx) (mem : Int × Int → Int → Int)
    (config0 : simulation_configuration_struct) (plan : PlannerState) (env : SimEnv)
    (d : Int → cell_struct)
    (h : ∀ jk ∈ slabCells env.local_nx env.ny,
      CellOk env jk (d (slabIndex env.ny jk)) ∧
      ∀ z ship, z < MAX_SHIPS_PER_CELL → (d (slabIndex env.ny jk)).ships_data z = some ship →
        Underway g mem config0 plan env (d (slabIndex env.ny jk)) ship) :
    ScanInv g mem config0 plan env d :=
  fun jk hjk => ⟨(h jk hjk).1, fun z ship hz hs _ => (h jk hjk).2 z ship hz hs⟩

theorem timestep_sailInv (g : RouteCtx) (mem : Int × Int → Int → Int)
    (config0 : simulation_configuration_struct) (routes0 : Int → specific_route)
    (plan : PlannerState) (env : SimEnv)
    (hw : PlannedWorld g mem config0 routes0 plan env) (stn st1 : SimState) (d2 : Int → cell_struct)
    (hinv : SailInv g mem config0 plan env stn.sub_domain)
    (hu : updateProperties env stn = some st1)
    (hd : d2 = (updateMovement env (plannedLookup g plan)
      findFreeShipIndex st1.sub_domain [] []).sub_domain) :
    SailInv g mem config0 plan env d2 := by
  have hall := updateProperties_scanInv g mem config0 routes0 plan env hw stn st1 hinv hu
  have hscan := scanState_scanInv g mem config0 routes0 plan env hw st1.sub_domain
    (scanInv_of_all g mem config0 plan env _ hall) (scanSlots env.local_nx env.ny)
    (fun s hs => hs)
  rw [hd, updateMovement_alone env hw.1]
  intro jk hjk
  exact ⟨(hscan jk hjk).1, fun z ship hz hs hp => (hscan jk hjk).2 z ship hz hs (Or.inl hp)⟩

theorem runSteps_sailInv (g : RouteCtx) (mem : Int × Int → Int → Int)
    (config0 : simulation_configuration_struct) (routes0 : Int → specific_route)
    (plan : PlannerState) (env : SimEnv)
    (hw : PlannedWorld g mem config0 routes0 plan env) (st0 : SimState) (n : Nat)
    (hinv : SailInv g mem config0 plan env st0.sub_domain) (stn : SimState)
    (h : runSteps env (plannedLookup g plan) n st0
      = some stn) :
    SailInv g mem config0 plan env stn.sub_domain := by
  induction n generalizing stn with
  | zero =>
    simp only [runSteps, Option.some.injEq] at h
    rw [← h]
    exact hinv
  | succ n ih =>
    obtain ⟨stm, st1, hm, hu, hd⟩ := runSteps_succ env _ n st0 stn h
    exact timestep_sailInv g mem config0 routes0 plan env hw stm st1 _ (ih stm hm) hu hd

/-- In a planned world every flagged ship is given, at the start of every
`updateMovement`, an offset that leads to an owned cell. -/
theorem planned_runInBounds (g : RouteCtx) (mem : Int × Int → Int → Int)
    (config0 : simulation_configuration_struct) (routes0 : Int → specific_route)
    (plan : PlannerState) (env : SimEnv)
    (hw : PlannedWorld g mem config0 routes0 plan env) (st st0 : SimState) (n : Nat)
    (h0 : initialiseDomain env st = some st0) :
    RunInBounds env (plannedLookup g plan) st0 n := by
  intro k _ stk st1 hk hu jk hjk z hz ship hs _
  have hinv := runSteps_sailInv g mem config0 routes0 plan env hw st0 k
    (initialiseDomain_sailInv g mem config0 plan env st st0 h0) stk hk
  obtain ⟨hc, hall⟩ := updateProperties_scanInv g mem config0 routes0 plan env hw stk st1 hinv hu jk hjk
  obtain ⟨q, t, kk, _, _, _, _, _, _, _, _, hlook, hmem, _⟩ :=
    underway_next g mem config0 routes0 plan env hw jk _ hc ship (hall z ship hz hs)
  exact ⟨_, hlook, hmem⟩

theorem distinctPorts_voyage : DistinctPorts voyageConfig := by
  intro i j hi hj hne
  have hn : voyageConfig.number_ports = 2 := rfl
  rw [hn] at hi hj
  have h1 : i = 0 ∨ i = 1 := by omega
  have h2 : j = 0 ∨ j = 1 := by omega
  rcases h1 with rfl | rfl <;> rcases h2 with rfl | rfl
  · exact absurd rfl hne
  · decide
  · decide
  · exact absurd rfl hne

/-- C31, as amended: on a single worker that owns the whole grid, with at most 10 ports
(so that the `n(n-1)` routes fit the table `routes[ROUTES_MAX]`) that lie on distinct
cells, with at most 200 initial ships per port and every ordered pair of different ports
planned with success, `calculate_routes` returns the planner's variables `plan`.  On the
worker that simulates the configuration with the ports of `plan`, take the state `st1`
at the start of the `updateMovement` of any timestep (after the `updateProperties` of
that timestep).  Every flagged ship of an owned cell follows a route planned from a port
`q` to another port `t`, whose index lies inside the table, and stands on the cell of
step `k < L` of the walk of that route: in a port cell `k = 0` and `q` is the port of
the cell, in another cell `1 ≤ k`.  The route map holds `k` at the cell, and
`getNextCell` gives an offset `o` to an owned cell, the cell of step `k + 1`, where the
route map holds `k + 1`.  The same holds of every flagged ship when its slot is reached
in the scan of `updateMovement`, so the branch in which no offset is written is not
reached.  The run returns whenever the resampling of `getTargetPort` ends. -/
theorem flagged_ships_find_next (g : RouteCtx) (mem : Int × Int → Int → Int)
    (config0 : simulation_configuration_struct) (routes0 : Int → specific_route)
    (hs : SingleWorker g) (hn : config0.number_ports ≤ 10)
    (hplanned : AllPlanned g mem config0) (hd : DistinctPorts config0)
    (_hships : config0.initialShips ≤ MAX_SHIPS_PER_CELL) :
    ∃ plan, calculate_routes g 0 1 mem config0 routes0 = some plan ∧
    ∀ env : SimEnv, Alone env → env.local_nx = g.size_x → env.ny = g.size_y → env.basex = 0 →
      env.config = { config0 with ports := plan.ports } →
    ∀ (st : SimState) (n : Nat),
    (Resamples env → ∃ stn st1,
      simulate env (plannedLookup g plan) st n = some stn ∧
      updateProperties env stn = some st1) ∧
    ∀ stn st1,
      simulate env (plannedLookup g plan) st n = some stn →
      updateProperties env stn = some st1 →
      (∀ jk ∈ slabCells env.local_nx env.ny, ∀ z ship, z < MAX_SHIPS_PER_CELL →
        (st1.sub_domain (slabIndex env.ny jk)).ships_data z = some ship →
        ship.willMoveThisTimestep = true →
        ∃ q t k o, (0 ≤ q ∧ q < config0.number_ports) ∧ (0 ≤ t ∧ t < config0.number_ports) ∧
          q ≠ t ∧
          ship.route = (plan.ports q).target_route_indexes t ∧
          (0 ≤ ship.route ∧ ship.route < ROUTES_MAX) ∧
          k < voyageLength g mem config0 q t ∧
          voyagePos g mem config0 q t k = (env.basex + jk.1 - 1, jk.2 - 1) ∧
          ((st1.sub_domain (slabIndex env.ny jk)).isPort = true →
            k = 0 ∧ q = (st1.sub_domain (slabIndex env.ny jk)).port_data.port_index) ∧
          ((st1.sub_domain (slabIndex env.ny jk)).isPort = false → 1 ≤ k) ∧
          (plan.routes ship.route).route
            (cellIndex g (env.basex + jk.1 - 1) (jk.2 - 1)) = (k : Int) ∧
          plannedLookup g plan ship.route
            (env.basex + (st1.sub_domain (slabIndex env.ny jk)).x - 1)
            ((st1.sub_domain (slabIndex env.ny jk)).y - 1) = some o ∧
          (jk.1 + o.1, jk.2 + o.2) ∈ slabCells env.local_nx env.ny ∧
          voyagePos g mem config0 q t (k + 1)
            = (env.basex + (jk.1 + o.1) - 1, (jk.2 + o.2) - 1) ∧
          (plan.routes ship.route).route
            (cellIndex g (env.basex + (jk.1 + o.1) - 1) ((jk.2 + o.2) - 1)) = (k : Int) + 1) ∧
      (∀ pre s post, scanSlots env.local_nx env.ny = pre ++ s :: post → ∀ ship,
        ((scanState env (plannedLookup g plan)
          findFreeShipIndex st1.sub_domain pre).sub_domain (slabIndex env.ny s.1)).ships_data s.2
          = some ship →
        ship.willMoveThisTimestep = true →
        ∃ o, plannedLookup g plan ship.route
            (env.basex + ((scanState env (plannedLookup g plan)
              findFreeShipIndex st1.sub_domain pre).sub_domain (slabIndex env.ny s.1)).x - 1)
            (((scanState env (plannedLookup g plan)
              findFreeShipIndex st1.sub_domain pre).sub_domain (slabIndex env.ny s.1)).y - 1)
            = some o ∧
          (s.1.1 + o.1, s.1.2 + o.2) ∈ slabCells env.local_nx env.ny) := by
  obtain ⟨plan, hplan⟩ := calculate_routes_returns g 0 1 mem config0 routes0 hn
  refine ⟨plan, hplan, ?_⟩
  intro env ha hnx hny hbx hcfg st n
  have hw : PlannedWorld g mem config0 routes0 plan env :=
    ⟨ha, hs, hnx, hny, hbx, hplan, hcfg, hplanned, hd⟩
  constructor
  · intro hr
    unfold simulate
    obtain ⟨st0, h0⟩ := initialiseDomain_returns env hr st
    rw [h0]
    obtain ⟨stn, hn⟩ := runSteps_returns env hr
      (plannedLookup g plan) n st0
    cases hu : updateProperties env stn with
    | none => exact absurd hu (updateProperties_ne_none env hr stn)
    | some st1 => exact ⟨stn, st1, hn, hu⟩
  · intro stn st1 hn hu
    unfold simulate at hn
    cases h0 : initialiseDomain env st with
    | none => rw [h0] at hn; simp at hn
    | some st0 =>
      rw [h0] at hn
      dsimp only at hn
      have hinv := runSteps_sailInv g mem config0 routes0 plan env hw st0 n
        (initialiseDomain_sailInv g mem config0 plan env st st0 h0) stn hn
      have hall := updateProperties_scanInv g mem config0 routes0 plan env hw stn st1 hinv hu
      constructor
      · intro jk hjk z ship hz hs _
        obtain ⟨hc, hships⟩ := hall jk hjk
        obtain ⟨q, t, k, hq, ht, hqt, hroute, hk, hpos, hport, hsea, hlook, hmem, hnext, _,
          hv0, hv1⟩ := underway_next g mem config0 routes0 plan env hw jk _ hc ship
            (hships z ship hz hs)
        have hx : (st1.sub_domain (slabIndex env.ny jk)).x = jk.1 := hc.1
        have hy : (st1.sub_domain (slabIndex env.ny jk)).y = jk.2 := hc.2.1
        rw [hx, hy] at hpos hv0
        rw [hnext] at hv1
        have hidx : 0 ≤ ship.route ∧ ship.route < ROUTES_MAX := by
          obtain ⟨_, _, pc, _⟩ :=
            calculate_routes_inv g 0 1 mem config0 routes0 hplanned plan hplan
          have hbound := calculate_routes_bound g 0 1 mem config0 routes0 plan hplan
          obtain ⟨c1, c2, _, _⟩ := pc (q, t) ⟨(mem_portPairs _ _).mpr ⟨hq, ht⟩, hqt⟩
          dsimp only at c1 c2
          rw [← hroute] at c1 c2
          exact ⟨c1, by omega⟩
        exact ⟨q, t, k, _, hq, ht, hqt, hroute, hidx, hk, hpos, hport, hsea, hv0, hlook, hmem,
          hnext, hv1⟩
      · intro pre s post hsplit ship hs hflag
        have hmem : ∀ s0 ∈ pre, s0 ∈ scanSlots env.local_nx env.ny := by
          intro s0 h0
          rw [hsplit]
          exact List.mem_append_left _ h0
        have hsm : s ∈ scanSlots env.local_nx env.ny := by
          rw [hsplit]
          exact List.mem_append_right _ (List.mem_cons_self _ _)
        obtain ⟨hjk, hz⟩ := (mem_scanSlots _ _ _).mp hsm
        have hscan := scanState_scanInv g mem config0 routes0 plan env hw st1.sub_domain
          (scanInv_of_all g mem config0 plan env _ hall) pre hmem
        obtain ⟨hc, hships⟩ := hscan s.1 hjk
        obtain ⟨q, t, k, _, _, _, _, _, _, _, _, hlook, hin, _⟩ :=
          underway_next g mem config0 routes0 plan env hw s.1 _ hc ship
            (hships s.2 ship hz hs (Or.inr hflag))
        exact ⟨_, hlook, hin⟩

/-- Witness of C31: on the strip with a port at each end the planning returns
`voyagePlan`, the run of three timesteps and the `updateProperties` of the fourth
return, and then every flagged ship of the three cells is given an offset by
`getNextCell`. -/
theorem flagged_ships_find_next_witness :
    SingleWorker strip3 ∧ voyageConfig.number_ports ≤ 10 ∧
    AllPlanned strip3 (fun _ => zeroMem) voyageConfig ∧ DistinctPorts voyageConfig ∧
    voyageConfig.initialShips ≤ MAX_SHIPS_PER_CELL ∧
    calculate_routes strip3 0 1 (fun _ => zeroMem) voyageConfig noRoutes = some voyagePlan ∧
    ∃ stn st1, simulate voyageEnv voyageLookup zeroState 3 = some stn ∧
      updateProperties voyageEnv stn = some st1 ∧
      ∀ jk ∈ slabCells voyageEnv.local_nx voyageEnv.ny, ∀ z ship, z < MAX_SHIPS_PER_CELL →
        (st1.sub_domain (slabIndex voyageEnv.ny jk)).ships_data z = some ship →
        ship.willMoveThisTimestep = true →
        ∃ o, voyageLookup ship.route
            (voyageEnv.basex + (st1.sub_domain (slabIndex voyageEnv.ny jk)).x - 1)
            ((st1.sub_domain (slabIndex voyageEnv.ny jk)).y - 1) = some o ∧
          (jk.1 + o.1, jk.2 + o.2) ∈ slabCells voyageEnv.local_nx voyageEnv.ny := by
  obtain ⟨plan, hplan, hthm⟩ := flagged_ships_find_next strip3 (fun _ => zeroMem)
    voyageConfig noRoutes ⟨rfl, rfl⟩ (by decide) allPlanned_voyage distinctPorts_voyage
    (by decide)
  have hvp : plan = voyagePlan := by
    have := voyagePlan_planned
    rw [hplan] at this
    exact Option.some.inj this
  subst hvp
  have h := hthm voyageEnv ⟨rfl, rfl⟩ rfl rfl rfl rfl zeroState 3
  obtain ⟨stn, st1, hstn, hst1⟩ := h.1 (resamples_counting voyageEnv rfl rfl rfl)
  refine ⟨⟨rfl, rfl⟩, by decide, allPlanned_voyage, distinctPorts_voyage, by decide, hplan,
    stn, st1, hstn, hst1, ?_⟩
  intro jk hjk z ship hz hs hflag
  obtain ⟨_, _, _, o, _, _, _, _, _, _, _, _, _, _, hlook, hmem, _⟩ :=
    (h.2 stn st1 hstn hst1).1 jk hjk z ship hz hs hflag
  exact ⟨o, hlook, hmem⟩

/-- Counterexample to C31 as stated: the strip of eleven cells has no island and a port
on every cell, one initial ship per port, and a single worker plans every one of the
110 ordered pairs of different ports with success; but the table `routes` has
`ROUTES_MAX = 100` entries, `calculate_routes` overruns it, and there is no table on
which `getNextCell` could find a next cell. -/
theorem flagged_ships_table_overrun :
    SingleWorker strip11 ∧ 2 ≤ elevenConfig.number_ports ∧ DistinctPorts elevenConfig ∧
    strip11.blocked_cells = [] ∧ elevenConfig.number_islands = 0 ∧
    elevenConfig.initialShips ≤ MAX_SHIPS_PER_CELL ∧
    AllPlanned strip11 (fun _ => zeroMem) elevenConfig ∧
    ROUTES_MAX < elevenConfig.number_ports * (elevenConfig.number_ports - 1) ∧
    calculate_routes strip11 0 1 (fun _ => zeroMem) elevenConfig noRoutes = none :=
  ⟨⟨rfl, rfl⟩, by decide, distinctPorts_eleven, rfl, rfl, by decide, allPlanned_eleven,
    by decide,
    calculate_routes_overrun strip11 0 1 _ elevenConfig noRoutes allPlanned_eleven (by decide)⟩

/-! ## The cargo aboard all ships -/

/-- The cargo shipped, less the cargo arrived and the cargo aboard the ships of all owned
cells, is the sum of the balances of the owned cells. -/
theorem aboard_eq_balance (env : SimEnv) (d : Int → cell_struct) :
    cargoShippedTotal env d - cargoArrivedTotal env d - cargoAboard env d
      = ((slabCells env.local_nx env.ny).map
          (fun jk => cellBalance (d (slabIndex env.ny jk)))).sum := by
  unfold cargoAboard cargoArrivedTotal cargoShippedTotal
  rw [reportFinalInformation_sum, reportFinalInformation_sum]
  unfold cellBalance
  dsimp only
  induction slabCells env.local_nx env.ny with
  | nil => simp
  | cons a l ih =>
    simp only [List.map_cons, List.sum_cons]
    split_ifs <;> omega

/-- On a worker that is alone, in a run in which every flagged ship is given an offset
that leads to an owned cell, the cargo shipped is the cargo arrived plus the cargo aboard
the ships of all owned cells: after `initialiseDomain` and after every `updateMovement`
(the state `stn`), and after every `updateProperties` (the state `st1`). -/
theorem inBounds_cargo_balance (env : SimEnv) (ha : Alone env)
    (next : Int → Int → Int → Option (Int × Int)) (st st0 : SimState) (n : Nat)
    (h0 : initialiseDomain env st = some st0) (hrun : RunInBounds env next st0 n)
    (stn : SimState) (hn : simulate env next st n = some stn) :
    cargoShippedTotal env stn.sub_domain
      = cargoArrivedTotal env stn.sub_domain + cargoAboard env stn.sub_domain ∧
    ∀ st1, updateProperties env stn = some st1 →
      cargoShippedTotal env st1.sub_domain
        = cargoArrivedTotal env st1.sub_domain + cargoAboard env st1.sub_domain := by
  unfold simulate at hn
  rw [h0] at hn
  have hb : ((slabCells env.local_nx env.ny).map
      (fun jk => cellBalance (stn.sub_domain (slabIndex env.ny jk)))).sum = 0 := by
    rw [runSteps_balance env ha next st0 n hrun stn hn, initialiseDomain_balance env st st0 h0]
  constructor
  · have h := aboard_eq_balance env stn.sub_domain
    rw [hb] at h
    omega
  · intro st1 hu
    have h := aboard_eq_balance env st1.sub_domain
    have he : ((slabCells env.local_nx env.ny).map
        (fun jk => cellBalance (st1.sub_domain (slabIndex env.ny jk)))).sum
        = ((slabCells env.local_nx env.ny).map
          (fun jk => cellBalance (stn.sub_domain (slabIndex env.ny jk)))).sum := by
      apply congrArg List.sum
      apply List.map_congr_left
      intro jk hjk
      rw [(updateProperties_balance env stn st1 hu jk hjk).2.2]
    rw [he, hb] at h
    omega

/-- On a single worker whose ports lie on distinct cells, with every ordered pair of
different ports planned with success and `calculate_routes` returning the planner's
variables `plan`, the cargo shipped is the
cargo arrived plus the cargo aboard the ships of all owned cells: after
`initialiseDomain` and after every `updateMovement` (the state `stn`), and after every
`updateProperties` (the state `st1`). -/
theorem planned_cargo_balance (g : RouteCtx) (mem : Int × Int → Int → Int)
    (config0 : simulation_configuration_struct) (routes0 : Int → specific_route)
    (plan : PlannerState) (env : SimEnv)
    (hw : PlannedWorld g mem config0 routes0 plan env) (st : SimState) (n : Nat) (stn : SimState)
    (hn : simulate env (plannedLookup g plan) st n = some stn) :
    cargoShippedTotal env stn.sub_domain
      = cargoArrivedTotal env stn.sub_domain + cargoAboard env stn.sub_domain ∧
    ∀ st1, updateProperties env stn = some st1 →
      cargoShippedTotal env st1.sub_domain
        = cargoArrivedTotal env st1.sub_domain + cargoAboard env st1.sub_domain := by
  cases h0 : initialiseDomain env st with
  | none =>
    unfold simulate at hn
    rw [h0] at hn
    simp at hn
  | some st0 =>
    exact inBounds_cargo_balance env hw.1 _ st st0 n h0
      (planned_runInBounds g mem config0 routes0 plan env hw st st0 n h0) stn hn

/-- The planning of the two ports on one cell returns `twinPlan`. -/
theorem twinPlan_planned :
    calculate_routes pairGrid 0 1 (fun _ => zeroMem) twinConfig noRoutes = some twinPlan := by
  obtain ⟨plan, hplan⟩ :=
    calculate_routes_returns pairGrid 0 1 (fun _ => zeroMem) twinConfig noRoutes (by decide)
  unfold twinPlan
  rw [hplan]
  rfl

/-- C32 at the failing input: two ports lie on the same cell `(0, 0)` of the grid of two
columns and one row; `calculate_routes` returns `twinPlan`, in which the route planned
from port 0 to port 1 leaves the cell and returns to it, the cell holds `2` in the route
map, and `getNextCell` writes nothing for a ship that stands on it.  The accounts balance after `initialiseDomain` (0 = 0 + 0) and
after the first `updateProperties` (5 = 0 + 5), which loads and flags the ship of the
port.  With `-1` and `0` in the uninitialised `newX`, `newY`, the first `updateMovement`
queues the ship for the previous rank; the single worker has none, and afterwards 5 has
been shipped, nothing has arrived and no cargo is aboard any ship of any cell. -/
theorem cargo_lost_at_twin_ports :
    Alone twinEnv ∧
    calculate_routes pairGrid 0 1 (fun _ => zeroMem) twinConfig noRoutes = some twinPlan ∧
    plannedLookup pairGrid twinPlan 0 0 0 = none ∧
    (simulate twinEnv (plannedLookup pairGrid twinPlan) zeroState 0).map
      (fun s => (cargoShippedTotal twinEnv s.sub_domain, cargoArrivedTotal twinEnv s.sub_domain,
        cargoAboard twinEnv s.sub_domain)) = some (0, 0, 0) ∧
    ((simulate twinEnv (plannedLookup pairGrid twinPlan) zeroState 0).bind
        (updateProperties twinEnv)).map
      (fun s => (cargoShippedTotal twinEnv s.sub_domain, cargoArrivedTotal twinEnv s.sub_domain,
        cargoAboard twinEnv s.sub_domain,
        (s.sub_domain (slabIndex twinEnv.ny (1, 1))).ships_data 0,
        (scanMovement twinEnv (plannedLookup pairGrid twinPlan) findFreeShipIndex
          s.sub_domain).sendShips2))
      = some (5, 0, 5,
          some { route := 0, hoursAtSea := 0, id := 0, cargoAmount := 5,
                 willMoveThisTimestep := true },
          [{ route := 0, hoursAtSea := 0, id := 0, cargoAmount := 5,
             willMoveThisTimestep := false }]) ∧
    (simulate twinEnv (plannedLookup pairGrid twinPlan) zeroState 1).map
      (fun s => (cargoShippedTotal twinEnv s.sub_domain, cargoArrivedTotal twinEnv s.sub_domain,
        cargoAboard twinEnv s.sub_domain)) = some (5, 0, 0) := by
  refine ⟨⟨rfl, rfl⟩, twinPlan_planned, by decide, ?_, ?_, ?_⟩
  · set_option maxRecDepth 1000000 in decide
  · set_option maxRecDepth 1000000 in decide
  · set_option maxRecDepth 1000000 in decide

/-! ## A ship without a next cell -/

/-- When the only flagged ship of the owned cells stands in the slot `z0` of the owned
cell `jk0`, the scan of `updateMovement` does what its body does at that slot. -/
theorem scanMovement_only (env : SimEnv) (next : Int → Int → Int → Option (Int × Int))
    (find : cell_struct → Int) (d : Int → cell_struct) (jk0 : Int × Int) (z0 : Nat)
    (hjk : jk0 ∈ slabCells env.local_nx env.ny) (hz : z0 < MAX_SHIPS_PER_CELL)
    (honly : onlyFlaggedB env d (jk0, z0) = true) :
    scanMovement env next find d
      = moveShip env next find
          { sub_domain := d, sendShips1 := [], ys1 := [], sendShips2 := [], ys2 := [] }
          (jk0, z0) := by
  have hidle : ∀ s ∈ scanSlots env.local_nx env.ny, s ≠ (jk0, z0) → ∀ ship,
      (d (slabIndex env.ny s.1)).ships_data s.2 = some ship →
      ship.willMoveThisTimestep = false := by
    intro s hs hne ship hship
    unfold onlyFlaggedB at honly
    rw [List.all_eq_true] at honly
    have := honly s hs
    rw [hship] at this
    simpa [hne] using this
  unfold scanMovement
  apply foldl_single _ _ (scanSlots_nodup _ _) (jk0, z0) ((mem_scanSlots _ _ _).mpr ⟨hjk, hz⟩)
  · intro s hs hne
    apply moveShip_idle
    exact hidle s hs hne
  · intro s hs hne
    apply moveShip_idle
    intro ship1 hship1
    rcases (moveShip_origin env next find _ jk0 z0).2 _ _ ship1 hship1 with hold | ⟨ship, _, _, hcl⟩
    · exact hidle s hs hne ship1 hold
    · rw [hcl]

/-- The planning of the two ports on one cell of the strip returns `twinStripPlan`. -/
theorem twinStripPlan_planned :
    calculate_routes strip3 0 1 (fun _ => zeroMem) twinStripConfig noRoutes
      = some twinStripPlan := by
  obtain ⟨plan, hplan⟩ :=
    calculate_routes_returns strip3 0 1 (fun _ => zeroMem) twinStripConfig noRoutes (by decide)
  unfold twinStripPlan
  rw [hplan]
  rfl

/-- The state of the strip with two ports on one cell after `initialiseDomain` and the
first `updateProperties`: the only flagged ship stands in slot 0 of the cell `(1, 1)`,
and the body of the scan of `updateMovement` at that slot stores it in the cell
`(3, 1)`. -/
theorem twinStrip_first_scan :
    ((simulate twinStripEnv (plannedLookup strip3 twinStripPlan) zeroState 0).bind
        (updateProperties twinStripEnv)).map
      (fun s =>
        (onlyFlaggedB twinStripEnv s.sub_domain ((1, 1), 0),
         ((moveShip twinStripEnv (plannedLookup strip3 twinStripPlan) findFreeShipIndex
            { sub_domain := s.sub_domain, sendShips1 := [], ys1 := [], sendShips2 := [],
              ys2 := [] } ((1, 1), 0)).sub_domain (slabIndex twinStripEnv.ny (1, 1))).ships_data 0,
         ((moveShip twinStripEnv (plannedLookup strip3 twinStripPlan) findFreeShipIndex
            { sub_domain := s.sub_domain, sendShips1 := [], ys1 := [], sendShips2 := [],
              ys2 := [] } ((1, 1), 0)).sub_domain (slabIndex twinStripEnv.ny (1, 1))).number_ships,
         ((moveShip twinStripEnv (plannedLookup strip3 twinStripPlan) findFreeShipIndex
            { sub_domain := s.sub_domain, sendShips1 := [], ys1 := [], sendShips2 := [],
              ys2 := [] } ((1, 1), 0)).sub_domain (slabIndex twinStripEnv.ny (3, 1))).ships_data 0,
         ((moveShip twinStripEnv (plannedLookup strip3 twinStripPlan) findFreeShipIndex
            { sub_domain := s.sub_domain, sendShips1 := [], ys1 := [], sendShips2 := [],
              ys2 := [] } ((1, 1), 0)).sub_domain (slabIndex twinStripEnv.ny (3, 1))).number_ships))
      = some
        (true, none, 0,
         some { route := 0, hoursAtSea := 0, id := 0, cargoAmount := 5,
                willMoveThisTimestep := false },
         1) := by
  set_option maxRecDepth 1000000 in decide

/-- C14 at the failing input: on the strip of three cells two ports lie on the same cell
`(0, 0)`; `calculate_routes` returns `twinStripPlan`, in which the route from port 0 to
port 1 leaves the cell and returns to it, so that the cell holds `2` and `getNextCell`
writes nothing for a ship that stands on it.  The run of `initialiseDomain` and the
first `updateProperties` leaves the ship of the port in slot 0 of the owned cell
`(1, 1)`, loaded and flagged, on route 0.  With `2` and `0` in the uninitialised `newX`,
`newY`, the `updateMovement` of the same timestep takes the ship out of the cell `(1, 1)`
and stores it in the cell `(3, 1)`, two columns away. -/
theorem updateMovement_two_columns :
    Alone twinStripEnv ∧
    calculate_routes strip3 0 1 (fun _ => zeroMem) twinStripConfig noRoutes
      = some twinStripPlan ∧
    ((simulate twinStripEnv (plannedLookup strip3 twinStripPlan) zeroState 0).bind
        (updateProperties twinStripEnv)).map
      (fun s =>
        ((s.sub_domain (slabIndex twinStripEnv.ny (1, 1))).ships_data 0,
         plannedLookup strip3 twinStripPlan 0
           (twinStripEnv.basex + (s.sub_domain (slabIndex twinStripEnv.ny (1, 1))).x - 1)
           ((s.sub_domain (slabIndex twinStripEnv.ny (1, 1))).y - 1)))
      = some
        (some { route := 0, hoursAtSea := 0, id := 0, cargoAmount := 5,
                willMoveThisTimestep := true },
         none) ∧
    ((simulate twinStripEnv (plannedLookup strip3 twinStripPlan) zeroState 0).bind
        (updateProperties twinStripEnv)).map
      (fun s =>
        (((updateMovement twinStripEnv (plannedLookup strip3 twinStripPlan) findFreeShipIndex
            s.sub_domain [] []).sub_domain (slabIndex twinStripEnv.ny (1, 1))).ships_data 0,
         ((updateMovement twinStripEnv (plannedLookup strip3 twinStripPlan) findFreeShipIndex
            s.sub_domain [] []).sub_domain (slabIndex twinStripEnv.ny (1, 1))).number_ships,
         ((updateMovement twinStripEnv (plannedLookup strip3 twinStripPlan) findFreeShipIndex
            s.sub_domain [] []).sub_domain (slabIndex twinStripEnv.ny (3, 1))).ships_data 0,
         ((updateMovement twinStripEnv (plannedLookup strip3 twinStripPlan) findFreeShipIndex
            s.sub_domain [] []).sub_domain (slabIndex twinStripEnv.ny (3, 1))).number_ships))
      = some
        (none, 0,
         some { route := 0, hoursAtSea := 0, id := 0, cargoAmount := 5,
                willMoveThisTimestep := false },
         1) := by
  refine ⟨⟨rfl, rfl⟩, twinStripPlan_planned, ?_, ?_⟩
  · set_option maxRecDepth 1000000 in decide
  · have hfacts := twinStrip_first_scan
    cases h : (simulate twinStripEnv (plannedLookup strip3 twinStripPlan) zeroState 0).bind
        (updateProperties twinStripEnv) with
    | none => rw [h] at hfacts; cases hfacts
    | some st1 =>
      rw [h] at hfacts
      simp only [Option.map_some', Option.some.injEq, Prod.mk.injEq] at hfacts ⊢
      obtain ⟨hcheck, f1, f2, f3, f4⟩ := hfacts
      rw [updateMovement_alone twinStripEnv ⟨rfl, rfl⟩,
        scanMovement_only twinStripEnv _ _ st1.sub_domain (1, 1) 0 (by decide) (by decide) hcheck]
      exact ⟨f1, f2, f3, f4⟩

/-- The state of the grid with two ports on one cell after `initialiseDomain` and the
first `updateProperties`: the only flagged ship stands in slot 0 of the cell `(1, 1)`,
and the body of the scan of `updateMovement` at that slot queues it for the previous
rank and leaves no ship in any slot of an owned cell. -/
theorem twin_first_scan :
    ((simulate twinEnv (plannedLookup pairGrid twinPlan) zeroState 0).bind
        (updateProperties twinEnv)).map
      (fun s =>
        (onlyFlaggedB twinEnv s.sub_domain ((1, 1), 0),
         (moveShip twinEnv (plannedLookup pairGrid twinPlan) findFreeShipIndex
            { sub_domain := s.sub_domain, sendShips1 := [], ys1 := [], sendShips2 := [],
              ys2 := [] } ((1, 1), 0)).sendShips2,
         (moveShip twinEnv (plannedLookup pairGrid twinPlan) findFreeShipIndex
            { sub_domain := s.sub_domain, sendShips1 := [], ys1 := [], sendShips2 := [],
              ys2 := [] } ((1, 1), 0)).ys2,
         ((moveShip twinEnv (plannedLookup pairGrid twinPlan) findFreeShipIndex
            { sub_domain := s.sub_domain, sendShips1 := [], ys1 := [], sendShips2 := [],
              ys2 := [] } ((1, 1), 0)).sub_domain (slabIndex twinEnv.ny (1, 1))).number_ships,
         (scanSlots twinEnv.local_nx twinEnv.ny).all (fun slot =>
           (((moveShip twinEnv (plannedLookup pairGrid twinPlan) findFreeShipIndex
              { sub_domain := s.sub_domain, sendShips1 := [], ys1 := [], sendShips2 := [],
                ys2 := [] } ((1, 1), 0)).sub_domain (slabIndex twinEnv.ny slot.1)).ships_data
                slot.2).isNone)))
      = some
        (true,
         [{ route := 0, hoursAtSea := 0, id := 0, cargoAmount := 5,
            willMoveThisTimestep := false }],
         [1], 0, true) := by
  set_option maxRecDepth 1000000 in decide

/-- C22 at the failing input: two ports lie on the same cell `(0, 0)` of the grid of two
columns and one row; `calculate_routes` returns `twinPlan`, in which the route from port
0 to port 1 leaves the cell and returns to it, so that `getNextCell` writes nothing for
a ship that stands on it.
The run of `initialiseDomain` and the first `updateProperties` leaves the ship of the
port in slot 0 of the owned cell `(1, 1)`, loaded and flagged, on route 0.  With `-1` and
`0` in the uninitialised `newX`, `newY`, the `updateMovement` of the same timestep takes
the ship out of its cell (`number_ships` 0) and queues it, with row 1, in the buffer for
the previous rank; the single worker has no previous rank, nothing is sent, and no
slot of an owned cell holds a ship afterwards. -/
theorem updateMovement_stranded_queued :
    Alone twinEnv ∧
    calculate_routes pairGrid 0 1 (fun _ => zeroMem) twinConfig noRoutes = some twinPlan ∧
    ((simulate twinEnv (plannedLookup pairGrid twinPlan) zeroState 0).bind
        (updateProperties twinEnv)).map
      (fun s =>
        ((s.sub_domain (slabIndex twinEnv.ny (1, 1))).ships_data 0,
         plannedLookup pairGrid twinPlan 0
           (twinEnv.basex + (s.sub_domain (slabIndex twinEnv.ny (1, 1))).x - 1)
           ((s.sub_domain (slabIndex twinEnv.ny (1, 1))).y - 1)))
      = some
        (some { route := 0, hoursAtSea := 0, id := 0, cargoAmount := 5,
                willMoveThisTimestep := true },
         none) ∧
    ((simulate twinEnv (plannedLookup pairGrid twinPlan) zeroState 0).bind
        (updateProperties twinEnv)).map
      (fun s =>
        ((scanMovement twinEnv (plannedLookup pairGrid twinPlan) findFreeShipIndex
            s.sub_domain).sendShips2,
         (scanMovement twinEnv (plannedLookup pairGrid twinPlan) findFreeShipIndex
            s.sub_domain).ys2,
         (updateMovement twinEnv (plannedLookup pairGrid twinPlan) findFreeShipIndex
            s.sub_domain [] []).toPrevious,
         ((updateMovement twinEnv (plannedLookup pairGrid twinPlan) findFreeShipIndex
            s.sub_domain [] []).sub_domain (slabIndex twinEnv.ny (1, 1))).number_ships,
         (scanSlots twinEnv.local_nx twinEnv.ny).all (fun slot =>
           (((updateMovement twinEnv (plannedLookup pairGrid twinPlan) findFreeShipIndex
              s.sub_domain [] []).sub_domain (slabIndex twinEnv.ny slot.1)).ships_data
                slot.2).isNone)))
      = some
        ([{ route := 0, hoursAtSea := 0, id := 0, cargoAmount := 5,
            willMoveThisTimestep := false }],
         [1], none, 0, true) := by
  refine ⟨⟨rfl, rfl⟩, twinPlan_planned, ?_, ?_⟩
  · set_option maxRecDepth 1000000 in decide
  · have hfacts := twin_first_scan
    cases h : (simulate twinEnv (plannedLookup pairGrid twinPlan) zeroState 0).bind
        (updateProperties twinEnv) with
    | none => rw [h] at hfacts; cases hfacts
    | some st1 =>
      rw [h] at hfacts
      simp only [Option.map_some', Option.some.injEq, Prod.mk.injEq] at hfacts ⊢
      obtain ⟨hcheck, f1, f2, f3, f4⟩ := hfacts
      have hprev : (updateMovement twinEnv (plannedLookup pairGrid twinPlan) findFreeShipIndex
          st1.sub_domain [] []).toPrevious = none := by
        unfold updateMovement
        dsimp only
        rw [if_neg (by decide)]
      rw [updateMovement_alone twinEnv ⟨rfl, rfl⟩,
        scanMovement_only twinEnv _ _ st1.sub_domain (1, 1) 0 (by decide) (by decide) hcheck]
      exact ⟨f1, f2, hprev, f3, f4⟩

/-! ## The domain after `initialiseDomain` -/

/-- C18, as amended: `initialiseDomain` returns whenever the resampling of
`getTargetPort` ends, and when `0 <= initialShips <= 200` the domain it returns is as
follows.  Every owned cell `(j, k)` has exactly one of `isPort`, `isIsland`, `isWater`
set: `isPort` iff a configured port lies at `(basex + j - 1, k - 1)`, otherwise
`isIsland` iff a configured island lies there, otherwise `isWater`.  A port cell has as
`port_index` the index of a configured port at these coordinates, `cargoShipped = 0`,
`cargoArrived = 0`, `number_ships = initialShips`, a roster with exactly `initialShips`
ships, in the slots `0 .. initialShips - 1`, and each ship of the roster has
`hoursAtSea = 0`, `cargoAmount = 0` and `willMoveThisTimestep = true`.  Every other cell
has `number_ships = 0` and an empty roster.  The final report of a run of 0 timesteps
has 0 shipped and 0 arrived in every triple, and has a triple for every port cell. -/
theorem initialiseDomain_cells (env : SimEnv) (st : SimState)
    (h0 : 0 ≤ env.config.initialShips) (hships : env.config.initialShips ≤ 200) :
    (Resamples env → ∃ st1, initialiseDomain env st = some st1) ∧
    ∀ st1, initialiseDomain env st = some st1 →
      (∀ jk ∈ slabCells env.local_nx env.ny,
        ((st1.sub_domain (slabIndex env.ny jk)).isPort = true ↔
          ∃ i, 0 ≤ i ∧ i < env.config.number_ports ∧
            (env.config.ports i).x = env.basex + jk.1 - 1 ∧ (env.config.ports i).y = jk.2 - 1) ∧
        ((st1.sub_domain (slabIndex env.ny jk)).isIsland = true ↔
          (st1.sub_domain (slabIndex env.ny jk)).isPort = false ∧
          ∃ i, 0 ≤ i ∧ i < env.config.number_islands ∧
            env.config.islands i = (env.basex + jk.1 - 1, jk.2 - 1)) ∧
        ((st1.sub_domain (slabIndex env.ny jk)).isWater = true ↔
          (st1.sub_domain (slabIndex env.ny jk)).isPort = false ∧
          (st1.sub_domain (slabIndex env.ny jk)).isIsland = false) ∧
        ((st1.sub_domain (slabIndex env.ny jk)).isPort = true →
          0 ≤ (st1.sub_domain (slabIndex env.ny jk)).port_data.port_index ∧
          (st1.sub_domain (slabIndex env.ny jk)).port_data.port_index < env.config.number_ports ∧
          (env.config.ports (st1.sub_domain (slabIndex env.ny jk)).port_data.port_index).x
            = env.basex + jk.1 - 1 ∧
          (env.config.ports (st1.sub_domain (slabIndex env.ny jk)).port_data.port_index).y
            = jk.2 - 1 ∧
          (st1.sub_domain (slabIndex env.ny jk)).port_data.cargoShipped = 0 ∧
          (st1.sub_domain (slabIndex env.ny jk)).port_data.cargoArrived = 0 ∧
          (st1.sub_domain (slabIndex env.ny jk)).number_ships = env.config.initialShips ∧
          (rosterCount (st1.sub_domain (slabIndex env.ny jk)).ships_data : Int)
            = env.config.initialShips ∧
          (∀ z : Nat, z < MAX_SHIPS_PER_CELL →
            (((st1.sub_domain (slabIndex env.ny jk)).ships_data z).isSome = true ↔
              (z : Int) < env.config.initialShips)) ∧
          ∀ z ship, z < MAX_SHIPS_PER_CELL →
            (st1.sub_domain (slabIndex env.ny jk)).ships_data z = some ship →
            ship.hoursAtSea = 0 ∧ ship.cargoAmount = 0 ∧ ship.willMoveThisTimestep = true) ∧
        ((st1.sub_domain (slabIndex env.ny jk)).isPort = false →
          (st1.sub_domain (slabIndex env.ny jk)).number_ships = 0 ∧
          ∀ z, z < MAX_SHIPS_PER_CELL →
            (st1.sub_domain (slabIndex env.ny jk)).ships_data z = none)) ∧
      (∀ next st2, simulate env next st 0 = some st2 →
        (∀ t ∈ reportFinalInformation env st2.sub_domain, t.2.1 = 0 ∧ t.2.2 = 0) ∧
        ∀ jk ∈ slabCells env.local_nx env.ny,
          (st2.sub_domain (slabIndex env.ny jk)).isPort = true →
          ((st2.sub_domain (slabIndex env.ny jk)).port_data.port_index, 0, 0)
            ∈ reportFinalInformation env st2.sub_domain) := by
  refine ⟨fun hr => initialiseDomain_returns env hr st, ?_⟩
  intro st1 h
  have hspec := (initialiseDomain_spec env st st1 h).1
  refine ⟨?_, ?_⟩
  · intro jk hjk
    obtain ⟨⟨_, _, hP, hI, hW, hport, hother⟩, _⟩ := hspec jk hjk
    refine ⟨?_, ?_, ?_, ?_, ?_⟩
    · rw [hP]
      exact isCellAPort_iff _ _ _
    · rw [hI, hP, Bool.and_eq_true, isCellAnIsland_iff]
      simp
    · rw [hW, hP, hI]
      cases isCellAPort env.config (env.basex + jk.1 - 1) (jk.2 - 1) <;>
        cases isCellAnIsland env.config (env.basex + jk.1 - 1) (jk.2 - 1) <;> simp
    · intro hp
      rw [hP] at hp
      obtain ⟨hidx, hs, ha, hn, hlow, hhigh⟩ := hport hp
      obtain ⟨g0, g1, gx, gy⟩ := getCellPortIndex_spec env.config _ _ hp
      rw [hidx]
      have hslots : ∀ z : Nat, z < MAX_SHIPS_PER_CELL →
          (((st1.sub_domain (slabIndex env.ny jk)).ships_data z).isSome = true ↔
            (z : Int) < env.config.initialShips) := by
        intro z hz
        constructor
        · intro hsome
          by_contra hlt
          rw [hhigh z (by omega) hz] at hsome
          simp at hsome
        · intro hlt
          obtain ⟨ship, hship, _⟩ := hlow z hlt
          rw [hship]
          rfl
      refine ⟨g0, g1, gx, gy, hs, ha, hn, ?_, hslots, ?_⟩
      · have hcount : rosterCount (st1.sub_domain (slabIndex env.ny jk)).ships_data
            = env.config.initialShips.toNat := by
          apply rosterCount_prefix
          · unfold MAX_SHIPS_PER_CELL
            omega
          · intro z hz
            rw [hslots z hz]
            omega
        rw [hcount]
        exact Int.toNat_of_nonneg h0
      · intro z ship hz hship
        by_cases hlt : (z : Int) < env.config.initialShips
        · obtain ⟨ship2, hship2, h1, h2, h3⟩ := hlow z hlt
          rw [hship2] at hship
          cases hship
          exact ⟨h1, h2, h3⟩
        · rw [hhigh z (by omega) hz] at hship
          cases hship
    · intro hp
      rw [hP] at hp
      exact hother hp
  · intro next st2 hsim
    have h2 : st2 = st1 := by
      unfold simulate at hsim
      rw [h] at hsim
      simp only [runSteps] at hsim
      exact (Option.some.inj hsim).symm
    subst h2
    have hzero : ∀ jk ∈ slabCells env.local_nx env.ny,
        (st2.sub_domain (slabIndex env.ny jk)).isPort = true →
        (st2.sub_domain (slabIndex env.ny jk)).port_data.cargoShipped = 0 ∧
        (st2.sub_domain (slabIndex env.ny jk)).port_data.cargoArrived = 0 := by
      intro jk hjk hp
      obtain ⟨⟨_, _, hP, _, _, hport, _⟩, _⟩ := hspec jk hjk
      rw [hP] at hp
      exact ⟨(hport hp).2.1, (hport hp).2.2.1⟩
    refine ⟨?_, ?_⟩
    · intro t ht
      obtain ⟨jk, hjk, hp, rfl⟩ := (mem_reportFinalInformation env _ t).mp ht
      exact hzero jk hjk hp
    · intro jk hjk hp
      rw [mem_reportFinalInformation]
      refine ⟨jk, hjk, hp, ?_⟩
      rw [(hzero jk hjk hp).1, (hzero jk hjk hp).2]
/-- Witness of C18: on the example of two adjacent ports, `initialiseDomain` returns and
the cell `(1, 1)` is a port cell holding one ship, with nothing shipped. -/
theorem initialiseDomain_cells_witness :
    0 ≤ pairEnv.config.initialShips ∧ pairEnv.config.initialShips ≤ 200 ∧
    ∃ st1, initialiseDomain pairEnv staleState = some st1 ∧
      (st1.sub_domain (slabIndex pairEnv.ny (1, 1))).isPort = true ∧
      (st1.sub_domain (slabIndex pairEnv.ny (1, 1))).port_data.cargoShipped = 0 ∧
      (rosterCount (st1.sub_domain (slabIndex pairEnv.ny (1, 1))).ships_data : Int) = 1 := by
  refine ⟨by decide, by decide, ?_⟩
  obtain ⟨st1, h1⟩ : ∃ st1, initialiseDomain pairEnv staleState = some st1 :=
    Option.isSome_iff_exists.mp (by decide)
  obtain ⟨hP, _, _, hport, _⟩ :=
    ((initialiseDomain_cells pairEnv staleState (by decide) (by decide)).2 st1 h1).1 (1, 1)
      (by decide)
  have hp : (st1.sub_domain (slabIndex pairEnv.ny (1, 1))).isPort = true :=
    hP.mpr ⟨0, by decide, by decide, by decide, by decide⟩
  exact ⟨st1, h1, hp, (hport hp).2.2.2.2.1, (hport hp).2.2.2.2.2.2.2.1⟩


/-- Counterexample to C18 as stated: on the example of two adjacent ports with
`initialShips = -1` (which is `<= 200`, with two ports), the port cell `(1, 1)` has
`number_ships = -1` after `initialiseDomain` and its roster is empty: it does not hold
exactly `initialShips` ships. -/
theorem initialiseDomain_negative_roster :
    negEnv.config.initialShips ≤ 200 ∧ 2 ≤ negEnv.config.number_ports ∧
    (1, 1) ∈ slabCells negEnv.local_nx negEnv.ny ∧
    (initialiseDomain negEnv staleState).map
      (fun st1 => ((st1.sub_domain (slabIndex negEnv.ny (1, 1))).isPort,
        (st1.sub_domain (slabIndex negEnv.ny (1, 1))).number_ships,
        rosterCount (st1.sub_domain (slabIndex negEnv.ny (1, 1))).ships_data))
      = some (true, -1, 0) ∧
    ((0 : Nat) : Int) ≠ negEnv.config.initialShips := by
  refine ⟨by decide, by decide, by decide, ?_, by decide⟩
  set_option maxRecDepth 100000 in decide

/-! ## The roster that holds a migrating ship -/

theorem mem_keySlots (env : SimEnv) (d : Int → cell_struct) (a : Int × Int × Int × Int)
    (s : (Int × Int) × Nat) :
    s ∈ keySlots env d a ↔ s ∈ scanSlots env.local_nx env.ny ∧
      ∃ ship, (d (slabIndex env.ny s.1)).ships_data s.2 = some ship ∧ shipKey ship = a := by
  unfold keySlots
  rw [List.mem_filter, decide_eq_true_eq, Option.map_eq_some']

theorem keyWithin_of_keySlots (env : SimEnv) (d : Int → cell_struct)
    (a : Int × Int × Int × Int) (S : (Int × Int) × Nat → Prop)
    (h : ∀ s ∈ keySlots env d a, S s) : KeyWithin env d a S := by
  intro t ht ship hs hk
  exact h t ((mem_keySlots env d a t).mpr ⟨ht, ship, hs, hk⟩)

theorem keySlots_eq_nil (env : SimEnv) (d : Int → cell_struct) (a : Int × Int × Int × Int)
    (h : KeyWithin env d a (fun _ => False)) : keySlots env d a = [] := by
  rw [List.eq_nil_iff_forall_not_mem]
  intro s hs
  obtain ⟨ht, ship, hship, hk⟩ := (mem_keySlots env d a s).mp hs
  exact h s ht ship hship hk

theorem filter_eq_singleton {α : Type} [DecidableEq α] (p : α → Bool) (l : List α)
    (hnd : l.Nodup) (x : α) (hx : x ∈ l) (hp : p x = true)
    (h : ∀ y ∈ l, p y = true → y = x) : l.filter p = [x] := by
  induction l with
  | nil => cases hx
  | cons b l ih =>
    rw [List.nodup_cons] at hnd
    by_cases hb : b = x
    · subst hb
      rw [List.filter_cons_of_pos hp]
      congr 1
      rw [List.filter_eq_nil_iff]
      intro y hy hpy
      have := h y (List.mem_cons_of_mem _ hy) (by simpa using hpy)
      subst this
      exact hnd.1 hy
    · have hpb : ¬ p b = true := fun hpb => hb (h b (List.mem_cons_self _ _) hpb)
      rw [List.filter_cons_of_neg hpb]
      rcases List.mem_cons.mp hx with hxb | hxl
      · exact absurd hxb.symm hb
      · exact ih hnd.2 hxl (fun y hy => h y (List.mem_cons_of_mem _ hy))

theorem keySlots_eq_singleton (env : SimEnv) (d : Int → cell_struct)
    (a : Int × Int × Int × Int) (x : (Int × Int) × Nat)
    (hx : x ∈ scanSlots env.local_nx env.ny) (ship : ship_struct)
    (hs : (d (slabIndex env.ny x.1)).ships_data x.2 = some ship) (hk : shipKey ship = a)
    (h : KeyWithin env d a (fun t => t = x)) : keySlots env d a = [x] := by
  unfold keySlots
  apply filter_eq_singleton _ _ (scanSlots_nodup _ _) x hx
  · rw [decide_eq_true_eq, hs, Option.map_some', hk]
  · intro y hy hpy
    rw [decide_eq_true_eq, Option.map_eq_some'] at hpy
    obtain ⟨ship1, h1, h2⟩ := hpy
    exact h y hy ship1 h1 h2

/-- One pass of the scan appends to the send buffers only the ship of the slot it
visits, with its flag cleared. -/
theorem moveShip_buffers_origin (env : SimEnv) (next : Int → Int → Int → Option (Int × Int))
    (find : cell_struct → Int) (m : MoveState) (s : (Int × Int) × Nat) :
    ∃ e1 e2 : List (ship_struct × Int),
      (moveShip env next find m s).sendShips1 = m.sendShips1 ++ e1.map Prod.fst ∧
      (moveShip env next find m s).ys1 = m.ys1 ++ e1.map Prod.snd ∧
      (moveShip env next find m s).sendShips2 = m.sendShips2 ++ e2.map Prod.fst ∧
      (moveShip env next find m s).ys2 = m.ys2 ++ e2.map Prod.snd ∧
      ∀ r, r ∈ e1 ∨ r ∈ e2 → ∃ ship,
        (m.sub_domain (slabIndex env.ny s.1)).ships_data s.2 = some ship ∧
        r.1 = { ship with willMoveThisTimestep := false } := by
  unfold slabIndex
  generalize hr : moveShip env next find m s = r
  unfold moveShip at hr
  dsimp only at hr
  cases hs : (m.sub_domain (s.1.1 * (env.ny + 2) + s.1.2)).ships_data s.2 with
  | none =>
    rw [hs] at hr
    dsimp only at hr
    subst hr
    exact ⟨[], [], by simp, by simp, by simp, by simp, by simp⟩
  | some ship =>
    rw [hs] at hr
    dsimp only at hr
    by_cases hf : ship.willMoveThisTimestep = true
    · rw [if_pos hf] at hr
      by_cases hE : s.1.1 + (moveOffset env next (m.sub_domain (s.1.1 * (env.ny + 2) + s.1.2))
          ship s.1.1 s.1.2 s.2).1 = env.local_nx + 1
      · rw [if_pos hE] at hr
        subst hr
        refine ⟨[({ ship with willMoveThisTimestep := false },
          s.1.2 + (moveOffset env next (m.sub_domain (s.1.1 * (env.ny + 2) + s.1.2))
            ship s.1.1 s.1.2 s.2).2)], [], by simp, by simp, by simp, by simp, ?_⟩
        intro r hr
        rcases hr with hr | hr
        · rw [List.mem_singleton] at hr
          exact ⟨ship, rfl, by rw [hr]⟩
        · cases hr
      · rw [if_neg hE] at hr
        by_cases hW : s.1.1 + (moveOffset env next
            (m.sub_domain (s.1.1 * (env.ny + 2) + s.1.2)) ship s.1.1 s.1.2 s.2).1 = 0
        · rw [if_pos hW] at hr
          subst hr
          refine ⟨[], [({ ship with willMoveThisTimestep := false },
            s.1.2 + (moveOffset env next (m.sub_domain (s.1.1 * (env.ny + 2) + s.1.2))
              ship s.1.1 s.1.2 s.2).2)], by simp, by simp, by simp, by simp, ?_⟩
          intro r hr
          rcases hr with hr | hr
          · cases hr
          · rw [List.mem_singleton] at hr
            exact ⟨ship, rfl, by rw [hr]⟩
        · rw [if_neg hW] at hr
          split at hr
          · subst hr
            exact ⟨[], [], by simp, by simp, by simp, by simp, by simp⟩
          · subst hr
            exact ⟨[], [], by simp, by simp, by simp, by simp, by simp⟩
    · rw [if_neg hf] at hr
      subst hr
      exact ⟨[], [], by simp, by simp, by simp, by simp, by simp⟩

/-- One pass of the scan at an owned slot outside `S`: the ships of the key `a` stay in
the slots of `S`, and no ship of that key is appended to a send buffer. -/
theorem moveShip_key (env : SimEnv) (next : Int → Int → Int → Option (Int × Int))
    (find : cell_struct → Int) (a : Int × Int × Int × Int) (S : (Int × Int) × Nat → Prop)
    (m : MoveState) (s : (Int × Int) × Nat) (hs : s ∈ scanSlots env.local_nx env.ny)
    (hS : ¬ S s) (hm : KeyWithin env m.sub_domain a S) :
    KeyWithin env (moveShip env next find m s).sub_domain a S ∧
    ∃ e1 e2 : List (ship_struct × Int),
      (moveShip env next find m s).sendShips1 = m.sendShips1 ++ e1.map Prod.fst ∧
      (moveShip env next find m s).ys1 = m.ys1 ++ e1.map Prod.snd ∧
      (moveShip env next find m s).sendShips2 = m.sendShips2 ++ e2.map Prod.fst ∧
      (moveShip env next find m s).ys2 = m.ys2 ++ e2.map Prod.snd ∧
      (∀ r ∈ e1, shipKey r.1 ≠ a) ∧ ∀ r ∈ e2, shipKey r.1 ≠ a := by
  have hnot : ∀ ship, (m.sub_domain (slabIndex env.ny s.1)).ships_data s.2 = some ship →
      shipKey ship ≠ a := fun ship h1 hk => hS (hm s hs ship h1 hk)
  constructor
  · intro t ht ship1 h1 hk
    rcases (moveShip_origin env next find m s.1 s.2).2 _ _ ship1 h1 with h | ⟨ship, h2, _, h3⟩
    · exact hm t ht ship1 h hk
    · exfalso
      apply hnot ship h2
      rw [← hk, h3]
      rfl
  · obtain ⟨e1, e2, h1, h2, h3, h4, h5⟩ := moveShip_buffers_origin env next find m s
    refine ⟨e1, e2, h1, h2, h3, h4, ?_, ?_⟩
    · intro r hr hk
      obtain ⟨ship, g1, g2⟩ := h5 r (Or.inl hr)
      apply hnot ship g1
      rw [← hk, g2]
      rfl
    · intro r hr hk
      obtain ⟨ship, g1, g2⟩ := h5 r (Or.inr hr)
      apply hnot ship g1
      rw [← hk, g2]
      rfl

theorem foldl_moveShip_key (env : SimEnv) (next : Int → Int → Int → Option (Int × Int))
    (find : cell_struct → Int) (a : Int × Int × Int × Int) (S : (Int × Int) × Nat → Prop)
    (l : List ((Int × Int) × Nat))
    (hl : ∀ s ∈ l, s ∈ scanSlots env.local_nx env.ny ∧ ¬ S s) (m : MoveState)
    (hm : KeyWithin env m.sub_domain a S) :
    KeyWithin env (l.foldl (moveShip env next find) m).sub_domain a S ∧
    ∃ e1 e2 : List (ship_struct × Int),
      (l.foldl (moveShip env next find) m).sendShips1 = m.sendShips1 ++ e1.map Prod.fst ∧
      (l.foldl (moveShip env next find) m).ys1 = m.ys1 ++ e1.map Prod.snd ∧
      (l.foldl (moveShip env next find) m).sendShips2 = m.sendShips2 ++ e2.map Prod.fst ∧
      (l.foldl (moveShip env next find) m).ys2 = m.ys2 ++ e2.map Prod.snd ∧
      (∀ r ∈ e1, shipKey r.1 ≠ a) ∧ ∀ r ∈ e2, shipKey r.1 ≠ a := by
  induction l generalizing m with
  | nil =>
    exact ⟨hm, [], [], by simp, by simp, by simp, by simp, by simp, by simp⟩
  | cons s l ih =>
    rw [List.foldl_cons]
    obtain ⟨hk, a1, a2, h1, h2, h3, h4, h5, h6⟩ := moveShip_key env next find a S m s
      (hl s (List.mem_cons_self _ _)).1 (hl s (List.mem_cons_self _ _)).2 hm
    obtain ⟨gk, b1, b2, g1, g2, g3, g4, g5, g6⟩ :=
      ih (fun t ht => hl t (List.mem_cons_of_mem _ ht)) (moveShip env next find m s) hk
    refine ⟨gk, a1 ++ b1, a2 ++ b2, ?_, ?_, ?_, ?_, ?_, ?_⟩
    · rw [g1, h1, List.map_append, List.append_assoc]
    · rw [g2, h2, List.map_append, List.append_assoc]
    · rw [g3, h3, List.map_append, List.append_assoc]
    · rw [g4, h4, List.map_append, List.append_assoc]
    · intro r hr
      rcases List.mem_append.mp hr with h | h
      · exact h5 r h
      · exact g5 r h
    · intro r hr
      rcases List.mem_append.mp hr with h | h
      · exact h6 r h
      · exact g6 r h

/-- The scan of a domain whose owned slots hold no ship of the key `a`: the domain still
holds none, and neither message has one. -/
theorem scanMovement_key (env : SimEnv) (next : Int → Int → Int → Option (Int × Int))
    (find : cell_struct → Int) (a : Int × Int × Int × Int) (d : Int → cell_struct)
    (hd : KeyWithin env d a (fun _ => False)) :
    KeyWithin env (scanMovement env next find d).sub_domain a (fun _ => False) ∧
    (∀ r ∈ (scanMovement env next find d).sendShips1.zip (scanMovement env next find d).ys1,
      shipKey r.1 ≠ a) ∧
    ∀ r ∈ (scanMovement env next find d).sendShips2.zip (scanMovement env next find d).ys2,
      shipKey r.1 ≠ a := by
  obtain ⟨hk, e1, e2, h1, h2, h3, h4, h5, h6⟩ := foldl_moveShip_key env next find a
    (fun _ => False) (scanSlots env.local_nx env.ny) (fun s hs => ⟨hs, fun h => h⟩)
    { sub_domain := d, sendShips1 := [], ys1 := [], sendShips2 := [], ys2 := [] } hd
  have hscan : scanMovement env next find d
      = (scanSlots env.local_nx env.ny).foldl (moveShip env next find)
        { sub_domain := d, sendShips1 := [], ys1 := [], sendShips2 := [], ys2 := [] } := rfl
  rw [← hscan] at hk h1 h2 h3 h4
  simp only [List.nil_append] at h1 h2 h3 h4
  refine ⟨hk, ?_, ?_⟩
  · rw [h1, h2, zip_map_fst_snd]
    exact h5
  · rw [h3, h4, zip_map_fst_snd]
    exact h6

/-- A received ship of another key leaves the ships of the key `a` where they are. -/
theorem receiveShip_key (env : SimEnv) (col : Int) (a : Int × Int × Int × Int)
    (S : (Int × Int) × Nat → Prop) (d : Int → cell_struct) (r : ship_struct × Int)
    (hr : shipKey r.1 ≠ a) (hd : KeyWithin env d a S) :
    KeyWithin env (receiveShip env findFreeShipIndex col d r) a S := by
  by_cases hfree : findFreeShipIndex (d (col * (env.ny + 2) + r.2)) > -1
  · obtain ⟨_, _, hstore, _, hother⟩ := receiveShip_stores env col d r hfree
    intro t ht ship hs hk
    by_cases hck : slabIndex env.ny t.1 = col * (env.ny + 2) + r.2 ∧
        t.2 = (findFreeShipIndex (d (col * (env.ny + 2) + r.2))).toNat
    · rw [hck.1, hck.2, hstore] at hs
      cases hs
      exact absurd hk hr
    · rw [hother _ _ hck] at hs
      exact hd t ht ship hs hk
  · unfold receiveShip
    dsimp only
    rw [if_neg hfree]
    exact hd

theorem receiveShips_key (env : SimEnv) (col : Int) (a : Int × Int × Int × Int)
    (S : (Int × Int) × Nat → Prop) (l : List (ship_struct × Int))
    (hl : ∀ r ∈ l, shipKey r.1 ≠ a) (d : Int → cell_struct) (hd : KeyWithin env d a S) :
    KeyWithin env (l.foldl (receiveShip env findFreeShipIndex col) d) a S :=
  foldl_inv (receiveShip env findFreeShipIndex col) (fun d => KeyWithin env d a S) l
    (fun d r hr h => receiveShip_key env col a S d r (hl r hr) h) d hd

/-- A ship received in an owned cell with a free slot, by a domain whose owned slots
hold no ship of the key `a`: afterwards only the slot of arrival can hold one. -/
theorem receiveShip_key_arrival (env : SimEnv) (col : Int) (a : Int × Int × Int × Int)
    (d : Int → cell_struct) (r : ship_struct × Int)
    (hcell : (col, r.2) ∈ slabCells env.local_nx env.ny)
    (hfree : findFreeShipIndex (d (col * (env.ny + 2) + r.2)) > -1)
    (hd : KeyWithin env d a (fun _ => False)) :
    KeyWithin env (receiveShip env findFreeShipIndex col d r) a
      (fun t => t = ((col, r.2), (findFreeShipIndex (d (col * (env.ny + 2) + r.2))).toNat)) := by
  obtain ⟨_, _, _, _, hother⟩ := receiveShip_stores env col d r hfree
  intro t ht ship hs hk
  by_cases hck : slabIndex env.ny t.1 = col * (env.ny + 2) + r.2 ∧
      t.2 = (findFreeShipIndex (d (col * (env.ny + 2) + r.2))).toNat
  · have h1 : t.1 = (col, r.2) :=
      (slabIndex_eq_iff env t.1 (col, r.2) ((mem_scanSlots _ _ t).mp ht).1 hcell).mp hck.1
    exact Prod.ext h1 hck.2
  · rw [hother _ _ hck] at hs
    exact (hd t ht ship hs hk).elim

/-- The receive loops of `updateMovement`, on messages without a ship of the key `a`,
leave the ships of that key where the scan left them. -/
theorem updateMovement_key (env : SimEnv) (next : Int → Int → Int → Option (Int × Int))
    (a : Int × Int × Int × Int) (S : (Int × Int) × Nat → Prop) (d : Int → cell_struct)
    (fn fp : List (ship_struct × Int)) (hfn : ∀ r ∈ fn, shipKey r.1 ≠ a)
    (hfp : ∀ r ∈ fp, shipKey r.1 ≠ a)
    (hd : KeyWithin env (scanMovement env next findFreeShipIndex d).sub_domain a S) :
    KeyWithin env (updateMovement env next findFreeShipIndex d fn fp).sub_domain a S := by
  have h1 : KeyWithin env (if env.myrank < env.size - 1 then
      fn.foldl (receiveShip env findFreeShipIndex env.local_nx)
        (scanMovement env next findFreeShipIndex d).sub_domain
      else (scanMovement env next findFreeShipIndex d).sub_domain) a S := by
    by_cases h : env.myrank < env.size - 1
    · rw [if_pos h]
      exact receiveShips_key env _ a S fn hfn _ hd
    · rw [if_neg h]
      exact hd
  unfold updateMovement
  dsimp only
  by_cases h0 : env.myrank > 0
  · rw [if_pos h0]
    exact receiveShips_key env 1 a S fp hfp _ h1
  · rw [if_neg h0]
    exact h1

/-- The store that takes the ship of the key `a` out of its slot leaves no owned slot
with a ship of that key. -/
theorem keyWithin_departed (env : SimEnv) (a : Int × Int × Int × Int) (d : Int → cell_struct)
    (jk : Int × Int) (z : Nat) (v : Option ship_struct)
    (hd : KeyWithin env d a (fun t => t = (jk, z))) :
    KeyWithin env (addShips (setShip (setShip d (slabIndex env.ny jk) z v)
      (slabIndex env.ny jk) z none) (slabIndex env.ny jk) (-1)) a (fun _ => False) := by
  intro t ht ship1 h1 hk
  rw [addShips_ships, setShip_ships] at h1
  by_cases hc : slabIndex env.ny t.1 = slabIndex env.ny jk ∧ t.2 = z
  · rw [if_pos hc] at h1
    cases h1
  · rw [if_neg hc, setShip_ships, if_neg hc] at h1
    have h2 : t = (jk, z) := hd t ht ship1 h1 hk
    apply hc
    rw [h2]
    exact ⟨rfl, rfl⟩

/-- The messages of a scan during which the only ship of the key `a` leaves its slot
`s` for a send buffer: the scan ends without a ship of that key in the owned slots, and
the ship that left is the only one of its key in the message. -/
theorem scan_message_key (env : SimEnv) (next : Int → Int → Int → Option (Int × Int))
    (find : cell_struct → Int) (d : Int → cell_struct) (pre post : List ((Int × Int) × Nat))
    (s : (Int × Int) × Nat) (a : Int × Int × Int × Int)
    (hsplit : scanSlots env.local_nx env.ny = pre ++ s :: post)
    (hd : KeyWithin env d a (fun t => t = s))
    (hgone : KeyWithin env (moveShip env next find (scanState env next find d pre) s).sub_domain
      a (fun _ => False)) :
    KeyWithin env (scanMovement env next find d).sub_domain a (fun _ => False) ∧
    (∀ moved y,
      (moveShip env next find (scanState env next find d pre) s).sendShips1
        = (scanState env next find d pre).sendShips1 ++ [moved] →
      (moveShip env next find (scanState env next find d pre) s).ys1
        = (scanState env next find d pre).ys1 ++ [y] →
      ∃ after, (scanMovement env next find d).sendShips1.zip (scanMovement env next find d).ys1
        = (scanState env next find d pre).sendShips1.zip (scanState env next find d pre).ys1
          ++ (moved, y) :: after ∧
        (∀ r ∈ (scanState env next find d pre).sendShips1.zip
          (scanState env next find d pre).ys1, shipKey r.1 ≠ a) ∧
        ∀ r ∈ after, shipKey r.1 ≠ a) ∧
    (∀ moved y,
      (moveShip env next find (scanState env next find d pre) s).sendShips2
        = (scanState env next find d pre).sendShips2 ++ [moved] →
      (moveShip env next find (scanState env next find d pre) s).ys2
        = (scanState env next find d pre).ys2 ++ [y] →
      ∃ after, (scanMovement env next find d).sendShips2.zip (scanMovement env next find d).ys2
        = (scanState env next find d pre).sendShips2.zip (scanState env next find d pre).ys2
          ++ (moved, y) :: after ∧
        (∀ r ∈ (scanState env next find d pre).sendShips2.zip
          (scanState env next find d pre).ys2, shipKey r.1 ≠ a) ∧
        ∀ r ∈ after, shipKey r.1 ≠ a) := by
  have hnd := scanSlots_nodup env.local_nx env.ny
  rw [hsplit] at hnd
  have hpre : ∀ t ∈ pre, t ∈ scanSlots env.local_nx env.ny ∧ ¬ t = s := by
    intro t ht
    refine ⟨by rw [hsplit]; exact List.mem_append_left _ ht, fun hts => ?_⟩
    exact (List.nodup_append.mp hnd).2.2 ht (by rw [hts]; exact List.mem_cons_self _ _)
  have hpost : ∀ t ∈ post, t ∈ scanSlots env.local_nx env.ny ∧ ¬ False := by
    intro t ht
    refine ⟨?_, fun h => h⟩
    rw [hsplit]
    exact List.mem_append_right _ (List.mem_cons_of_mem _ ht)
  have hscan : scanMovement env next find d
      = post.foldl (moveShip env next find)
          (moveShip env next find (scanState env next find d pre) s) := by
    unfold scanMovement scanState
    rw [hsplit, List.foldl_append, List.foldl_cons]
  obtain ⟨_, a1, a2, h1, h2, h3, h4, h5, h6⟩ := foldl_moveShip_key env next find a
    (fun t => t = s) pre hpre
    { sub_domain := d, sendShips1 := [], ys1 := [], sendShips2 := [], ys2 := [] } hd
  have hm : scanState env next find d pre = pre.foldl (moveShip env next find)
      { sub_domain := d, sendShips1 := [], ys1 := [], sendShips2 := [], ys2 := [] } := rfl
  rw [← hm] at h1 h2 h3 h4
  simp only [List.nil_append] at h1 h2 h3 h4
  obtain ⟨hk, b1, b2, g1, g2, g3, g4, g5, g6⟩ := foldl_moveShip_key env next find a
    (fun _ => False) post hpost (moveShip env next find (scanState env next find d pre) s) hgone
  rw [← hscan] at hk g1 g2 g3 g4
  refine ⟨hk, ?_, ?_⟩
  · intro moved y hm1 hy1
    refine ⟨b1, ?_, ?_, g5⟩
    · rw [g1, g2, hm1, hy1, h1, h2]
      have e1 : (a1.map Prod.fst ++ [moved]) ++ b1.map Prod.fst
          = (a1 ++ (moved, y) :: b1).map Prod.fst := by simp
      have e2 : (a1.map Prod.snd ++ [y]) ++ b1.map Prod.snd
          = (a1 ++ (moved, y) :: b1).map Prod.snd := by simp
      rw [e1, e2, zip_map_fst_snd, zip_map_fst_snd]
    · rw [h1, h2, zip_map_fst_snd]
      exact h5
  · intro moved y hm1 hy1
    refine ⟨b2, ?_, ?_, g6⟩
    · rw [g3, g4, hm1, hy1, h3, h4]
      have e1 : (a2.map Prod.fst ++ [moved]) ++ b2.map Prod.fst
          = (a2 ++ (moved, y) :: b2).map Prod.fst := by simp
      have e2 : (a2.map Prod.snd ++ [y]) ++ b2.map Prod.snd
          = (a2 ++ (moved, y) :: b2).map Prod.snd := by simp
      rw [e1, e2, zip_map_fst_snd, zip_map_fst_snd]
    · rw [h3, h4, zip_map_fst_snd]
      exact h6

/-- C23: two adjacent workers of ranks `r` and `r + 1` execute `updateMovement` in
lockstep.  When the scan of worker `r` reaches a flagged ship whose next cell is in
local column `local_nx + 1`, the ship's slot is emptied and the count of its cell goes
down by one; the ship, with `id`, `route`, `hoursAtSea` and `cargoAmount` unchanged and
`willMoveThisTimestep = false`, is in the message to rank `r + 1` with the row
`k + newY`; and if the cell of column 1 and that row of worker `r + 1` has a free slot
when the ship is received, the ship is in the first free slot of that cell at the end
of the same step, the receipt changing no other slot.  When the ship is the only one
with its `id`, `route`, `hoursAtSea` and `cargoAmount` in the owned slots of the two
workers and in the messages of the ranks `r - 1` and `r + 2`, then at the end of the
step no owned slot of worker `r` holds a ship with these fields, and, the destination
being a cell of column 1 of worker `r + 1` with a free slot, exactly one owned slot of
worker `r + 1` holds one, the first free slot of that cell: the ship is in the roster
of exactly one worker.  Symmetrically a ship of worker `r + 1` whose next cell is in
local column 0 ends in column `local_nx` of worker `r`. -/
theorem migration_lockstep (envL envR : SimEnv)
    (nextL nextR : Int → Int → Int → Option (Int × Int)) (dL dR : Int → cell_struct)
    (fromBelow fromAbove : List (ship_struct × Int))
    (hL : envL.myrank < envL.size - 1) (hR : envR.myrank > 0) :
    (∀ pre post jk z ship, scanSlots envL.local_nx envL.ny = pre ++ (jk, z) :: post →
      ((scanState envL nextL findFreeShipIndex dL pre).sub_domain
        (slabIndex envL.ny jk)).ships_data z = some ship →
      ship.willMoveThisTimestep = true →
      jk.1 + (moveOffset envL nextL
        ((scanState envL nextL findFreeShipIndex dL pre).sub_domain (slabIndex envL.ny jk))
        ship jk.1 jk.2 z).1 = envL.local_nx + 1 →
      ((moveShip envL nextL findFreeShipIndex (scanState envL nextL findFreeShipIndex dL pre)
        (jk, z)).sub_domain (slabIndex envL.ny jk)).ships_data z = none ∧
      ((moveShip envL nextL findFreeShipIndex (scanState envL nextL findFreeShipIndex dL pre)
        (jk, z)).sub_domain (slabIndex envL.ny jk)).number_ships
        = ((scanState envL nextL findFreeShipIndex dL pre).sub_domain
            (slabIndex envL.ny jk)).number_ships - 1 ∧
      (∃ after,
        (updateMovement envL nextL findFreeShipIndex dL [] []).toNext
          = some ((scanState envL nextL findFreeShipIndex dL pre).sendShips1.zip
              (scanState envL nextL findFreeShipIndex dL pre).ys1
            ++ ({ ship with willMoveThisTimestep := false },
              jk.2 + (moveOffset envL nextL
                ((scanState envL nextL findFreeShipIndex dL pre).sub_domain
                  (slabIndex envL.ny jk)) ship jk.1 jk.2 z).2) :: after)) ∧
        (∀ target arrival,
          target = slabIndex envR.ny (1, jk.2 + (moveOffset envL nextL
            ((scanState envL nextL findFreeShipIndex dL pre).sub_domain
              (slabIndex envL.ny jk)) ship jk.1 jk.2 z).2) →
          arrival = ((scanState envL nextL findFreeShipIndex dL pre).sendShips1.zip
              (scanState envL nextL findFreeShipIndex dL pre).ys1).foldl
            (receiveShip envR findFreeShipIndex 1)
            (updateMovement envR nextR findFreeShipIndex dR fromAbove []).sub_domain →
          findFreeShipIndex (arrival target) > -1 →
          (arrival target).ships_data (findFreeShipIndex (arrival target)).toNat = none ∧
          (((movementExchange envL envR nextL nextR findFreeShipIndex dL dR fromBelow
              fromAbove).2.sub_domain target).ships_data
            (findFreeShipIndex (arrival target)).toNat
            = some { ship with willMoveThisTimestep := false }) ∧
          ∀ c k, ¬ (c = target ∧ k = (findFreeShipIndex (arrival target)).toNat) →
            (receiveShip envR findFreeShipIndex 1 arrival
              ({ ship with willMoveThisTimestep := false }, jk.2 + (moveOffset envL nextL
                ((scanState envL nextL findFreeShipIndex dL pre).sub_domain
                  (slabIndex envL.ny jk)) ship jk.1 jk.2 z).2) c).ships_data k
              = (arrival c).ships_data k) ∧
        (keySlots envL dL (shipKey ship) = [(jk, z)] →
        keySlots envR dR (shipKey ship) = [] →
        (∀ r ∈ fromBelow, shipKey r.1 ≠ shipKey ship) →
        (∀ r ∈ fromAbove, shipKey r.1 ≠ shipKey ship) →
        keySlots envL (movementExchange envL envR nextL nextR findFreeShipIndex dL dR
          fromBelow fromAbove).1.sub_domain (shipKey ship) = [] ∧
        ∀ row target arrival,
          row = jk.2 + (moveOffset envL nextL
            ((scanState envL nextL findFreeShipIndex dL pre).sub_domain
              (slabIndex envL.ny jk)) ship jk.1 jk.2 z).2 →
          target = slabIndex envR.ny (1, row) →
          arrival = ((scanState envL nextL findFreeShipIndex dL pre).sendShips1.zip
              (scanState envL nextL findFreeShipIndex dL pre).ys1).foldl
            (receiveShip envR findFreeShipIndex 1)
            (updateMovement envR nextR findFreeShipIndex dR fromAbove []).sub_domain →
          findFreeShipIndex (arrival target) > -1 →
          (1, row) ∈ slabCells envR.local_nx envR.ny →
          keySlots envR (movementExchange envL envR nextL nextR findFreeShipIndex dL dR
            fromBelow fromAbove).2.sub_domain (shipKey ship)
            = [((1, row), (findFreeShipIndex (arrival target)).toNat)])) ∧
    (∀ pre post jk z ship, scanSlots envR.local_nx envR.ny = pre ++ (jk, z) :: post →
      ((scanState envR nextR findFreeShipIndex dR pre).sub_domain
        (slabIndex envR.ny jk)).ships_data z = some ship →
      ship.willMoveThisTimestep = true →
      jk.1 + (moveOffset envR nextR
        ((scanState envR nextR findFreeShipIndex dR pre).sub_domain (slabIndex envR.ny jk))
        ship jk.1 jk.2 z).1 ≠ envR.local_nx + 1 →
      jk.1 + (moveOffset envR nextR
        ((scanState envR nextR findFreeShipIndex dR pre).sub_domain (slabIndex envR.ny jk))
        ship jk.1 jk.2 z).1 = 0 →
      ((moveShip envR nextR findFreeShipIndex (scanState envR nextR findFreeShipIndex dR pre)
        (jk, z)).sub_domain (slabIndex envR.ny jk)).ships_data z = none ∧
      ((moveShip envR nextR findFreeShipIndex (scanState envR nextR findFreeShipIndex dR pre)
        (jk, z)).sub_domain (slabIndex envR.ny jk)).number_ships
        = ((scanState envR nextR findFreeShipIndex dR pre).sub_domain
            (slabIndex envR.ny jk)).number_ships - 1 ∧
      (∃ after,
        (updateMovement envR nextR findFreeShipIndex dR [] []).toPrevious
          = some ((scanState envR nextR findFreeShipIndex dR pre).sendShips2.zip
              (scanState envR nextR findFreeShipIndex dR pre).ys2
            ++ ({ ship with willMoveThisTimestep := false },
              jk.2 + (moveOffset envR nextR
                ((scanState envR nextR findFreeShipIndex dR pre).sub_domain
                  (slabIndex envR.ny jk)) ship jk.1 jk.2 z).2) :: after)) ∧
        (∀ target arrival,
          target = slabIndex envL.ny (envL.local_nx, jk.2 + (moveOffset envR nextR
            ((scanState envR nextR findFreeShipIndex dR pre).sub_domain
              (slabIndex envR.ny jk)) ship jk.1 jk.2 z).2) →
          arrival = ((scanState envR nextR findFreeShipIndex dR pre).sendShips2.zip
              (scanState envR nextR findFreeShipIndex dR pre).ys2).foldl
            (receiveShip envL findFreeShipIndex envL.local_nx)
            (scanMovement envL nextL findFreeShipIndex dL).sub_domain →
          findFreeShipIndex (arrival target) > -1 →
          (arrival target).ships_data (findFreeShipIndex (arrival target)).toNat = none ∧
          (((movementExchange envL envR nextL nextR findFreeShipIndex dL dR fromBelow
              fromAbove).1.sub_domain target).ships_data
            (findFreeShipIndex (arrival target)).toNat
            = some { ship with willMoveThisTimestep := false }) ∧
          ∀ c k, ¬ (c = target ∧ k = (findFreeShipIndex (arrival target)).toNat) →
            (receiveShip envL findFreeShipIndex envL.local_nx arrival
              ({ ship with willMoveThisTimestep := false }, jk.2 + (moveOffset envR nextR
                ((scanState envR nextR findFreeShipIndex dR pre).sub_domain
                  (slabIndex envR.ny jk)) ship jk.1 jk.2 z).2) c).ships_data k
              = (arrival c).ships_data k) ∧
        (keySlots envR dR (shipKey ship) = [(jk, z)] →
        keySlots envL dL (shipKey ship) = [] →
        (∀ r ∈ fromBelow, shipKey r.1 ≠ shipKey ship) →
        (∀ r ∈ fromAbove, shipKey r.1 ≠ shipKey ship) →
        keySlots envR (movementExchange envL envR nextL nextR findFreeShipIndex dL dR
          fromBelow fromAbove).2.sub_domain (shipKey ship) = [] ∧
        ∀ row target arrival,
          row = jk.2 + (moveOffset envR nextR
            ((scanState envR nextR findFreeShipIndex dR pre).sub_domain
              (slabIndex envR.ny jk)) ship jk.1 jk.2 z).2 →
          target = slabIndex envL.ny (envL.local_nx, row) →
          arrival = ((scanState envR nextR findFreeShipIndex dR pre).sendShips2.zip
              (scanState envR nextR findFreeShipIndex dR pre).ys2).foldl
            (receiveShip envL findFreeShipIndex envL.local_nx)
            (scanMovement envL nextL findFreeShipIndex dL).sub_domain →
          findFreeShipIndex (arrival target) > -1 →
          (envL.local_nx, row) ∈ slabCells envL.local_nx envL.ny →
          keySlots envL (movementExchange envL envR nextL nextR findFreeShipIndex dL dR
            fromBelow fromAbove).1.sub_domain (shipKey ship)
            = [((envL.local_nx, row), (findFreeShipIndex (arrival target)).toNat)])) := by
  constructor
  · intro pre post jk z ship hsplit hs hf hE
    have hmove := moveShip_send_next envL nextL findFreeShipIndex
      (scanState envL nextL findFreeShipIndex dL pre) jk z ship hs hf _ rfl hE
    generalize hoff : moveOffset envL nextL
      ((scanState envL nextL findFreeShipIndex dL pre).sub_domain (slabIndex envL.ny jk))
      ship jk.1 jk.2 z = off at hmove ⊢
    have hnew : keySlots envL dL (shipKey ship) = [(jk, z)] →
        keySlots envR dR (shipKey ship) = [] →
        (∀ r ∈ fromBelow, shipKey r.1 ≠ shipKey ship) →
        (∀ r ∈ fromAbove, shipKey r.1 ≠ shipKey ship) →
        keySlots envL (movementExchange envL envR nextL nextR findFreeShipIndex dL dR
          fromBelow fromAbove).1.sub_domain (shipKey ship) = [] ∧
        ∀ row target arrival, row = jk.2 + off.2 → target = slabIndex envR.ny (1, row) →
          arrival = ((scanState envL nextL findFreeShipIndex dL pre).sendShips1.zip
              (scanState envL nextL findFreeShipIndex dL pre).ys1).foldl
            (receiveShip envR findFreeShipIndex 1)
            (updateMovement envR nextR findFreeShipIndex dR fromAbove []).sub_domain →
          findFreeShipIndex (arrival target) > -1 →
          (1, row) ∈ slabCells envR.local_nx envR.ny →
          keySlots envR (movementExchange envL envR nextL nextR findFreeShipIndex dL dR
            fromBelow fromAbove).2.sub_domain (shipKey ship)
            = [((1, row), (findFreeShipIndex (arrival target)).toNat)] := by
      intro hkL hkR hB hA
      have hdL : KeyWithin envL dL (shipKey ship) (fun t => t = (jk, z)) :=
        keyWithin_of_keySlots _ _ _ _ (fun s hs => by
          rw [hkL] at hs
          exact List.mem_singleton.mp hs)
      have hdR : KeyWithin envR dR (shipKey ship) (fun _ => False) :=
        keyWithin_of_keySlots _ _ _ _ (fun s hs => by
          rw [hkR] at hs
          cases hs)
      have hpreL : KeyWithin envL (scanState envL nextL findFreeShipIndex dL pre).sub_domain
          (shipKey ship) (fun t => t = (jk, z)) := by
        unfold scanState
        exact (foldl_moveShip_key envL nextL findFreeShipIndex (shipKey ship)
          (fun t => t = (jk, z)) pre (fun t ht => by
            have hnd := scanSlots_nodup envL.local_nx envL.ny
            rw [hsplit] at hnd
            refine ⟨by rw [hsplit]; exact List.mem_append_left _ ht, fun hts => ?_⟩
            exact (List.nodup_append.mp hnd).2.2 ht (by rw [hts]; exact List.mem_cons_self _ _))
          { sub_domain := dL, sendShips1 := [], ys1 := [], sendShips2 := [], ys2 := [] } hdL).1
      obtain ⟨hscanL, hmsg, _⟩ := scan_message_key envL nextL findFreeShipIndex dL pre post
        (jk, z) (shipKey ship) hsplit hdL (by
          rw [hmove]
          exact keyWithin_departed envL _ _ jk z _ hpreL)
      obtain ⟨after, hafter, hbefore, hrest⟩ := hmsg { ship with willMoveThisTimestep := false }
        (jk.2 + off.2) (by rw [hmove]) (by rw [hmove])
      obtain ⟨hscanR, _, hmsgR⟩ := scanMovement_key envR nextR findFreeShipIndex (shipKey ship)
        dR hdR
      constructor
      · apply keySlots_eq_nil
        unfold movementExchange
        dsimp only
        apply updateMovement_key envL nextL (shipKey ship) _ dL _ _ ?_ hB hscanL
        rw [updateMovement_toPrevious envR nextR findFreeShipIndex dR [] [] hR,
          Option.getD_some]
        exact hmsgR
      · intro row target arrival hrow htarget harrival hfree hcell
        have hfinal : (movementExchange envL envR nextL nextR findFreeShipIndex dL dR fromBelow
            fromAbove).2.sub_domain
            = after.foldl (receiveShip envR findFreeShipIndex 1)
                (receiveShip envR findFreeShipIndex 1 arrival
                  ({ ship with willMoveThisTimestep := false }, row)) := by
          unfold movementExchange
          dsimp only
          rw [updateMovement_fromPrevious envR nextR findFreeShipIndex dR fromAbove _ hR,
            updateMovement_toNext envL nextL findFreeShipIndex dL [] [] hL, hafter,
            Option.getD_some, List.foldl_append, List.foldl_cons, ← harrival, hrow]
        have htgt : target = 1 * (envR.ny + 2)
            + ({ ship with willMoveThisTimestep := false }, row).2 := by
          rw [htarget]
          rfl
        have hfree2 := hfree
        rw [htgt] at hfree2
        have harr : KeyWithin envR arrival (shipKey ship) (fun _ => False) := by
          rw [harrival]
          exact receiveShips_key envR 1 _ _ _ hbefore _
            (updateMovement_key envR nextR (shipKey ship) _ dR fromAbove [] hA
              (fun r hr => by cases hr) hscanR)
        obtain ⟨s1, _, s3, _, _⟩ := receiveShip_stores envR 1 arrival
          ({ ship with willMoveThisTimestep := false }, row) hfree2
        have hone := receiveShips_key envR 1 (shipKey ship) _ after hrest _
          (receiveShip_key_arrival envR 1 (shipKey ship) arrival
            ({ ship with willMoveThisTimestep := false }, row) hcell hfree2 harr)
        rw [← hfinal, ← htgt] at hone
        rw [← htgt] at s1 s3
        apply keySlots_eq_singleton envR _ _ _ ((mem_scanSlots _ _ _).mpr ⟨hcell, s1⟩)
          { ship with willMoveThisTimestep := false } ?_ rfl hone
        rw [hfinal]
        dsimp only
        rw [← htarget]
        exact receiveShips_keep envR 1 after _ _ _ _ s3
    generalize hm : scanState envL nextL findFreeShipIndex dL pre = m at hmove hs hnew ⊢
    refine ⟨?_, ?_, ?_⟩
    · rw [hmove]
      dsimp only
      rw [addShips_ships, setShip_ships, if_pos ⟨rfl, rfl⟩]
    · rw [hmove]
      dsimp only
      rw [addShips_number, setShip_number, setShip_number, if_pos rfl]
      omega
    · obtain ⟨after, hafter⟩ := (scan_message envL nextL findFreeShipIndex dL pre post (jk, z)
        hsplit).1 { ship with willMoveThisTimestep := false } (jk.2 + off.2)
        (by rw [hm, hmove]) (by rw [hm, hmove])
      rw [hm] at hafter
      refine ⟨⟨after, ?_⟩, ?_, hnew⟩
      · rw [updateMovement_toNext envL nextL findFreeShipIndex dL [] [] hL, hafter]
      · intro target arrival htarget harrival hfree
        have hfinal : (movementExchange envL envR nextL nextR findFreeShipIndex dL dR fromBelow
            fromAbove).2.sub_domain
            = after.foldl (receiveShip envR findFreeShipIndex 1)
                (receiveShip envR findFreeShipIndex 1 arrival
                  ({ ship with willMoveThisTimestep := false }, jk.2 + off.2)) := by
          unfold movementExchange
          dsimp only
          rw [updateMovement_fromPrevious envR nextR findFreeShipIndex dR fromAbove _ hR,
            updateMovement_toNext envL nextL findFreeShipIndex dL [] [] hL, hafter,
            Option.getD_some, List.foldl_append, List.foldl_cons, ← harrival]
        have htgt : target = 1 * (envR.ny + 2)
            + ({ ship with willMoveThisTimestep := false }, jk.2 + off.2).2 := by
          rw [htarget]
          rfl
        have hfree2 := hfree
        rw [htgt] at hfree2
        obtain ⟨_, s2, s3, _, s5⟩ := receiveShip_stores envR 1 arrival
          ({ ship with willMoveThisTimestep := false }, jk.2 + off.2) hfree2
        rw [← htgt] at s2 s3 s5
        refine ⟨s2, ?_, s5⟩
        rw [hfinal]
        exact receiveShips_keep envR 1 after _ _ _ _ s3
  · intro pre post jk z ship hsplit hs hf hE hW
    have hmove := moveShip_send_previous envR nextR findFreeShipIndex
      (scanState envR nextR findFreeShipIndex dR pre) jk z ship hs hf _ rfl hE hW
    generalize hoff : moveOffset envR nextR
      ((scanState envR nextR findFreeShipIndex dR pre).sub_domain (slabIndex envR.ny jk))
      ship jk.1 jk.2 z = off at hmove ⊢
    have hnew : keySlots envR dR (shipKey ship) = [(jk, z)] →
        keySlots envL dL (shipKey ship) = [] →
        (∀ r ∈ fromBelow, shipKey r.1 ≠ shipKey ship) →
        (∀ r ∈ fromAbove, shipKey r.1 ≠ shipKey ship) →
        keySlots envR (movementExchange envL envR nextL nextR findFreeShipIndex dL dR
          fromBelow fromAbove).2.sub_domain (shipKey ship) = [] ∧
        ∀ row target arrival, row = jk.2 + off.2 →
          target = slabIndex envL.ny (envL.local_nx, row) →
          arrival = ((scanState envR nextR findFreeShipIndex dR pre).sendShips2.zip
              (scanState envR nextR findFreeShipIndex dR pre).ys2).foldl
            (receiveShip envL findFreeShipIndex envL.local_nx)
            (scanMovement envL nextL findFreeShipIndex dL).sub_domain →
          findFreeShipIndex (arrival target) > -1 →
          (envL.local_nx, row) ∈ slabCells envL.local_nx envL.ny →
          keySlots envL (movementExchange envL envR nextL nextR findFreeShipIndex dL dR
            fromBelow fromAbove).1.sub_domain (shipKey ship)
            = [((envL.local_nx, row), (findFreeShipIndex (arrival target)).toNat)] := by
      intro hkR hkL hB hA
      have hdR : KeyWithin envR dR (shipKey ship) (fun t => t = (jk, z)) :=
        keyWithin_of_keySlots _ _ _ _ (fun s hs => by
          rw [hkR] at hs
          exact List.mem_singleton.mp hs)
      have hdL : KeyWithin envL dL (shipKey ship) (fun _ => False) :=
        keyWithin_of_keySlots _ _ _ _ (fun s hs => by
          rw [hkL] at hs
          cases hs)
      have hpreR : KeyWithin envR (scanState envR nextR findFreeShipIndex dR pre).sub_domain
          (shipKey ship) (fun t => t = (jk, z)) := by
        unfold scanState
        exact (foldl_moveShip_key envR nextR findFreeShipIndex (shipKey ship)
          (fun t => t = (jk, z)) pre (fun t ht => by
            have hnd := scanSlots_nodup envR.local_nx envR.ny
            rw [hsplit] at hnd
            refine ⟨by rw [hsplit]; exact List.mem_append_left _ ht, fun hts => ?_⟩
            exact (List.nodup_append.mp hnd).2.2 ht (by rw [hts]; exact List.mem_cons_self _ _))
          { sub_domain := dR, sendShips1 := [], ys1 := [], sendShips2 := [], ys2 := [] } hdR).1
      obtain ⟨hscanR, _, hmsg⟩ := scan_message_key envR nextR findFreeShipIndex dR pre post
        (jk, z) (shipKey ship) hsplit hdR (by
          rw [hmove]
          exact keyWithin_departed envR _ _ jk z _ hpreR)
      obtain ⟨after, hafter, hbefore, hrest⟩ := hmsg { ship with willMoveThisTimestep := false }
        (jk.2 + off.2) (by rw [hmove]) (by rw [hmove])
      obtain ⟨hscanL, hmsgL, _⟩ := scanMovement_key envL nextL findFreeShipIndex (shipKey ship)
        dL hdL
      constructor
      · apply keySlots_eq_nil
        unfold movementExchange
        dsimp only
        apply updateMovement_key envR nextR (shipKey ship) _ dR _ _ hA ?_ hscanR
        rw [updateMovement_toNext envL nextL findFreeShipIndex dL [] [] hL, Option.getD_some]
        exact hmsgL
      · intro row target arrival hrow htarget harrival hfree hcell
        have hfinal : (movementExchange envL envR nextL nextR findFreeShipIndex dL dR fromBelow
            fromAbove).1.sub_domain
            = (if envL.myrank > 0 then fromBelow else []).foldl
                (receiveShip envL findFreeShipIndex 1)
                (after.foldl (receiveShip envL findFreeShipIndex envL.local_nx)
                  (receiveShip envL findFreeShipIndex envL.local_nx arrival
                    ({ ship with willMoveThisTimestep := false }, row))) := by
          unfold movementExchange
          dsimp only
          rw [updateMovement_fromNext envL nextL findFreeShipIndex dL _ fromBelow hL,
            updateMovement_toPrevious envR nextR findFreeShipIndex dR [] [] hR, hafter,
            Option.getD_some, List.foldl_append, List.foldl_cons, ← harrival, hrow]
        have htgt : target = envL.local_nx * (envL.ny + 2)
            + ({ ship with willMoveThisTimestep := false }, row).2 := by
          rw [htarget]
          rfl
        have hfree2 := hfree
        rw [htgt] at hfree2
        have harr : KeyWithin envL arrival (shipKey ship) (fun _ => False) := by
          rw [harrival]
          exact receiveShips_key envL envL.local_nx _ _ _ hbefore _ hscanL
        obtain ⟨s1, _, s3, _, _⟩ := receiveShip_stores envL envL.local_nx arrival
          ({ ship with willMoveThisTimestep := false }, row) hfree2
        have hbelow : ∀ r ∈ (if envL.myrank > 0 then fromBelow else []),
            shipKey r.1 ≠ shipKey ship := by
          intro r hr
          by_cases h0 : envL.myrank > 0
          · rw [if_pos h0] at hr
            exact hB r hr
          · rw [if_neg h0] at hr
            cases hr
        have hone := receiveShips_key envL 1 (shipKey ship) _ _ hbelow _
          (receiveShips_key envL envL.local_nx (shipKey ship) _ after hrest _
            (receiveShip_key_arrival envL envL.local_nx (shipKey ship) arrival
              ({ ship with willMoveThisTimestep := false }, row) hcell hfree2 harr))
        rw [← hfinal, ← htgt] at hone
        rw [← htgt] at s1 s3
        apply keySlots_eq_singleton envL _ _ _ ((mem_scanSlots _ _ _).mpr ⟨hcell, s1⟩)
          { ship with willMoveThisTimestep := false } ?_ rfl hone
        rw [hfinal]
        dsimp only
        rw [← htarget]
        exact receiveShips_keep envL 1 _ _ _ _ _
          (receiveShips_keep envL envL.local_nx after _ _ _ _ s3)
    generalize hm : scanState envR nextR findFreeShipIndex dR pre = m at hmove hs hnew ⊢
    refine ⟨?_, ?_, ?_⟩
    · rw [hmove]
      dsimp only
      rw [addShips_ships, setShip_ships, if_pos ⟨rfl, rfl⟩]
    · rw [hmove]
      dsimp only
      rw [addShips_number, setShip_number, setShip_number, if_pos rfl]
      omega
    · obtain ⟨after, hafter⟩ := (scan_message envR nextR findFreeShipIndex dR pre post (jk, z)
        hsplit).2 { ship with willMoveThisTimestep := false } (jk.2 + off.2)
        (by rw [hm, hmove]) (by rw [hm, hmove])
      rw [hm] at hafter
      refine ⟨⟨after, ?_⟩, ?_, hnew⟩
      · rw [updateMovement_toPrevious envR nextR findFreeShipIndex dR [] [] hR, hafter]
      · intro target arrival htarget harrival hfree
        have hfinal : (movementExchange envL envR nextL nextR findFreeShipIndex dL dR fromBelow
            fromAbove).1.sub_domain
            = (if envL.myrank > 0 then fromBelow else []).foldl
                (receiveShip envL findFreeShipIndex 1)
                (after.foldl (receiveShip envL findFreeShipIndex envL.local_nx)
                  (receiveShip envL findFreeShipIndex envL.local_nx arrival
                    ({ ship with willMoveThisTimestep := false }, jk.2 + off.2))) := by
          unfold movementExchange
          dsimp only
          rw [updateMovement_fromNext envL nextL findFreeShipIndex dL _ fromBelow hL,
            updateMovement_toPrevious envR nextR findFreeShipIndex dR [] [] hR, hafter,
            Option.getD_some, List.foldl_append, List.foldl_cons, ← harrival]
        have htgt : target = envL.local_nx * (envL.ny + 2)
            + ({ ship with willMoveThisTimestep := false }, jk.2 + off.2).2 := by
          rw [htarget]
          rfl
        have hfree2 := hfree
        rw [htgt] at hfree2
        obtain ⟨_, s2, s3, _, s5⟩ := receiveShip_stores envL envL.local_nx arrival
          ({ ship with willMoveThisTimestep := false }, jk.2 + off.2) hfree2
        rw [← htgt] at s2 s3 s5
        refine ⟨s2, ?_, s5⟩
        rw [hfinal]
        exact receiveShips_keep envL 1 _ _ _ _ _
          (receiveShips_keep envL envL.local_nx after _ _ _ _ s3)

/-- Witness of C23: worker 0 of two holds one flagged ship in its only cell, bound for
the next column; after the step the ship is in a slot of the cell of column 1 of
worker 1, with its flag cleared, the slot it left is empty, no owned slot of worker 0
holds a ship with its fields, and exactly one owned slot of worker 1 does. -/
theorem migration_lockstep_witness :
    (∃ z1, ((movementExchange westWorker eastWorker eastward eastward findFreeShipIndex
        oneShipDomain emptySea [] []).2.sub_domain 4).ships_data z1
      = some { route := 0, hoursAtSea := 3, id := 9, cargoAmount := 5,
               willMoveThisTimestep := false }) ∧
    ((moveShip westWorker eastward findFreeShipIndex
        (scanState westWorker eastward findFreeShipIndex oneShipDomain []) ((1, 1), 0)).sub_domain
        (slabIndex westWorker.ny (1, 1))).ships_data 0 = none ∧
    keySlots westWorker oneShipDomain (9, 0, 3, 5) = [((1, 1), 0)] ∧
    keySlots eastWorker emptySea (9, 0, 3, 5) = [] ∧
    keySlots westWorker (movementExchange westWorker eastWorker eastward eastward
      findFreeShipIndex oneShipDomain emptySea [] []).1.sub_domain (9, 0, 3, 5) = [] ∧
    ∃ z1, keySlots eastWorker (movementExchange westWorker eastWorker eastward eastward
      findFreeShipIndex oneShipDomain emptySea [] []).2.sub_domain (9, 0, 3, 5)
        = [((1, 1), z1)] := by
  have hidle : (updateMovement eastWorker eastward findFreeShipIndex emptySea [] []).sub_domain
      = emptySea := by
    unfold updateMovement
    dsimp only
    rw [scanMovement_idle eastWorker eastward findFreeShipIndex emptySea
      (fun c k ship hs => by simp [emptySea] at hs)]
    rfl
  have hkL : keySlots westWorker oneShipDomain (9, 0, 3, 5) = [((1, 1), 0)] := by
    apply keySlots_eq_singleton westWorker oneShipDomain _ ((1, 1), 0)
      ((mem_scanSlots _ _ _).mpr ⟨by decide, by decide⟩)
      { route := 0, hoursAtSea := 3, id := 9, cargoAmount := 5, willMoveThisTimestep := true }
      (by decide) rfl
    intro t ht ship hs _
    have hcell : t.1 = (1, 1) := by
      have := ((mem_scanSlots _ _ t).mp ht).1
      rw [mem_slabCells] at this
      have h1 : westWorker.local_nx = 1 := rfl
      have h2 : westWorker.ny = 1 := rfl
      rw [h1, h2] at this
      exact Prod.ext (by dsimp only; omega) (by dsimp only; omega)
    have hslot : t.2 = 0 := by
      by_contra hne
      rw [hcell] at hs
      have h4 : slabIndex westWorker.ny (1, 1) = 4 := by decide
      rw [h4] at hs
      simp [oneShipDomain, hne] at hs
    exact Prod.ext hcell hslot
  have hkR : keySlots eastWorker emptySea (9, 0, 3, 5) = [] :=
    keySlots_eq_nil _ _ _ (fun t _ ship hs _ => by simp [emptySea] at hs)
  have h := (migration_lockstep westWorker eastWorker eastward eastward oneShipDomain emptySea
    [] [] (by decide) (by decide)).1 [] (scanSlots 1 1).tail (1, 1) 0
    { route := 0, hoursAtSea := 3, id := 9, cargoAmount := 5, willMoveThisTimestep := true }
    rfl (by decide) rfl (by decide)
  have hfree : findFreeShipIndex
      ((((scanState westWorker eastward findFreeShipIndex oneShipDomain []).sendShips1.zip
        (scanState westWorker eastward findFreeShipIndex oneShipDomain []).ys1).foldl
        (receiveShip eastWorker findFreeShipIndex 1)
        (updateMovement eastWorker eastward findFreeShipIndex emptySea [] []).sub_domain) 4)
      > -1 := by
    have hb : (scanState westWorker eastward findFreeShipIndex oneShipDomain []).sendShips1.zip
        (scanState westWorker eastward findFreeShipIndex oneShipDomain []).ys1 = [] := rfl
    rw [hb, List.foldl_nil, hidle]
    decide
  have hnew := h.2.2.2.2 hkL hkR (fun r hr => by cases hr) (fun r hr => by cases hr)
  exact ⟨⟨_, (h.2.2.2.1 4 _ (by decide) rfl hfree).2.1⟩, h.1, hkL, hkR, hnew.1,
    ⟨_, hnew.2 1 4 _ (by decide) (by decide) rfl hfree (by decide)⟩⟩

end PDP
